import Mathlib

/-! FileSystemOS: a flat single-volume file system (`fs.c`).

A shallow embedding of `src/fs.c`.  The C globals `inode_table`, `sb`, `bitmap`
and `disk_fd` become the fields of one state record `FS`, threaded explicitly
through every function.  The host side (the image file behind `disk_fd`) is part
of the same record: `image` is the byte content of the image file and `fd_open`
says whether the descriptor stored in `disk_fd` is open.

Representation choices.

* C `int` values are `Int`.  The only place where 32-bit overflow can occur on a
  state loaded by `fs_mount` is `calculate_blocks_needed`, which wraps with
  `wrap32` and divides with the truncating `Int.tdiv`.
* `char bitmap[BLOCK_SIZE]` is the vector of its `8 * BLOCK_SIZE` bits: bit `i`
  is bit `i % 8` of byte `i / 8`, exactly the bit the C expression
  `bitmap[i / 8] & (1 << (i % 8))` tests.
* Fixed-size arrays are functions on `Fin n`, read and written through `aget`
  and `aset` with natural-number indices.
* A C string argument is `Option (List Nat)`: `none` is `NULL`, `some l` is the
  memory `l` followed by a terminating zero byte.
* The device is not deterministic: every `open`, `read` and `write` of one API
  call takes its result from a `Dev` record (an oracle) passed to the call.  A
  transfer of `n` bytes that is offered `c` returns `-1` when `c < 0` or the
  descriptor is closed, and `min c n` otherwise, moving that many bytes.
-/

namespace FileSystemOS

/-! ## Geometry -/

/-- Modelled from the spec: `fs.h` is not among the sources; section 3 gives `BLOCK_SIZE` = 4096. -/
def BLOCK_SIZE : Nat := 4096

/-- Modelled from the spec: `fs.h` is not among the sources; section 3 gives `MAX_BLOCKS` = 2560. -/
def MAX_BLOCKS : Nat := 2560

/-- Modelled from the spec: `fs.h` is not among the sources; section 3 gives `MAX_FILES` = 256. -/
def MAX_FILES : Nat := 256

/-- Modelled from the spec: `fs.h` is not among the sources; section 3 gives `MAX_FILENAME` = 28. -/
def MAX_FILENAME : Nat := 28

/-- Modelled from the spec: `fs.h` is not among the sources; section 3 gives `MAX_DIRECT_BLOCKS` = 12. -/
def MAX_DIRECT_BLOCKS : Nat := 12

/-- Modelled from the spec: the `superblock` record of `fs.h` (section 3), five `int` fields. -/
structure superblock where
  total_blocks : Int
  block_size : Int
  free_blocks : Int
  total_inodes : Int
  free_inodes : Int

/-- Modelled from the spec: the `inode` record of `fs.h` (sections 3 and 6):
`used`, `size`, `name[28]`, `blocks[12]`. -/
structure inode where
  used : Int
  size : Int
  name : Fin MAX_FILENAME → Nat
  blocks : Fin MAX_DIRECT_BLOCKS → Int

instance : Inhabited inode := ⟨⟨0, 0, fun _ => 0, fun _ => -1⟩⟩

/-- The globals of `fs.c` together with the host image file. -/
structure FS where
  inode_table : Fin MAX_FILES → inode
  sb : superblock
  bitmap : Fin (8 * BLOCK_SIZE) → Bool
  disk_fd : Int
  fd_open : Bool
  image : Nat → Nat

/-- Device oracle for one API call.  `open_fd` is what `open` returns;
`meta_wr k` / `meta_rd k` is the count offered to the `k`-th metadata transfer
(0 superblock, 1 bitmap, 2 inode table); `data_wr i t` is the count offered to
the `write` on the `i`-th new block issued when `t` bytes of it are already
written; `data_rd i` is the count offered to the `read` of block slot `i`. -/
structure Dev where
  open_fd : Int
  meta_wr : Nat → Int
  meta_rd : Nat → Int
  data_wr : Nat → Nat → Int
  data_rd : Nat → Int

/-- Array read `a[i]`; the default value stands for an access the C code never makes. -/
def aget {n : Nat} {α : Type} [Inhabited α] (a : Fin n → α) (i : Nat) : α :=
  if h : i < n then a ⟨i, h⟩ else default

/-- Array write `a[i] = v`. -/
def aset {n : Nat} {α : Type} (a : Fin n → α) (i : Nat) (v : α) : Fin n → α :=
  fun j => if j.val = i then v else a j

/-- Two's-complement wrap of a C `int` result. -/
def wrap32 (x : Int) : Int := (x + 2147483648) % 4294967296 - 2147483648

/-- `strlen`: number of bytes before the first zero byte. -/
def strlen : List Nat → Nat
  | [] => 0
  | c :: cs => if c = 0 then 0 else strlen cs + 1

/-- `str[i]` for a C string held as `l` followed by a zero byte. -/
def char_at (l : List Nat) (i : Nat) : Nat := l.getD i 0

/-! ## Device primitives -/

/-- Return value of a `read`/`write` of `n` bytes that the device offers `offer`. -/
def dev_count (fd_open : Bool) (offer : Int) (n : Nat) : Int :=
  if fd_open = false ∨ offer < 0 then -1 else min offer n

/-- Image after `count` bytes of the memory `src` were written at offset `off`. -/
def dev_write (img : Nat → Nat) (off : Nat) (src : Nat → Nat) (count : Nat) : Nat → Nat :=
  fun p => if off ≤ p ∧ p < off + count then src (p - off) else img p

/-- Memory `dst` after `count` bytes of the image at `off` were read into it. -/
def dev_read (img : Nat → Nat) (off : Nat) (dst : Nat → Nat) (count : Nat) : Nat → Nat :=
  fun p => if p < count then img (off + p) else dst p

/-- One `lseek` + `write` whose return value the caller may inspect. -/
def do_write (s : FS) (offer : Int) (off : Nat) (src : Nat → Nat) (n : Nat) : Int × FS :=
  let r := dev_count s.fd_open offer n
  (r, { s with image := dev_write s.image off src r.toNat })

/-! ## Byte layout of the metadata records -/

/-- Modelled from the spec: byte `k` of a 4-byte `int` in native (little-endian) order. -/
def byte32 (x : Int) (k : Nat) : Nat := ((x % 4294967296).toNat / 256 ^ k) % 256

/-- Modelled from the spec: the `int` stored in the four bytes at `off`. -/
def dec32 (m : Nat → Nat) (off : Nat) : Int :=
  let u := m off % 256 + 256 * (m (off + 1) % 256) + 65536 * (m (off + 2) % 256)
    + 16777216 * (m (off + 3) % 256)
  if u < 2147483648 then (u : Int) else (u : Int) - 4294967296

/-- Modelled from the spec: `sizeof(superblock)`, five 4-byte integers. -/
def SB_BYTES : Nat := 20

/-- Modelled from the spec: `sizeof(inode)`, 4 + 4 + 28 + 12 * 4 bytes. -/
def INODE_BYTES : Nat := 84

/-- Modelled from the spec: `sizeof(inode_table)`. -/
def ITAB_BYTES : Nat := MAX_FILES * INODE_BYTES

/-- Memory bytes of the superblock record. -/
def enc_sb (b : superblock) (p : Nat) : Nat :=
  if p < 4 then byte32 b.total_blocks p
  else if p < 8 then byte32 b.block_size (p - 4)
  else if p < 12 then byte32 b.free_blocks (p - 8)
  else if p < 16 then byte32 b.total_inodes (p - 12)
  else if p < 20 then byte32 b.free_inodes (p - 16)
  else 0

/-- Superblock record held in the memory bytes `m`. -/
def dec_sb (m : Nat → Nat) : superblock :=
  { total_blocks := dec32 m 0, block_size := dec32 m 4, free_blocks := dec32 m 8,
    total_inodes := dec32 m 12, free_inodes := dec32 m 16 }

/-- Memory bytes of the bitmap: byte `p` collects bits `8p .. 8p+7`, least significant first. -/
def enc_bitmap (bm : Fin (8 * BLOCK_SIZE) → Bool) (p : Nat) : Nat :=
  (if aget bm (8 * p) then 1 else 0) + (if aget bm (8 * p + 1) then 2 else 0)
  + (if aget bm (8 * p + 2) then 4 else 0) + (if aget bm (8 * p + 3) then 8 else 0)
  + (if aget bm (8 * p + 4) then 16 else 0) + (if aget bm (8 * p + 5) then 32 else 0)
  + (if aget bm (8 * p + 6) then 64 else 0) + (if aget bm (8 * p + 7) then 128 else 0)

/-- Bitmap held in the memory bytes `m`. -/
def dec_bitmap (m : Nat → Nat) : Fin (8 * BLOCK_SIZE) → Bool :=
  fun i => (m (i.val / 8)).testBit (i.val % 8)

/-- Memory bytes of one inode record. -/
def enc_inode (n : inode) (p : Nat) : Nat :=
  if p < 4 then byte32 n.used p
  else if p < 8 then byte32 n.size (p - 4)
  else if p < 36 then aget n.name (p - 8)
  else if p < 84 then byte32 (aget n.blocks ((p - 36) / 4)) ((p - 36) % 4)
  else 0

/-- Inode record held in the memory bytes `m` at `off`. -/
def dec_inode (m : Nat → Nat) (off : Nat) : inode :=
  { used := dec32 m off, size := dec32 m (off + 4),
    name := fun j => m (off + 8 + j.val),
    blocks := fun k => dec32 m (off + 36 + 4 * k.val) }

/-- Memory bytes of the inode table, 256 records back to back. -/
def enc_itab (t : Fin MAX_FILES → inode) (p : Nat) : Nat :=
  enc_inode (aget t (p / INODE_BYTES)) (p % INODE_BYTES)

/-- Inode table held in the memory bytes `m`. -/
def dec_itab (m : Nat → Nat) : Fin MAX_FILES → inode :=
  fun i => dec_inode m (INODE_BYTES * i.val)

/-! ## Helper functions of `fs.c` -/

/-- `validate_string_manual` (fs.c 12-31). -/
def validate_string_manual (str : Option (List Nat)) : Int :=
  match str with
  | none => -1
  | some l =>
    if (List.range 28).any (fun i => char_at l i == 0) then 0
    else if char_at l 28 = 0 then 0
    else -1

/-- The two comparison loops of `find_inode` (fs.c 51-71) for one inode. -/
def name_match (nm : Fin MAX_FILENAME → Nat) (filename : List Nat) (filename_len : Nat) : Bool :=
  (List.range filename_len).all (fun j => aget nm j == char_at filename j)
  && (List.range MAX_FILENAME).all (fun j => decide (j < filename_len) || aget nm j == 0)

/-- The scan `for (i = ...; i < MAX_FILES; i++)` of `find_inode`, `n` iterations left. -/
def find_inode_loop (t : Fin MAX_FILES → inode) (filename : List Nat) (filename_len : Nat) :
    Nat → Nat → Int
  | 0, _ => -1
  | n + 1, i =>
    if (aget t i).used = 1 ∧ name_match (aget t i).name filename filename_len = true then (i : Int)
    else find_inode_loop t filename filename_len n (i + 1)

/-- `find_inode` (fs.c 33-77). -/
def find_inode (s : FS) (filename : Option (List Nat)) : Int :=
  match filename with
  | none => -1
  | some l =>
    if strlen l > MAX_FILENAME then -1
    else find_inode_loop s.inode_table l (strlen l) MAX_FILES 0

/-- The scan of `find_free_inode`, `n` iterations left. -/
def find_free_inode_loop (t : Fin MAX_FILES → inode) : Nat → Nat → Int
  | 0, _ => -2
  | n + 1, i => if (aget t i).used = 0 then (i : Int) else find_free_inode_loop t n (i + 1)

/-- `find_free_inode` (fs.c 79-93). -/
def find_free_inode (s : FS) : Int :=
  if s.sb.free_inodes = 0 then -2 else find_free_inode_loop s.inode_table MAX_FILES 0

/-- The scan of `find_free_block`, `n` iterations left. -/
def find_free_block_loop (bm : Fin (8 * BLOCK_SIZE) → Bool) : Nat → Nat → Int
  | 0, _ => -1
  | n + 1, i => if aget bm i = false then (i : Int) else find_free_block_loop bm n (i + 1)

/-- `find_free_block` (fs.c 95-105). -/
def find_free_block (s : FS) : Int := find_free_block_loop s.bitmap MAX_BLOCKS 0

/-- `mark_block_used` (fs.c 107-118). -/
def mark_block_used (s : FS) (block_index : Int) : FS :=
  if 0 ≤ block_index ∧ block_index < MAX_BLOCKS then
    if aget s.bitmap block_index.toNat = false then
      { s with bitmap := aset s.bitmap block_index.toNat true,
               sb := { s.sb with free_blocks := s.sb.free_blocks - 1 } }
    else s
  else s

/-- `mark_block_free` (fs.c 120-131). -/
def mark_block_free (s : FS) (block_index : Int) : FS :=
  if 0 ≤ block_index ∧ block_index < MAX_BLOCKS then
    if aget s.bitmap block_index.toNat = true then
      { s with bitmap := aset s.bitmap block_index.toNat false,
               sb := { s.sb with free_blocks := s.sb.free_blocks + 1 } }
    else s
  else s

/-- `read_inode` (fs.c 133-146); `target` is the caller's record, returned updated. -/
def read_inode (s : FS) (inode_num : Int) (target : inode) : inode :=
  if inode_num < 0 ∨ inode_num ≥ MAX_FILES then target
  else if (aget s.inode_table inode_num.toNat).used = 0 then target
  else aget s.inode_table inode_num.toNat

/-- `write_inode` (fs.c 148-168); `source` is never `NULL` at the call sites. -/
def write_inode (s : FS) (inode_num : Int) (source : inode) : FS :=
  if inode_num < 0 ∨ inode_num ≥ MAX_FILES then s
  else
    let was_used := (aget s.inode_table inode_num.toNat).used
    let t := aset s.inode_table inode_num.toNat source
    if was_used = 0 ∧ source.used = 1 then
      { s with inode_table := t, sb := { s.sb with free_inodes := s.sb.free_inodes - 1 } }
    else if was_used = 1 ∧ source.used = 0 then
      { s with inode_table := t, sb := { s.sb with free_inodes := s.sb.free_inodes + 1 } }
    else { s with inode_table := t }

/-- `calculate_blocks_needed` (fs.c 170-177); `size + BLOCK_SIZE - 1` is a C `int`. -/
def calculate_blocks_needed (size : Int) : Int :=
  if size ≤ 0 then 0 else Int.tdiv (wrap32 (size + BLOCK_SIZE - 1)) BLOCK_SIZE

/-- The three metadata writes shared by `sync_metadata_to_disk` and `fs_unmount`;
their return values are not acted upon. -/
def flush_metadata (s : FS) (d : Dev) : FS :=
  let s1 := (do_write s (d.meta_wr 0) 0 (enc_sb s.sb) SB_BYTES).2
  let s2 := (do_write s1 (d.meta_wr 1) BLOCK_SIZE (enc_bitmap s.bitmap) BLOCK_SIZE).2
  (do_write s2 (d.meta_wr 2) (2 * BLOCK_SIZE) (enc_itab s.inode_table) ITAB_BYTES).2

/-- `sync_metadata_to_disk` (fs.c 179-198). -/
def sync_metadata_to_disk (s : FS) (d : Dev) : FS :=
  if s.disk_fd < 0 then s else flush_metadata s d

/-! ## Lifecycle: `fs_format`, `fs_mount`, `fs_unmount` -/

/-- Result of `open`: a descriptor, or `-1`. -/
def host_open (d : Dev) : Int := if d.open_fd < 0 then -1 else d.open_fd

/-- Inode record written by the initialisation loop of `fs_format` (fs.c 226-235). -/
def format_inode : inode := { used := 0, size := 0, name := fun _ => 0, blocks := fun _ => -1 }

/-- Bitmap built by `fs_format` (fs.c 237-244): cleared, then bits 0, 1 and 2..9 set. -/
def format_bitmap : Fin (8 * BLOCK_SIZE) → Bool :=
  (List.range 8).foldl (fun bm k => aset bm (2 + k) true)
    (aset (aset (fun _ => false) 0 true) 1 true)

/-- Superblock built by `fs_format` (fs.c 218-222 and 246). -/
def format_sb : superblock :=
  { total_blocks := MAX_BLOCKS, block_size := BLOCK_SIZE, free_blocks := (MAX_BLOCKS : Int) - 10,
    total_inodes := MAX_FILES, free_inodes := MAX_FILES }

/-- `fs_format` (fs.c 202-274).  On a failed write the descriptor is closed but
`disk_fd` keeps its value, as in the source. -/
def fs_format (s : FS) (d : Dev) (disk_path : Option (List Nat)) : Int × FS :=
  match disk_path with
  | none => (-1, s)
  | some p =>
    if strlen p = 0 ∨ s.disk_fd ≠ -1 then (-1, s)
    else
      let fd := host_open d
      if fd < 0 then (-1, { s with disk_fd := fd, fd_open := false })
      else
        let s0 : FS := { s with disk_fd := fd, fd_open := true, sb := format_sb,
                                inode_table := fun _ => format_inode, bitmap := format_bitmap }
        let w1 := do_write s0 (d.meta_wr 0) 0 (enc_sb s0.sb) SB_BYTES
        if w1.1 ≠ SB_BYTES then (-1, { w1.2 with fd_open := false })
        else
          let w2 := do_write w1.2 (d.meta_wr 1) BLOCK_SIZE (enc_bitmap s0.bitmap) BLOCK_SIZE
          if w2.1 ≠ BLOCK_SIZE then (-1, { w2.2 with fd_open := false })
          else
            let w3 := do_write w2.2 (d.meta_wr 2) (BLOCK_SIZE * 2) (enc_itab s0.inode_table)
              ITAB_BYTES
            if w3.1 ≠ ITAB_BYTES then (-1, { w3.2 with fd_open := false })
            else (0, { w3.2 with fd_open := false, disk_fd := -1 })

/-- The validation of the loaded superblock in `fs_mount` (fs.c 302-304). -/
def sb_invalid (b : superblock) : Prop :=
  b.total_blocks ≠ MAX_BLOCKS ∨ b.block_size ≠ BLOCK_SIZE ∨ b.total_inodes ≠ MAX_FILES
  ∨ b.free_inodes < 0 ∨ b.free_blocks < 0 ∨ b.free_blocks > MAX_BLOCKS
  ∨ b.free_inodes > MAX_FILES

instance (b : superblock) : Decidable (sb_invalid b) := by
  unfold sb_invalid; infer_instance

/-- `fs_mount` (fs.c 276-324).  A `read` that delivers `c` bytes overwrites the
first `c` bytes of the destination record.  On failure after `open` the
descriptor is closed but `disk_fd` keeps its value, as in the source. -/
def fs_mount (s : FS) (d : Dev) (disk_path : Option (List Nat)) : Int × FS :=
  match disk_path with
  | none => (-1, s)
  | some _ =>
    if s.disk_fd ≥ 0 then (-1, s)
    else
      let fd := host_open d
      if fd < 0 then (-1, { s with disk_fd := fd, fd_open := false })
      else
        let r1 := dev_count true (d.meta_rd 0) SB_BYTES
        let sb1 := if r1 ≤ 0 then s.sb else dec_sb (dev_read s.image 0 (enc_sb s.sb) r1.toNat)
        let s1 : FS := { s with disk_fd := fd, fd_open := true, sb := sb1 }
        if r1 ≠ SB_BYTES then (-1, { s1 with fd_open := false })
        else if sb_invalid s1.sb then (-1, { s1 with fd_open := false })
        else
          let r2 := dev_count true (d.meta_rd 1) BLOCK_SIZE
          let bm2 := if r2 ≤ 0 then s.bitmap
            else dec_bitmap (dev_read (fun p => s.image (BLOCK_SIZE + p)) 0 (enc_bitmap s.bitmap) r2.toNat)
          let s2 : FS := { s1 with bitmap := bm2 }
          if r2 ≠ BLOCK_SIZE then (-1, { s2 with fd_open := false })
          else
            let r3 := dev_count true (d.meta_rd 2) ITAB_BYTES
            let t3 := if r3 ≤ 0 then s.inode_table
              else dec_itab (dev_read (fun p => s.image (2 * BLOCK_SIZE + p)) 0
                (enc_itab s.inode_table) r3.toNat)
            let s3 : FS := { s2 with inode_table := t3 }
            if r3 ≠ ITAB_BYTES then (-1, { s3 with fd_open := false })
            else (0, s3)

/-- `fs_unmount` (fs.c 326-352). -/
def fs_unmount (s : FS) (d : Dev) : FS :=
  if s.disk_fd ≥ 0 then { flush_metadata s d with fd_open := false, disk_fd := -1 } else s

/-! ## `fs_create`, `fs_delete`, `fs_list` -/

/-- `fs_create` (fs.c 354-389). -/
def fs_create (s : FS) (d : Dev) (filename : Option (List Nat)) : Int × FS :=
  match filename with
  | none => (-3, s)
  | some l =>
    if validate_string_manual filename ≠ 0 ∨ strlen l > MAX_FILENAME ∨ strlen l = 0
        ∨ s.disk_fd = -1 then (-3, s)
    else if find_inode s filename ≠ -1 then (-1, s)
    else
      let inode_index := find_free_inode s
      if inode_index = -2 then (-2, s)
      else
        let new_inode : inode :=
          { used := 1, size := 0,
            name := fun j => if j.val < strlen l then char_at l j.val else 0,
            blocks := fun _ => -1 }
        (0, sync_metadata_to_disk (write_inode s inode_index new_inode) d)

/-- The loop of `fs_delete` that frees the blocks of the copied inode (fs.c 404-411). -/
def free_blocks_of (s : FS) (blocks : Fin MAX_DIRECT_BLOCKS → Int) : FS :=
  (List.range MAX_DIRECT_BLOCKS).foldl
    (fun st i => if aget blocks i ≠ -1 then mark_block_free st (aget blocks i) else st) s

/-- `fs_delete` (fs.c 391-423).  After the loop every slot of the copy is `-1`. -/
def fs_delete (s : FS) (d : Dev) (filename : Option (List Nat)) : Int × FS :=
  let inode_index := find_inode s filename
  match filename with
  | none => (-1, s)
  | some l =>
    if validate_string_manual filename ≠ 0 ∨ strlen l > MAX_FILENAME ∨ inode_index = -1
        ∨ s.disk_fd = -1 then (-1, s)
    else
      let temp_inode := aget s.inode_table inode_index.toNat
      let s1 := free_blocks_of s temp_inode.blocks
      let cleared : inode := { used := 0, size := 0, name := fun _ => 0, blocks := fun _ => -1 }
      (0, sync_metadata_to_disk (write_inode s1 inode_index cleared) d)

/-- Length of the name in the raw field, the inner loop of `fs_list` (fs.c 444-448). -/
def raw_name_len (nm : Fin MAX_FILENAME → Nat) : Nat → Nat → Nat
  | 0, _ => 0
  | n + 1, j => if aget nm j ≠ 0 then raw_name_len nm n (j + 1) + 1 else 0

/-- The scan of `fs_list` (fs.c 439-454), `n` iterations left; row `c` of the
caller's buffer starts at byte `c * MAX_FILENAME`. -/
def fs_list_loop (t : Fin MAX_FILES → inode) (max_files : Int) :
    Nat → Nat → Nat → (Nat → Nat) → Nat × (Nat → Nat)
  | 0, _, count_files, buf => (count_files, buf)
  | n + 1, i, count_files, buf =>
    if (count_files : Int) < max_files then
      if (aget t i).used = 1 then
        let name_len := raw_name_len (aget t i).name MAX_FILENAME 0
        let row := count_files * MAX_FILENAME
        let buf1 : Nat → Nat := fun p =>
          if row ≤ p ∧ p < row + name_len then aget (aget t i).name (p - row) else buf p
        let buf2 : Nat → Nat := fun p => if p = row + name_len then 0 else buf1 p
        fs_list_loop t max_files n (i + 1) (count_files + 1) buf2
      else fs_list_loop t max_files n (i + 1) count_files buf
    else (count_files, buf)

/-- `fs_list` (fs.c 425-457); returns the count and the caller's buffer. -/
def fs_list (s : FS) (filenames : Option (Nat → Nat)) (max_files : Int) :
    Int × Option (Nat → Nat) × FS :=
  if max_files = 0 then (0, filenames, s)
  else
    match filenames with
    | none => (-1, none, s)
    | some buf =>
      if max_files < 0 ∨ max_files > MAX_FILES ∨ s.disk_fd = -1 then (-1, some buf, s)
      else
        let r := fs_list_loop s.inode_table max_files MAX_FILES 0 0 buf
        ((r.1 : Int), some r.2, s)

/-! ## `fs_write` -/

/-- Outcome of the allocation loop of `fs_write`. -/
structure AllocResult where
  ok : Bool
  st : FS
  new_blocks : Fin MAX_DIRECT_BLOCKS → Int

/-- The rollback loop `for (j = 0; j < i; j++) mark_block_free(new_blocks[j])` (fs.c 508-511). -/
def rollback_alloc (s : FS) (new_blocks : Fin MAX_DIRECT_BLOCKS → Int) (i : Nat) : FS :=
  (List.range i).foldl (fun st j => mark_block_free st (aget new_blocks j)) s

/-- The allocation loop of `fs_write` (fs.c 501-515), `n` iterations left. -/
def alloc_blocks : Nat → Nat → FS → (Fin MAX_DIRECT_BLOCKS → Int) → AllocResult
  | 0, _, s, nb => { ok := true, st := s, new_blocks := nb }
  | n + 1, i, s, nb =>
    let b := find_free_block s
    let nb1 := aset nb i b
    if b = -1 then { ok := false, st := rollback_alloc s nb1 i, new_blocks := nb1 }
    else alloc_blocks n (i + 1) (mark_block_used s b) nb1

/-- The rollback loop after a failed data write (fs.c 536-542 and 552-558). -/
def free_new_blocks (s : FS) (new_blocks : Fin MAX_DIRECT_BLOCKS → Int) (blocks_needed : Nat) : FS :=
  (List.range blocks_needed).foldl
    (fun st j => if aget new_blocks j ≠ -1 then mark_block_free st (aget new_blocks j) else st) s

/-- The retry loop `while (total_written < bytes_to_write)` (fs.c 528-563) for new
block number `i`.  Every iteration that continues writes at least one byte, so
`bytes_to_write` iterations always suffice; the result code is `0` when the
block is complete and otherwise the value `fs_write` returns. -/
def write_retry (d : Dev) (i : Nat) (off : Nat) (src : Nat → Nat) (bytes_to_write : Nat) :
    Nat → Nat → FS → Int × FS
  | 0, _, s => (0, s)
  | fuel + 1, total_written, s =>
    if total_written < bytes_to_write then
      let w := do_write s (d.data_wr i total_written) (off + total_written)
        (fun p => src (total_written + p)) (bytes_to_write - total_written)
      if w.1 < 0 then (-3, s)
      else if w.1 = 0 then (-2, s)
      else write_retry d i off src bytes_to_write fuel (total_written + w.1.toNat) w.2
    else (0, s)

/-- The data loop of `fs_write` (fs.c 520-567), `n` iterations left. -/
def write_blocks (d : Dev) (new_blocks : Fin MAX_DIRECT_BLOCKS → Int) (data : Nat → Nat) :
    Nat → Nat → Nat → Int → FS → Int × FS
  | 0, _, _, _, s => (0, s)
  | n + 1, i, data_ptr, remaining_size, s =>
    let bytes_to_write : Int := if remaining_size > BLOCK_SIZE then BLOCK_SIZE else remaining_size
    let r := write_retry d i (aget new_blocks i * BLOCK_SIZE).toNat (fun p => data (data_ptr + p))
      bytes_to_write.toNat bytes_to_write.toNat 0 s
    if r.1 ≠ 0 then r
    else write_blocks d new_blocks data n (i + 1) (data_ptr + bytes_to_write.toNat)
      (remaining_size - bytes_to_write) r.2

/-- `fs_write` (fs.c 459-591). -/
def fs_write (s : FS) (d : Dev) (filename : Option (List Nat)) (data : Option (Nat → Nat))
    (size : Int) : Int × FS :=
  match filename, data with
  | none, _ => (-3, s)
  | some _, none => (-3, s)
  | some l, some buf =>
    if validate_string_manual filename ≠ 0 ∨ strlen l > MAX_FILENAME ∨ size < 0
        ∨ s.disk_fd < 0 then (-3, s)
    else
      let inode_index := find_inode s filename
      if inode_index = -1 then (-1, s)
      else
        let blocks_needed := calculate_blocks_needed size
        if blocks_needed > s.sb.free_blocks then (-2, s)
        else if blocks_needed > MAX_DIRECT_BLOCKS then (-3, s)
        else
          let target_inode := read_inode s inode_index default
          let original_blocks := target_inode.blocks
          let a := alloc_blocks blocks_needed.toNat 0 s (fun _ => -1)
          if a.ok = false then (-2, a.st)
          else
            let w := write_blocks d a.new_blocks buf blocks_needed.toNat 0 0 size a.st
            if w.1 ≠ 0 then (w.1, free_new_blocks w.2 a.new_blocks blocks_needed.toNat)
            else
              let s3 := write_inode w.2 inode_index
                { target_inode with blocks := a.new_blocks, size := size }
              let s4 := free_blocks_of s3 original_blocks
              (0, sync_metadata_to_disk s4 d)

/-! ## `fs_read` -/

/-- The block loop of `fs_read` (fs.c 620-653), `n` iterations left; returns the
value `fs_read` returns and the caller's buffer. -/
def read_blocks (d : Dev) (s : FS) (blocks : Fin MAX_DIRECT_BLOCKS → Int) (bytes_to_read : Int) :
    Nat → Nat → Int → (Nat → Nat) → Int × (Nat → Nat)
  | 0, _, total_bytes_read, buf => (total_bytes_read, buf)
  | n + 1, i, total_bytes_read, buf =>
    if total_bytes_read < bytes_to_read then
      if aget blocks i = -1 then (total_bytes_read, buf)
      else
        let block_index := aget blocks i
        if block_index < 0 ∨ block_index ≥ MAX_BLOCKS then (-3, buf)
        else
          let remaining_bytes := bytes_to_read - total_bytes_read
          let bytes_from_block : Int :=
            if remaining_bytes > BLOCK_SIZE then BLOCK_SIZE else remaining_bytes
          let bytes_read := dev_count s.fd_open (d.data_rd i) bytes_from_block.toNat
          if bytes_read < 0 then (-3, buf)
          else
            let buf1 : Nat → Nat := fun p =>
              if total_bytes_read.toNat ≤ p ∧ p < total_bytes_read.toNat + bytes_read.toNat
              then s.image ((block_index * BLOCK_SIZE).toNat + (p - total_bytes_read.toNat))
              else buf p
            if bytes_read < bytes_from_block then (total_bytes_read + bytes_read, buf1)
            else read_blocks d s blocks bytes_to_read n (i + 1) (total_bytes_read + bytes_read) buf1
    else (total_bytes_read, buf)

/-- `fs_read` (fs.c 593-656); returns the result, the caller's buffer and the state. -/
def fs_read (s : FS) (d : Dev) (filename : Option (List Nat)) (buffer : Option (Nat → Nat))
    (size : Int) : Int × Option (Nat → Nat) × FS :=
  match filename, buffer with
  | none, _ => (-3, buffer, s)
  | some _, none => (-3, none, s)
  | some l, some buf =>
    if validate_string_manual filename ≠ 0 ∨ strlen l > MAX_FILENAME ∨ size < 0
        ∨ s.disk_fd = -1 then (-3, some buf, s)
    else
      let inode_index := find_inode s filename
      if inode_index = -1 then (-1, some buf, s)
      else
        let target_inode := read_inode s inode_index default
        if target_inode.used = 0 then (-1, some buf, s)
        else
          let bytes_to_read : Int := if size > target_inode.size then target_inode.size else size
          let r := read_blocks d s target_inode.blocks bytes_to_read MAX_DIRECT_BLOCKS 0 0 buf
          (r.1, some r.2, s)

/-! ## Invariants and reachable states -/

/-- Number of set bits of the bitmap (all `8 * BLOCK_SIZE` bits). -/
def popcount (bm : Fin (8 * BLOCK_SIZE) → Bool) : Nat :=
  (List.range (8 * BLOCK_SIZE)).countP (fun i => aget bm i)

/-- Number of inodes with `used == 1`. -/
def used_count (t : Fin MAX_FILES → inode) : Nat :=
  (List.range MAX_FILES).countP (fun i => decide ((aget t i).used = 1))

/-- Number of clear bits among the block indices `0 .. MAX_BLOCKS - 1`. -/
def clear_count (bm : Fin (8 * BLOCK_SIZE) → Bool) : Nat :=
  (List.range MAX_BLOCKS).countP (fun i => !aget bm i)

/-- Invariant I1: bitmap popcount + `free_blocks` = `MAX_BLOCKS`. -/
def I1 (s : FS) : Prop := (popcount s.bitmap : Int) + s.sb.free_blocks = MAX_BLOCKS

/-- Invariant I2: count of used inodes + `free_inodes` = `MAX_FILES`. -/
def I2 (s : FS) : Prop := (used_count s.inode_table : Int) + s.sb.free_inodes = MAX_FILES

/-- Invariant I3: every non-sentinel block entry of a used inode lies in
`[10, MAX_BLOCKS)`, is set in the bitmap and occurs in no other slot of a used inode. -/
def I3 (s : FS) : Prop :=
  ∀ (i : Fin MAX_FILES) (k : Fin MAX_DIRECT_BLOCKS),
    (s.inode_table i).used = 1 → (s.inode_table i).blocks k ≠ -1 →
      10 ≤ (s.inode_table i).blocks k ∧ (s.inode_table i).blocks k < MAX_BLOCKS
      ∧ aget s.bitmap ((s.inode_table i).blocks k).toNat = true
      ∧ ∀ (i2 : Fin MAX_FILES) (k2 : Fin MAX_DIRECT_BLOCKS),
          (s.inode_table i2).used = 1 →
          (s.inode_table i2).blocks k2 = (s.inode_table i).blocks k → i2 = i ∧ k2 = k

/-- Invariant I4: the 28-byte name fields of distinct used inodes differ. -/
def I4 (s : FS) : Prop :=
  ∀ i j : Fin MAX_FILES, (s.inode_table i).used = 1 → (s.inode_table j).used = 1 → i ≠ j →
    (s.inode_table i).name ≠ (s.inode_table j).name

/-- Used inode `i` references block `b` in some slot. -/
def references (s : FS) (i : Fin MAX_FILES) (b : Nat) : Prop :=
  (s.inode_table i).used = 1 ∧ ∃ k : Fin MAX_DIRECT_BLOCKS, (s.inode_table i).blocks k = (b : Int)

/-- Exclusive ownership: a data block is set in the bitmap iff exactly one used
inode references it, and the reserved bits 0-9 are set. -/
def NoLeak (s : FS) : Prop :=
  (∀ b : Nat, 10 ≤ b → b < MAX_BLOCKS →
    (aget s.bitmap b = true ↔ ∃! i : Fin MAX_FILES, references s i b))
  ∧ ∀ b : Nat, b < 10 → aget s.bitmap b = true

/-- A value of the C type `int`. -/
def is_int32 (x : Int) : Prop := -2147483648 ≤ x ∧ x < 2147483648

/-- The device moves every metadata record of the call in full. -/
def meta_full (d : Dev) : Prop :=
  ∀ k, (ITAB_BYTES : Int) ≤ d.meta_wr k ∧ (ITAB_BYTES : Int) ≤ d.meta_rd k

/-- The three metadata regions of the image hold the in-memory records. -/
def on_image (s : FS) : Prop :=
  (∀ p, p < SB_BYTES → s.image p = enc_sb s.sb p)
  ∧ (∀ p, p < BLOCK_SIZE → s.image (BLOCK_SIZE + p) = enc_bitmap s.bitmap p)
  ∧ (∀ p, p < ITAB_BYTES → s.image (2 * BLOCK_SIZE + p) = enc_itab s.inode_table p)

/-- States reachable from a successful `fs_format` followed by a successful
`fs_mount` through the eight public entry points.  Arguments are arbitrary
(`size` ranges over the C type `int`).  The device may fail or move fewer bytes
than asked in every data-block write, every metadata sync of `fs_create`,
`fs_delete`, `fs_write` and every read of `fs_read`, and `open` may fail; the
metadata transfers of later `fs_format`, `fs_mount` and `fs_unmount` calls are
moved in full. -/
inductive Reachable : FS → Prop
  | init (s0 : FS) (d0 d1 : Dev) (p0 p1 : Option (List Nat)) :
      (fs_format s0 d0 p0).1 = 0 → (fs_mount (fs_format s0 d0 p0).2 d1 p1).1 = 0 →
      Reachable (fs_mount (fs_format s0 d0 p0).2 d1 p1).2
  | create (s : FS) (d : Dev) (filename : Option (List Nat)) :
      Reachable s → Reachable (fs_create s d filename).2
  | delete (s : FS) (d : Dev) (filename : Option (List Nat)) :
      Reachable s → Reachable (fs_delete s d filename).2
  | write (s : FS) (d : Dev) (filename : Option (List Nat)) (data : Option (Nat → Nat))
      (size : Int) : Reachable s → is_int32 size → Reachable (fs_write s d filename data size).2
  | read (s : FS) (d : Dev) (filename : Option (List Nat)) (buffer : Option (Nat → Nat))
      (size : Int) : Reachable s → Reachable (fs_read s d filename buffer size).2.2
  | list (s : FS) (filenames : Option (Nat → Nat)) (max_files : Int) :
      Reachable s → Reachable (fs_list s filenames max_files).2.2
  | format (s : FS) (d : Dev) (disk_path : Option (List Nat)) :
      Reachable s → meta_full d → Reachable (fs_format s d disk_path).2
  | mount (s : FS) (d : Dev) (disk_path : Option (List Nat)) :
      Reachable s → meta_full d → Reachable (fs_mount s d disk_path).2
  | unmount (s : FS) (d : Dev) :
      Reachable s → meta_full d → Reachable (fs_unmount s d)

/-- The inductive invariant carried by every reachable state. -/
structure Inv (s : FS) : Prop where
  geom : s.sb.total_blocks = MAX_BLOCKS ∧ s.sb.block_size = BLOCK_SIZE
    ∧ s.sb.total_inodes = MAX_FILES
  i1 : I1 s
  i2 : I2 s
  used01 : ∀ i : Fin MAX_FILES, (s.inode_table i).used = 0 ∨ (s.inode_table i).used = 1
  resv : ∀ b : Nat, b < 10 → aget s.bitmap b = true
  hi_clear : ∀ b : Nat, MAX_BLOCKS ≤ b → aget s.bitmap b = false
  blk_range : ∀ (i : Fin MAX_FILES) (k : Fin MAX_DIRECT_BLOCKS),
    (s.inode_table i).blocks k = -1
    ∨ (10 ≤ (s.inode_table i).blocks k ∧ (s.inode_table i).blocks k < MAX_BLOCKS)
  blk_set : ∀ (i : Fin MAX_FILES) (k : Fin MAX_DIRECT_BLOCKS),
    (s.inode_table i).used = 1 → (s.inode_table i).blocks k ≠ -1 →
    aget s.bitmap ((s.inode_table i).blocks k).toNat = true
  blk_inj : ∀ (i i2 : Fin MAX_FILES) (k k2 : Fin MAX_DIRECT_BLOCKS),
    (s.inode_table i).used = 1 → (s.inode_table i2).used = 1 →
    (s.inode_table i).blocks k ≠ -1 →
    (s.inode_table i2).blocks k2 = (s.inode_table i).blocks k → i2 = i ∧ k2 = k
  blk_surj : ∀ b : Nat, 10 ≤ b → b < MAX_BLOCKS → aget s.bitmap b = true →
    ∃ (i : Fin MAX_FILES) (k : Fin MAX_DIRECT_BLOCKS),
      (s.inode_table i).used = 1 ∧ (s.inode_table i).blocks k = (b : Int)
  names : I4 s
  size_rng : ∀ i : Fin MAX_FILES, 0 ≤ (s.inode_table i).size ∧ (s.inode_table i).size < 2147483648
  fd_ok : (s.disk_fd = -1 ∧ s.fd_open = false) ∨ (0 ≤ s.disk_fd ∧ s.fd_open = true)
  img_ok : s.disk_fd = -1 → on_image s


/-- Loop invariant of the allocation loop of `fs_write` and of its rollback:
relative to the state `s0` before the loop, the entries `nb[0..i)` are distinct
block indices that were clear in `s0`, and `s` is `s0` with the bits of
`nb[m..i)` set and `free_blocks` lowered by `i - m`. -/
structure AllocSeg (s0 s : FS) (nb : Fin MAX_DIRECT_BLOCKS → Int) (m i : Nat) : Prop where
  table : s.inode_table = s0.inode_table
  fd : s.disk_fd = s0.disk_fd
  op : s.fd_open = s0.fd_open
  sbg : s.sb.total_blocks = s0.sb.total_blocks ∧ s.sb.block_size = s0.sb.block_size
    ∧ s.sb.total_inodes = s0.sb.total_inodes ∧ s.sb.free_inodes = s0.sb.free_inodes
  fb : s.sb.free_blocks = s0.sb.free_blocks - ((i : Int) - (m : Int))
  rng : ∀ j, j < i → 0 ≤ aget nb j ∧ aget nb j < MAX_BLOCKS
    ∧ aget s0.bitmap (aget nb j).toNat = false
  inj : ∀ j j2, j < i → j2 < i → aget nb j = aget nb j2 → j = j2
  rest : ∀ j, i ≤ j → j < MAX_DIRECT_BLOCKS → aget nb j = -1
  bits : ∀ x : Nat, aget s.bitmap x = true
    ↔ (aget s0.bitmap x = true ∨ ∃ j, m ≤ j ∧ j < i ∧ aget nb j = (x : Int))

/-! ## Concrete devices and states -/

/-- A device that moves every transfer in full; `open` yields descriptor 3. -/
def dev_ok : Dev :=
  { open_fd := 3, meta_wr := fun _ => 2147483647, meta_rd := fun _ => 2147483647,
    data_wr := fun _ _ => 2147483647, data_rd := fun _ => 2147483647 }

/-- The globals of `fs.c` at program start (zero-initialised, `disk_fd = -1`) over an
image file of zero bytes. -/
def blank : FS :=
  { inode_table := fun _ => { used := 0, size := 0, name := fun _ => 0, blocks := fun _ => 0 },
    sb := { total_blocks := 0, block_size := 0, free_blocks := 0, total_inodes := 0,
            free_inodes := 0 },
    bitmap := fun _ => false, disk_fd := -1, fd_open := false, image := fun _ => 0 }

/-- The volume after `fs_format("d")` and `fs_mount("d")` on a reliable device. -/
def fresh_mounted : FS :=
  (fs_mount (fs_format blank dev_ok (some [100])).2 dev_ok (some [100])).2

/-- A volume with the files "a" (5000 bytes, two blocks) and "b" (empty), built
from `fresh_mounted` by `fs_create("a")`, `fs_create("b")` and `fs_write("a", ..., 5000)`. -/
def sample_volume : FS :=
  (fs_write (fs_create (fs_create fresh_mounted dev_ok (some [97])).2 dev_ok (some [98])).2
    dev_ok (some [97]) (some (fun _ => 1)) 5000).2

/-- Offsets within new block `i` (of `n` bytes) at which the retry loop of
`fs_write` issues a `write` on an open descriptor: offset 0, and, after a `write`
at offset `t < n` that was offered a positive count, the offset behind the bytes
it moved. -/
inductive issued_at (d : Dev) (i n : Nat) : Nat → Prop
  | start : issued_at d i n 0
  | next (t : Nat) : issued_at d i n t → t < n → 0 < d.data_wr i t →
      issued_at d i n (t + (dev_count true (d.data_wr i t) (n - t)).toNat)

/-- A device that writes the first new block in full and returns 0 on the second. -/
def dev_full_after_one : Dev :=
  { dev_ok with data_wr := fun i _ => if i = 0 then 2147483647 else 0 }

/-- A device that writes the first new block in full and fails on the second. -/
def dev_error_after_one : Dev :=
  { dev_ok with data_wr := fun i _ => if i = 0 then 2147483647 else -1 }

/-- The volume `fresh_mounted` after `fs_create("a")`. -/
def vol_a : FS := (fs_create fresh_mounted dev_ok (some [97])).2

/-- Number of non-sentinel entries of a block list. -/
def block_count (blocks : Fin MAX_DIRECT_BLOCKS → Int) : Nat :=
  (List.range MAX_DIRECT_BLOCKS).countP (fun k => decide (aget blocks k ≠ -1))

/-- Invariant I5: for a used inode, `size <= count * BLOCK_SIZE` and, when
`size > 0`, `size > (count - 1) * BLOCK_SIZE`, where `count` is the number of
non-sentinel block entries. -/
def I5 (s : FS) : Prop :=
  ∀ i : Fin MAX_FILES, (s.inode_table i).used = 1 →
    (s.inode_table i).size ≤ (block_count (s.inode_table i).blocks : Int) * BLOCK_SIZE
    ∧ (0 < (s.inode_table i).size →
        ((block_count (s.inode_table i).blocks : Int) - 1) * BLOCK_SIZE < (s.inode_table i).size)

/-- A volume is mounted: `disk_fd` holds a descriptor and that descriptor is open. -/
def mounted (s : FS) : Prop := 0 ≤ s.disk_fd ∧ s.fd_open = true

/-- The device moves every data-block transfer of the call in full. -/
def data_full (d : Dev) : Prop :=
  (∀ i t, (BLOCK_SIZE : Int) ≤ d.data_wr i t) ∧ ∀ i, (BLOCK_SIZE : Int) ≤ d.data_rd i

/-- A mounted volume whose bitmap has no bit set, not even the reserved bits 0-9,
with `free_blocks = 2560` and one empty file "a" in inode 0: what `fs_mount` loads
from an image that stores these records (its range checks accept the superblock). -/
def unreserved : FS :=
  { inode_table := aset (fun _ => format_inode) 0
      { used := 1, size := 0, name := fun j => if j.val = 0 then 97 else 0,
        blocks := fun _ => -1 },
    sb := { total_blocks := 2560, block_size := 4096, free_blocks := 2560, total_inodes := 256,
            free_inodes := 255 },
    bitmap := fun _ => false, disk_fd := 3, fd_open := true, image := fun _ => 0 }

/-- The 28-byte name field of an inode that holds the name `l`: the bytes of `l`
followed by zero bytes (no terminator when `l` is exactly 28 bytes long). -/
def name_field (l : List Nat) : Fin MAX_FILENAME → Nat :=
  fun j => if j.val < strlen l then char_at l j.val else 0

/-- A used inode holds the name `filename`. -/
def name_taken (s : FS) (filename : Option (List Nat)) : Prop :=
  ∃ l, filename = some l
    ∧ ∃ i : Fin MAX_FILES, (s.inode_table i).used = 1 ∧ (s.inode_table i).name = name_field l

/-- The name is NULL, empty or longer than 28 bytes, or no volume is mounted
(`disk_fd == -1`). -/
def create_invalid (s : FS) (filename : Option (List Nat)) : Prop :=
  filename = none ∨ (∃ l, filename = some l ∧ (strlen l = 0 ∨ strlen l > MAX_FILENAME))
    ∨ s.disk_fd = -1

/-- No inode can be handed out: `free_inodes == 0` or no slot has `used == 0`. -/
def no_free_inode (s : FS) : Prop :=
  s.sb.free_inodes = 0 ∨ ∀ i : Fin MAX_FILES, (s.inode_table i).used ≠ 0

/-- Number of block slots from slot `i` on, among `n`, before the first `-1`. -/
def leading_from (blocks : Fin MAX_DIRECT_BLOCKS → Int) : Nat → Nat → Nat
  | 0, _ => 0
  | n + 1, i => if aget blocks i = -1 then 0 else leading_from blocks n (i + 1) + 1

/-- Number of leading block slots of a block list before the first `-1`. -/
def leading_blocks (blocks : Fin MAX_DIRECT_BLOCKS → Int) : Nat :=
  leading_from blocks MAX_DIRECT_BLOCKS 0

/-- The argument validation of `fs_write` rejects the call (fs.c 461-464). -/
def write_rejects (s : FS) (filename : Option (List Nat)) (data : Option (Nat → Nat))
    (size : Int) : Prop :=
  filename = none ∨ validate_string_manual filename ≠ 0
    ∨ (∃ l, filename = some l ∧ strlen l > MAX_FILENAME) ∨ data = none ∨ size < 0 ∨ s.disk_fd < 0

/-- The argument validation of `fs_read` rejects the call (fs.c 595-598). -/
def read_rejects (s : FS) (filename : Option (List Nat)) (buffer : Option (Nat → Nat))
    (size : Int) : Prop :=
  filename = none ∨ validate_string_manual filename ≠ 0
    ∨ (∃ l, filename = some l ∧ strlen l > MAX_FILENAME) ∨ buffer = none ∨ size < 0
    ∨ s.disk_fd = -1

/-- A device on which every `read` of a data block fails. -/
def dev_read_error : Dev := { dev_ok with data_rd := fun _ => -1 }

/-- A nearly full mounted volume: files number 0..211 hold 12 blocks each (file
`i` has the one-byte name `i + 1`, 49152 bytes and the blocks `10 + 12 * i ..
21 + 12 * i`), file number 212 (name byte 213) is empty, and 6 blocks are free. -/
def tight_volume : FS :=
  { inode_table := fun i =>
      if i.val < 212 then
        { used := 1, size := 49152, name := fun j => if j.val = 0 then i.val + 1 else 0,
          blocks := fun k => 10 + 12 * (i.val : Int) + (k.val : Int) }
      else if i.val = 212 then
        { used := 1, size := 0, name := fun j => if j.val = 0 then 213 else 0,
          blocks := fun _ => -1 }
      else format_inode,
    sb := { total_blocks := 2560, block_size := 4096, free_blocks := 6, total_inodes := 256,
            free_inodes := 43 },
    bitmap := fun b => decide (b.val < 2554), disk_fd := 3, fd_open := true,
    image := fun _ => 0 }

/-- Size and block list of every used inode agree: `0 <= size <= 12 * 4096`, the
slots below `ceil(size / 4096)` hold a block and all later slots hold `-1`. -/
def I5_packed (s : FS) : Prop :=
  ∀ i : Fin MAX_FILES, (s.inode_table i).used = 1 →
    0 ≤ (s.inode_table i).size ∧ (s.inode_table i).size ≤ 12 * 4096
    ∧ ∀ k : Fin MAX_DIRECT_BLOCKS,
        ((k.val : Int) < ((s.inode_table i).size + 4095) / 4096 →
          (s.inode_table i).blocks k ≠ -1)
        ∧ (((s.inode_table i).size + 4095) / 4096 ≤ (k.val : Int) →
          (s.inode_table i).blocks k = -1)

/-- The reachable states in which no call of `fs_write` was given a size above
`2147479552` = `INT_MAX - 4095`, the largest size for which `size + 4095` does not
overflow; everything else is as in `Reachable`. -/
inductive ReachableNoOverflow : FS → Prop
  | init (s0 : FS) (d0 d1 : Dev) (p0 p1 : Option (List Nat)) :
      (fs_format s0 d0 p0).1 = 0 → (fs_mount (fs_format s0 d0 p0).2 d1 p1).1 = 0 →
      ReachableNoOverflow (fs_mount (fs_format s0 d0 p0).2 d1 p1).2
  | create (s : FS) (d : Dev) (filename : Option (List Nat)) :
      ReachableNoOverflow s → ReachableNoOverflow (fs_create s d filename).2
  | delete (s : FS) (d : Dev) (filename : Option (List Nat)) :
      ReachableNoOverflow s → ReachableNoOverflow (fs_delete s d filename).2
  | write (s : FS) (d : Dev) (filename : Option (List Nat)) (data : Option (Nat → Nat))
      (size : Int) : ReachableNoOverflow s → is_int32 size → size ≤ 2147479552 →
      ReachableNoOverflow (fs_write s d filename data size).2
  | read (s : FS) (d : Dev) (filename : Option (List Nat)) (buffer : Option (Nat → Nat))
      (size : Int) : ReachableNoOverflow s → ReachableNoOverflow (fs_read s d filename buffer size).2.2
  | list (s : FS) (filenames : Option (Nat → Nat)) (max_files : Int) :
      ReachableNoOverflow s → ReachableNoOverflow (fs_list s filenames max_files).2.2
  | format (s : FS) (d : Dev) (disk_path : Option (List Nat)) :
      ReachableNoOverflow s → meta_full d → ReachableNoOverflow (fs_format s d disk_path).2
  | mount (s : FS) (d : Dev) (disk_path : Option (List Nat)) :
      ReachableNoOverflow s → meta_full d → ReachableNoOverflow (fs_mount s d disk_path).2
  | unmount (s : FS) (d : Dev) :
      ReachableNoOverflow s → meta_full d → ReachableNoOverflow (fs_unmount s d)

/-- A sequence of `fs_create` calls, each with its own device results and name;
returns the result codes in call order and the final state. -/
def run_creates : FS → List (Dev × List Nat) → List Int × FS
  | s, [] => ([], s)
  | s, c :: rest =>
    ((fs_create s c.1 (some c.2)).1 :: (run_creates (fs_create s c.1 (some c.2)).2 rest).1,
      (run_creates (fs_create s c.1 (some c.2)).2 rest).2)

/-- The 256 two-byte names `[1 + i / 16, 1 + i % 16]`, `i < 256`, each paired with
a reliable device. -/
def many_names : List (Dev × List Nat) :=
  (List.range 256).map (fun i => (dev_ok, [1 + i / 16, 1 + i % 16]))

/-- Slots with `used == 1` among the `n` slots from slot `i` on, in ascending order. -/
def used_slots_from (t : Fin MAX_FILES → inode) : Nat → Nat → List Nat
  | 0, _ => []
  | n + 1, i =>
    if (aget t i).used = 1 then i :: used_slots_from t n (i + 1) else used_slots_from t n (i + 1)

/-- Slots of the inode table with `used == 1`, in ascending order. -/
def used_slots (t : Fin MAX_FILES → inode) : List Nat := used_slots_from t MAX_FILES 0

/-- Row `k` of a list buffer holds the name stored in the field `nm`: its bytes up
to the first zero byte, followed by that zero byte when it lies inside the row, and
all 28 bytes when the field has no zero byte. -/
def row_holds (buf : Nat → Nat) (k : Nat) (nm : Fin MAX_FILENAME → Nat) : Prop :=
  ∀ j, j < MAX_FILENAME → j ≤ raw_name_len nm MAX_FILENAME 0 →
    buf (k * MAX_FILENAME + j) = aget nm j

/-- A mounted volume whose only file "a" (inode 0, no blocks) carries the size
`-5`: what `fs_mount` loads from an image that stores these records, since it
checks the superblock only. -/
def negative_size_volume : FS :=
  { inode_table := aset (fun _ => format_inode) 0
      { used := 1, size := -5, name := fun j => if j.val = 0 then 97 else 0,
        blocks := fun _ => -1 },
    sb := { total_blocks := 2560, block_size := 4096, free_blocks := 2550, total_inodes := 256,
            free_inodes := 255 },
    bitmap := format_bitmap, disk_fd := 3, fd_open := true, image := fun _ => 0 }

/-- A name of exactly 28 bytes (28 times the letter "a"). -/
def long_name : List Nat := List.replicate 28 97

/-- The volume `fresh_mounted` after `fs_create` of the 28-byte name `long_name`. -/
def long_name_volume : FS := (fs_create fresh_mounted dev_ok (some long_name)).2

/-- A device on which `open` succeeds and every metadata `read` delivers 0 bytes
(an empty image file). -/
def dev_empty_image : Dev := { dev_ok with meta_rd := fun _ => 0 }

/-- The state after `fs_format("d")` at program start: nothing is mounted and the
image holds a valid empty volume. -/
def formatted : FS := (fs_format blank dev_ok (some [100])).2

/-- An unmounted state whose image is the freshly formatted one except that the
superblock on the image gives `free_blocks = 100`: every superblock field passes
the range checks of `fs_mount`, while the bitmap on the image has 10 bits set, not
`2560 - 100`. -/
def inconsistent_image : FS :=
  { formatted with
    image := dev_write formatted.image 0 (enc_sb { format_sb with free_blocks := 100 }) SB_BYTES }

/-- The device moves each of the three metadata writes of the call in full. -/
def meta_writes_full (d : Dev) : Prop :=
  (SB_BYTES : Int) ≤ d.meta_wr 0 ∧ (BLOCK_SIZE : Int) ≤ d.meta_wr 1
    ∧ (ITAB_BYTES : Int) ≤ d.meta_wr 2

/-- The reachable states in which every `fs_create`, `fs_delete` and `fs_write`
call ran on a device whose metadata writes succeed; the data-block transfers may
still fail or fall short, and everything else is as in `Reachable`. -/
inductive ReachableSynced : FS → Prop
  | init (s0 : FS) (d0 d1 : Dev) (p0 p1 : Option (List Nat)) :
      (fs_format s0 d0 p0).1 = 0 → (fs_mount (fs_format s0 d0 p0).2 d1 p1).1 = 0 →
      ReachableSynced (fs_mount (fs_format s0 d0 p0).2 d1 p1).2
  | create (s : FS) (d : Dev) (filename : Option (List Nat)) :
      ReachableSynced s → meta_writes_full d → ReachableSynced (fs_create s d filename).2
  | delete (s : FS) (d : Dev) (filename : Option (List Nat)) :
      ReachableSynced s → meta_writes_full d → ReachableSynced (fs_delete s d filename).2
  | write (s : FS) (d : Dev) (filename : Option (List Nat)) (data : Option (Nat → Nat))
      (size : Int) : ReachableSynced s → is_int32 size → meta_writes_full d →
      ReachableSynced (fs_write s d filename data size).2
  | read (s : FS) (d : Dev) (filename : Option (List Nat)) (buffer : Option (Nat → Nat))
      (size : Int) : ReachableSynced s → ReachableSynced (fs_read s d filename buffer size).2.2
  | list (s : FS) (filenames : Option (Nat → Nat)) (max_files : Int) :
      ReachableSynced s → ReachableSynced (fs_list s filenames max_files).2.2
  | format (s : FS) (d : Dev) (disk_path : Option (List Nat)) :
      ReachableSynced s → meta_full d → ReachableSynced (fs_format s d disk_path).2
  | mount (s : FS) (d : Dev) (disk_path : Option (List Nat)) :
      ReachableSynced s → meta_full d → ReachableSynced (fs_mount s d disk_path).2
  | unmount (s : FS) (d : Dev) :
      ReachableSynced s → meta_full d → ReachableSynced (fs_unmount s d)

/-- A device whose metadata writes move the superblock in full and nothing of the
bitmap and the inode table. -/
def dev_sb_only : Dev := { dev_ok with meta_wr := fun k => if k = 0 then 2147483647 else 0 }

/-- A device whose metadata writes move the bitmap in full and nothing of the
superblock and the inode table. -/
def dev_bitmap_only : Dev := { dev_ok with meta_wr := fun k => if k = 1 then 2147483647 else 0 }

/-- A device whose metadata writes move the inode table in full and nothing of the
superblock and the bitmap. -/
def dev_table_only : Dev := { dev_ok with meta_wr := fun k => if k = 2 then 2147483647 else 0 }

/-- A device on which every metadata write moves 0 bytes. -/
def dev_no_meta : Dev := { dev_ok with meta_wr := fun _ => 0 }

/-- A device whose metadata writes move the superblock and the bitmap in full and
only the first inode record (84 bytes) of the inode table. -/
def dev_one_inode : Dev := { dev_ok with meta_wr := fun k => if k = 2 then 84 else 2147483647 }

/-- States reachable from a successful `fs_format` followed by a successful
`fs_mount` through the eight public entry points with arbitrary arguments and
arbitrary device results in every call, the metadata transfers of `fs_format`,
`fs_mount` and `fs_unmount` included. -/
inductive ReachableAny : FS → Prop
  | init (s0 : FS) (d0 d1 : Dev) (p0 p1 : Option (List Nat)) :
      (fs_format s0 d0 p0).1 = 0 → (fs_mount (fs_format s0 d0 p0).2 d1 p1).1 = 0 →
      ReachableAny (fs_mount (fs_format s0 d0 p0).2 d1 p1).2
  | create (s : FS) (d : Dev) (filename : Option (List Nat)) :
      ReachableAny s → ReachableAny (fs_create s d filename).2
  | delete (s : FS) (d : Dev) (filename : Option (List Nat)) :
      ReachableAny s → ReachableAny (fs_delete s d filename).2
  | write (s : FS) (d : Dev) (filename : Option (List Nat)) (data : Option (Nat → Nat))
      (size : Int) : ReachableAny s → is_int32 size →
      ReachableAny (fs_write s d filename data size).2
  | read (s : FS) (d : Dev) (filename : Option (List Nat)) (buffer : Option (Nat → Nat))
      (size : Int) : ReachableAny s → ReachableAny (fs_read s d filename buffer size).2.2
  | list (s : FS) (filenames : Option (Nat → Nat)) (max_files : Int) :
      ReachableAny s → ReachableAny (fs_list s filenames max_files).2.2
  | format (s : FS) (d : Dev) (disk_path : Option (List Nat)) :
      ReachableAny s → ReachableAny (fs_format s d disk_path).2
  | mount (s : FS) (d : Dev) (disk_path : Option (List Nat)) :
      ReachableAny s → ReachableAny (fs_mount s d disk_path).2
  | unmount (s : FS) (d : Dev) :
      ReachableAny s → ReachableAny (fs_unmount s d)

/-- The volume after format, mount, `fs_create("a")` whose sync writes only the
superblock, `fs_unmount` whose flush writes nothing, and `fs_mount`. -/
def lost_inode_volume : FS :=
  (fs_mount (fs_unmount (fs_create fresh_mounted dev_sb_only (some [97])).2 dev_no_meta)
    dev_ok (some [100])).2

/-- The volume after format, mount, `fs_create("a")`, a one-byte `fs_write("a")`
whose sync writes only the inode table, `fs_unmount` whose flush writes nothing,
and `fs_mount`. -/
def unset_block_volume : FS :=
  (fs_mount (fs_unmount (fs_write vol_a dev_table_only (some [97]) (some (fun _ => 1)) 1).2
    dev_no_meta) dev_ok (some [100])).2

/-- The volume after format, mount, `fs_create("a")` whose sync writes nothing, a
one-byte `fs_write("a")` whose sync writes only the bitmap, `fs_unmount` whose
flush writes nothing, and `fs_mount`. -/
def leaked_block_volume : FS :=
  (fs_mount (fs_unmount (fs_write (fs_create fresh_mounted dev_no_meta (some [97])).2
    dev_bitmap_only (some [97]) (some (fun _ => 1)) 1).2 dev_no_meta) dev_ok (some [100])).2

/-- The mounted volume with the files "x" (inode 0) and "a" (inode 1), both synced
in full, after `fs_delete("x")` and `fs_delete("a")` whose syncs write nothing and
`fs_create("a")`, which takes inode 0 and whose sync writes only the first inode
record of the inode table. -/
def stale_record_volume : FS :=
  (fs_create (fs_delete (fs_delete (fs_create (fs_create fresh_mounted dev_ok (some [120])).2
    dev_ok (some [97])).2 dev_no_meta (some [120])).2 dev_no_meta (some [97])).2
    dev_one_inode (some [97])).2

/-- The volume `stale_record_volume` after `fs_unmount` whose flush writes nothing
and `fs_mount`. -/
def duplicate_name_volume : FS :=
  (fs_mount (fs_unmount stale_record_volume dev_no_meta) dev_ok (some [100])).2

/-! ## Arrays -/

theorem aget_fin {n : Nat} {α : Type} [Inhabited α] (a : Fin n → α) (i : Fin n) :
    aget a i.val = a i := by
  simp [aget]

theorem aget_of_lt {n : Nat} {α : Type} [Inhabited α] (a : Fin n → α) (i : Nat) (h : i < n) :
    aget a i = a ⟨i, h⟩ := by
  simp [aget, h]

theorem aget_aset_eq {n : Nat} {α : Type} [Inhabited α] (a : Fin n → α) (i : Nat) (v : α)
    (h : i < n) : aget (aset a i v) i = v := by
  simp [aget, aset, h]

theorem aget_aset_ne {n : Nat} {α : Type} [Inhabited α] (a : Fin n → α) (i j : Nat) (v : α)
    (h : j ≠ i) : aget (aset a i v) j = aget a j := by
  unfold aget aset
  by_cases hj : j < n
  · simp [hj, h]
  · simp [hj]

theorem aset_fin_eq {n : Nat} {α : Type} (a : Fin n → α) (i : Fin n) (v : α) :
    aset a i.val v i = v := by
  simp [aset]

theorem aset_fin_ne {n : Nat} {α : Type} (a : Fin n → α) (i : Nat) (j : Fin n) (v : α)
    (h : j.val ≠ i) : aset a i v j = a j := by
  simp [aset, h]

theorem arr_ext {n : Nat} {α : Type} [Inhabited α] (a b : Fin n → α)
    (h : ∀ i : Nat, i < n → aget a i = aget b i) : a = b := by
  funext i
  have := h i.val i.isLt
  simpa [aget_fin] using this

/-! ## Counting -/

theorem countP_flip_aux (p q : Nat → Bool) (i : Nat) (hp : p i = false) (hq : q i = true)
    (hne : ∀ j, j ≠ i → q j = p j) :
    ∀ l : List Nat, l.Nodup →
      l.countP q = l.countP p + (if i ∈ l then 1 else 0) := by
  intro l
  induction l with
  | nil => simp
  | cons a t ih =>
    intro hnd
    rw [List.nodup_cons] at hnd
    have iht := ih hnd.2
    by_cases ha : a = i
    · subst ha
      have hnot : ¬ a ∈ t := hnd.1
      simp [List.countP_cons, hp, hq, iht, hnot]
    · have hqa : q a = p a := hne a ha
      have hia : ¬ i = a := fun h => ha h.symm
      simp only [List.countP_cons, hqa, iht, List.mem_cons, hia, false_or]
      omega

theorem countP_range_flip (p q : Nat → Bool) (n i : Nat) (hi : i < n) (hp : p i = false)
    (hq : q i = true) (hne : ∀ j, j ≠ i → q j = p j) :
    (List.range n).countP q = (List.range n).countP p + 1 := by
  have := countP_flip_aux p q i hp hq hne (List.range n) (List.nodup_range n)
  simpa [List.mem_range, hi] using this

theorem countP_range_congr (p q : Nat → Bool) (n : Nat) (h : ∀ j, j < n → q j = p j) :
    (List.range n).countP q = (List.range n).countP p := by
  apply List.countP_congr
  intro x hx
  rw [List.mem_range] at hx
  rw [h x hx]

/-! ## The allocator primitives -/

theorem mark_block_used_frame (s : FS) (b : Int) :
    (mark_block_used s b).inode_table = s.inode_table
    ∧ (mark_block_used s b).disk_fd = s.disk_fd
    ∧ (mark_block_used s b).fd_open = s.fd_open
    ∧ (mark_block_used s b).image = s.image
    ∧ (mark_block_used s b).sb.total_blocks = s.sb.total_blocks
    ∧ (mark_block_used s b).sb.block_size = s.sb.block_size
    ∧ (mark_block_used s b).sb.total_inodes = s.sb.total_inodes
    ∧ (mark_block_used s b).sb.free_inodes = s.sb.free_inodes := by
  unfold mark_block_used
  split_ifs <;> simp

theorem mark_block_free_frame (s : FS) (b : Int) :
    (mark_block_free s b).inode_table = s.inode_table
    ∧ (mark_block_free s b).disk_fd = s.disk_fd
    ∧ (mark_block_free s b).fd_open = s.fd_open
    ∧ (mark_block_free s b).image = s.image
    ∧ (mark_block_free s b).sb.total_blocks = s.sb.total_blocks
    ∧ (mark_block_free s b).sb.block_size = s.sb.block_size
    ∧ (mark_block_free s b).sb.total_inodes = s.sb.total_inodes
    ∧ (mark_block_free s b).sb.free_inodes = s.sb.free_inodes := by
  unfold mark_block_free
  split_ifs <;> simp

theorem block_lt_bits (b : Int) (h0 : 0 ≤ b) (h1 : b < MAX_BLOCKS) :
    b.toNat < 8 * BLOCK_SIZE := by
  simp only [MAX_BLOCKS, BLOCK_SIZE] at *
  omega

theorem mark_block_used_bit (s : FS) (b : Int) (x : Nat) :
    aget (mark_block_used s b).bitmap x = true
      ↔ (aget s.bitmap x = true ∨ (0 ≤ b ∧ b < MAX_BLOCKS ∧ x = b.toNat)) := by
  unfold mark_block_used
  by_cases hr : 0 ≤ b ∧ b < MAX_BLOCKS
  · have hlt := block_lt_bits b hr.1 hr.2
    by_cases hb : aget s.bitmap b.toNat = false
    · simp only [hr, hb, and_self, if_true, true_and]
      by_cases hx : x = b.toNat
      · subst hx
        simp [aget_aset_eq _ _ _ hlt]
      · simp [aget_aset_ne _ _ _ _ hx, hx]
    · simp only [hr, hb, and_self, if_true, if_false, true_and]
      constructor
      · intro h; exact Or.inl h
      · rintro (h | h)
        · exact h
        · subst h; simpa using hb
  · simp only [hr, if_false]
    constructor
    · intro h; exact Or.inl h
    · rintro (h | h)
      · exact h
      · exact absurd ⟨h.1, h.2.1⟩ hr

theorem mark_block_free_bit (s : FS) (b : Int) (x : Nat) :
    aget (mark_block_free s b).bitmap x = true
      ↔ (aget s.bitmap x = true ∧ ¬ (0 ≤ b ∧ b < MAX_BLOCKS ∧ x = b.toNat)) := by
  unfold mark_block_free
  by_cases hr : 0 ≤ b ∧ b < MAX_BLOCKS
  · have hlt := block_lt_bits b hr.1 hr.2
    by_cases hb : aget s.bitmap b.toNat = true
    · simp only [hr, hb, and_self, if_true, true_and]
      by_cases hx : x = b.toNat
      · subst hx
        simp [aget_aset_eq _ _ _ hlt]
      · simp [aget_aset_ne _ _ _ _ hx, hx]
    · simp only [hr, hb, and_self, if_true, if_false, true_and]
      constructor
      · intro h
        refine ⟨h, ?_⟩
        intro hx
        subst hx
        exact hb h
      · intro h; exact h.1
  · simp only [hr, if_false]
    constructor
    · intro h; exact ⟨h, fun h2 => hr ⟨h2.1, h2.2.1⟩⟩
    · intro h; exact h.1

theorem popcount_set (bm : Fin (8 * BLOCK_SIZE) → Bool) (i : Nat) (hi : i < 8 * BLOCK_SIZE)
    (hb : aget bm i = false) : popcount (aset bm i true) = popcount bm + 1 := by
  unfold popcount
  apply countP_range_flip _ _ _ i hi hb
  · exact aget_aset_eq _ _ _ hi
  · intro j hj
    exact aget_aset_ne _ _ _ _ hj

theorem popcount_clear (bm : Fin (8 * BLOCK_SIZE) → Bool) (i : Nat) (hi : i < 8 * BLOCK_SIZE)
    (hb : aget bm i = true) : popcount (aset bm i false) + 1 = popcount bm := by
  unfold popcount
  symm
  apply countP_range_flip _ _ _ i hi
  · exact aget_aset_eq _ _ _ hi
  · exact hb
  · intro j hj
    exact (aget_aset_ne _ _ _ _ hj).symm

theorem I1_mark_block_used (s : FS) (b : Int) (h : I1 s) : I1 (mark_block_used s b) := by
  unfold I1 at *
  unfold mark_block_used
  split_ifs with hr hb
  · have hlt := block_lt_bits b hr.1 hr.2
    simp only [popcount_set _ _ hlt hb]
    push_cast
    omega
  · exact h
  · exact h

theorem I1_mark_block_free (s : FS) (b : Int) (h : I1 s) : I1 (mark_block_free s b) := by
  unfold I1 at *
  unfold mark_block_free
  split_ifs with hr hb
  · have hlt := block_lt_bits b hr.1 hr.2
    have := popcount_clear _ _ hlt hb
    simp only
    omega
  · exact h
  · exact h

/-! ## The scans -/

theorem find_free_block_loop_spec (bm : Fin (8 * BLOCK_SIZE) → Bool) :
    ∀ n i : Nat,
      (find_free_block_loop bm n i = -1 ∧ ∀ j, i ≤ j → j < i + n → aget bm j = true)
      ∨ (∃ r : Nat, find_free_block_loop bm n i = (r : Int) ∧ i ≤ r ∧ r < i + n
          ∧ aget bm r = false ∧ ∀ j, i ≤ j → j < r → aget bm j = true) := by
  intro n
  induction n with
  | zero =>
    intro i
    left
    refine ⟨rfl, ?_⟩
    intro j h1 h2
    omega
  | succ n ih =>
    intro i
    unfold find_free_block_loop
    by_cases hb : aget bm i = false
    · right
      refine ⟨i, by simp [hb], le_refl _, by omega, hb, ?_⟩
      intro j h1 h2
      omega
    · simp only [hb, if_false]
      have hb2 : aget bm i = true := by simpa using hb
      rcases ih (i + 1) with ⟨h1, h2⟩ | ⟨r, h1, h2, h3, h4, h5⟩
      · left
        refine ⟨h1, ?_⟩
        intro j hj1 hj2
        by_cases hji : j = i
        · subst hji; exact hb2
        · exact h2 j (by omega) (by omega)
      · right
        refine ⟨r, h1, by omega, by omega, h4, ?_⟩
        intro j hj1 hj2
        by_cases hji : j = i
        · subst hji; exact hb2
        · exact h5 j (by omega) hj2

theorem find_free_block_spec (s : FS) :
    (find_free_block s = -1 ∧ ∀ j, j < MAX_BLOCKS → aget s.bitmap j = true)
    ∨ (∃ r : Nat, find_free_block s = (r : Int) ∧ r < MAX_BLOCKS
        ∧ aget s.bitmap r = false ∧ ∀ j, j < r → aget s.bitmap j = true) := by
  unfold find_free_block
  rcases find_free_block_loop_spec s.bitmap MAX_BLOCKS 0 with ⟨h1, h2⟩ | ⟨r, h1, _, h3, h4, h5⟩
  · left
    exact ⟨h1, fun j hj => h2 j (Nat.zero_le _) (by omega)⟩
  · right
    exact ⟨r, h1, by omega, h4, fun j hj => h5 j (Nat.zero_le _) hj⟩

theorem find_inode_loop_spec (t : Fin MAX_FILES → inode) (l : List Nat) (len : Nat) :
    ∀ n i : Nat,
      (find_inode_loop t l len n i = -1
        ∧ ∀ j, i ≤ j → j < i + n →
            ¬ ((aget t j).used = 1 ∧ name_match (aget t j).name l len = true))
      ∨ (∃ r : Nat, find_inode_loop t l len n i = (r : Int) ∧ i ≤ r ∧ r < i + n
          ∧ (aget t r).used = 1 ∧ name_match (aget t r).name l len = true
          ∧ ∀ j, i ≤ j → j < r →
            ¬ ((aget t j).used = 1 ∧ name_match (aget t j).name l len = true)) := by
  intro n
  induction n with
  | zero =>
    intro i
    left
    refine ⟨rfl, ?_⟩
    intro j h1 h2
    omega
  | succ n ih =>
    intro i
    unfold find_inode_loop
    by_cases hb : (aget t i).used = 1 ∧ name_match (aget t i).name l len = true
    · right
      refine ⟨i, by simp [hb], le_refl _, by omega, hb.1, hb.2, ?_⟩
      intro j h1 h2
      omega
    · simp only [hb, if_false]
      rcases ih (i + 1) with ⟨h1, h2⟩ | ⟨r, h1, h2, h3, h4, h5, h6⟩
      · left
        refine ⟨h1, ?_⟩
        intro j hj1 hj2
        by_cases hji : j = i
        · subst hji; exact hb
        · exact h2 j (by omega) (by omega)
      · right
        refine ⟨r, h1, by omega, by omega, h4, h5, ?_⟩
        intro j hj1 hj2
        by_cases hji : j = i
        · subst hji; exact hb
        · exact h6 j (by omega) hj2

theorem find_free_inode_loop_spec (t : Fin MAX_FILES → inode) :
    ∀ n i : Nat,
      (find_free_inode_loop t n i = -2 ∧ ∀ j, i ≤ j → j < i + n → ¬ (aget t j).used = 0)
      ∨ (∃ r : Nat, find_free_inode_loop t n i = (r : Int) ∧ i ≤ r ∧ r < i + n
          ∧ (aget t r).used = 0 ∧ ∀ j, i ≤ j → j < r → ¬ (aget t j).used = 0) := by
  intro n
  induction n with
  | zero =>
    intro i
    left
    refine ⟨rfl, ?_⟩
    intro j h1 h2
    omega
  | succ n ih =>
    intro i
    unfold find_free_inode_loop
    by_cases hb : (aget t i).used = 0
    · right
      refine ⟨i, by simp [hb], le_refl _, by omega, hb, ?_⟩
      intro j h1 h2
      omega
    · simp only [hb, if_false]
      rcases ih (i + 1) with ⟨h1, h2⟩ | ⟨r, h1, h2, h3, h4, h5⟩
      · left
        refine ⟨h1, ?_⟩
        intro j hj1 hj2
        by_cases hji : j = i
        · subst hji; exact hb
        · exact h2 j (by omega) (by omega)
      · right
        refine ⟨r, h1, by omega, by omega, h4, ?_⟩
        intro j hj1 hj2
        by_cases hji : j = i
        · subst hji; exact hb
        · exact h5 j (by omega) hj2

/-- The name field `fs_create` stores for the string `l`. -/
theorem name_match_iff (nm : Fin MAX_FILENAME → Nat) (l : List Nat) (len : Nat)
    (hlen : len ≤ MAX_FILENAME) :
    name_match nm l len = true
      ↔ nm = fun j => if j.val < len then char_at l j.val else 0 := by
  unfold name_match
  simp only [Bool.and_eq_true, List.all_eq_true, List.mem_range, beq_iff_eq, Bool.or_eq_true,
    decide_eq_true_eq]
  constructor
  · rintro ⟨h1, h2⟩
    funext j
    by_cases hj : j.val < len
    · simp only [hj, if_true]
      have := h1 j.val hj
      rwa [aget_fin] at this
    · simp only [hj, if_false]
      rcases h2 j.val j.isLt with h | h
      · exact absurd h hj
      · rwa [aget_fin] at h
  · intro h
    subst h
    constructor
    · intro x hx
      have hx2 : x < MAX_FILENAME := by omega
      simp [aget_of_lt _ _ hx2, hx]
    · intro x hx
      by_cases hxl : x < len
      · exact Or.inl hxl
      · right
        simp [aget_of_lt _ _ hx, hxl]

theorem find_inode_none (s : FS) (l : List Nat)
    (h : find_inode s (some l) = -1) (hlen : strlen l ≤ MAX_FILENAME) (i : Fin MAX_FILES) :
    ¬ ((s.inode_table i).used = 1
      ∧ (s.inode_table i).name = fun j => if j.val < strlen l then char_at l j.val else 0) := by
  unfold find_inode at h
  have hn : ¬ strlen l > MAX_FILENAME := by omega
  simp only [hn, if_false] at h
  rcases find_inode_loop_spec s.inode_table l (strlen l) MAX_FILES 0 with ⟨_, h2⟩ | ⟨r, h1, _⟩
  · have := h2 i.val (Nat.zero_le _) (by have := i.isLt; omega)
    rw [aget_fin, name_match_iff _ _ _ hlen] at this
    exact this
  · rw [h1] at h
    omega

theorem find_inode_some (s : FS) (fn : Option (List Nat)) (h : find_inode s fn ≠ -1) :
    ∃ (l : List Nat) (i : Fin MAX_FILES), fn = some l ∧ strlen l ≤ MAX_FILENAME
      ∧ find_inode s fn = (i.val : Int)
      ∧ (s.inode_table i).used = 1
      ∧ (s.inode_table i).name = fun j => if j.val < strlen l then char_at l j.val else 0 := by
  unfold find_inode at h ⊢
  cases fn with
  | none => simp at h
  | some l =>
    by_cases hn : strlen l > MAX_FILENAME
    · simp [hn] at h
    · simp only [hn, if_false] at h ⊢
      have hlen : strlen l ≤ MAX_FILENAME := by omega
      rcases find_inode_loop_spec s.inode_table l (strlen l) MAX_FILES 0 with
        ⟨h1, _⟩ | ⟨r, h1, _, h3, h4, h5, _⟩
      · exact absurd h1 h
      · have hr : r < MAX_FILES := by omega
        refine ⟨l, ⟨r, hr⟩, rfl, hlen, h1, ?_, ?_⟩
        · rw [aget_of_lt _ _ hr] at h4; exact h4
        · rw [aget_of_lt _ _ hr, name_match_iff _ _ _ hlen] at h5; exact h5

theorem find_free_inode_found (s : FS) (h : find_free_inode s ≠ -2) :
    ∃ i : Fin MAX_FILES, find_free_inode s = (i.val : Int) ∧ (s.inode_table i).used = 0
      ∧ ∀ j : Fin MAX_FILES, j.val < i.val → ¬ (s.inode_table j).used = 0 := by
  unfold find_free_inode at h ⊢
  by_cases h0 : s.sb.free_inodes = 0
  · simp [h0] at h
  · simp only [h0, if_false] at h ⊢
    rcases find_free_inode_loop_spec s.inode_table MAX_FILES 0 with ⟨h1, _⟩ | ⟨r, h1, _, h3, h4, h5⟩
    · exact absurd h1 h
    · have hr : r < MAX_FILES := by omega
      refine ⟨⟨r, hr⟩, h1, ?_, ?_⟩
      · rw [aget_of_lt _ _ hr] at h4; exact h4
      · intro j hj
        have := h5 j.val (Nat.zero_le _) hj
        rwa [aget_fin] at this

/-! ## `write_inode` and the metadata sync -/

theorem write_inode_eq (s : FS) (i : Fin MAX_FILES) (src : inode) :
    write_inode s (i.val : Int) src =
      { s with
        inode_table := aset s.inode_table i.val src,
        sb := { s.sb with free_inodes := s.sb.free_inodes
                  + (if (s.inode_table i).used = 0 ∧ src.used = 1 then -1
                     else if (s.inode_table i).used = 1 ∧ src.used = 0 then 1 else 0) } } := by
  unfold write_inode
  have h1 : ¬ ((i.val : Int) < 0 ∨ (i.val : Int) ≥ MAX_FILES) := by
    have := i.isLt
    omega
  simp only [h1, if_false, Int.toNat_ofNat, aget_fin]
  split_ifs <;> simp [Int.sub_eq_add_neg]

theorem used_count_aset (t : Fin MAX_FILES → inode) (i : Fin MAX_FILES) (src : inode) :
    (used_count (aset t i.val src) : Int)
      = used_count t + (if src.used = 1 then 1 else 0) - (if (t i).used = 1 then 1 else 0) := by
  unfold used_count
  by_cases h1 : src.used = 1 <;> by_cases h2 : (t i).used = 1
  · have := countP_range_congr (fun j => decide ((aget t j).used = 1))
      (fun j => decide ((aget (aset t i.val src) j).used = 1)) MAX_FILES (by
        intro j _
        by_cases hj : j = i.val
        · subst hj
          simp [aget_aset_eq _ _ _ i.isLt, aget_fin, h1, h2]
        · simp [aget_aset_ne _ _ _ _ hj])
    simp only [h1, h2, if_true]
    omega
  · have := countP_range_flip (fun j => decide ((aget t j).used = 1))
      (fun j => decide ((aget (aset t i.val src) j).used = 1)) MAX_FILES i.val i.isLt
      (by simp [aget_fin, h2]) (by simp [aget_aset_eq _ _ _ i.isLt, h1])
      (by intro j hj; simp [aget_aset_ne _ _ _ _ hj])
    simp only [h1, h2, if_true, if_false]
    omega
  · have := countP_range_flip (fun j => decide ((aget (aset t i.val src) j).used = 1))
      (fun j => decide ((aget t j).used = 1)) MAX_FILES i.val i.isLt
      (by simp [aget_aset_eq _ _ _ i.isLt, h1]) (by simp [aget_fin, h2])
      (by intro j hj; simp [aget_aset_ne _ _ _ _ hj])
    simp only [h1, h2, if_true, if_false]
    omega
  · have := countP_range_congr (fun j => decide ((aget t j).used = 1))
      (fun j => decide ((aget (aset t i.val src) j).used = 1)) MAX_FILES (by
        intro j _
        by_cases hj : j = i.val
        · subst hj
          simp [aget_aset_eq _ _ _ i.isLt, aget_fin, h1, h2]
        · simp [aget_aset_ne _ _ _ _ hj])
    simp only [h1, h2, if_false]
    omega

theorem do_write_frame (s : FS) (offer : Int) (off : Nat) (src : Nat → Nat) (n : Nat) :
    (do_write s offer off src n).2.inode_table = s.inode_table
    ∧ (do_write s offer off src n).2.sb = s.sb
    ∧ (do_write s offer off src n).2.bitmap = s.bitmap
    ∧ (do_write s offer off src n).2.disk_fd = s.disk_fd
    ∧ (do_write s offer off src n).2.fd_open = s.fd_open := by
  simp [do_write]

theorem flush_metadata_frame (s : FS) (d : Dev) :
    (flush_metadata s d).inode_table = s.inode_table
    ∧ (flush_metadata s d).sb = s.sb
    ∧ (flush_metadata s d).bitmap = s.bitmap
    ∧ (flush_metadata s d).disk_fd = s.disk_fd
    ∧ (flush_metadata s d).fd_open = s.fd_open := by
  simp [flush_metadata, do_write]

theorem sync_metadata_frame (s : FS) (d : Dev) :
    (sync_metadata_to_disk s d).inode_table = s.inode_table
    ∧ (sync_metadata_to_disk s d).sb = s.sb
    ∧ (sync_metadata_to_disk s d).bitmap = s.bitmap
    ∧ (sync_metadata_to_disk s d).disk_fd = s.disk_fd
    ∧ (sync_metadata_to_disk s d).fd_open = s.fd_open := by
  unfold sync_metadata_to_disk
  split_ifs
  · simp
  · exact flush_metadata_frame s d

/-- While a volume is mounted the invariant does not depend on the image. -/
theorem Inv_of_mem_eq (s s2 : FS) (h : Inv s) (hm : 0 ≤ s.disk_fd)
    (ht : s2.inode_table = s.inode_table) (hs : s2.sb = s.sb) (hb : s2.bitmap = s.bitmap)
    (hd : s2.disk_fd = s.disk_fd) (ho : s2.fd_open = s.fd_open) : Inv s2 := by
  constructor
  · rw [hs]; exact h.geom
  · have := h.i1; unfold I1 at *; rw [hs, hb]; exact this
  · have := h.i2; unfold I2 at *; rw [hs, ht]; exact this
  · rw [ht]; exact h.used01
  · rw [hb]; exact h.resv
  · rw [hb]; exact h.hi_clear
  · rw [ht]; exact h.blk_range
  · rw [ht, hb]; exact h.blk_set
  · rw [ht]; exact h.blk_inj
  · rw [ht, hb]; exact h.blk_surj
  · have := h.names; unfold I4 at *; rw [ht]; exact this
  · rw [ht]; exact h.size_rng
  · rw [hd, ho]; exact h.fd_ok
  · intro h1
    rw [hd] at h1
    omega

/-! ## `fs_create` keeps the invariant -/

theorem Inv_create_core (s s2 : FS) (i : Fin MAX_FILES) (nm : Fin MAX_FILENAME → Nat)
    (h : Inv s) (hm : 0 ≤ s.disk_fd) (hu : (s.inode_table i).used = 0)
    (hn : ∀ j : Fin MAX_FILES, ¬ ((s.inode_table j).used = 1 ∧ (s.inode_table j).name = nm))
    (ht : s2.inode_table
      = aset s.inode_table i.val { used := 1, size := 0, name := nm, blocks := fun _ => -1 })
    (hb : s2.bitmap = s.bitmap)
    (hs : s2.sb = { s.sb with free_inodes := s.sb.free_inodes + -1 })
    (hd : s2.disk_fd = s.disk_fd) (ho : s2.fd_open = s.fd_open) : Inv s2 := by
  have hget : ∀ j : Fin MAX_FILES, j ≠ i → s2.inode_table j = s.inode_table j := by
    intro j hj
    rw [ht]
    exact aset_fin_ne _ _ _ _ (fun hv => hj (Fin.ext hv))
  have hself : s2.inode_table i
        = { used := 1, size := 0, name := nm, blocks := fun _ => -1 } := by
    rw [ht]
    exact aset_fin_eq _ _ _
  constructor
  · rw [hs]; exact h.geom
  · have := h.i1; unfold I1 at *; rw [hs, hb]; exact this
  · have h2 := h.i2
    unfold I2 at *
    rw [hs, ht]
    simp only [used_count_aset, hu]
    simp
    omega
  · intro j
    by_cases hj : j = i
    · subst hj; rw [hself]; right; rfl
    · rw [hget j hj]; exact h.used01 j
  · rw [hb]; exact h.resv
  · rw [hb]; exact h.hi_clear
  · intro j k
    by_cases hj : j = i
    · subst hj; rw [hself]; left; rfl
    · rw [hget j hj]; exact h.blk_range j k
  · intro j k
    by_cases hj : j = i
    · subst hj; rw [hself]; intro _ hk; exact absurd rfl hk
    · rw [hget j hj, hb]; exact h.blk_set j k
  · intro j j2 k k2
    by_cases hj : j = i
    · subst hj; rw [hself]; intro _ _ hk; exact absurd rfl hk
    · rw [hget j hj]
      by_cases hj2 : j2 = i
      · subst hj2; rw [hself]
        intro _ _ hk he
        exact absurd he.symm hk
      · rw [hget j2 hj2]; exact h.blk_inj j j2 k k2
  · intro b hb1 hb2 hb3
    rw [hb] at hb3
    obtain ⟨j, k, hj1, hj2⟩ := h.blk_surj b hb1 hb2 hb3
    have hji : j ≠ i := by
      intro he
      subst he
      rw [hu] at hj1
      omega
    exact ⟨j, k, by rw [hget j hji]; exact hj1, by rw [hget j hji]; exact hj2⟩
  · intro j j2
    by_cases hj : j = i
    · subst hj
      by_cases hj2 : j2 = j
      · intro _ _ hne; exact absurd hj2.symm hne
      · rw [hself, hget j2 hj2]
        intro _ hu2 _ he
        exact hn j2 ⟨hu2, he.symm⟩
    · rw [hget j hj]
      by_cases hj2 : j2 = i
      · subst hj2
        rw [hself]
        intro hu1 _ _ he
        exact hn j ⟨hu1, he⟩
      · rw [hget j2 hj2]; exact h.names j j2
  · intro j
    by_cases hj : j = i
    · subst hj; rw [hself]; simp
    · rw [hget j hj]; exact h.size_rng j
  · rw [hd, ho]; exact h.fd_ok
  · intro h1
    rw [hd] at h1
    omega

theorem Inv_fs_create (s : FS) (d : Dev) (fn : Option (List Nat)) (h : Inv s) :
    Inv (fs_create s d fn).2 := by
  unfold fs_create
  cases fn with
  | none => exact h
  | some l =>
    simp only
    split_ifs with h1 h2 h3
    · exact h
    · exact h
    · exact h
    · simp only [not_or] at h1
      obtain ⟨i, hi1, hi2, _⟩ := find_free_inode_found s h3
      have hm : 0 ≤ s.disk_fd := by
        rcases h.fd_ok with hf | hf
        · exact absurd hf.1 h1.2.2.2
        · exact hf.1
      have hlen : strlen l ≤ MAX_FILENAME := by omega
      have hnone : find_inode s (some l) = -1 := by
        by_contra hc
        exact h2 hc
      rw [hi1]
      obtain ⟨f1, f2, f3, f4, f5⟩ := sync_metadata_frame (write_inode s (i.val : Int)
          { used := 1, size := 0,
            name := fun j => if j.val < strlen l then char_at l j.val else 0,
            blocks := fun _ => -1 }) d
      refine Inv_create_core s _ i
        (fun j => if j.val < strlen l then char_at l j.val else 0) h hm hi2
        (fun j => find_inode_none s l hnone hlen j) ?_ ?_ ?_ ?_ ?_
      · rw [f1, write_inode_eq]
      · rw [f3, write_inode_eq]
      · rw [f2, write_inode_eq]; simp [hi2]
      · rw [f4, write_inode_eq]
      · rw [f5, write_inode_eq]

/-! ## Replacing one used inode: the common core of `fs_delete` and `fs_write` -/

theorem Inv_replace_core (s s2 : FS) (i : Fin MAX_FILES) (v : inode)
    (h : Inv s) (hm : 0 ≤ s.disk_fd) (hu : (s.inode_table i).used = 1)
    (hv01 : v.used = 0 ∨ v.used = 1)
    (hvsize : 0 ≤ v.size ∧ v.size < 2147483648)
    (hvblk : ∀ k : Fin MAX_DIRECT_BLOCKS, v.blocks k = -1
      ∨ (10 ≤ v.blocks k ∧ v.blocks k < MAX_BLOCKS ∧ aget s.bitmap (v.blocks k).toNat = false))
    (hvinj : ∀ k k2 : Fin MAX_DIRECT_BLOCKS, v.blocks k ≠ -1 → v.blocks k2 = v.blocks k → k2 = k)
    (hvname : v.used = 1 → v.name = (s.inode_table i).name)
    (hvfree : v.used = 0 → ∀ k, v.blocks k = -1)
    (ht : s2.inode_table = aset s.inode_table i.val v)
    (hbit : ∀ x : Nat, aget s2.bitmap x = true ↔
      ((aget s.bitmap x = true ∧ ¬ ∃ k, (s.inode_table i).blocks k = (x : Int))
        ∨ ∃ k, v.blocks k = (x : Int)))
    (hi1 : I1 s2)
    (hg : s2.sb.total_blocks = s.sb.total_blocks ∧ s2.sb.block_size = s.sb.block_size
      ∧ s2.sb.total_inodes = s.sb.total_inodes)
    (hfi : s2.sb.free_inodes = s.sb.free_inodes + (if v.used = 0 then 1 else 0))
    (hd : s2.disk_fd = s.disk_fd) (ho : s2.fd_open = s.fd_open) : Inv s2 := by
  have hget : ∀ j : Fin MAX_FILES, j ≠ i → s2.inode_table j = s.inode_table j := by
    intro j hj
    rw [ht]
    exact aset_fin_ne _ _ _ _ (fun hv => hj (Fin.ext hv))
  have hself : s2.inode_table i = v := by
    rw [ht]
    exact aset_fin_eq _ _ _
  -- a block of another used inode is not a block of inode `i`, old or new
  have hother : ∀ (j : Fin MAX_FILES) (k : Fin MAX_DIRECT_BLOCKS), j ≠ i →
      (s.inode_table j).used = 1 → (s.inode_table j).blocks k ≠ -1 →
      aget s2.bitmap ((s.inode_table j).blocks k).toNat = true := by
    intro j k hj hju hjk
    rw [hbit]
    left
    refine ⟨h.blk_set j k hju hjk, ?_⟩
    rintro ⟨k2, hk2⟩
    have hr := h.blk_range j k
    have hcast : (((s.inode_table j).blocks k).toNat : Int) = (s.inode_table j).blocks k := by
      omega
    rw [hcast] at hk2
    exact hj (h.blk_inj j i k k2 hju hu hjk hk2).1.symm
  constructor
  · rw [hg.1, hg.2.1, hg.2.2]; exact h.geom
  · exact hi1
  · have h2 := h.i2
    unfold I2 at *
    rw [hfi, ht]
    simp only [used_count_aset, hu]
    rcases hv01 with hv | hv <;> simp [hv] <;> omega
  · intro j
    by_cases hj : j = i
    · subst hj; rw [hself]; exact hv01
    · rw [hget j hj]; exact h.used01 j
  · intro b hb
    rw [hbit]
    left
    refine ⟨h.resv b hb, ?_⟩
    rintro ⟨k, hk⟩
    rcases h.blk_range i k with hr | hr
    · omega
    · omega
  · intro b hb
    by_contra hc
    have hc2 : aget s2.bitmap b = true := by simpa using hc
    rw [hbit] at hc2
    rcases hc2 with ⟨h1, _⟩ | ⟨k, hk⟩
    · rw [h.hi_clear b hb] at h1
      exact Bool.false_ne_true h1
    · rcases hvblk k with hr | hr
      · omega
      · omega
  · intro j k
    by_cases hj : j = i
    · subst hj
      rw [hself]
      rcases hvblk k with hr | hr
      · exact Or.inl hr
      · exact Or.inr ⟨hr.1, hr.2.1⟩
    · rw [hget j hj]; exact h.blk_range j k
  · intro j k
    by_cases hj : j = i
    · subst hj
      rw [hself]
      intro _ hk
      rw [hbit]
      right
      refine ⟨k, ?_⟩
      rcases hvblk k with hr | hr
      · exact absurd hr hk
      · omega
    · rw [hget j hj]
      exact hother j k hj
  · intro j j2 k k2
    by_cases hj : j = i
    · subst hj
      rw [hself]
      by_cases hj2 : j2 = j
      · subst hj2
        rw [hself]
        intro _ _ hk he
        exact ⟨rfl, hvinj k k2 hk he⟩
      · rw [hget j2 hj2]
        intro _ hu2 hk he
        exfalso
        rcases hvblk k with hr | hr
        · exact hk hr
        · have hne : (s.inode_table j2).blocks k2 ≠ -1 := by omega
          have := h.blk_set j2 k2 hu2 hne
          rw [he, hr.2.2] at this
          exact Bool.false_ne_true this
    · rw [hget j hj]
      by_cases hj2 : j2 = i
      · subst hj2
        rw [hself]
        intro hu1 _ hk he
        exfalso
        rcases hvblk k2 with hr | hr
        · rw [he] at hr; exact hk hr
        · have := h.blk_set j k hu1 hk
          rw [← he, hr.2.2] at this
          exact Bool.false_ne_true this
      · rw [hget j2 hj2]; exact h.blk_inj j j2 k k2
  · intro b hb1 hb2 hb3
    rw [hbit] at hb3
    rcases hb3 with ⟨h1, h2⟩ | ⟨k, hk⟩
    · obtain ⟨j, k, hj1, hj2⟩ := h.blk_surj b hb1 hb2 h1
      have hji : j ≠ i := by
        intro he
        subst he
        exact h2 ⟨k, hj2⟩
      exact ⟨j, k, by rw [hget j hji]; exact hj1, by rw [hget j hji]; exact hj2⟩
    · refine ⟨i, k, ?_, by rw [hself]; exact hk⟩
      rw [hself]
      rcases hv01 with hv | hv
      · have := hvfree hv k
        omega
      · exact hv
  · intro j j2
    by_cases hj : j = i
    · subst hj
      by_cases hj2 : j2 = j
      · intro _ _ hne; exact absurd hj2.symm hne
      · rw [hself, hget j2 hj2]
        intro hv1 hu2 hne
        rw [hvname hv1]
        exact h.names j j2 hu hu2 hne
    · rw [hget j hj]
      by_cases hj2 : j2 = i
      · subst hj2
        rw [hself]
        intro hu1 hv1 hne
        rw [hvname hv1]
        exact h.names j j2 hu1 hu hne
      · rw [hget j2 hj2]; exact h.names j j2
  · intro j
    by_cases hj : j = i
    · subst hj; rw [hself]; exact hvsize
    · rw [hget j hj]; exact h.size_rng j
  · rw [hd, ho]; exact h.fd_ok
  · intro h1
    rw [hd] at h1
    omega

/-! ## Loops of `mark_block_free` -/

theorem mark_block_free_neg (s : FS) (b : Int) (h : b < 0) : mark_block_free s b = s := by
  unfold mark_block_free
  have : ¬ (0 ≤ b ∧ b < MAX_BLOCKS) := by omega
  simp [this]

theorem free_if_eq (blocks : Fin MAX_DIRECT_BLOCKS → Int) :
    (fun (st : FS) (j : Nat) =>
      if aget blocks j ≠ -1 then mark_block_free st (aget blocks j) else st)
    = (fun (st : FS) (j : Nat) => mark_block_free st (aget blocks j)) := by
  funext st j
  by_cases h : aget blocks j = -1
  · simp [h, mark_block_free_neg]
  · simp [h]

theorem free_fold_frame (blocks : Fin MAX_DIRECT_BLOCKS → Int) (L : List Nat) :
    ∀ s : FS,
      (L.foldl (fun st j => mark_block_free st (aget blocks j)) s).inode_table = s.inode_table
      ∧ (L.foldl (fun st j => mark_block_free st (aget blocks j)) s).disk_fd = s.disk_fd
      ∧ (L.foldl (fun st j => mark_block_free st (aget blocks j)) s).fd_open = s.fd_open
      ∧ (L.foldl (fun st j => mark_block_free st (aget blocks j)) s).image = s.image
      ∧ (L.foldl (fun st j => mark_block_free st (aget blocks j)) s).sb.total_blocks
          = s.sb.total_blocks
      ∧ (L.foldl (fun st j => mark_block_free st (aget blocks j)) s).sb.block_size
          = s.sb.block_size
      ∧ (L.foldl (fun st j => mark_block_free st (aget blocks j)) s).sb.total_inodes
          = s.sb.total_inodes
      ∧ (L.foldl (fun st j => mark_block_free st (aget blocks j)) s).sb.free_inodes
          = s.sb.free_inodes := by
  induction L with
  | nil => intro s; simp
  | cons a t ih =>
    intro s
    simp only [List.foldl_cons]
    obtain ⟨a1, a2, a3, a4, a5, a6, a7, a8⟩ := ih (mark_block_free s (aget blocks a))
    obtain ⟨b1, b2, b3, b4, b5, b6, b7, b8⟩ := mark_block_free_frame s (aget blocks a)
    exact ⟨a1.trans b1, a2.trans b2, a3.trans b3, a4.trans b4, a5.trans b5, a6.trans b6,
      a7.trans b7, a8.trans b8⟩

theorem free_fold_bit (blocks : Fin MAX_DIRECT_BLOCKS → Int) (L : List Nat) :
    ∀ (s : FS) (x : Nat),
      aget (L.foldl (fun st j => mark_block_free st (aget blocks j)) s).bitmap x = true
        ↔ (aget s.bitmap x = true
            ∧ ∀ j ∈ L, ¬ (0 ≤ aget blocks j ∧ aget blocks j < MAX_BLOCKS
                ∧ x = (aget blocks j).toNat)) := by
  induction L with
  | nil => intro s x; simp
  | cons a t ih =>
    intro s x
    simp only [List.foldl_cons, List.mem_cons, forall_eq_or_imp]
    rw [ih, mark_block_free_bit]
    tauto

theorem free_fold_I1 (blocks : Fin MAX_DIRECT_BLOCKS → Int) (L : List Nat) :
    ∀ s : FS, I1 s → I1 (L.foldl (fun st j => mark_block_free st (aget blocks j)) s) := by
  induction L with
  | nil => intro s h; exact h
  | cons a t ih =>
    intro s h
    simp only [List.foldl_cons]
    exact ih _ (I1_mark_block_free s _ h)

theorem free_blocks_of_frame (s : FS) (blocks : Fin MAX_DIRECT_BLOCKS → Int) :
    (free_blocks_of s blocks).inode_table = s.inode_table
    ∧ (free_blocks_of s blocks).disk_fd = s.disk_fd
    ∧ (free_blocks_of s blocks).fd_open = s.fd_open
    ∧ (free_blocks_of s blocks).image = s.image
    ∧ (free_blocks_of s blocks).sb.total_blocks = s.sb.total_blocks
    ∧ (free_blocks_of s blocks).sb.block_size = s.sb.block_size
    ∧ (free_blocks_of s blocks).sb.total_inodes = s.sb.total_inodes
    ∧ (free_blocks_of s blocks).sb.free_inodes = s.sb.free_inodes := by
  unfold free_blocks_of
  rw [free_if_eq]
  exact free_fold_frame blocks _ s

theorem free_blocks_of_I1 (s : FS) (blocks : Fin MAX_DIRECT_BLOCKS → Int) (h : I1 s) :
    I1 (free_blocks_of s blocks) := by
  unfold free_blocks_of
  rw [free_if_eq]
  exact free_fold_I1 blocks _ s h

/-- After the loop a bit is set iff it was set and is not an in-range entry of `blocks`. -/
theorem free_blocks_of_bit (s : FS) (blocks : Fin MAX_DIRECT_BLOCKS → Int) (x : Nat) :
    aget (free_blocks_of s blocks).bitmap x = true
      ↔ (aget s.bitmap x = true
          ∧ ¬ ∃ k : Fin MAX_DIRECT_BLOCKS, blocks k < MAX_BLOCKS ∧ blocks k = (x : Int)) := by
  unfold free_blocks_of
  rw [free_if_eq, free_fold_bit]
  constructor
  · rintro ⟨h1, h2⟩
    refine ⟨h1, ?_⟩
    rintro ⟨k, hk1, hk2⟩
    have := h2 k.val (List.mem_range.mpr k.isLt)
    rw [aget_fin] at this
    apply this
    omega
  · rintro ⟨h1, h2⟩
    refine ⟨h1, ?_⟩
    intro j hj hc
    rw [List.mem_range] at hj
    rw [aget_of_lt _ _ hj] at hc
    apply h2
    exact ⟨⟨j, hj⟩, hc.2.1, by omega⟩

/-! ## `fs_delete` keeps the invariant -/

theorem Inv_fs_delete (s : FS) (d : Dev) (fn : Option (List Nat)) (h : Inv s) :
    Inv (fs_delete s d fn).2 := by
  unfold fs_delete
  cases fn with
  | none => exact h
  | some l =>
    simp only
    split_ifs with h1
    · exact h
    · simp only [not_or] at h1
      obtain ⟨l2, i, _, _, hi1, hi2, _⟩ := find_inode_some s (some l) h1.2.2.1
      have hm : 0 ≤ s.disk_fd := by
        rcases h.fd_ok with hf | hf
        · exact absurd hf.1 h1.2.2.2
        · exact hf.1
      rw [hi1]
      simp only [Int.toNat_ofNat, aget_fin]
      obtain ⟨f1, f2, f3, f4, f5⟩ := sync_metadata_frame
        (write_inode (free_blocks_of s (s.inode_table i).blocks) (i.val : Int)
          { used := 0, size := 0, name := fun _ => 0, blocks := fun _ => -1 }) d
      obtain ⟨g1, g2, g3, g4, g5, g6, g7, g8⟩ := free_blocks_of_frame s (s.inode_table i).blocks
      refine Inv_replace_core s _ i
        { used := 0, size := 0, name := fun _ => 0, blocks := fun _ => -1 } h hm hi2
        (Or.inl rfl) (by simp) (fun k => Or.inl rfl) (fun k k2 hk => absurd rfl hk)
        (by intro hc; simp at hc) (fun _ k => rfl) ?_ ?_ ?_ ?_ ?_ ?_ ?_
      · rw [f1, write_inode_eq, g1]
      · intro x
        rw [f3, write_inode_eq]
        simp only
        rw [free_blocks_of_bit]
        constructor
        · rintro ⟨a1, a2⟩
          left
          refine ⟨a1, ?_⟩
          rintro ⟨k, hk⟩
          apply a2
          refine ⟨k, ?_, hk⟩
          rcases h.blk_range i k with hr | hr
          · omega
          · omega
        · rintro (⟨a1, a2⟩ | ⟨k, hk⟩)
          · refine ⟨a1, ?_⟩
            rintro ⟨k, _, hk⟩
            exact a2 ⟨k, hk⟩
          · omega
      · have := free_blocks_of_I1 s (s.inode_table i).blocks h.i1
        unfold I1 at *
        rw [f2, f3, write_inode_eq]
        exact this
      · rw [f2, write_inode_eq]
        exact ⟨g5, g6, g7⟩
      · rw [f2, write_inode_eq]
        simp only [g1, hi2, g8]
        simp
      · rw [f4, write_inode_eq]; exact g2
      · rw [f5, write_inode_eq]; exact g3

/-! ## The allocation loop of `fs_write` and its rollback -/

theorem AllocSeg_init (s : FS) (nb : Fin MAX_DIRECT_BLOCKS → Int)
    (h : ∀ j, j < MAX_DIRECT_BLOCKS → aget nb j = -1) : AllocSeg s s nb 0 0 := by
  constructor
  · rfl
  · rfl
  · rfl
  · exact ⟨rfl, rfl, rfl, rfl⟩
  · simp
  · intro j hj; omega
  · intro j j2 hj; omega
  · intro j _ hj; exact h j hj
  · intro x
    constructor
    · intro hx; exact Or.inl hx
    · rintro (hx | ⟨j, _, hj, _⟩)
      · exact hx
      · omega

theorem AllocSeg_step (s0 s : FS) (nb : Fin MAX_DIRECT_BLOCKS → Int) (i r : Nat)
    (h : AllocSeg s0 s nb 0 i) (hi : i < MAX_DIRECT_BLOCKS) (hr : r < MAX_BLOCKS)
    (hclear : aget s.bitmap r = false) :
    AllocSeg s0 (mark_block_used s (r : Int)) (aset nb i (r : Int)) 0 (i + 1) := by
  obtain ⟨f1, f2, f3, f4, f5, f6, f7, f8⟩ := mark_block_used_frame s (r : Int)
  have hnot : ¬ (aget s0.bitmap r = true ∨ ∃ j, 0 ≤ j ∧ j < i ∧ aget nb j = (r : Int)) := by
    rw [← h.bits r, hclear]
    exact Bool.false_ne_true
  have hnot0 : aget s0.bitmap r = false := by
    by_contra hc
    exact hnot (Or.inl (by simpa using hc))
  have hnew : ∀ j, j < i → aget nb j ≠ (r : Int) := by
    intro j hj hc
    exact hnot (Or.inr ⟨j, Nat.zero_le _, hj, hc⟩)
  have hgi : aget (aset nb i (r : Int)) i = (r : Int) := aget_aset_eq _ _ _ hi
  have hgo : ∀ j, j ≠ i → aget (aset nb i (r : Int)) j = aget nb j :=
    fun j hj => aget_aset_ne _ _ _ _ hj
  constructor
  · rw [f1]; exact h.table
  · rw [f2]; exact h.fd
  · rw [f3]; exact h.op
  · rw [f5, f6, f7, f8]; exact h.sbg
  · have hfb := h.fb
    unfold mark_block_used
    have hr2 : (0 : Int) ≤ (r : Int) ∧ (r : Int) < MAX_BLOCKS := by omega
    simp only [hr2, and_self, if_true, Int.toNat_ofNat, hclear]
    push_cast
    omega
  · intro j hj
    by_cases hji : j = i
    · subst hji
      rw [hgi]
      refine ⟨by omega, by omega, ?_⟩
      simpa using hnot0
    · rw [hgo j hji]
      exact h.rng j (by omega)
  · intro j j2 hj hj2 he
    by_cases hji : j = i
    · by_cases hj2i : j2 = i
      · omega
      · exfalso
        rw [hji, hgi, hgo j2 hj2i] at he
        exact hnew j2 (by omega) he.symm
    · by_cases hj2i : j2 = i
      · exfalso
        rw [hj2i, hgi, hgo j hji] at he
        exact hnew j (by omega) he
      · rw [hgo j hji, hgo j2 hj2i] at he
        exact h.inj j j2 (by omega) (by omega) he
  · intro j hj hj2
    rw [hgo j (by omega)]
    exact h.rest j (by omega) hj2
  · intro x
    rw [mark_block_used_bit, h.bits]
    constructor
    · rintro ((hx | ⟨j, hj0, hj, hje⟩) | ⟨_, _, hx⟩)
      · exact Or.inl hx
      · right
        exact ⟨j, hj0, by omega, by rw [hgo j (by omega)]; exact hje⟩
      · right
        refine ⟨i, Nat.zero_le _, by omega, ?_⟩
        rw [hgi, hx]
        simp
    · rintro (hx | ⟨j, hj0, hj, hje⟩)
      · exact Or.inl (Or.inl hx)
      · by_cases hji : j = i
        · subst hji
          rw [hgi] at hje
          right
          refine ⟨by omega, by omega, ?_⟩
          simp only [Int.toNat_ofNat]
          omega
        · left
          right
          exact ⟨j, hj0, by omega, by rw [← hgo j hji]; exact hje⟩

theorem AllocSeg_free_step (s0 s : FS) (nb : Fin MAX_DIRECT_BLOCKS → Int) (m i : Nat)
    (h : AllocSeg s0 s nb m i) (hm : m < i) :
    AllocSeg s0 (mark_block_free s (aget nb m)) nb (m + 1) i := by
  obtain ⟨f1, f2, f3, f4, f5, f6, f7, f8⟩ := mark_block_free_frame s (aget nb m)
  obtain ⟨r1, r2, r3⟩ := h.rng m hm
  have hset : aget s.bitmap (aget nb m).toNat = true := by
    rw [h.bits]
    right
    exact ⟨m, le_refl _, hm, by omega⟩
  constructor
  · rw [f1]; exact h.table
  · rw [f2]; exact h.fd
  · rw [f3]; exact h.op
  · rw [f5, f6, f7, f8]; exact h.sbg
  · have hfb := h.fb
    unfold mark_block_free
    simp only [r1, r2, and_self, if_true, hset]
    push_cast
    omega
  · exact h.rng
  · exact h.inj
  · exact h.rest
  · intro x
    rw [mark_block_free_bit, h.bits]
    constructor
    · rintro ⟨hx | ⟨j, hj0, hj, hje⟩, hne⟩
      · exact Or.inl hx
      · right
        refine ⟨j, ?_, hj, hje⟩
        by_contra hc
        have hjm : j = m := by omega
        subst hjm
        apply hne
        refine ⟨r1, r2, ?_⟩
        omega
    · rintro (hx | ⟨j, hj0, hj, hje⟩)
      · refine ⟨Or.inl hx, ?_⟩
        rintro ⟨_, _, hc⟩
        rw [hc, r3] at hx
        exact Bool.false_ne_true hx
      · refine ⟨Or.inr ⟨j, by omega, hj, hje⟩, ?_⟩
        rintro ⟨_, _, hc⟩
        have : aget nb j = aget nb m := by omega
        have := h.inj j m hj hm this
        omega

theorem AllocSeg_free_fold (s0 : FS) (nb : Fin MAX_DIRECT_BLOCKS → Int) (i : Nat) (s : FS)
    (h : AllocSeg s0 s nb 0 i) :
    ∀ m, m ≤ i →
      AllocSeg s0 ((List.range m).foldl (fun st j => mark_block_free st (aget nb j)) s) nb m i := by
  intro m
  induction m with
  | zero => intro _; simpa using h
  | succ m ih =>
    intro hm
    rw [List.range_succ, List.foldl_append]
    simp only [List.foldl_cons, List.foldl_nil]
    exact AllocSeg_free_step s0 _ nb m i (ih (by omega)) (by omega)

/-- When every new block is released again the in-memory state is the one before the loop. -/
theorem AllocSeg_done (s0 s : FS) (nb : Fin MAX_DIRECT_BLOCKS → Int) (i : Nat)
    (h : AllocSeg s0 s nb i i) :
    s.inode_table = s0.inode_table ∧ s.sb = s0.sb ∧ s.bitmap = s0.bitmap
    ∧ s.disk_fd = s0.disk_fd ∧ s.fd_open = s0.fd_open := by
  refine ⟨h.table, ?_, ?_, h.fd, h.op⟩
  · obtain ⟨g1, g2, g3, g4⟩ := h.sbg
    have hfb := h.fb
    have : s.sb.free_blocks = s0.sb.free_blocks := by omega
    cases hs : s.sb
    cases hs0 : s0.sb
    simp only [hs, hs0] at g1 g2 g3 g4 this
    simp [g1, g2, g3, g4, this]
  · apply arr_ext
    intro x _
    have := h.bits x
    have h2 : ¬ ∃ j, i ≤ j ∧ j < i ∧ aget nb j = (x : Int) := by
      rintro ⟨j, h1, h2, _⟩
      omega
    simp only [h2, or_false] at this
    cases ha : aget s.bitmap x <;> cases hb : aget s0.bitmap x <;> simp_all

theorem AllocSeg_congr (s0 s : FS) (nb nb2 : Fin MAX_DIRECT_BLOCKS → Int) (i : Nat)
    (h : AllocSeg s0 s nb 0 i) (hlow : ∀ j, j < i → aget nb2 j = aget nb j)
    (hrest : ∀ j, i ≤ j → j < MAX_DIRECT_BLOCKS → aget nb2 j = -1) :
    AllocSeg s0 s nb2 0 i := by
  constructor
  · exact h.table
  · exact h.fd
  · exact h.op
  · exact h.sbg
  · exact h.fb
  · intro j hj
    rw [hlow j hj]
    exact h.rng j hj
  · intro j j2 hj hj2
    rw [hlow j hj, hlow j2 hj2]
    exact h.inj j j2 hj hj2
  · exact hrest
  · intro x
    rw [h.bits]
    constructor
    · rintro (hx | ⟨j, hj0, hj, hje⟩)
      · exact Or.inl hx
      · exact Or.inr ⟨j, hj0, hj, by rw [hlow j hj]; exact hje⟩
    · rintro (hx | ⟨j, hj0, hj, hje⟩)
      · exact Or.inl hx
      · exact Or.inr ⟨j, hj0, hj, by rw [← hlow j hj]; exact hje⟩

theorem rollback_alloc_image (s : FS) (nb : Fin MAX_DIRECT_BLOCKS → Int) (i : Nat) :
    (rollback_alloc s nb i).image = s.image := by
  unfold rollback_alloc
  exact (free_fold_frame nb _ s).2.2.2.1

theorem alloc_blocks_spec (s0 : FS) :
    ∀ (n i : Nat) (s : FS) (nb : Fin MAX_DIRECT_BLOCKS → Int),
      AllocSeg s0 s nb 0 i → i + n ≤ MAX_DIRECT_BLOCKS →
      ((alloc_blocks n i s nb).ok = true →
        AllocSeg s0 (alloc_blocks n i s nb).st (alloc_blocks n i s nb).new_blocks 0 (i + n))
      ∧ ((alloc_blocks n i s nb).ok = false →
        (alloc_blocks n i s nb).st.inode_table = s0.inode_table
        ∧ (alloc_blocks n i s nb).st.sb = s0.sb
        ∧ (alloc_blocks n i s nb).st.bitmap = s0.bitmap
        ∧ (alloc_blocks n i s nb).st.disk_fd = s0.disk_fd
        ∧ (alloc_blocks n i s nb).st.fd_open = s0.fd_open)
      ∧ (alloc_blocks n i s nb).st.image = s.image := by
  intro n
  induction n with
  | zero =>
    intro i s nb h _
    unfold alloc_blocks
    refine ⟨fun _ => by simpa using h, fun hc => by simp at hc, rfl⟩
  | succ n ih =>
    intro i s nb h hi
    unfold alloc_blocks
    rcases find_free_block_spec s with ⟨hf, _⟩ | ⟨r, hf, hr1, hr2, _⟩
    · simp only [hf, if_true]
      refine ⟨fun hc => by simp at hc, fun _ => ?_, rollback_alloc_image _ _ _⟩
      have h2 : AllocSeg s0 s (aset nb i (-1)) 0 i := by
        apply AllocSeg_congr s0 s nb _ i h
        · intro j hj
          exact aget_aset_ne _ _ _ _ (by omega)
        · intro j hj hj2
          by_cases hji : j = i
          · subst hji; exact aget_aset_eq _ _ _ hj2
          · rw [aget_aset_ne _ _ _ _ hji]
            exact h.rest j hj hj2
      have h3 := AllocSeg_free_fold s0 (aset nb i (-1)) i s h2 i (le_refl _)
      exact AllocSeg_done s0 _ _ i h3
    · have hne : ¬ ((r : Int) = -1) := by omega
      simp only [hf, hne, if_false]
      have hstep := AllocSeg_step s0 s nb i r h (by omega) hr1 hr2
      obtain ⟨a1, a2, a3⟩ := ih (i + 1) (mark_block_used s (r : Int)) (aset nb i (r : Int)) hstep
        (by omega)
      refine ⟨?_, a2, ?_⟩
      · intro hok
        have := a1 hok
        rwa [show i + 1 + n = i + (n + 1) by omega] at this
      · rw [a3]
        exact (mark_block_used_frame s (r : Int)).2.2.2.1

theorem alloc_blocks_I1 :
    ∀ (n i : Nat) (s : FS) (nb : Fin MAX_DIRECT_BLOCKS → Int),
      I1 s → I1 (alloc_blocks n i s nb).st := by
  intro n
  induction n with
  | zero => intro i s nb h; unfold alloc_blocks; exact h
  | succ n ih =>
    intro i s nb h
    unfold alloc_blocks
    simp only
    split_ifs with hb
    · unfold rollback_alloc
      exact free_fold_I1 _ _ s h
    · exact ih _ _ _ (I1_mark_block_used s _ h)

/-! ## The data loop of `fs_write` changes the image only -/

theorem write_retry_frame (d : Dev) (i off : Nat) (src : Nat → Nat) (btw : Nat) :
    ∀ (fuel total : Nat) (s : FS),
      (write_retry d i off src btw fuel total s).2.inode_table = s.inode_table
      ∧ (write_retry d i off src btw fuel total s).2.sb = s.sb
      ∧ (write_retry d i off src btw fuel total s).2.bitmap = s.bitmap
      ∧ (write_retry d i off src btw fuel total s).2.disk_fd = s.disk_fd
      ∧ (write_retry d i off src btw fuel total s).2.fd_open = s.fd_open := by
  intro fuel
  induction fuel with
  | zero => intro total s; simp [write_retry]
  | succ fuel ih =>
    intro total s
    unfold write_retry
    simp only
    split_ifs
    · simp
    · simp
    · obtain ⟨a1, a2, a3, a4, a5⟩ := ih (total + (do_write s (d.data_wr i total) (off + total)
        (fun p => src (total + p)) (btw - total)).1.toNat) (do_write s (d.data_wr i total)
        (off + total) (fun p => src (total + p)) (btw - total)).2
      obtain ⟨b1, b2, b3, b4, b5⟩ := do_write_frame s (d.data_wr i total) (off + total)
        (fun p => src (total + p)) (btw - total)
      exact ⟨a1.trans b1, a2.trans b2, a3.trans b3, a4.trans b4, a5.trans b5⟩
    · simp

theorem write_blocks_frame (d : Dev) (nb : Fin MAX_DIRECT_BLOCKS → Int) (data : Nat → Nat) :
    ∀ (n i ptr : Nat) (rem : Int) (s : FS),
      (write_blocks d nb data n i ptr rem s).2.inode_table = s.inode_table
      ∧ (write_blocks d nb data n i ptr rem s).2.sb = s.sb
      ∧ (write_blocks d nb data n i ptr rem s).2.bitmap = s.bitmap
      ∧ (write_blocks d nb data n i ptr rem s).2.disk_fd = s.disk_fd
      ∧ (write_blocks d nb data n i ptr rem s).2.fd_open = s.fd_open := by
  intro n
  induction n with
  | zero => intro i ptr rem s; simp [write_blocks]
  | succ n ih =>
    intro i ptr rem s
    unfold write_blocks
    simp only
    generalize (if rem > (BLOCK_SIZE : Int) then (BLOCK_SIZE : Int) else rem) = btw
    obtain ⟨b1, b2, b3, b4, b5⟩ := write_retry_frame d i (aget nb i * BLOCK_SIZE).toNat
      (fun p => data (ptr + p)) btw.toNat btw.toNat 0 s
    by_cases hr : (write_retry d i (aget nb i * BLOCK_SIZE).toNat (fun p => data (ptr + p))
        btw.toNat btw.toNat 0 s).1 ≠ 0
    · rw [if_pos hr]
      exact ⟨b1, b2, b3, b4, b5⟩
    · rw [if_neg hr]
      obtain ⟨a1, a2, a3, a4, a5⟩ := ih (i + 1) (ptr + btw.toNat) (rem - btw)
        (write_retry d i (aget nb i * BLOCK_SIZE).toNat (fun p => data (ptr + p))
          btw.toNat btw.toNat 0 s).2
      exact ⟨a1.trans b1, a2.trans b2, a3.trans b3, a4.trans b4, a5.trans b5⟩

theorem AllocSeg_of_mem_eq (s0 s s2 : FS) (nb : Fin MAX_DIRECT_BLOCKS → Int) (m i : Nat)
    (h : AllocSeg s0 s nb m i) (ht : s2.inode_table = s.inode_table) (hs : s2.sb = s.sb)
    (hb : s2.bitmap = s.bitmap) (hd : s2.disk_fd = s.disk_fd) (ho : s2.fd_open = s.fd_open) :
    AllocSeg s0 s2 nb m i := by
  constructor
  · rw [ht]; exact h.table
  · rw [hd]; exact h.fd
  · rw [ho]; exact h.op
  · rw [hs]; exact h.sbg
  · rw [hs]; exact h.fb
  · exact h.rng
  · exact h.inj
  · exact h.rest
  · rw [hb]; exact h.bits

theorem read_inode_used (s : FS) (i : Fin MAX_FILES) (t : inode)
    (h : (s.inode_table i).used = 1) : read_inode s (i.val : Int) t = s.inode_table i := by
  unfold read_inode
  have h1 : ¬ ((i.val : Int) < 0 ∨ (i.val : Int) ≥ MAX_FILES) := by
    have := i.isLt
    omega
  simp [h1, aget_fin, h]

/-! ## `fs_write` keeps the invariant -/

theorem Inv_fs_write (s : FS) (d : Dev) (fn : Option (List Nat)) (data : Option (Nat → Nat))
    (size : Int) (h : Inv s) (hsz : is_int32 size) : Inv (fs_write s d fn data size).2 := by
  unfold fs_write
  cases fn with
  | none => exact h
  | some l =>
    cases data with
    | none => exact h
    | some buf =>
      simp only
      by_cases hv : validate_string_manual (some l) ≠ 0 ∨ strlen l > MAX_FILENAME ∨ size < 0
          ∨ s.disk_fd < 0
      · rw [if_pos hv]; exact h
      rw [if_neg hv]
      simp only [not_or] at hv
      have hm : 0 ≤ s.disk_fd := by omega
      by_cases hf : find_inode s (some l) = -1
      · rw [if_pos hf]; exact h
      rw [if_neg hf]
      obtain ⟨l2, i, _, _, hi1, hi2, _⟩ := find_inode_some s (some l) hf
      rw [hi1, read_inode_used s i _ hi2]
      by_cases hk1 : calculate_blocks_needed size > s.sb.free_blocks
      · rw [if_pos hk1]; exact h
      rw [if_neg hk1]
      by_cases hk2 : calculate_blocks_needed size > (MAX_DIRECT_BLOCKS : Int)
      · rw [if_pos hk2]; exact h
      rw [if_neg hk2]
      have hk : 0 + (calculate_blocks_needed size).toNat ≤ MAX_DIRECT_BLOCKS := by omega
      obtain ⟨al1, al2, al3⟩ := alloc_blocks_spec s (calculate_blocks_needed size).toNat 0 s
        (fun _ => -1) (AllocSeg_init s _ (fun j hj => by simp [aget, hj])) hk
      have ali1 := alloc_blocks_I1 (calculate_blocks_needed size).toNat 0 s (fun _ => -1) h.i1
      generalize alloc_blocks (calculate_blocks_needed size).toNat 0 s (fun _ => -1) = a
        at al1 al2 al3 ali1
      by_cases hok : a.ok = false
      · rw [if_pos hok]
        obtain ⟨m1, m2, m3, m4, m5⟩ := al2 hok
        exact Inv_of_mem_eq s _ h hm m1 m2 m3 m4 m5
      rw [if_neg hok]
      have hok2 : a.ok = true := by simpa using hok
      have hseg := al1 hok2
      rw [Nat.zero_add] at hseg
      obtain ⟨w1, w2, w3, w4, w5⟩ := write_blocks_frame d a.new_blocks buf
        (calculate_blocks_needed size).toNat 0 0 size a.st
      generalize write_blocks d a.new_blocks buf (calculate_blocks_needed size).toNat 0 0 size
        a.st = w at w1 w2 w3 w4 w5
      have hsegw : AllocSeg s w.2 a.new_blocks 0 (calculate_blocks_needed size).toNat :=
        AllocSeg_of_mem_eq s a.st w.2 _ _ _ hseg w1 w2 w3 w4 w5
      by_cases hw : w.1 ≠ 0
      · rw [if_pos hw]
        simp only
        unfold free_new_blocks
        rw [free_if_eq]
        have h3 := AllocSeg_free_fold s a.new_blocks _ w.2 hsegw _ (le_refl _)
        obtain ⟨m1, m2, m3, m4, m5⟩ := AllocSeg_done s _ _ _ h3
        exact Inv_of_mem_eq s _ h hm m1 m2 m3 m4 m5
      rw [if_neg hw]
      simp only
      -- the successful write
      have hV1 : (
          { used := (s.inode_table i).used, size := size, name := (s.inode_table i).name,
            blocks := a.new_blocks } : inode).used = 1 := hi2
      have hV2 : (
          { used := (s.inode_table i).used, size := size, name := (s.inode_table i).name,
            blocks := a.new_blocks } : inode).size = size := rfl
      have hV3 : (
          { used := (s.inode_table i).used, size := size, name := (s.inode_table i).name,
            blocks := a.new_blocks } : inode).name = (s.inode_table i).name := rfl
      have hV4 : (
          { used := (s.inode_table i).used, size := size, name := (s.inode_table i).name,
            blocks := a.new_blocks } : inode).blocks = a.new_blocks := rfl
      generalize (
          { used := (s.inode_table i).used, size := size, name := (s.inode_table i).name,
            blocks := a.new_blocks } : inode) = V at hV1 hV2 hV3 hV4
      obtain ⟨f1, f2, f3, f4, f5⟩ := sync_metadata_frame
        (free_blocks_of (write_inode w.2 (i.val : Int) V) (s.inode_table i).blocks) d
      obtain ⟨g1, g2, g3, g4, g5, g6, g7, g8⟩ := free_blocks_of_frame
        (write_inode w.2 (i.val : Int) V) (s.inode_table i).blocks
      have hwt : w.2.inode_table i = s.inode_table i := by rw [hsegw.table]
      have hwi : write_inode w.2 (i.val : Int) V
          = { w.2 with inode_table := aset s.inode_table i.val V } := by
        rw [write_inode_eq, hwt, hi2, hV1, hsegw.table]
        simp
      have hnbk : ∀ k : Fin MAX_DIRECT_BLOCKS, a.new_blocks k ≠ -1 →
          k.val < (calculate_blocks_needed size).toNat := by
        intro k hk
        by_contra hc
        have := hsegw.rest k.val (by omega) k.isLt
        rw [aget_fin] at this
        exact hk this
      refine Inv_replace_core s _ i V h hm hi2
        (Or.inr hV1) (by rw [hV2]; exact ⟨by omega, hsz.2⟩) ?_ ?_ (fun _ => hV3)
        (by intro hc; rw [hV1] at hc; omega)
        ?_ ?_ ?_ ?_ ?_ ?_ ?_
      · intro k
        rw [hV4]
        by_cases hk : a.new_blocks k = -1
        · exact Or.inl hk
        · right
          have hlt := hnbk k hk
          obtain ⟨r1, r2, r3⟩ := hsegw.rng k.val hlt
          rw [aget_fin] at r1 r2 r3
          refine ⟨?_, r2, r3⟩
          by_contra hc
          have := h.resv (a.new_blocks k).toNat (by omega)
          rw [r3] at this
          exact Bool.false_ne_true this
      · intro k k2 hk he
        rw [hV4] at hk he
        have hlt := hnbk k hk
        have hlt2 := hnbk k2 (by rw [he]; exact hk)
        have := hsegw.inj k2.val k.val hlt2 hlt (by rw [aget_fin, aget_fin]; exact he)
        exact Fin.ext this
      · rw [f1, g1, hwi]
      · intro x
        rw [f3, free_blocks_of_bit, hwi, hV4]
        simp only
        rw [hsegw.bits]
        constructor
        · rintro ⟨hx | ⟨j, _, hj, hje⟩, hno⟩
          · left
            refine ⟨hx, ?_⟩
            rintro ⟨k, hk⟩
            apply hno
            refine ⟨k, ?_, hk⟩
            rcases h.blk_range i k with hr | hr
            · omega
            · omega
          · right
            have hj12 : j < MAX_DIRECT_BLOCKS := by omega
            refine ⟨⟨j, hj12⟩, ?_⟩
            rw [← hje, aget_of_lt _ _ hj12]
        · rintro (⟨hx, hno⟩ | ⟨k, hk⟩)
          · refine ⟨Or.inl hx, ?_⟩
            rintro ⟨k, _, hk⟩
            exact hno ⟨k, hk⟩
          · have hne : a.new_blocks k ≠ -1 := by omega
            have hlt := hnbk k hne
            refine ⟨Or.inr ⟨k.val, Nat.zero_le _, hlt, by rw [aget_fin]; exact hk⟩, ?_⟩
            rintro ⟨k2, _, hk2⟩
            have hset := h.blk_set i k2 hi2 (by omega)
            obtain ⟨_, _, r3⟩ := hsegw.rng k.val hlt
            rw [aget_fin, hk] at r3
            rw [hk2] at hset
            rw [r3] at hset
            exact Bool.false_ne_true hset
      · have hI : I1 w.2 := by
          unfold I1 at *
          rw [w2, w3]
          exact ali1
        have hI2 : I1 (write_inode w.2 (i.val : Int) V) := by
          rw [hwi]
          exact hI
        have hI3 := free_blocks_of_I1 _ (s.inode_table i).blocks hI2
        unfold I1 at *
        rw [f2, f3]
        exact hI3
      · rw [f2, g5, g6, g7, hwi]
        exact ⟨hsegw.sbg.1, hsegw.sbg.2.1, hsegw.sbg.2.2.1⟩
      · rw [f2, g8, hwi, hV1]
        simp
        exact hsegw.sbg.2.2.2
      · rw [f4, g2, hwi]
        exact hsegw.fd
      · rw [f5, g3, hwi]
        exact hsegw.op

/-! ## The metadata records survive the trip through the image -/

theorem dec32_byte32 (m : Nat → Nat) (off : Nat) (x : Int) (hx : is_int32 x)
    (hm : ∀ k, k < 4 → m (off + k) = byte32 x k) : dec32 m off = x := by
  have h0 := hm 0 (by omega)
  have h1 := hm 1 (by omega)
  have h2 := hm 2 (by omega)
  have h3 := hm 3 (by omega)
  unfold is_int32 at hx
  unfold dec32
  simp only [byte32, Nat.add_zero] at h0 h1 h2 h3
  norm_num at h0 h1 h2 h3
  rw [h0, h1, h2, h3]
  simp only
  split_ifs <;> omega

theorem dec_sb_enc_sb (m : Nat → Nat) (b : superblock)
    (hr : is_int32 b.total_blocks ∧ is_int32 b.block_size ∧ is_int32 b.free_blocks
      ∧ is_int32 b.total_inodes ∧ is_int32 b.free_inodes)
    (hm : ∀ p, p < SB_BYTES → m p = enc_sb b p) : dec_sb m = b := by
  obtain ⟨r1, r2, r3, r4, r5⟩ := hr
  have e1 : dec32 m 0 = b.total_blocks := dec32_byte32 m 0 _ r1 (by
    intro k hk
    rw [hm (0 + k) (by simp only [SB_BYTES]; omega)]
    unfold enc_sb
    simp [show k < 4 from hk])
  have e2 : dec32 m 4 = b.block_size := dec32_byte32 m 4 _ r2 (by
    intro k hk
    rw [hm (4 + k) (by simp only [SB_BYTES]; omega)]
    unfold enc_sb
    simp [show ¬ (4 + k < 4) by omega, show 4 + k < 8 by omega])
  have e3 : dec32 m 8 = b.free_blocks := dec32_byte32 m 8 _ r3 (by
    intro k hk
    rw [hm (8 + k) (by simp only [SB_BYTES]; omega)]
    unfold enc_sb
    simp [show ¬ (8 + k < 4) by omega, show ¬ (8 + k < 8) by omega, show 8 + k < 12 by omega])
  have e4 : dec32 m 12 = b.total_inodes := dec32_byte32 m 12 _ r4 (by
    intro k hk
    rw [hm (12 + k) (by simp only [SB_BYTES]; omega)]
    unfold enc_sb
    simp [show ¬ (12 + k < 4) by omega, show ¬ (12 + k < 8) by omega,
      show ¬ (12 + k < 12) by omega, show 12 + k < 16 by omega])
  have e5 : dec32 m 16 = b.free_inodes := dec32_byte32 m 16 _ r5 (by
    intro k hk
    rw [hm (16 + k) (by simp only [SB_BYTES]; omega)]
    unfold enc_sb
    simp [show ¬ (16 + k < 4) by omega, show ¬ (16 + k < 8) by omega,
      show ¬ (16 + k < 12) by omega, show ¬ (16 + k < 16) by omega, show 16 + k < 20 by omega])
  unfold dec_sb
  rw [e1, e2, e3, e4, e5]

theorem testBit_byte :
    ∀ (b0 b1 b2 b3 b4 b5 b6 b7 : Bool) (k : Fin 8),
      Nat.testBit ((if b0 then 1 else 0) + (if b1 then 2 else 0) + (if b2 then 4 else 0)
        + (if b3 then 8 else 0) + (if b4 then 16 else 0) + (if b5 then 32 else 0)
        + (if b6 then 64 else 0) + (if b7 then 128 else 0)) k.val
      = (if k.val = 0 then b0 else if k.val = 1 then b1 else if k.val = 2 then b2
         else if k.val = 3 then b3 else if k.val = 4 then b4 else if k.val = 5 then b5
         else if k.val = 6 then b6 else b7) := by
  decide

theorem dec_bitmap_enc_bitmap (m : Nat → Nat) (bm : Fin (8 * BLOCK_SIZE) → Bool)
    (hm : ∀ p, p < BLOCK_SIZE → m p = enc_bitmap bm p) : dec_bitmap m = bm := by
  funext i
  unfold dec_bitmap
  have hi := i.isLt
  have hq : i.val / 8 < BLOCK_SIZE := by omega
  rw [hm _ hq]
  unfold enc_bitmap
  have hk : i.val % 8 < 8 := Nat.mod_lt _ (by omega)
  have := testBit_byte (aget bm (8 * (i.val / 8))) (aget bm (8 * (i.val / 8) + 1))
    (aget bm (8 * (i.val / 8) + 2)) (aget bm (8 * (i.val / 8) + 3))
    (aget bm (8 * (i.val / 8) + 4)) (aget bm (8 * (i.val / 8) + 5))
    (aget bm (8 * (i.val / 8) + 6)) (aget bm (8 * (i.val / 8) + 7)) ⟨i.val % 8, hk⟩
  simp only at this
  rw [this]
  have hdm : 8 * (i.val / 8) + i.val % 8 = i.val := Nat.div_add_mod _ _
  split_ifs with c0 c1 c2 c3 c4 c5 c6
  · rw [show 8 * (i.val / 8) = i.val by omega, aget_fin]
  · rw [show 8 * (i.val / 8) + 1 = i.val by omega, aget_fin]
  · rw [show 8 * (i.val / 8) + 2 = i.val by omega, aget_fin]
  · rw [show 8 * (i.val / 8) + 3 = i.val by omega, aget_fin]
  · rw [show 8 * (i.val / 8) + 4 = i.val by omega, aget_fin]
  · rw [show 8 * (i.val / 8) + 5 = i.val by omega, aget_fin]
  · rw [show 8 * (i.val / 8) + 6 = i.val by omega, aget_fin]
  · rw [show 8 * (i.val / 8) + 7 = i.val by omega, aget_fin]

theorem enc_itab_at (t : Fin MAX_FILES → inode) (i : Fin MAX_FILES) (k : Nat)
    (hk : k < INODE_BYTES) : enc_itab t (INODE_BYTES * i.val + k) = enc_inode (t i) k := by
  unfold enc_itab
  have h1 : (INODE_BYTES * i.val + k) / INODE_BYTES = i.val := by
    simp only [INODE_BYTES] at *
    omega
  have h2 : (INODE_BYTES * i.val + k) % INODE_BYTES = k := by
    simp only [INODE_BYTES] at *
    omega
  rw [h1, h2, aget_fin]

theorem dec_inode_enc_inode (m : Nat → Nat) (off : Nat) (n : inode)
    (hu : is_int32 n.used) (hs : is_int32 n.size) (hb : ∀ k, is_int32 (n.blocks k))
    (hm : ∀ p, p < INODE_BYTES → m (off + p) = enc_inode n p) : dec_inode m off = n := by
  have e1 : dec32 m off = n.used := dec32_byte32 m off _ hu (by
    intro k hk
    rw [hm k (by simp only [INODE_BYTES]; omega)]
    unfold enc_inode
    simp [show k < 4 from hk])
  have e2 : dec32 m (off + 4) = n.size := dec32_byte32 m (off + 4) _ hs (by
    intro k hk
    rw [Nat.add_assoc, hm (4 + k) (by simp only [INODE_BYTES]; omega)]
    unfold enc_inode
    simp [show ¬ (4 + k < 4) by omega, show 4 + k < 8 by omega])
  have e3 : (fun j : Fin MAX_FILENAME => m (off + 8 + j.val)) = n.name := by
    funext j
    have hj := j.isLt
    simp only [MAX_FILENAME] at hj
    rw [Nat.add_assoc, hm (8 + j.val) (by simp only [INODE_BYTES]; omega)]
    unfold enc_inode
    simp only [show ¬ (8 + j.val < 4) by omega, show ¬ (8 + j.val < 8) by omega,
      show 8 + j.val < 36 by omega, if_false, if_true]
    rw [show 8 + j.val - 8 = j.val by omega, aget_fin]
  have e4 : (fun k : Fin MAX_DIRECT_BLOCKS => dec32 m (off + 36 + 4 * k.val)) = n.blocks := by
    funext k
    have hk := k.isLt
    simp only [MAX_DIRECT_BLOCKS] at hk
    apply dec32_byte32 _ _ _ (hb k)
    intro b hb4
    rw [show off + 36 + 4 * k.val + b = off + (36 + 4 * k.val + b) by omega,
      hm (36 + 4 * k.val + b) (by simp only [INODE_BYTES]; omega)]
    unfold enc_inode
    simp only [show ¬ (36 + 4 * k.val + b < 4) by omega, show ¬ (36 + 4 * k.val + b < 8) by omega,
      show ¬ (36 + 4 * k.val + b < 36) by omega, show 36 + 4 * k.val + b < 84 by omega,
      if_false, if_true]
    rw [show (36 + 4 * k.val + b - 36) / 4 = k.val by omega,
      show (36 + 4 * k.val + b - 36) % 4 = b by omega, aget_fin]
  unfold dec_inode
  rw [e1, e2, e3, e4]

theorem dec_itab_enc_itab (m : Nat → Nat) (t : Fin MAX_FILES → inode)
    (hr : ∀ i, is_int32 (t i).used ∧ is_int32 (t i).size ∧ ∀ k, is_int32 ((t i).blocks k))
    (hm : ∀ p, p < ITAB_BYTES → m p = enc_itab t p) : dec_itab m = t := by
  funext i
  unfold dec_itab
  obtain ⟨r1, r2, r3⟩ := hr i
  apply dec_inode_enc_inode m _ _ r1 r2 r3
  intro p hp
  have hi := i.isLt
  rw [hm _ (by simp only [ITAB_BYTES, INODE_BYTES, MAX_FILES] at *; omega)]
  exact enc_itab_at t i p hp

/-! ## Metadata on the image -/

theorem dev_count_full (offer : Int) (n : Nat) (h : (n : Int) ≤ offer) :
    dev_count true offer n = (n : Int) := by
  unfold dev_count
  have : ¬ (true = false ∨ offer < 0) := by
    simp
    omega
  rw [if_neg this]
  exact min_eq_right h

theorem three_regions (img e1 e2 e3 : Nat → Nat) :
    (∀ p, p < SB_BYTES →
      dev_write (dev_write (dev_write img 0 e1 SB_BYTES) BLOCK_SIZE e2 BLOCK_SIZE)
        (2 * BLOCK_SIZE) e3 ITAB_BYTES p = e1 p)
    ∧ (∀ p, p < BLOCK_SIZE →
      dev_write (dev_write (dev_write img 0 e1 SB_BYTES) BLOCK_SIZE e2 BLOCK_SIZE)
        (2 * BLOCK_SIZE) e3 ITAB_BYTES (BLOCK_SIZE + p) = e2 p)
    ∧ (∀ p, p < ITAB_BYTES →
      dev_write (dev_write (dev_write img 0 e1 SB_BYTES) BLOCK_SIZE e2 BLOCK_SIZE)
        (2 * BLOCK_SIZE) e3 ITAB_BYTES (2 * BLOCK_SIZE + p) = e3 p) := by
  simp only [SB_BYTES, BLOCK_SIZE, ITAB_BYTES, MAX_FILES, INODE_BYTES, dev_write]
  refine ⟨?_, ?_, ?_⟩
  · intro p hp
    rw [if_neg (by omega), if_neg (by omega), if_pos (by omega)]
    rfl
  · intro p hp
    rw [if_neg (by omega), if_pos (by omega)]
    exact congrArg e2 (by omega)
  · intro p hp
    rw [if_pos (by omega)]
    exact congrArg e3 (by omega)

theorem flush_metadata_image (s : FS) (d : Dev) (ho : s.fd_open = true) (hd : meta_full d) :
    (flush_metadata s d).image
      = dev_write (dev_write (dev_write s.image 0 (enc_sb s.sb) SB_BYTES) BLOCK_SIZE
          (enc_bitmap s.bitmap) BLOCK_SIZE) (2 * BLOCK_SIZE) (enc_itab s.inode_table)
          ITAB_BYTES := by
  unfold flush_metadata do_write
  simp only [ho]
  have c1 : dev_count true (d.meta_wr 0) SB_BYTES = (SB_BYTES : Int) :=
    dev_count_full _ _ (by
      have := (hd 0).1
      simp only [SB_BYTES, ITAB_BYTES, MAX_FILES, INODE_BYTES] at *
      omega)
  have c2 : dev_count true (d.meta_wr 1) BLOCK_SIZE = (BLOCK_SIZE : Int) :=
    dev_count_full _ _ (by
      have := (hd 1).1
      simp only [BLOCK_SIZE, ITAB_BYTES, MAX_FILES, INODE_BYTES] at *
      omega)
  have c3 : dev_count true (d.meta_wr 2) ITAB_BYTES = (ITAB_BYTES : Int) :=
    dev_count_full _ _ (hd 2).1
  rw [c1, c2, c3]
  simp only [Int.toNat_ofNat]

theorem countP_lt_range (c : Nat) :
    ∀ n : Nat, (List.range n).countP (fun i => decide (i < c)) = min n c := by
  intro n
  induction n with
  | zero => simp
  | succ n ih =>
    rw [List.range_succ, List.countP_append, ih]
    by_cases h : n < c
    · simp [h]
      omega
    · simp [h]
      omega

theorem popcount_le (bm : Fin (8 * BLOCK_SIZE) → Bool)
    (h : ∀ b : Nat, MAX_BLOCKS ≤ b → aget bm b = false) : popcount bm ≤ MAX_BLOCKS := by
  unfold popcount
  have h1 : (List.range (8 * BLOCK_SIZE)).countP (fun i => aget bm i)
      ≤ (List.range (8 * BLOCK_SIZE)).countP (fun i => decide (i < MAX_BLOCKS)) := by
    apply List.countP_mono_left
    intro x _ hx
    by_contra hc
    have hge : MAX_BLOCKS ≤ x := by simpa using hc
    rw [h x hge] at hx
    exact Bool.false_ne_true hx
  rw [countP_lt_range] at h1
  exact le_trans h1 (min_le_right _ _)

theorem used_count_le (t : Fin MAX_FILES → inode) : used_count t ≤ MAX_FILES := by
  unfold used_count
  have := List.countP_le_length (fun i => decide ((aget t i).used = 1))
    (l := List.range MAX_FILES)
  simpa using this

/-- Every integer field of a state satisfying the invariant is a C `int`. -/
theorem Inv_ranges (s : FS) (h : Inv s) :
    (is_int32 s.sb.total_blocks ∧ is_int32 s.sb.block_size ∧ is_int32 s.sb.free_blocks
      ∧ is_int32 s.sb.total_inodes ∧ is_int32 s.sb.free_inodes)
    ∧ (∀ i, is_int32 (s.inode_table i).used ∧ is_int32 (s.inode_table i).size
      ∧ ∀ k, is_int32 ((s.inode_table i).blocks k))
    ∧ 0 ≤ s.sb.free_blocks ∧ s.sb.free_blocks ≤ MAX_BLOCKS
    ∧ 0 ≤ s.sb.free_inodes ∧ s.sb.free_inodes ≤ MAX_FILES := by
  obtain ⟨g1, g2, g3⟩ := h.geom
  have h1 := h.i1
  have h2 := h.i2
  unfold I1 at h1
  unfold I2 at h2
  have p1 := popcount_le s.bitmap h.hi_clear
  have p2 := used_count_le s.inode_table
  unfold is_int32
  simp only [MAX_BLOCKS, MAX_FILES, BLOCK_SIZE] at *
  refine ⟨⟨by omega, by omega, by omega, by omega, by omega⟩, ?_, by omega, by omega, by omega,
    by omega⟩
  intro i
  refine ⟨?_, ?_, ?_⟩
  · rcases h.used01 i with hu | hu <;> omega
  · have := h.size_rng i
    omega
  · intro k
    have := h.blk_range i k
    simp only [MAX_BLOCKS] at this
    omega

theorem Inv_fs_unmount (s : FS) (d : Dev) (h : Inv s) (hd : meta_full d) :
    Inv (fs_unmount s d) := by
  unfold fs_unmount
  by_cases hm : s.disk_fd ≥ 0
  · rw [if_pos hm]
    have ho : s.fd_open = true := by
      rcases h.fd_ok with hf | hf
      · omega
      · exact hf.2
    obtain ⟨f1, f2, f3, f4, f5⟩ := flush_metadata_frame s d
    have himg := flush_metadata_image s d ho hd
    obtain ⟨t1, t2, t3⟩ := three_regions s.image (enc_sb s.sb) (enc_bitmap s.bitmap)
      (enc_itab s.inode_table)
    constructor
    · simp only [f2]; exact h.geom
    · have := h.i1; unfold I1 at *; simp only [f2, f3]; exact this
    · have := h.i2; unfold I2 at *; simp only [f2, f1]; exact this
    · simp only [f1]; exact h.used01
    · simp only [f3]; exact h.resv
    · simp only [f3]; exact h.hi_clear
    · simp only [f1]; exact h.blk_range
    · simp only [f1, f3]; exact h.blk_set
    · simp only [f1]; exact h.blk_inj
    · simp only [f1, f3]; exact h.blk_surj
    · have := h.names; unfold I4 at *; simp only [f1]; exact this
    · simp only [f1]; exact h.size_rng
    · left; exact ⟨rfl, rfl⟩
    · intro _
      refine ⟨?_, ?_, ?_⟩
      · simp only [f2, himg]; exact t1
      · simp only [f3, himg]; exact t2
      · simp only [f1, himg]; exact t3
  · rw [if_neg hm]
    exact h

/-! ## `fs_format` and `fs_mount` keep the invariant -/

theorem format_bitmap_bit (b : Nat) : aget format_bitmap b = decide (b < 10) := by
  unfold aget
  by_cases hb : b < 8 * BLOCK_SIZE
  · simp only [hb, dite_true]
    simp only [format_bitmap, List.range_succ, List.range_zero, List.nil_append, List.foldl_append,
      List.foldl_cons, List.foldl_nil, aset]
    by_cases h10 : b < 10
    · interval_cases b <;> simp
    · simp only [h10, decide_False]
      clear hb
      repeat (rw [if_neg (by omega)])
  · simp only [hb, dite_false]
    simp only [BLOCK_SIZE] at hb
    have : ¬ b < 10 := by omega
    simp [this]

theorem popcount_format : popcount format_bitmap = 10 := by
  unfold popcount
  rw [countP_range_congr (fun i => decide (i < 10)) (fun i => aget format_bitmap i) _
    (fun j _ => format_bitmap_bit j), countP_lt_range]
  simp [BLOCK_SIZE]

theorem used_count_format : used_count (fun _ => format_inode) = 0 := by
  unfold used_count
  rw [List.countP_eq_zero]
  intro a ha
  rw [List.mem_range] at ha
  simp [aget, ha, format_inode]

theorem Inv_fresh (s : FS) (ht : s.inode_table = fun _ => format_inode) (hs : s.sb = format_sb)
    (hb : s.bitmap = format_bitmap) (hd : s.disk_fd = -1) (ho : s.fd_open = false)
    (hi : on_image s) : Inv s := by
  constructor
  · rw [hs]; exact ⟨rfl, rfl, rfl⟩
  · unfold I1
    rw [hb, hs, popcount_format]
    simp [format_sb, MAX_BLOCKS]
  · unfold I2
    rw [ht, hs, used_count_format]
    simp [format_sb]
  · intro i; rw [ht]; left; rfl
  · intro b hb2; rw [hb, format_bitmap_bit]; simpa using hb2
  · intro b hb2
    rw [hb, format_bitmap_bit]
    simp only [MAX_BLOCKS] at hb2
    simp
    omega
  · intro i k; rw [ht]; left; rfl
  · intro i k hu
    rw [ht] at hu
    simp [format_inode] at hu
  · intro i i2 k k2 hu
    rw [ht] at hu
    simp [format_inode] at hu
  · intro b hb1 _ hb3
    rw [hb, format_bitmap_bit] at hb3
    simp at hb3
    omega
  · intro i j hu
    rw [ht] at hu
    simp [format_inode] at hu
  · intro i; rw [ht]; simp [format_inode]
  · left; exact ⟨hd, ho⟩
  · intro _; exact hi

theorem Inv_change_fd (s s2 : FS) (h : Inv s)
    (ht : s2.inode_table = s.inode_table) (hs : s2.sb = s.sb) (hb : s2.bitmap = s.bitmap)
    (hfd : (s2.disk_fd = -1 ∧ s2.fd_open = false ∧ on_image s2)
      ∨ (0 ≤ s2.disk_fd ∧ s2.fd_open = true)) : Inv s2 := by
  constructor
  · rw [hs]; exact h.geom
  · have := h.i1; unfold I1 at *; rw [hs, hb]; exact this
  · have := h.i2; unfold I2 at *; rw [hs, ht]; exact this
  · rw [ht]; exact h.used01
  · rw [hb]; exact h.resv
  · rw [hb]; exact h.hi_clear
  · rw [ht]; exact h.blk_range
  · rw [ht, hb]; exact h.blk_set
  · rw [ht]; exact h.blk_inj
  · rw [ht, hb]; exact h.blk_surj
  · have := h.names; unfold I4 at *; rw [ht]; exact this
  · rw [ht]; exact h.size_rng
  · rcases hfd with hf | hf
    · exact Or.inl ⟨hf.1, hf.2.1⟩
    · exact Or.inr hf
  · intro h1
    rcases hfd with hf | hf
    · exact hf.2.2
    · omega

theorem do_write_ret (s : FS) (offer : Int) (off : Nat) (src : Nat → Nat) (n : Nat)
    (h : (do_write s offer off src n).1 = (n : Int)) :
    (do_write s offer off src n).2.image = dev_write s.image off src n := by
  unfold do_write at h ⊢
  simp only at h ⊢
  rw [h]
  simp

theorem host_open_neg (d : Dev) (h : host_open d < 0) : host_open d = -1 := by
  unfold host_open at *
  split_ifs at h ⊢ with hc
  · rfl
  · omega

/-- A successful `fs_format` leaves a state that satisfies the invariant. -/
theorem fs_format_ok (s : FS) (d : Dev) (p : Option (List Nat))
    (h : (fs_format s d p).1 = 0) : Inv (fs_format s d p).2 := by
  unfold fs_format at h ⊢
  cases p with
  | none => simp at h
  | some l =>
    simp only at h ⊢
    by_cases c1 : strlen l = 0 ∨ s.disk_fd ≠ -1
    · rw [if_pos c1] at h; simp at h
    rw [if_neg c1] at h ⊢
    by_cases c2 : host_open d < 0
    · rw [if_pos c2] at h; simp at h
    rw [if_neg c2] at h ⊢
    by_cases c3 : (do_write
        { s with disk_fd := host_open d, fd_open := true, sb := format_sb, inode_table := fun _ => format_inode, bitmap := format_bitmap }
        (d.meta_wr 0) 0 (enc_sb format_sb) SB_BYTES).1 ≠ (SB_BYTES : Int)
    · rw [if_pos c3] at h; simp at h
    rw [if_neg c3] at h ⊢
    have e3 := do_write_ret _ _ _ _ _ (not_not.mp c3)
    obtain ⟨a1, a2, a3, a4, a5⟩ := do_write_frame
        { s with disk_fd := host_open d, fd_open := true, sb := format_sb, inode_table := fun _ => format_inode, bitmap := format_bitmap }
        (d.meta_wr 0) 0 (enc_sb format_sb) SB_BYTES
    generalize do_write
        { s with disk_fd := host_open d, fd_open := true, sb := format_sb, inode_table := fun _ => format_inode, bitmap := format_bitmap }
        (d.meta_wr 0) 0 (enc_sb format_sb) SB_BYTES = w1 at *
    by_cases c4 : (do_write w1.2 (d.meta_wr 1) BLOCK_SIZE (enc_bitmap format_bitmap)
        BLOCK_SIZE).1 ≠ (BLOCK_SIZE : Int)
    · rw [if_pos c4] at h; simp at h
    rw [if_neg c4] at h ⊢
    have e4 := do_write_ret _ _ _ _ _ (not_not.mp c4)
    obtain ⟨b1, b2, b3, b4, b5⟩ := do_write_frame w1.2 (d.meta_wr 1) BLOCK_SIZE
      (enc_bitmap format_bitmap) BLOCK_SIZE
    generalize do_write w1.2 (d.meta_wr 1) BLOCK_SIZE (enc_bitmap format_bitmap)
        BLOCK_SIZE = w2 at *
    by_cases c5 : (do_write w2.2 (d.meta_wr 2) (BLOCK_SIZE * 2)
        (enc_itab fun _ => format_inode) ITAB_BYTES).1 ≠ (ITAB_BYTES : Int)
    · rw [if_pos c5] at h; simp at h
    rw [if_neg c5] at h ⊢
    have e5 := do_write_ret _ _ _ _ _ (not_not.mp c5)
    obtain ⟨g1, g2, g3, g4, g5⟩ := do_write_frame w2.2 (d.meta_wr 2) (BLOCK_SIZE * 2)
      (enc_itab fun _ => format_inode) ITAB_BYTES
    generalize do_write w2.2 (d.meta_wr 2) (BLOCK_SIZE * 2)
        (enc_itab fun _ => format_inode) ITAB_BYTES = w3 at *
    simp only at a1 a2 a3 e3
    obtain ⟨t1, t2, t3⟩ := three_regions s.image (enc_sb format_sb) (enc_bitmap format_bitmap)
      (enc_itab fun _ => format_inode)
    have himg : w3.2.image = dev_write (dev_write (dev_write s.image 0 (enc_sb format_sb)
        SB_BYTES) BLOCK_SIZE (enc_bitmap format_bitmap) BLOCK_SIZE) (2 * BLOCK_SIZE)
        (enc_itab fun _ => format_inode) ITAB_BYTES := by
      rw [e5, e4, e3, Nat.mul_comm BLOCK_SIZE 2]
    apply Inv_fresh
    · simp only [g1, b1, a1]
    · simp only [g2, b2, a2]
    · simp only [g3, b3, a3]
    · rfl
    · rfl
    · refine ⟨?_, ?_, ?_⟩
      · simp only [g2, b2, a2, himg]; exact t1
      · simp only [g3, b3, a3, himg]; exact t2
      · simp only [g1, b1, a1, himg]; exact t3

theorem do_write_full_ret (s : FS) (offer : Int) (off : Nat) (src : Nat → Nat) (n : Nat)
    (ho : s.fd_open = true) (h : (n : Int) ≤ offer) :
    (do_write s offer off src n).1 = (n : Int) := by
  unfold do_write
  simp only [ho]
  exact dev_count_full offer n h

theorem meta_full_wr (d : Dev) (hd : meta_full d) (k : Nat) :
    (SB_BYTES : Int) ≤ d.meta_wr k ∧ (BLOCK_SIZE : Int) ≤ d.meta_wr k
    ∧ (ITAB_BYTES : Int) ≤ d.meta_wr k := by
  have := (hd k).1
  simp only [SB_BYTES, BLOCK_SIZE, ITAB_BYTES, MAX_FILES, INODE_BYTES] at *
  omega

theorem meta_full_rd (d : Dev) (hd : meta_full d) (k : Nat) :
    (SB_BYTES : Int) ≤ d.meta_rd k ∧ (BLOCK_SIZE : Int) ≤ d.meta_rd k
    ∧ (ITAB_BYTES : Int) ≤ d.meta_rd k := by
  have := (hd k).2
  simp only [SB_BYTES, BLOCK_SIZE, ITAB_BYTES, MAX_FILES, INODE_BYTES] at *
  omega

theorem Inv_fs_format (s : FS) (d : Dev) (p : Option (List Nat)) (h : Inv s)
    (hd : meta_full d) : Inv (fs_format s d p).2 := by
  by_cases hret : (fs_format s d p).1 = 0
  · exact fs_format_ok s d p hret
  unfold fs_format at hret ⊢
  cases p with
  | none => exact h
  | some l =>
    simp only at hret ⊢
    by_cases c1 : strlen l = 0 ∨ s.disk_fd ≠ -1
    · rw [if_pos c1]; exact h
    rw [if_neg c1] at hret ⊢
    simp only [not_or, not_not] at c1
    by_cases c2 : host_open d < 0
    · rw [if_pos c2]
      refine Inv_change_fd s _ h ?_ ?_ ?_ ?_
      · rfl
      · rfl
      · rfl
      · left
        exact ⟨host_open_neg d c2, rfl, h.img_ok c1.2⟩
    rw [if_neg c2] at hret ⊢
    exfalso
    have r1 := do_write_full_ret
      { s with disk_fd := host_open d, fd_open := true, sb := format_sb, inode_table := fun _ => format_inode, bitmap := format_bitmap }
      (d.meta_wr 0) 0 (enc_sb format_sb) SB_BYTES rfl (meta_full_wr d hd 0).1
    obtain ⟨a1, a2, a3, a4, a5⟩ := do_write_frame
      { s with disk_fd := host_open d, fd_open := true, sb := format_sb, inode_table := fun _ => format_inode, bitmap := format_bitmap }
      (d.meta_wr 0) 0 (enc_sb format_sb) SB_BYTES
    generalize do_write
      { s with disk_fd := host_open d, fd_open := true, sb := format_sb, inode_table := fun _ => format_inode, bitmap := format_bitmap }
      (d.meta_wr 0) 0 (enc_sb format_sb) SB_BYTES = w1 at *
    rw [if_neg (by rw [r1]; simp)] at hret
    have r2 := do_write_full_ret w1.2 (d.meta_wr 1) BLOCK_SIZE (enc_bitmap format_bitmap)
      BLOCK_SIZE (by rw [a5]) (meta_full_wr d hd 1).2.1
    obtain ⟨b1, b2, b3, b4, b5⟩ := do_write_frame w1.2 (d.meta_wr 1) BLOCK_SIZE
      (enc_bitmap format_bitmap) BLOCK_SIZE
    generalize do_write w1.2 (d.meta_wr 1) BLOCK_SIZE (enc_bitmap format_bitmap)
        BLOCK_SIZE = w2 at *
    rw [if_neg (by rw [r2]; simp)] at hret
    have r3 := do_write_full_ret w2.2 (d.meta_wr 2) (BLOCK_SIZE * 2)
      (enc_itab fun _ => format_inode) ITAB_BYTES (by rw [b5, a5]) (meta_full_wr d hd 2).2.2
    rw [if_neg (by rw [r3]; simp)] at hret
    simp at hret

theorem load_sb (s : FS) (h : Inv s) (hi : on_image s) :
    dec_sb (dev_read s.image 0 (enc_sb s.sb) SB_BYTES) = s.sb := by
  apply dec_sb_enc_sb _ _ (Inv_ranges s h).1
  intro p hp
  unfold dev_read
  rw [if_pos hp, Nat.zero_add]
  exact hi.1 p hp

theorem load_bitmap (s : FS) (hi : on_image s) :
    dec_bitmap (dev_read (fun p => s.image (BLOCK_SIZE + p)) 0 (enc_bitmap s.bitmap) BLOCK_SIZE)
      = s.bitmap := by
  apply dec_bitmap_enc_bitmap
  intro p hp
  unfold dev_read
  rw [if_pos hp, Nat.zero_add]
  exact hi.2.1 p hp

theorem load_itab (s : FS) (h : Inv s) (hi : on_image s) :
    dec_itab (dev_read (fun p => s.image (2 * BLOCK_SIZE + p)) 0 (enc_itab s.inode_table)
      ITAB_BYTES) = s.inode_table := by
  apply dec_itab_enc_itab _ _ (Inv_ranges s h).2.1
  intro p hp
  unfold dev_read
  rw [if_pos hp, Nat.zero_add]
  exact hi.2.2 p hp

theorem sb_valid_of_Inv (s : FS) (h : Inv s) : ¬ sb_invalid s.sb := by
  obtain ⟨_, _, r1, r2, r3, r4⟩ := Inv_ranges s h
  obtain ⟨g1, g2, g3⟩ := h.geom
  unfold sb_invalid
  omega

theorem Inv_fs_mount (s : FS) (d : Dev) (p : Option (List Nat)) (h : Inv s)
    (hd : meta_full d ∨ (fs_mount s d p).1 = 0) : Inv (fs_mount s d p).2 := by
  unfold fs_mount at hd ⊢
  cases p with
  | none => exact h
  | some l =>
    simp only at hd ⊢
    by_cases c1 : s.disk_fd ≥ 0
    · rw [if_pos c1]; exact h
    rw [if_neg c1] at hd ⊢
    have hfd : s.disk_fd = -1 := by
      rcases h.fd_ok with hf | hf
      · exact hf.1
      · omega
    have hi := h.img_ok hfd
    by_cases c2 : host_open d < 0
    · rw [if_pos c2]
      refine Inv_change_fd s _ h ?_ ?_ ?_ ?_
      · rfl
      · rfl
      · rfl
      · left
        exact ⟨host_open_neg d c2, rfl, hi⟩
    rw [if_neg c2] at hd ⊢
    have hr1 : dev_count true (d.meta_rd 0) SB_BYTES = (SB_BYTES : Int) := by
      rcases hd with hm | hr
      · exact dev_count_full _ _ (meta_full_rd d hm 0).1
      · by_contra hc
        rw [if_pos hc] at hr
        simp at hr
    rw [hr1] at hd ⊢
    have e0 : ¬ ((SB_BYTES : Int) ≤ 0) := by simp [SB_BYTES]
    simp only [e0, if_false, Int.toNat_ofNat, ne_eq, not_true_eq_false, load_sb s h hi,
      sb_valid_of_Inv s h] at hd ⊢
    have hr2 : dev_count true (d.meta_rd 1) BLOCK_SIZE = (BLOCK_SIZE : Int) := by
      rcases hd with hm | hr
      · exact dev_count_full _ _ (meta_full_rd d hm 1).2.1
      · by_contra hc
        rw [if_pos hc] at hr
        simp at hr
    rw [hr2] at hd ⊢
    have e1 : ¬ ((BLOCK_SIZE : Int) ≤ 0) := by simp [BLOCK_SIZE]
    simp only [e1, if_false, Int.toNat_ofNat, not_true_eq_false, load_bitmap s hi] at hd ⊢
    have hr3 : dev_count true (d.meta_rd 2) ITAB_BYTES = (ITAB_BYTES : Int) := by
      rcases hd with hm | hr
      · exact dev_count_full _ _ (meta_full_rd d hm 2).2.2
      · by_contra hc
        rw [if_pos hc] at hr
        simp at hr
    rw [hr3]
    have e2 : ¬ ((ITAB_BYTES : Int) ≤ 0) := by simp [ITAB_BYTES, MAX_FILES, INODE_BYTES]
    simp only [e2, if_false, Int.toNat_ofNat, not_true_eq_false, load_itab s h hi]
    refine Inv_change_fd s _ h ?_ ?_ ?_ ?_
    · rfl
    · rfl
    · rfl
    · right
      exact ⟨by show 0 ≤ host_open d; omega, rfl⟩

/-- Every reachable state satisfies the invariant. -/
theorem Reachable_Inv (s : FS) (h : Reachable s) : Inv s := by
  induction h with
  | init s0 d0 d1 p0 p1 h0 h1 =>
    exact Inv_fs_mount _ d1 p1 (fs_format_ok s0 d0 p0 h0) (Or.inr h1)
  | create s d fn _ ih => exact Inv_fs_create s d fn ih
  | delete s d fn _ ih => exact Inv_fs_delete s d fn ih
  | write s d fn data size _ hsz ih => exact Inv_fs_write s d fn data size ih hsz
  | read s d fn buf size _ ih =>
    have : (fs_read s d fn buf size).2.2 = s := by
      unfold fs_read
      cases fn <;> cases buf <;> simp only <;> split_ifs <;> rfl
    rw [this]; exact ih
  | list s buf mx _ ih =>
    have : (fs_list s buf mx).2.2 = s := by
      unfold fs_list
      by_cases h0 : mx = 0
      · rw [if_pos h0]
      · rw [if_neg h0]
        cases buf with
        | none => rfl
        | some b =>
          simp only
          by_cases h1 : mx < 0 ∨ mx > (MAX_FILES : Int) ∨ s.disk_fd = -1
          · rw [if_pos h1]
          · rw [if_neg h1]
    rw [this]; exact ih
  | format s d p _ hd ih => exact Inv_fs_format s d p ih hd
  | mount s d p _ hd ih => exact Inv_fs_mount s d p ih (Or.inl hd)
  | unmount s d _ hd ih => exact Inv_fs_unmount s d ih hd

/-! ## Lifecycle calls on a reliable device -/

theorem meta_full_dev_ok : meta_full dev_ok := by
  intro k
  simp [dev_ok, ITAB_BYTES, MAX_FILES, INODE_BYTES]

theorem host_open_ok (d : Dev) (h : 0 ≤ d.open_fd) : host_open d = d.open_fd := by
  unfold host_open
  rw [if_neg (by omega)]

theorem fs_format_full (s : FS) (d : Dev) (l : List Nat) (hfd : s.disk_fd = -1)
    (hl : strlen l ≠ 0) (ho : 0 ≤ d.open_fd) (hd : meta_full d) :
    (fs_format s d (some l)).1 = 0 := by
  unfold fs_format
  simp only
  rw [if_neg (by simp [hl, hfd]), if_neg (by rw [host_open_ok d ho]; omega)]
  have r1 := do_write_full_ret
    { s with disk_fd := host_open d, fd_open := true, sb := format_sb, inode_table := fun _ => format_inode, bitmap := format_bitmap }
    (d.meta_wr 0) 0 (enc_sb format_sb) SB_BYTES rfl (meta_full_wr d hd 0).1
  obtain ⟨a1, a2, a3, a4, a5⟩ := do_write_frame
    { s with disk_fd := host_open d, fd_open := true, sb := format_sb, inode_table := fun _ => format_inode, bitmap := format_bitmap }
    (d.meta_wr 0) 0 (enc_sb format_sb) SB_BYTES
  generalize do_write
    { s with disk_fd := host_open d, fd_open := true, sb := format_sb, inode_table := fun _ => format_inode, bitmap := format_bitmap }
    (d.meta_wr 0) 0 (enc_sb format_sb) SB_BYTES = w1 at *
  rw [if_neg (by rw [r1]; simp)]
  have r2 := do_write_full_ret w1.2 (d.meta_wr 1) BLOCK_SIZE (enc_bitmap format_bitmap)
    BLOCK_SIZE (by rw [a5]) (meta_full_wr d hd 1).2.1
  obtain ⟨b1, b2, b3, b4, b5⟩ := do_write_frame w1.2 (d.meta_wr 1) BLOCK_SIZE
    (enc_bitmap format_bitmap) BLOCK_SIZE
  generalize do_write w1.2 (d.meta_wr 1) BLOCK_SIZE (enc_bitmap format_bitmap)
      BLOCK_SIZE = w2 at *
  rw [if_neg (by rw [r2]; simp)]
  have r3 := do_write_full_ret w2.2 (d.meta_wr 2) (BLOCK_SIZE * 2)
    (enc_itab fun _ => format_inode) ITAB_BYTES (by rw [b5, a5]) (meta_full_wr d hd 2).2.2
  rw [if_neg (by rw [r3]; simp)]

/-- Mounting the image that holds the in-memory metadata succeeds and loads it back. -/
theorem fs_mount_full (s : FS) (d : Dev) (l : List Nat) (h : Inv s) (hfd : s.disk_fd = -1)
    (ho : 0 ≤ d.open_fd) (hd : meta_full d) :
    fs_mount s d (some l) = (0, { s with disk_fd := d.open_fd, fd_open := true }) := by
  have hi := h.img_ok hfd
  unfold fs_mount
  simp only
  rw [if_neg (by omega), if_neg (by rw [host_open_ok d ho]; omega)]
  have hr1 : dev_count true (d.meta_rd 0) SB_BYTES = (SB_BYTES : Int) :=
    dev_count_full _ _ (meta_full_rd d hd 0).1
  have hr2 : dev_count true (d.meta_rd 1) BLOCK_SIZE = (BLOCK_SIZE : Int) :=
    dev_count_full _ _ (meta_full_rd d hd 1).2.1
  have hr3 : dev_count true (d.meta_rd 2) ITAB_BYTES = (ITAB_BYTES : Int) :=
    dev_count_full _ _ (meta_full_rd d hd 2).2.2
  rw [hr1, hr2, hr3]
  have e0 : ¬ ((SB_BYTES : Int) ≤ 0) := by simp [SB_BYTES]
  have e1 : ¬ ((BLOCK_SIZE : Int) ≤ 0) := by simp [BLOCK_SIZE]
  have e2 : ¬ ((ITAB_BYTES : Int) ≤ 0) := by simp [ITAB_BYTES, MAX_FILES, INODE_BYTES]
  simp only [e0, e1, e2, if_false, Int.toNat_ofNat, ne_eq, not_true_eq_false, load_sb s h hi,
    sb_valid_of_Inv s h, load_bitmap s hi, load_itab s h hi, host_open_ok d ho]

theorem fresh_mounted_reachable : Reachable fresh_mounted := by
  unfold fresh_mounted
  have h0 : (fs_format blank dev_ok (some [100])).1 = 0 :=
    fs_format_full blank dev_ok [100] rfl (by decide) (by decide) meta_full_dev_ok
  refine Reachable.init blank dev_ok dev_ok (some [100]) (some [100]) h0 ?_
  have hfd : (fs_format blank dev_ok (some [100])).2.disk_fd = -1 := by
    have hinv := fs_format_ok blank dev_ok (some [100]) h0
    rcases hinv.fd_ok with hf | hf
    · exact hf.1
    · exfalso
      revert hf
      unfold fs_format
      simp only
      split_ifs <;> simp [blank]
  rw [fs_mount_full _ dev_ok [100] (fs_format_ok blank dev_ok (some [100]) h0) hfd (by decide)
    meta_full_dev_ok]

/-! ## The invariants in every reachable state (claims C6 - C10) -/

theorem sample_volume_reachable : Reachable sample_volume := by
  unfold sample_volume
  apply Reachable.write
  · apply Reachable.create
    apply Reachable.create
    exact fresh_mounted_reachable
  · unfold is_int32
    omega

/-- C6 (invariant I1): in every state reachable from a successful `fs_format` +
`fs_mount` by any sequence of calls with arbitrary arguments, successful or
failing, the number of set bits of the bitmap plus `free_blocks` equals
`MAX_BLOCKS` = 2560. -/
theorem c6_popcount_plus_free_blocks (s : FS) (h : Reachable s) :
    I1 s ∧ (popcount s.bitmap : Int) + s.sb.free_blocks = 2560 := by
  have h1 := (Reachable_Inv s h).i1
  refine ⟨h1, ?_⟩
  unfold I1 at h1
  simpa [MAX_BLOCKS] using h1

theorem c6_witness :
    I1 fresh_mounted
    ∧ (popcount fresh_mounted.bitmap : Int) + fresh_mounted.sb.free_blocks = 2560 :=
  c6_popcount_plus_free_blocks fresh_mounted fresh_mounted_reachable

/-- C7 (invariant I2), for complete lifecycle transfers: in every state reachable
from a successful `fs_format` +
`fs_mount` on one image file by public calls with arbitrary arguments, in which the
metadata transfers of the later `fs_format`, `fs_mount` and `fs_unmount` calls are
moved in full while every transfer of `fs_create`, `fs_delete`, `fs_write` and
`fs_read` may fail or fall short, the number of inodes with `used == 1` plus
`free_inodes` equals `MAX_FILES` = 256. -/
theorem c7_used_plus_free_inodes (s : FS) (h : Reachable s) :
    I2 s ∧ (used_count s.inode_table : Int) + s.sb.free_inodes = 256 := by
  have h1 := (Reachable_Inv s h).i2
  refine ⟨h1, ?_⟩
  unfold I2 at h1
  simpa [MAX_FILES] using h1

theorem c7_witness :
    I2 sample_volume
    ∧ (used_count sample_volume.inode_table : Int) + sample_volume.sb.free_inodes = 256 :=
  c7_used_plus_free_inodes sample_volume sample_volume_reachable

/-- C8 (invariant I3), for complete lifecycle transfers: in every state reachable
from a successful `fs_format` +
`fs_mount` on one image file by public calls with arbitrary arguments, in which the
metadata transfers of the later `fs_format`, `fs_mount` and `fs_unmount` calls are
moved in full while every transfer of `fs_create`, `fs_delete`, `fs_write` and
`fs_read` may fail or fall short, every non-sentinel `blocks[k]` of every used
inode lies in `[10, 2560)`, is set in the bitmap, and occurs in no other slot of
that inode or of any other used inode. -/
theorem c8_blocks_owned (s : FS) (h : Reachable s) :
    ∀ (i : Fin MAX_FILES) (k : Fin MAX_DIRECT_BLOCKS),
      (s.inode_table i).used = 1 → (s.inode_table i).blocks k ≠ -1 →
        10 ≤ (s.inode_table i).blocks k ∧ (s.inode_table i).blocks k < 2560
        ∧ aget s.bitmap ((s.inode_table i).blocks k).toNat = true
        ∧ ∀ (i2 : Fin MAX_FILES) (k2 : Fin MAX_DIRECT_BLOCKS),
            (s.inode_table i2).used = 1 →
            (s.inode_table i2).blocks k2 = (s.inode_table i).blocks k → i2 = i ∧ k2 = k := by
  have hv := Reachable_Inv s h
  intro i k hu hk
  have hr := hv.blk_range i k
  simp only [MAX_BLOCKS] at hr
  refine ⟨by omega, by omega, hv.blk_set i k hu hk, ?_⟩
  intro i2 k2 hu2 he
  exact hv.blk_inj i i2 k k2 hu hu2 hk he

set_option maxRecDepth 100000 in
theorem c8_witness :
    10 ≤ (sample_volume.inode_table ⟨0, by decide⟩).blocks ⟨0, by decide⟩
    ∧ (sample_volume.inode_table ⟨0, by decide⟩).blocks ⟨0, by decide⟩ < 2560
    ∧ aget sample_volume.bitmap
        ((sample_volume.inode_table ⟨0, by decide⟩).blocks ⟨0, by decide⟩).toNat = true
    ∧ ∀ (i2 : Fin MAX_FILES) (k2 : Fin MAX_DIRECT_BLOCKS),
        (sample_volume.inode_table i2).used = 1 →
        (sample_volume.inode_table i2).blocks k2
          = (sample_volume.inode_table ⟨0, by decide⟩).blocks ⟨0, by decide⟩ →
        i2 = ⟨0, by decide⟩ ∧ k2 = ⟨0, by decide⟩ :=
  c8_blocks_owned sample_volume sample_volume_reachable ⟨0, by decide⟩ ⟨0, by decide⟩
    (by decide) (by decide)

/-- C9 (no leaked blocks), for complete lifecycle transfers: in every state
reachable from a successful `fs_format` +
`fs_mount` on one image file by public calls with arbitrary arguments, in which the
metadata transfers of the later `fs_format`, `fs_mount` and `fs_unmount` calls are
moved in full while every transfer of `fs_create`, `fs_delete`, `fs_write` and
`fs_read` may fail or fall short, failing writes that roll back
included, a block index `b` in `[10, 2560)` is set in the bitmap if and only if
exactly one used inode references `b`, and bits 0-9 are set. -/
theorem c9_no_leaked_blocks (s : FS) (h : Reachable s) :
    (∀ b : Nat, 10 ≤ b → b < 2560 →
      (aget s.bitmap b = true ↔ ∃! i : Fin MAX_FILES, references s i b))
    ∧ ∀ b : Nat, b < 10 → aget s.bitmap b = true := by
  have hv := Reachable_Inv s h
  refine ⟨?_, hv.resv⟩
  intro b hb1 hb2
  constructor
  · intro hb
    obtain ⟨i, k, hu, hk⟩ := hv.blk_surj b hb1 (by simp only [MAX_BLOCKS]; omega) hb
    refine ⟨i, ⟨hu, k, hk⟩, ?_⟩
    rintro j ⟨hju, k2, hk2⟩
    exact (hv.blk_inj i j k k2 hu hju (by omega) (by rw [hk, hk2])).1
  · rintro ⟨i, ⟨hu, k, hk⟩, _⟩
    have := hv.blk_set i k hu (by omega)
    rw [hk] at this
    simpa using this

theorem c9_witness :
    (∀ b : Nat, 10 ≤ b → b < 2560 →
      (aget sample_volume.bitmap b = true ↔ ∃! i : Fin MAX_FILES, references sample_volume i b))
    ∧ ∀ b : Nat, b < 10 → aget sample_volume.bitmap b = true :=
  c9_no_leaked_blocks sample_volume sample_volume_reachable

/-- C10 (invariant I4), for complete lifecycle transfers: in every state reachable
from a successful `fs_format` +
`fs_mount` on one image file by public calls with arbitrary arguments, in which the
metadata transfers of the later `fs_format`, `fs_mount` and `fs_unmount` calls are
moved in full while every transfer of `fs_create`, `fs_delete`, `fs_write` and
`fs_read` may fail or fall short, the 28-byte name fields of any two distinct
used inodes differ. -/
theorem c10_names_distinct (s : FS) (h : Reachable s) :
    ∀ i j : Fin MAX_FILES, (s.inode_table i).used = 1 → (s.inode_table j).used = 1 → i ≠ j →
      (s.inode_table i).name ≠ (s.inode_table j).name :=
  (Reachable_Inv s h).names

set_option maxRecDepth 100000 in
theorem c10_witness :
    (sample_volume.inode_table ⟨0, by decide⟩).name
      ≠ (sample_volume.inode_table ⟨1, by decide⟩).name :=
  c10_names_distinct sample_volume sample_volume_reachable ⟨0, by decide⟩ ⟨1, by decide⟩
    (by decide) (by decide) (by decide)

/-! ## What a failing `fs_write` leaves behind -/

theorem dev_count_le (o : Bool) (offer : Int) (n : Nat) : (dev_count o offer n).toNat ≤ n := by
  unfold dev_count
  split_ifs
  · simp
  · have := min_le_right offer (n : Int)
    omega

theorem write_retry_image (d : Dev) (i off : Nat) (src : Nat → Nat) (btw : Nat) :
    ∀ (fuel total : Nat) (s : FS) (p : Nat), (p < off ∨ off + btw ≤ p) →
      (write_retry d i off src btw fuel total s).2.image p = s.image p := by
  intro fuel
  induction fuel with
  | zero => intro total s p _; simp [write_retry]
  | succ fuel ih =>
    intro total s p hp
    unfold write_retry
    simp only
    by_cases ht : total < btw
    · rw [if_pos ht]
      by_cases h1 : (do_write s (d.data_wr i total) (off + total) (fun p => src (total + p))
          (btw - total)).1 < 0
      · rw [if_pos h1]
      rw [if_neg h1]
      by_cases h2 : (do_write s (d.data_wr i total) (off + total) (fun p => src (total + p))
          (btw - total)).1 = 0
      · rw [if_pos h2]
      rw [if_neg h2, ih _ _ p hp]
      unfold do_write dev_write
      simp only
      have := dev_count_le s.fd_open (d.data_wr i total) (btw - total)
      rw [if_neg (by omega)]
    · rw [if_neg ht]

theorem write_blocks_image (d : Dev) (nb : Fin MAX_DIRECT_BLOCKS → Int) (data : Nat → Nat) :
    ∀ (n i ptr : Nat) (rem : Int) (s : FS) (p : Nat),
      (∀ j, i ≤ j → j < i + n → 0 ≤ aget nb j ∧ p / BLOCK_SIZE ≠ (aget nb j).toNat) →
      (write_blocks d nb data n i ptr rem s).2.image p = s.image p := by
  intro n
  induction n with
  | zero => intro i ptr rem s p _; simp [write_blocks]
  | succ n ih =>
    intro i ptr rem s p hp
    unfold write_blocks
    simp only
    have hbtw : (if rem > (BLOCK_SIZE : Int) then (BLOCK_SIZE : Int) else rem).toNat
        ≤ BLOCK_SIZE := by
      split_ifs <;> omega
    generalize (if rem > (BLOCK_SIZE : Int) then (BLOCK_SIZE : Int) else rem) = btw at hbtw
    obtain ⟨h0, hne⟩ := hp i (le_refl _) (by omega)
    have hout : p < (aget nb i * BLOCK_SIZE).toNat
        ∨ (aget nb i * BLOCK_SIZE).toNat + btw.toNat ≤ p := by
      generalize aget nb i = b at h0 hne
      simp only [BLOCK_SIZE] at hbtw hne ⊢
      push_cast
      omega
    have hr := write_retry_image d i (aget nb i * BLOCK_SIZE).toNat (fun p => data (ptr + p))
      btw.toNat btw.toNat 0 s p hout
    by_cases hw : (write_retry d i (aget nb i * BLOCK_SIZE).toNat (fun p => data (ptr + p))
        btw.toNat btw.toNat 0 s).1 ≠ 0
    · rw [if_pos hw]; exact hr
    · rw [if_neg hw, ih (i + 1) _ _ _ p (fun j hj1 hj2 => hp j (by omega) (by omega))]
      exact hr

theorem free_new_blocks_image (s : FS) (nb : Fin MAX_DIRECT_BLOCKS → Int) (n : Nat) :
    (free_new_blocks s nb n).image = s.image := by
  unfold free_new_blocks
  rw [free_if_eq]
  exact (free_fold_frame nb _ s).2.2.2.1

/-- A call of `fs_write` that does not return 0 restores the in-memory superblock,
bitmap and inode table, and changes no image byte outside the blocks that were
free before the call. -/
theorem fs_write_failure (s : FS) (d : Dev) (fn : Option (List Nat))
    (data : Option (Nat → Nat)) (size : Int) (h : (fs_write s d fn data size).1 ≠ 0) :
    (fs_write s d fn data size).2.inode_table = s.inode_table
    ∧ (fs_write s d fn data size).2.sb = s.sb
    ∧ (fs_write s d fn data size).2.bitmap = s.bitmap
    ∧ (fs_write s d fn data size).2.disk_fd = s.disk_fd
    ∧ (fs_write s d fn data size).2.fd_open = s.fd_open
    ∧ ∀ p : Nat, (MAX_BLOCKS ≤ p / BLOCK_SIZE ∨ aget s.bitmap (p / BLOCK_SIZE) = true) →
        (fs_write s d fn data size).2.image p = s.image p := by
  unfold fs_write at h ⊢
  cases fn with
  | none => exact ⟨rfl, rfl, rfl, rfl, rfl, fun _ _ => rfl⟩
  | some l =>
    cases data with
    | none => exact ⟨rfl, rfl, rfl, rfl, rfl, fun _ _ => rfl⟩
    | some buf =>
      simp only at h ⊢
      by_cases hv : validate_string_manual (some l) ≠ 0 ∨ strlen l > MAX_FILENAME ∨ size < 0
          ∨ s.disk_fd < 0
      · rw [if_pos hv]; exact ⟨rfl, rfl, rfl, rfl, rfl, fun _ _ => rfl⟩
      rw [if_neg hv] at h ⊢
      by_cases hf : find_inode s (some l) = -1
      · rw [if_pos hf]; exact ⟨rfl, rfl, rfl, rfl, rfl, fun _ _ => rfl⟩
      rw [if_neg hf] at h ⊢
      by_cases hk1 : calculate_blocks_needed size > s.sb.free_blocks
      · rw [if_pos hk1]; exact ⟨rfl, rfl, rfl, rfl, rfl, fun _ _ => rfl⟩
      rw [if_neg hk1] at h ⊢
      by_cases hk2 : calculate_blocks_needed size > (MAX_DIRECT_BLOCKS : Int)
      · rw [if_pos hk2]; exact ⟨rfl, rfl, rfl, rfl, rfl, fun _ _ => rfl⟩
      rw [if_neg hk2] at h ⊢
      have hk : 0 + (calculate_blocks_needed size).toNat ≤ MAX_DIRECT_BLOCKS := by omega
      obtain ⟨al1, al2, al3⟩ := alloc_blocks_spec s (calculate_blocks_needed size).toNat 0 s
        (fun _ => -1) (AllocSeg_init s _ (fun j hj => by simp [aget, hj])) hk
      generalize alloc_blocks (calculate_blocks_needed size).toNat 0 s (fun _ => -1) = a
        at al1 al2 al3 h ⊢
      by_cases hok : a.ok = false
      · rw [if_pos hok]
        obtain ⟨m1, m2, m3, m4, m5⟩ := al2 hok
        exact ⟨m1, m2, m3, m4, m5, fun p _ => by simp only [al3]⟩
      rw [if_neg hok] at h ⊢
      have hok2 : a.ok = true := by simpa using hok
      have hseg := al1 hok2
      rw [Nat.zero_add] at hseg
      obtain ⟨w1, w2, w3, w4, w5⟩ := write_blocks_frame d a.new_blocks buf
        (calculate_blocks_needed size).toNat 0 0 size a.st
      have wimg := write_blocks_image d a.new_blocks buf
        (calculate_blocks_needed size).toNat 0 0 size a.st
      generalize write_blocks d a.new_blocks buf (calculate_blocks_needed size).toNat 0 0 size
        a.st = w at w1 w2 w3 w4 w5 wimg h ⊢
      have hsegw : AllocSeg s w.2 a.new_blocks 0 (calculate_blocks_needed size).toNat :=
        AllocSeg_of_mem_eq s a.st w.2 _ _ _ hseg w1 w2 w3 w4 w5
      by_cases hw : w.1 ≠ 0
      · rw [if_pos hw]
        simp only
        have h3 := AllocSeg_free_fold s a.new_blocks _ w.2 hsegw _ (le_refl _)
        have himg := free_new_blocks_image w.2 a.new_blocks (calculate_blocks_needed size).toNat
        unfold free_new_blocks at himg ⊢
        rw [free_if_eq] at himg ⊢
        obtain ⟨m1, m2, m3, m4, m5⟩ := AllocSeg_done s _ _ _ h3
        refine ⟨m1, m2, m3, m4, m5, ?_⟩
        intro p hp
        rw [himg, wimg p, al3]
        intro j _ hj
        rw [Nat.zero_add] at hj
        obtain ⟨r1, r2, r3⟩ := hseg.rng j hj
        refine ⟨r1, ?_⟩
        intro he
        rw [he] at hp
        rcases hp with hp | hp
        · omega
        · rw [r3] at hp
          exact Bool.false_ne_true hp
      · rw [if_neg hw] at h
        simp at h

theorem fs_create_failure (s : FS) (d : Dev) (fn : Option (List Nat))
    (h : (fs_create s d fn).1 ≠ 0) : (fs_create s d fn).2 = s := by
  unfold fs_create at h ⊢
  cases fn with
  | none => rfl
  | some l =>
    simp only at h ⊢
    split_ifs at h ⊢ with h1 h2 h3
    · rfl
    · rfl
    · rfl
    · simp at h

theorem fs_delete_failure (s : FS) (d : Dev) (fn : Option (List Nat))
    (h : (fs_delete s d fn).1 ≠ 0) : (fs_delete s d fn).2 = s := by
  unfold fs_delete at h ⊢
  cases fn with
  | none => rfl
  | some l =>
    simp only at h ⊢
    split_ifs at h ⊢ with h1
    · rfl
    · simp at h

/-! ## The allocation loop succeeds when the bitmap has enough clear bits -/

theorem clear_count_used (s : FS) (r : Nat) (hr : r < MAX_BLOCKS)
    (hc : aget s.bitmap r = false) :
    clear_count (mark_block_used s (r : Int)).bitmap + 1 = clear_count s.bitmap := by
  unfold mark_block_used
  have hr2 : (0 : Int) ≤ (r : Int) ∧ (r : Int) < MAX_BLOCKS := by omega
  simp only [hr2, and_self, if_true, Int.toNat_ofNat, hc]
  unfold clear_count
  have hlt : r < 8 * BLOCK_SIZE := by
    simp only [MAX_BLOCKS, BLOCK_SIZE] at *
    omega
  symm
  apply countP_range_flip _ _ _ r hr
  · simp [aget_aset_eq _ _ _ hlt]
  · simp [hc]
  · intro j hj
    simp [aget_aset_ne _ _ _ _ hj]

theorem alloc_blocks_ok :
    ∀ (n i : Nat) (s : FS) (nb : Fin MAX_DIRECT_BLOCKS → Int),
      n ≤ clear_count s.bitmap → (alloc_blocks n i s nb).ok = true := by
  intro n
  induction n with
  | zero => intro i s nb _; simp [alloc_blocks]
  | succ n ih =>
    intro i s nb h
    unfold alloc_blocks
    rcases find_free_block_spec s with ⟨_, hall⟩ | ⟨r, hf, hr1, hr2, _⟩
    · exfalso
      have : clear_count s.bitmap = 0 := by
        unfold clear_count
        rw [List.countP_eq_zero]
        intro a ha
        rw [List.mem_range] at ha
        simp [hall a ha]
      omega
    · have hne : ¬ ((r : Int) = -1) := by omega
      simp only [hf, hne, if_false]
      apply ih
      have := clear_count_used s r hr1 hr2
      omega

theorem countP_range_mono (p : Nat → Bool) (m : Nat) :
    ∀ n, m ≤ n → (List.range m).countP p ≤ (List.range n).countP p := by
  intro n
  induction n with
  | zero => intro h; rw [Nat.le_zero.mp h]
  | succ n ih =>
    intro h
    by_cases hm : m = n + 1
    · rw [hm]
    · have := ih (by omega)
      rw [List.range_succ, List.countP_append]
      omega

/-- Under I1 the bitmap has at least `free_blocks` clear bits among the block indices. -/
theorem clear_count_ge (s : FS) (h : I1 s) : s.sb.free_blocks ≤ (clear_count s.bitmap : Int) := by
  unfold I1 at h
  have h1 : (List.range MAX_BLOCKS).countP (fun i => aget s.bitmap i) ≤ popcount s.bitmap := by
    unfold popcount
    apply countP_range_mono
    simp [MAX_BLOCKS, BLOCK_SIZE]
  have h2 := List.length_eq_countP_add_countP (fun i => aget s.bitmap i) (List.range MAX_BLOCKS)
  have h3 : (List.range MAX_BLOCKS).countP (fun a => decide ¬ (aget s.bitmap a = true))
      = clear_count s.bitmap := by
    unfold clear_count
    apply List.countP_congr
    intro x _
    cases aget s.bitmap x <;> simp
  rw [List.length_range, h3] at h2
  omega

/-! ## `calculate_blocks_needed` -/

theorem tdiv_neg_le (a b : Int) (ha : a < 0) (hb : 0 < b) : a.tdiv b ≤ 0 := by
  have h1 : a = -(-a) := by omega
  rw [h1, Int.neg_tdiv]
  have := Int.tdiv_nonneg (a := -a) (b := b) (by omega) (by omega)
  omega

theorem calc_blocks_cases (size : Int) (h : is_int32 size) :
    (size ≤ 0 ∧ calculate_blocks_needed size = 0)
    ∨ (0 < size ∧ size ≤ 2147479552 ∧ calculate_blocks_needed size = (size + 4095) / 4096)
    ∨ (2147479552 < size ∧ calculate_blocks_needed size ≤ 0) := by
  unfold is_int32 at h
  unfold calculate_blocks_needed
  by_cases h0 : size ≤ 0
  · left; exact ⟨h0, by rw [if_pos h0]⟩
  · right
    rw [if_neg h0]
    by_cases h1 : size ≤ 2147479552
    · left
      refine ⟨by omega, h1, ?_⟩
      have hw : wrap32 (size + (BLOCK_SIZE : Int) - 1) = size + 4095 := by
        unfold wrap32
        simp only [BLOCK_SIZE]
        push_cast
        omega
      rw [hw, Int.tdiv_eq_ediv (by omega) (by simp [BLOCK_SIZE])]
      simp [BLOCK_SIZE]
    · right
      refine ⟨by omega, ?_⟩
      apply tdiv_neg_le
      · unfold wrap32
        simp only [BLOCK_SIZE]
        push_cast
        omega
      · simp [BLOCK_SIZE]

/-- Block `i` of a write that needs more than `i` blocks holds at least one byte. -/
theorem calc_blocks_gt (size : Int) (i : Nat) (h : is_int32 size)
    (hi : (i : Int) < calculate_blocks_needed size) : 4096 * (i : Int) < size := by
  rcases calc_blocks_cases size h with ⟨_, h2⟩ | ⟨_, _, h2⟩ | ⟨_, h2⟩
  · omega
  · rw [h2] at hi
    omega
  · omega

/-! ## Result of the data loop of `fs_write` -/

theorem dev_count_pos (offer : Int) (n : Nat) (ho : 0 < offer) (hn : 0 < n) :
    0 < dev_count true offer n := by
  unfold dev_count
  rw [if_neg (by simp; omega)]
  exact lt_min ho (by omega)

theorem write_retry_ok (d : Dev) (i off : Nat) (src : Nat → Nat) (btw : Nat)
    (hd : ∀ t, 0 < d.data_wr i t) :
    ∀ (fuel total : Nat) (s : FS), s.fd_open = true → btw ≤ total + fuel →
      (write_retry d i off src btw fuel total s).1 = 0 := by
  intro fuel
  induction fuel with
  | zero => intro total s _ _; simp [write_retry]
  | succ fuel ih =>
    intro total s ho hf
    unfold write_retry
    simp only
    by_cases ht : total < btw
    · rw [if_pos ht]
      have hpos := dev_count_pos (d.data_wr i total) (btw - total) (hd total) (by omega)
      have hret : (do_write s (d.data_wr i total) (off + total) (fun p => src (total + p))
          (btw - total)).1 = dev_count true (d.data_wr i total) (btw - total) := by
        unfold do_write
        simp only [ho]
      rw [if_neg (by rw [hret]; omega), if_neg (by rw [hret]; omega)]
      apply ih
      · exact (do_write_frame _ _ _ _ _).2.2.2.2.trans ho
      · rw [hret]
        omega
    · rw [if_neg ht]

/-- The value `fs_write` returns when the device answers `offer <= 0`. -/
theorem write_retry_at (d : Dev) (i off : Nat) (src : Nat → Nat) (btw t0 : Nat)
    (ht0 : t0 < btw) (hbad : d.data_wr i t0 ≤ 0) (fuel : Nat) (s : FS) (ho : s.fd_open = true)
    (hf : btw ≤ t0 + fuel) :
    (write_retry d i off src btw fuel t0 s).1 = (if d.data_wr i t0 = 0 then -2 else -3) := by
  cases fuel with
  | zero => omega
  | succ fuel =>
    unfold write_retry
    simp only
    rw [if_pos ht0]
    have hret : (do_write s (d.data_wr i t0) (off + t0) (fun p => src (t0 + p))
        (btw - t0)).1 = dev_count true (d.data_wr i t0) (btw - t0) := by
      unfold do_write
      simp only [ho]
    rw [hret]
    unfold dev_count
    by_cases h0 : d.data_wr i t0 = 0
    · rw [h0]
      simp
    · have hneg : d.data_wr i t0 < 0 := by omega
      simp [hneg, h0]

theorem write_retry_fail (d : Dev) (i off : Nat) (src : Nat → Nat) (btw t0 : Nat)
    (hiss : issued_at d i btw t0) (ht0 : t0 < btw) (hbad : d.data_wr i t0 ≤ 0) :
    ∀ (fuel : Nat) (s : FS), s.fd_open = true → btw ≤ fuel →
      (write_retry d i off src btw fuel 0 s).1 = (if d.data_wr i t0 = 0 then -2 else -3) := by
  have key : ∀ t, issued_at d i btw t →
      (∀ (fuel : Nat) (s : FS), s.fd_open = true → btw ≤ t + fuel →
        (write_retry d i off src btw fuel t s).1 = (if d.data_wr i t0 = 0 then -2 else -3)) →
      ∀ (fuel : Nat) (s : FS), s.fd_open = true → btw ≤ 0 + fuel →
        (write_retry d i off src btw fuel 0 s).1 = (if d.data_wr i t0 = 0 then -2 else -3) := by
    intro t ht
    induction ht with
    | start => intro h; exact h
    | next t _ hlt hpos ih =>
      intro hP
      apply ih
      intro fuel s ho hf
      cases fuel with
      | zero => omega
      | succ fuel =>
        unfold write_retry
        simp only
        rw [if_pos hlt]
        have hcp := dev_count_pos (d.data_wr i t) (btw - t) hpos (by omega)
        have hret : (do_write s (d.data_wr i t) (off + t) (fun p => src (t + p))
            (btw - t)).1 = dev_count true (d.data_wr i t) (btw - t) := by
          unfold do_write
          simp only [ho]
        rw [if_neg (by rw [hret]; omega), if_neg (by rw [hret]; omega), hret]
        apply hP
        · exact (do_write_frame _ _ _ _ _).2.2.2.2.trans ho
        · omega
  intro fuel s ho hf
  exact key t0 hiss (fun fuel s ho hf => write_retry_at d i off src btw t0 ht0 hbad fuel s ho hf)
    fuel s ho (by omega)

theorem write_blocks_fail (d : Dev) (nb : Fin MAX_DIRECT_BLOCKS → Int) (data : Nat → Nat)
    (size : Int) (i0 t0 : Nat)
    (hprev : ∀ j, j < i0 → ∀ t, 0 < d.data_wr j t)
    (hlen : 4096 * (i0 : Int) < size)
    (hiss : issued_at d i0 (min (size - 4096 * (i0 : Int)) 4096).toNat t0)
    (ht0 : t0 < (min (size - 4096 * (i0 : Int)) 4096).toNat)
    (hbad : d.data_wr i0 t0 ≤ 0) :
    ∀ (n i ptr : Nat) (s : FS), s.fd_open = true → i ≤ i0 → i0 < i + n →
      (write_blocks d nb data n i ptr (size - 4096 * (i : Int)) s).1
        = (if d.data_wr i0 t0 = 0 then -2 else -3) := by
  intro n
  induction n with
  | zero => intro i ptr s _ h1 h2; omega
  | succ n ih =>
    intro i ptr s ho h1 h2
    unfold write_blocks
    simp only
    have hmin : (if size - 4096 * (i : Int) > (BLOCK_SIZE : Int) then (BLOCK_SIZE : Int)
        else size - 4096 * (i : Int)) = min (size - 4096 * (i : Int)) 4096 := by
      simp only [BLOCK_SIZE]
      push_cast
      split_ifs with hc
      · exact (min_eq_right (by omega)).symm
      · exact (min_eq_left (by omega)).symm
    rw [hmin]
    by_cases hi : i = i0
    · subst hi
      have hcode := write_retry_fail d i (aget nb i * BLOCK_SIZE).toNat (fun p => data (ptr + p))
        _ t0 hiss ht0 hbad (min (size - 4096 * (i : Int)) 4096).toNat s ho (le_refl _)
      rw [if_pos (by rw [hcode]; split_ifs <;> omega)]
      exact hcode
    · have hlt : i < i0 := by omega
      have hok := write_retry_ok d i (aget nb i * BLOCK_SIZE).toNat (fun p => data (ptr + p))
        (min (size - 4096 * (i : Int)) 4096).toNat (hprev i hlt)
        (min (size - 4096 * (i : Int)) 4096).toNat 0 s ho (by omega)
      rw [if_neg (by rw [hok]; simp)]
      have hfull : min (size - 4096 * (i : Int)) 4096 = 4096 := by
        apply min_eq_right
        omega
      rw [hfull]
      have hrem : size - 4096 * (i : Int) - 4096 = size - 4096 * ((i + 1 : Nat) : Int) := by
        push_cast
        omega
      rw [hrem]
      apply ih
      · exact (write_retry_frame _ _ _ _ _ _ _ _).2.2.2.2.trans ho
      · omega
      · omega

/-- Once the request is validated and the blocks are allocated, `fs_write` returns
the result of the data loop. -/
theorem fs_write_ret (s : FS) (d : Dev) (l : List Nat) (buf : Nat → Nat) (size : Int)
    (hval : validate_string_manual (some l) = 0) (hlen : strlen l ≤ MAX_FILENAME)
    (hsz : 0 ≤ size) (hm : 0 ≤ s.disk_fd) (hex : find_inode s (some l) ≠ -1)
    (hfree : calculate_blocks_needed size ≤ s.sb.free_blocks)
    (hmax : calculate_blocks_needed size ≤ MAX_DIRECT_BLOCKS)
    (hok : (alloc_blocks (calculate_blocks_needed size).toNat 0 s (fun _ => -1)).ok = true) :
    (fs_write s d (some l) (some buf) size).1
      = (write_blocks d
          (alloc_blocks (calculate_blocks_needed size).toNat 0 s (fun _ => -1)).new_blocks buf
          (calculate_blocks_needed size).toNat 0 0 size
          (alloc_blocks (calculate_blocks_needed size).toNat 0 s (fun _ => -1)).st).1 := by
  unfold fs_write
  simp only
  rw [if_neg (by simp only [not_or]; exact ⟨by simp [hval], by omega, by omega, by omega⟩),
    if_neg hex, if_neg (by omega), if_neg (by omega), if_neg (by simp [hok])]
  by_cases hw : (write_blocks d
      (alloc_blocks (calculate_blocks_needed size).toNat 0 s (fun _ => -1)).new_blocks buf
      (calculate_blocks_needed size).toNat 0 0 size
      (alloc_blocks (calculate_blocks_needed size).toNat 0 s (fun _ => -1)).st).1 ≠ 0
  · rw [if_pos hw]
  · rw [if_neg hw]
    simp only [not_not] at hw
    rw [hw]

/-! ## Rollback on device failure (claim C3) -/

/-- C3 (rollback on device failure): in a mounted state, for a write request that
passes validation, the free-block check and the 12-block limit and for which the
bitmap can supply the blocks (as it can whenever I1 holds), if the device has
written the new blocks before block `i0` and then answers a `write` to new block
`i0`, issued at offset `t0` of that block, with 0 (respectively a negative value),
`fs_write` returns -2 (respectively -3), and the bitmap, the superblock with
`free_blocks` and `free_inodes`, and the whole inode table equal their pre-call
values. -/
theorem c3_rollback_on_device_failure (s : FS) (d : Dev) (l : List Nat) (buf : Nat → Nat)
    (size : Int) (i0 t0 : Nat)
    (hopen : s.fd_open = true) (hm : 0 ≤ s.disk_fd)
    (hval : validate_string_manual (some l) = 0) (hlen : strlen l ≤ MAX_FILENAME)
    (hsz : 0 ≤ size) (h32 : is_int32 size) (hex : find_inode s (some l) ≠ -1)
    (hfree : calculate_blocks_needed size ≤ s.sb.free_blocks)
    (hmax : calculate_blocks_needed size ≤ MAX_DIRECT_BLOCKS)
    (hbits : (calculate_blocks_needed size).toNat ≤ clear_count s.bitmap)
    (hi0 : (i0 : Int) < calculate_blocks_needed size)
    (hprev : ∀ j, j < i0 → ∀ t, 0 < d.data_wr j t)
    (hiss : issued_at d i0 (min (size - 4096 * (i0 : Int)) 4096).toNat t0)
    (ht0 : t0 < (min (size - 4096 * (i0 : Int)) 4096).toNat)
    (hbad : d.data_wr i0 t0 ≤ 0) :
    (d.data_wr i0 t0 = 0 → (fs_write s d (some l) (some buf) size).1 = -2)
    ∧ (d.data_wr i0 t0 < 0 → (fs_write s d (some l) (some buf) size).1 = -3)
    ∧ (fs_write s d (some l) (some buf) size).2.bitmap = s.bitmap
    ∧ (fs_write s d (some l) (some buf) size).2.sb = s.sb
    ∧ (fs_write s d (some l) (some buf) size).2.sb.free_blocks = s.sb.free_blocks
    ∧ (fs_write s d (some l) (some buf) size).2.sb.free_inodes = s.sb.free_inodes
    ∧ (fs_write s d (some l) (some buf) size).2.inode_table = s.inode_table := by
  have hok := alloc_blocks_ok (calculate_blocks_needed size).toNat 0 s (fun _ => -1) hbits
  have hret := fs_write_ret s d l buf size hval hlen hsz hm hex hfree hmax hok
  obtain ⟨al1, _, _⟩ := alloc_blocks_spec s (calculate_blocks_needed size).toNat 0 s
    (fun _ => -1) (AllocSeg_init s _ (fun j hj => by simp [aget, hj])) (by omega)
  have hseg := al1 hok
  have hcode := write_blocks_fail d
    (alloc_blocks (calculate_blocks_needed size).toNat 0 s (fun _ => -1)).new_blocks buf size
    i0 t0 hprev (calc_blocks_gt size i0 h32 hi0) hiss ht0 hbad
    (calculate_blocks_needed size).toNat 0 0
    (alloc_blocks (calculate_blocks_needed size).toNat 0 s (fun _ => -1)).st
    (hseg.op.trans hopen) (Nat.zero_le _) (by omega)
  have hz : size - 4096 * ((0 : Nat) : Int) = size := by simp
  rw [hz] at hcode
  rw [hcode] at hret
  have hne : (fs_write s d (some l) (some buf) size).1 ≠ 0 := by
    rw [hret]
    split_ifs <;> omega
  obtain ⟨m1, m2, m3, _, _, _⟩ := fs_write_failure s d (some l) (some buf) size hne
  refine ⟨?_, ?_, m3, m2, by rw [m2], by rw [m2], m1⟩
  · intro h0
    rw [hret, if_pos h0]
  · intro h0
    rw [hret, if_neg (by omega)]

theorem vol_a_reachable : Reachable vol_a := by
  unfold vol_a
  exact Reachable.create _ _ _ fresh_mounted_reachable

set_option maxRecDepth 100000 in
theorem c3_witness :
    (dev_full_after_one.data_wr 1 0 = 0 →
      (fs_write vol_a dev_full_after_one (some [97]) (some (fun _ => 65)) 4097).1 = -2)
    ∧ (dev_full_after_one.data_wr 1 0 < 0 →
      (fs_write vol_a dev_full_after_one (some [97]) (some (fun _ => 65)) 4097).1 = -3)
    ∧ (fs_write vol_a dev_full_after_one (some [97]) (some (fun _ => 65)) 4097).2.bitmap
        = vol_a.bitmap
    ∧ (fs_write vol_a dev_full_after_one (some [97]) (some (fun _ => 65)) 4097).2.sb = vol_a.sb
    ∧ (fs_write vol_a dev_full_after_one (some [97]) (some (fun _ => 65)) 4097).2.sb.free_blocks
        = vol_a.sb.free_blocks
    ∧ (fs_write vol_a dev_full_after_one (some [97]) (some (fun _ => 65)) 4097).2.sb.free_inodes
        = vol_a.sb.free_inodes
    ∧ (fs_write vol_a dev_full_after_one (some [97]) (some (fun _ => 65)) 4097).2.inode_table
        = vol_a.inode_table :=
  c3_rollback_on_device_failure vol_a dev_full_after_one [97] (fun _ => 65) 4097 1 0
    (by decide) (by decide) (by decide) (by decide) (by decide)
    (by unfold is_int32; omega) (by decide) (by decide) (by decide)
    (by
      have h1 := clear_count_ge vol_a (Reachable_Inv vol_a vol_a_reachable).i1
      have h2 : vol_a.sb.free_blocks = 2550 := by decide
      have h3 : calculate_blocks_needed 4097 = 2 := by decide
      rw [h3]
      rw [h2] at h1
      have : (2 : Int).toNat = 2 := rfl
      omega)
    (by decide)
    (by
      intro j hj t
      have : j = 0 := by omega
      subst this
      simp [dev_full_after_one])
    issued_at.start (by decide) (by decide)

/-! ## Names of existing files are valid -/

theorem char_at_strlen (l : List Nat) : char_at l (strlen l) = 0 := by
  induction l with
  | nil => simp [strlen, char_at]
  | cons c cs ih =>
    unfold strlen
    by_cases hc : c = 0
    · simp [hc, char_at]
    · simp only [hc, if_false]
      unfold char_at at ih ⊢
      simpa using ih

theorem validate_of_strlen (l : List Nat) (h : strlen l ≤ MAX_FILENAME) :
    validate_string_manual (some l) = 0 := by
  unfold validate_string_manual
  simp only
  by_cases h28 : strlen l = 28
  · have := char_at_strlen l
    rw [h28] at this
    split_ifs <;> rfl
  · have hlt : strlen l < 28 := by
      simp only [MAX_FILENAME] at h
      omega
    have hany : (List.range 28).any (fun i => char_at l i == 0) = true := by
      rw [List.any_eq_true]
      exact ⟨strlen l, List.mem_range.mpr hlt, by simp [char_at_strlen]⟩
    rw [if_pos hany]

/-! ## Insufficient space (claim C2) -/

/-- For sizes whose block count does not overflow, a write that needs more blocks
than `free_blocks` returns -2 and leaves the whole state, image included, as it was. -/
theorem fs_write_insufficient_space (s : FS) (d : Dev) (fn : Option (List Nat))
    (buf : Nat → Nat) (size : Int) (hm : 0 ≤ s.disk_fd) (hex : find_inode s fn ≠ -1)
    (h0 : 0 ≤ size) (hmax : size ≤ 2147479552)
    (hneed : (size + 4095) / 4096 > s.sb.free_blocks) :
    fs_write s d fn (some buf) size = (-2, s) := by
  obtain ⟨l, i, hfn, hlen, _, _, _⟩ := find_inode_some s fn hex
  subst hfn
  have hcalc : calculate_blocks_needed size = (size + 4095) / 4096 := by
    rcases calc_blocks_cases size ⟨by omega, by omega⟩ with ⟨h1, h2⟩ | ⟨_, _, h2⟩ | ⟨h1, _⟩
    · rw [h2]
      omega
    · exact h2
    · omega
  unfold fs_write
  simp only
  rw [if_neg (by
      simp only [not_or]
      exact ⟨by simp [validate_of_strlen l hlen], by omega, by omega, by omega⟩),
    if_neg hex, if_pos (by rw [hcalc]; exact hneed)]

set_option maxRecDepth 100000 in
/-- C2 at an overflowing size: on the reachable volume `sample_volume`, whose file
"a" holds 5000 bytes in two blocks and whose `free_blocks` is 2548, a write of
2147483647 bytes needs 524288 blocks, yet `fs_write` returns 0, stores the size
with no block, frees the two old blocks, and a following `fs_read` delivers no
byte where it delivered 5000 before. -/
theorem c2_overflowing_size_is_accepted :
    Reachable sample_volume ∧ 0 ≤ sample_volume.disk_fd
    ∧ find_inode sample_volume (some [97]) = 0
    ∧ sample_volume.sb.free_blocks = 2548
    ∧ ((2147483647 : Int) + 4095) / 4096 = 524288
    ∧ calculate_blocks_needed 2147483647 = -524287
    ∧ (fs_read sample_volume dev_ok (some [97]) (some (fun _ => 0)) 5000).1 = 5000
    ∧ (fs_write sample_volume dev_ok (some [97]) (some (fun _ => 66)) 2147483647).1 = 0
    ∧ (aget (fs_write sample_volume dev_ok (some [97]) (some (fun _ => 66))
        2147483647).2.inode_table 0).size = 2147483647
    ∧ (fs_write sample_volume dev_ok (some [97]) (some (fun _ => 66)) 2147483647).2.sb.free_blocks
        = 2550
    ∧ (fs_read (fs_write sample_volume dev_ok (some [97]) (some (fun _ => 66)) 2147483647).2
        dev_ok (some [97]) (some (fun _ => 0)) 5000).1 = 0 := by
  refine ⟨sample_volume_reachable, by decide, by decide, by decide, by decide, by decide,
    by decide, by decide, by decide, by decide, by decide⟩

/-! ## Failing calls (claim C4) -/

set_option maxRecDepth 100000 in
/-- C4 fails for the image: on the reachable volume `vol_a` a two-block write whose
second block the device refuses returns -2, yet byte 40960 of the image (the first
byte of block 10) has changed from 0 to the first payload byte. -/
theorem c4_failed_write_changes_image :
    Reachable vol_a ∧ 0 ≤ vol_a.disk_fd
    ∧ (fs_write vol_a dev_full_after_one (some [97]) (some (fun _ => 65)) 4097).1 = -2
    ∧ vol_a.image 40960 = 0
    ∧ (fs_write vol_a dev_full_after_one (some [97]) (some (fun _ => 65)) 4097).2.image 40960
        = 65
    ∧ (fs_write vol_a dev_full_after_one (some [97]) (some (fun _ => 65)) 4097).2.image
        ≠ vol_a.image := by
  have h1 : vol_a.image 40960 = 0 := by decide
  have h2 : (fs_write vol_a dev_full_after_one (some [97]) (some (fun _ => 65))
      4097).2.image 40960 = 65 := by decide
  refine ⟨vol_a_reachable, by decide, by decide, h1, h2, ?_⟩
  intro he
  rw [he, h1] at h2
  omega

/-- C4 as amended: a call of `fs_create`, `fs_delete` or `fs_write` that returns a
negative code (for any reason, a device failure on a data-block write included)
leaves the in-memory superblock, bitmap and inode table as they were; `fs_create`
and `fs_delete` leave the image as it was too, and `fs_write` changes no image
byte outside the blocks that were free (clear in the bitmap) before the call. -/
theorem c4_failed_call_keeps_state (s : FS) (d : Dev) (fn : Option (List Nat))
    (data : Option (Nat → Nat)) (size : Int) :
    ((fs_create s d fn).1 < 0 → (fs_create s d fn).2 = s)
    ∧ ((fs_delete s d fn).1 < 0 → (fs_delete s d fn).2 = s)
    ∧ ((fs_write s d fn data size).1 < 0 →
        (fs_write s d fn data size).2.sb = s.sb
        ∧ (fs_write s d fn data size).2.bitmap = s.bitmap
        ∧ (fs_write s d fn data size).2.inode_table = s.inode_table
        ∧ ∀ p : Nat, (MAX_BLOCKS ≤ p / BLOCK_SIZE ∨ aget s.bitmap (p / BLOCK_SIZE) = true) →
            (fs_write s d fn data size).2.image p = s.image p) := by
  refine ⟨fun h => fs_create_failure s d fn (by omega),
    fun h => fs_delete_failure s d fn (by omega), fun h => ?_⟩
  obtain ⟨m1, m2, m3, _, _, m6⟩ := fs_write_failure s d fn data size (by omega)
  exact ⟨m2, m3, m1, m6⟩

set_option maxRecDepth 100000 in
theorem c4_witness :
    (fs_write vol_a dev_full_after_one (some [97]) (some (fun _ => 65)) 4097).1 < 0
    ∧ (fs_write vol_a dev_full_after_one (some [97]) (some (fun _ => 65)) 4097).2.sb = vol_a.sb
    ∧ (fs_write vol_a dev_full_after_one (some [97]) (some (fun _ => 65)) 4097).2.bitmap
        = vol_a.bitmap
    ∧ (fs_write vol_a dev_full_after_one (some [97]) (some (fun _ => 65)) 4097).2.inode_table
        = vol_a.inode_table
    ∧ ∀ p : Nat, (MAX_BLOCKS ≤ p / BLOCK_SIZE ∨ aget vol_a.bitmap (p / BLOCK_SIZE) = true) →
        (fs_write vol_a dev_full_after_one (some [97]) (some (fun _ => 65)) 4097).2.image p
          = vol_a.image p :=
  ⟨by decide, (c4_failed_call_keeps_state vol_a dev_full_after_one (some [97])
    (some (fun _ => 65)) 4097).2.2 (by decide)⟩

/-! ## Persistence across unmount and mount (claim C5) -/

theorem flush_metadata_data (s : FS) (d : Dev) (p : Nat) (hp : 10 * BLOCK_SIZE ≤ p) :
    (flush_metadata s d).image p = s.image p := by
  unfold flush_metadata do_write dev_write
  simp only
  have h1 := dev_count_le s.fd_open (d.meta_wr 0) SB_BYTES
  have h2 := dev_count_le s.fd_open (d.meta_wr 1) BLOCK_SIZE
  have h3 := dev_count_le s.fd_open (d.meta_wr 2) ITAB_BYTES
  simp only [SB_BYTES, BLOCK_SIZE, ITAB_BYTES, MAX_FILES, INODE_BYTES] at *
  rw [if_neg (by omega), if_neg (by omega), if_neg (by omega)]

theorem write_retry_full (d : Dev) (i off : Nat) (src : Nat → Nat) (btw : Nat)
    (hd : ∀ t, (BLOCK_SIZE : Int) ≤ d.data_wr i t) (hb : btw ≤ BLOCK_SIZE) (s : FS)
    (ho : s.fd_open = true) :
    (write_retry d i off src btw btw 0 s).1 = 0
    ∧ ∀ p, (write_retry d i off src btw btw 0 s).2.image p = dev_write s.image off src btw p := by
  cases hbtw : btw with
  | zero =>
    unfold write_retry
    refine ⟨rfl, ?_⟩
    intro p
    unfold dev_write
    rw [if_neg (by omega)]
  | succ f =>
    rw [← hbtw]
    have hr : dev_count true (d.data_wr i 0) (btw - 0) = (btw : Int) := by
      apply dev_count_full
      have := hd 0
      simp only [Nat.sub_zero]
      omega
    have hstep : write_retry d i off src btw btw 0 s
        = write_retry d i off src btw f btw
            { s with image := dev_write s.image (off + 0) (fun p => src (0 + p)) btw } := by
      conv => lhs; rw [hbtw]; unfold write_retry
      simp only
      rw [← hbtw, if_pos (by omega)]
      unfold do_write
      simp only [ho, hr]
      rw [if_neg (by omega), if_neg (by omega)]
      simp
    rw [hstep]
    have hend : ∀ (g : Nat) (s2 : FS), write_retry d i off src btw g btw s2 = (0, s2) := by
      intro g s2
      cases g with
      | zero => unfold write_retry; rfl
      | succ g =>
        unfold write_retry
        simp only
        rw [if_neg (by omega)]
    rw [hend]
    refine ⟨rfl, ?_⟩
    intro p
    simp only [Nat.add_zero, Nat.zero_add]

theorem block_offset (b : Int) (h0 : 0 ≤ b) :
    (b * (BLOCK_SIZE : Int)).toNat = b.toNat * BLOCK_SIZE := by
  simp only [BLOCK_SIZE]
  push_cast
  omega

/-- On a device that writes every block in full the data loop succeeds and block
`j` of the payload ends up in new block `nb[j]` of the image. -/
theorem write_blocks_full (d : Dev) (nb : Fin MAX_DIRECT_BLOCKS → Int) (data : Nat → Nat)
    (N : Int) (hd : ∀ i t, (BLOCK_SIZE : Int) ≤ d.data_wr i t) :
    ∀ (n i : Nat) (s : FS), s.fd_open = true →
      (n = 0 ∨ 4096 * ((i + n : Nat) : Int) < N + 4096) →
      (∀ j, i ≤ j → j < i + n → 0 ≤ aget nb j) →
      (∀ j j2, i ≤ j → j < i + n → i ≤ j2 → j2 < i + n → aget nb j = aget nb j2 → j = j2) →
      (write_blocks d nb data n i (4096 * i) (N - 4096 * (i : Int)) s).1 = 0
      ∧ ∀ j, i ≤ j → j < i + n → ∀ o : Nat, (o : Int) < N - 4096 * (j : Int) → o < 4096 →
          (write_blocks d nb data n i (4096 * i) (N - 4096 * (i : Int)) s).2.image
            ((aget nb j).toNat * BLOCK_SIZE + o) = data (4096 * j + o) := by
  intro n
  induction n with
  | zero =>
    intro i s _ _ _ _
    refine ⟨by simp [write_blocks], ?_⟩
    intro j h1 h2
    omega
  | succ n ih =>
    intro i s ho hk hpos hinj
    have hk2 : 4096 * ((i + (n + 1) : Nat) : Int) < N + 4096 := by
      rcases hk with hk | hk
      · omega
      · exact hk
    unfold write_blocks
    simp only
    have hbtw : (if N - 4096 * (i : Int) > (BLOCK_SIZE : Int) then (BLOCK_SIZE : Int)
        else N - 4096 * (i : Int)).toNat ≤ BLOCK_SIZE := by
      split_ifs <;> omega
    have hbtw2 : n = 0 ∨ (if N - 4096 * (i : Int) > (BLOCK_SIZE : Int) then (BLOCK_SIZE : Int)
        else N - 4096 * (i : Int)) = 4096 := by
      by_cases hn : n = 0
      · exact Or.inl hn
      · right
        simp only [BLOCK_SIZE]
        push_cast at hk2 ⊢
        rw [if_pos (by omega)]
    have hbtw3 : ∀ o : Nat, (o : Int) < N - 4096 * (i : Int) → o < 4096 →
        o < (if N - 4096 * (i : Int) > (BLOCK_SIZE : Int) then (BLOCK_SIZE : Int)
          else N - 4096 * (i : Int)).toNat := by
      intro o h1 h2
      simp only [BLOCK_SIZE]
      push_cast
      split_ifs <;> omega
    generalize (if N - 4096 * (i : Int) > (BLOCK_SIZE : Int) then (BLOCK_SIZE : Int)
        else N - 4096 * (i : Int)) = btw at hbtw hbtw2 hbtw3
    obtain ⟨r1, r2⟩ := write_retry_full d i (aget nb i * BLOCK_SIZE).toNat
      (fun p => data (4096 * i + p)) btw.toNat (hd i) hbtw s ho
    have rf := write_retry_frame d i (aget nb i * BLOCK_SIZE).toNat
      (fun p => data (4096 * i + p)) btw.toNat btw.toNat 0 s
    generalize write_retry d i (aget nb i * BLOCK_SIZE).toNat
      (fun p => data (4096 * i + p)) btw.toNat btw.toNat 0 s = w at r1 r2 rf
    rw [if_neg (by rw [r1]; simp)]
    have hi0 := hpos i (le_refl _) (by omega)
    by_cases hn : n = 0
    · subst hn
      refine ⟨by simp [write_blocks], ?_⟩
      intro j h1 h2 o ho1 ho2
      have hj : j = i := by omega
      subst hj
      simp only [write_blocks]
      rw [r2, ← block_offset _ hi0]
      unfold dev_write
      have := hbtw3 o ho1 ho2
      rw [if_pos (by omega)]
      congr 1
      omega
    · have hfull : btw = 4096 := by
        rcases hbtw2 with h | h
        · exact absurd h hn
        · exact h
      subst hfull
      have e1 : 4096 * i + (4096 : Int).toNat = 4096 * (i + 1) := by
        have : (4096 : Int).toNat = 4096 := rfl
        omega
      have e2 : N - 4096 * (i : Int) - 4096 = N - 4096 * ((i + 1 : Nat) : Int) := by
        push_cast
        omega
      rw [e1, e2]
      obtain ⟨a1, a2⟩ := ih (i + 1) w.2 (rf.2.2.2.2.trans ho)
        (Or.inr (by
          have : i + 1 + n = i + (n + 1) := by omega
          rw [this]
          exact hk2))
        (fun j h1 h2 => hpos j (by omega) (by omega))
        (fun j j2 h1 h2 h3 h4 => hinj j j2 (by omega) (by omega) (by omega) (by omega))
      refine ⟨a1, ?_⟩
      intro j h1 h2 o ho1 ho2
      by_cases hj : j = i
      · subst hj
        rw [write_blocks_image d nb data n (j + 1) _ _ w.2
          ((aget nb j).toNat * BLOCK_SIZE + o)]
        · rw [r2, ← block_offset _ hi0]
          unfold dev_write
          have := hbtw3 o ho1 ho2
          rw [if_pos (by omega)]
          congr 1
          omega
        · intro j2 hj1 hj2
          refine ⟨hpos j2 (by omega) (by omega), ?_⟩
          intro he
          have hdiv : ((aget nb j).toNat * BLOCK_SIZE + o) / BLOCK_SIZE = (aget nb j).toNat := by
            simp only [BLOCK_SIZE]
            omega
          rw [hdiv] at he
          have h0j2 := hpos j2 (by omega) (by omega)
          have : aget nb j = aget nb j2 := by omega
          have := hinj j j2 (le_refl _) (by omega) (by omega) (by omega) this
          omega
      · exact a2 j (by omega) (by omega) o ho1 ho2

/-- On a device that reads every block in full the block loop of `fs_read` delivers
the first `R` bytes of a file whose blocks hold the payload `data`. -/
theorem read_blocks_full (d : Dev) (s : FS) (nb : Fin MAX_DIRECT_BLOCKS → Int)
    (data : Nat → Nat) (R N : Int) (hd : ∀ i, (BLOCK_SIZE : Int) ≤ d.data_rd i)
    (ho : s.fd_open = true) (hRN : R ≤ N) (hN : N ≤ 12 * 4096)
    (hnb : ∀ j, j < MAX_DIRECT_BLOCKS → 4096 * (j : Int) < N →
      aget nb j ≠ -1 ∧ 0 ≤ aget nb j ∧ aget nb j < MAX_BLOCKS)
    (himg : ∀ j, j < MAX_DIRECT_BLOCKS → ∀ o : Nat, (o : Int) < N - 4096 * (j : Int) →
      o < 4096 → s.image ((aget nb j).toNat * BLOCK_SIZE + o) = data (4096 * j + o)) :
    ∀ (n i : Nat) (buf : Nat → Nat), i + n = MAX_DIRECT_BLOCKS →
      (∀ p : Nat, (p : Int) < min (4096 * (i : Int)) R → buf p = data p) →
      (read_blocks d s nb R n i (min (4096 * (i : Int)) R) buf).1 = R
      ∧ ∀ p : Nat, (p : Int) < R →
          (read_blocks d s nb R n i (min (4096 * (i : Int)) R) buf).2 p = data p := by
  intro n
  induction n with
  | zero =>
    intro i buf hi hbuf
    have h12 : i = 12 := by
      simp only [MAX_DIRECT_BLOCKS] at hi
      omega
    subst h12
    have hmin : min (4096 * ((12 : Nat) : Int)) R = R := by
      apply min_eq_right
      push_cast
      omega
    rw [hmin] at hbuf ⊢
    exact ⟨by simp [read_blocks], fun p hp => by simpa [read_blocks] using hbuf p hp⟩
  | succ n ih =>
    intro i buf hi hbuf
    have hi12 : i < MAX_DIRECT_BLOCKS := by omega
    unfold read_blocks
    simp only
    by_cases hlt : min (4096 * (i : Int)) R < R
    · rw [if_pos hlt]
      have htot : min (4096 * (i : Int)) R = 4096 * (i : Int) := by
        apply min_eq_left
        by_contra hc
        rw [min_eq_right (by omega)] at hlt
        omega
      rw [htot] at hlt hbuf ⊢
      obtain ⟨b1, b2, b3⟩ := hnb i hi12 (by omega)
      rw [if_neg b1, if_neg (by omega)]
      have hbfb1 : (1 : Int) ≤ (if R - 4096 * (i : Int) > (BLOCK_SIZE : Int)
          then (BLOCK_SIZE : Int) else R - 4096 * (i : Int)) := by
        simp only [BLOCK_SIZE]
        split_ifs <;> omega
      have hbfb2 : (if R - 4096 * (i : Int) > (BLOCK_SIZE : Int)
          then (BLOCK_SIZE : Int) else R - 4096 * (i : Int)) ≤ (BLOCK_SIZE : Int) := by
        split_ifs <;> omega
      have hbfb3 : 4096 * (i : Int) + (if R - 4096 * (i : Int) > (BLOCK_SIZE : Int)
          then (BLOCK_SIZE : Int) else R - 4096 * (i : Int))
            = min (4096 * ((i + 1 : Nat) : Int)) R := by
        simp only [BLOCK_SIZE]
        push_cast
        split_ifs with hc
        · rw [min_eq_left (by omega)]
          omega
        · rw [min_eq_right (by omega)]
          omega
      generalize (if R - 4096 * (i : Int) > (BLOCK_SIZE : Int)
          then (BLOCK_SIZE : Int) else R - 4096 * (i : Int)) = bfb at hbfb1 hbfb2 hbfb3
      have hr : dev_count s.fd_open (d.data_rd i) bfb.toNat = bfb := by
        rw [ho, dev_count_full _ _ (by have := hd i; omega)]
        omega
      rw [hr, if_neg (by omega), if_neg (by omega), hbfb3]
      apply ih (i + 1) _ (by omega)
      intro p hp
      rw [← hbfb3] at hp
      by_cases hw : (4096 * (i : Int)).toNat ≤ p ∧ p < (4096 * (i : Int)).toNat + bfb.toNat
      · rw [if_pos hw, block_offset _ b2]
        have := himg i hi12 (p - (4096 * (i : Int)).toNat) (by omega)
          (by simp only [BLOCK_SIZE] at hbfb2; omega)
        rw [this]
        congr 1
        omega
      · rw [if_neg hw]
        apply hbuf
        omega
    · rw [if_neg hlt]
      have htot : min (4096 * (i : Int)) R = R := by
        have := min_le_right (4096 * (i : Int)) R
        omega
      rw [htot] at hbuf ⊢
      exact ⟨rfl, hbuf⟩

theorem find_inode_loop_congr (t1 t2 : Fin MAX_FILES → inode) (l : List Nat) (len : Nat)
    (h : ∀ j : Nat, (aget t1 j).used = (aget t2 j).used ∧ (aget t1 j).name = (aget t2 j).name) :
    ∀ n i, find_inode_loop t1 l len n i = find_inode_loop t2 l len n i := by
  intro n
  induction n with
  | zero => intro i; simp [find_inode_loop]
  | succ n ih =>
    intro i
    unfold find_inode_loop
    rw [(h i).1, (h i).2, ih]

/-- Replacing an inode by one with the same `used` flag and name does not change lookups. -/
theorem find_inode_aset (s s2 : FS) (i : Fin MAX_FILES) (v : inode) (fn : Option (List Nat))
    (ht : s2.inode_table = aset s.inode_table i.val v)
    (hu : v.used = (s.inode_table i).used) (hn : v.name = (s.inode_table i).name) :
    find_inode s2 fn = find_inode s fn := by
  unfold find_inode
  cases fn with
  | none => rfl
  | some l =>
    simp only
    split_ifs
    · rfl
    · apply find_inode_loop_congr
      intro j
      rw [ht]
      by_cases hj : j = i.val
      · subst hj
        rw [aget_aset_eq _ _ _ i.isLt, aget_fin]
        exact ⟨hu, hn⟩
      · rw [aget_aset_ne _ _ _ _ hj]
        exact ⟨rfl, rfl⟩

theorem sync_metadata_data (s : FS) (d : Dev) (p : Nat) (hp : 10 * BLOCK_SIZE ≤ p) :
    (sync_metadata_to_disk s d).image p = s.image p := by
  unfold sync_metadata_to_disk
  split_ifs
  · rfl
  · exact flush_metadata_data s d p hp

/-- A write of `N <= 12 * 4096` bytes on a reliable device, in a mounted state with
I1 and the reserved bits set, succeeds; the file's inode then names blocks that
hold the payload. -/
theorem fs_write_success (s : FS) (d : Dev) (l : List Nat) (buf : Nat → Nat) (N : Int)
    (hm : mounted s) (h1 : I1 s) (hres : ∀ b : Nat, b < 10 → aget s.bitmap b = true)
    (hex : find_inode s (some l) ≠ -1) (hN0 : 0 ≤ N) (hN : N ≤ 12 * 4096)
    (hfree : (N + 4095) / 4096 ≤ s.sb.free_blocks)
    (hd : ∀ i t, (BLOCK_SIZE : Int) ≤ d.data_wr i t) :
    ∃ (i : Fin MAX_FILES) (nb : Fin MAX_DIRECT_BLOCKS → Int) (st : FS),
      find_inode s (some l) = (i.val : Int) ∧ (s.inode_table i).used = 1
      ∧ strlen l ≤ MAX_FILENAME
      ∧ fs_write s d (some l) (some buf) N = (0, st)
      ∧ st.inode_table
          = aset s.inode_table i.val
              { used := (s.inode_table i).used, size := N, name := (s.inode_table i).name,
                blocks := nb }
      ∧ st.disk_fd = s.disk_fd
      ∧ st.fd_open = true
      ∧ (∀ j, j < MAX_DIRECT_BLOCKS → 4096 * (j : Int) < N →
          aget nb j ≠ -1 ∧ 0 ≤ aget nb j ∧ aget nb j < MAX_BLOCKS)
      ∧ (∀ j, j < MAX_DIRECT_BLOCKS → ∀ o : Nat, (o : Int) < N - 4096 * (j : Int) → o < 4096 →
          st.image ((aget nb j).toNat * BLOCK_SIZE + o) = buf (4096 * j + o)) := by
  obtain ⟨hfd, hopen⟩ := hm
  obtain ⟨l2, i, hl2, hlen, hi1, hi2, _⟩ := find_inode_some s (some l) hex
  have hl : l = l2 := by
    injection hl2
  subst hl
  have hcalc : calculate_blocks_needed N = (N + 4095) / 4096 := by
    rcases calc_blocks_cases N ⟨by omega, by omega⟩ with ⟨a1, a2⟩ | ⟨_, _, a2⟩ | ⟨a1, _⟩
    · rw [a2]
      omega
    · exact a2
    · omega
  have hk0 : 0 ≤ calculate_blocks_needed N := by rw [hcalc]; omega
  have hk12 : calculate_blocks_needed N ≤ 12 := by rw [hcalc]; omega
  have hkN : 4096 * calculate_blocks_needed N < N + 4096 := by rw [hcalc]; omega
  have hkN2 : N ≤ 4096 * calculate_blocks_needed N := by rw [hcalc]; omega
  have hkf : calculate_blocks_needed N ≤ s.sb.free_blocks := by rw [hcalc]; exact hfree
  have hbits : (calculate_blocks_needed N).toNat ≤ clear_count s.bitmap := by
    have := clear_count_ge s h1
    omega
  have hok := alloc_blocks_ok (calculate_blocks_needed N).toNat 0 s (fun _ => -1) hbits
  obtain ⟨al1, _, al3⟩ := alloc_blocks_spec s (calculate_blocks_needed N).toNat 0 s
    (fun _ => -1) (AllocSeg_init s _ (fun j hj => by simp [aget, hj]))
    (by simp only [MAX_DIRECT_BLOCKS]; omega)
  have hseg := al1 hok
  rw [Nat.zero_add] at hseg
  refine ⟨i, ?_⟩
  have hfw : fs_write s d (some l) (some buf) N
      = (let a := alloc_blocks (calculate_blocks_needed N).toNat 0 s (fun _ => -1)
         let w := write_blocks d a.new_blocks buf (calculate_blocks_needed N).toNat 0 0 N a.st
         if w.1 ≠ 0 then (w.1, free_new_blocks w.2 a.new_blocks (calculate_blocks_needed N).toNat)
         else (0, sync_metadata_to_disk (free_blocks_of (write_inode w.2 (i.val : Int)
            { used := (s.inode_table i).used, size := N, name := (s.inode_table i).name,
              blocks := a.new_blocks }) (s.inode_table i).blocks) d)) := by
    unfold fs_write
    simp only
    rw [if_neg (by
        simp only [not_or]
        exact ⟨by simp [validate_of_strlen l hlen], by omega, by omega, by omega⟩),
      if_neg hex, if_neg (by omega), if_neg (by simp only [MAX_DIRECT_BLOCKS]; omega),
      if_neg (by simp [hok]), hi1, read_inode_used s i _ hi2]
  rw [hfw]
  simp only
  generalize calculate_blocks_needed N = k at hk0 hk12 hkN hkN2 hkf hbits hok hseg al3
  generalize alloc_blocks k.toNat 0 s (fun _ => -1) = a at hok hseg al3
  obtain ⟨wr1, wr2⟩ := write_blocks_full d a.new_blocks buf N hd k.toNat 0 a.st
    (hseg.op.trans hopen) (Or.inr (by push_cast; omega))
    (fun j _ hj => (hseg.rng j (by omega)).1)
    (fun j j2 _ hj _ hj2 he => hseg.inj j j2 (by omega) (by omega) he)
  obtain ⟨w1, w2, w3, w4, w5⟩ := write_blocks_frame d a.new_blocks buf k.toNat 0 0 N a.st
  have e0 : write_blocks d a.new_blocks buf k.toNat 0 (4096 * 0) (N - 4096 * ((0 : Nat) : Int))
      a.st = write_blocks d a.new_blocks buf k.toNat 0 0 N a.st := by simp
  rw [e0] at wr1 wr2
  generalize write_blocks d a.new_blocks buf k.toNat 0 0 N a.st = w at wr1 wr2 w1 w2 w3 w4 w5
  rw [if_neg (by rw [wr1]; simp)]
  obtain ⟨f1, f2, f3, f4, f5⟩ := sync_metadata_frame
    (free_blocks_of (write_inode w.2 (i.val : Int)
      { used := (s.inode_table i).used, size := N, name := (s.inode_table i).name,
        blocks := a.new_blocks }) (s.inode_table i).blocks) d
  obtain ⟨g1, g2, g3, g4, _, _, _, _⟩ := free_blocks_of_frame
    (write_inode w.2 (i.val : Int)
      { used := (s.inode_table i).used, size := N, name := (s.inode_table i).name,
        blocks := a.new_blocks }) (s.inode_table i).blocks
  have hwi := write_inode_eq w.2 i
    { used := (s.inode_table i).used, size := N, name := (s.inode_table i).name,
      blocks := a.new_blocks }
  have hjk : ∀ j : Nat, 4096 * (j : Int) < N → j < k.toNat := by
    intro j hj
    omega
  refine ⟨a.new_blocks, _, hi1, hi2, hlen, rfl, ?_, ?_, ?_, ?_, ?_⟩
  · rw [f1, g1, hwi, w1, hseg.table]
  · rw [f4, g2, hwi, w4, hseg.fd]
  · rw [f5, g3, hwi, w5, hseg.op, hopen]
  · intro j _ hj
    obtain ⟨r1, r2, _⟩ := hseg.rng j (hjk j hj)
    exact ⟨by omega, r1, r2⟩
  · intro j _ o ho1 ho2
    have hjlt : j < k.toNat := hjk j (by omega)
    obtain ⟨r1, r2, r3⟩ := hseg.rng j hjlt
    have h10 : 10 ≤ (aget a.new_blocks j).toNat := by
      by_contra hc
      have := hres (aget a.new_blocks j).toNat (by omega)
      rw [r3] at this
      exact Bool.false_ne_true this
    rw [sync_metadata_data _ _ _ (by simp only [BLOCK_SIZE]; omega), g4, hwi]
    exact wr2 j (Nat.zero_le _) (by omega) o ho1 ho2

/-- C1 (write/read round trip), with the reserved bits required: in a mounted
state that satisfies I1-I5 and has bits 0-9 of the bitmap set, for the name of an
existing file, a payload of `N` bytes with `0 <= N <= 12 * 4096` and
`ceil(N / 4096) <= free_blocks`, and devices that move every data block in full,
`fs_write` returns 0, and a following `fs_read` of `M >= 0` bytes returns
`min M N` and leaves the first `min M N` bytes of the buffer equal to the payload. -/
theorem c1_write_read_round_trip (s : FS) (d d2 : Dev) (l : List Nat) (data buf : Nat → Nat)
    (N M : Int) (hm : mounted s) (h1 : I1 s) (_h2 : I2 s) (_h3 : I3 s) (_h4 : I4 s) (_h5 : I5 s)
    (hres : ∀ b : Nat, b < 10 → aget s.bitmap b = true)
    (hex : find_inode s (some l) ≠ -1) (hN0 : 0 ≤ N) (hN : N ≤ 12 * 4096)
    (hfree : (N + 4095) / 4096 ≤ s.sb.free_blocks) (hM : 0 ≤ M)
    (hd : data_full d) (hd2 : data_full d2) :
    (fs_write s d (some l) (some data) N).1 = 0
    ∧ (fs_read (fs_write s d (some l) (some data) N).2 d2 (some l) (some buf) M).1 = min M N
    ∧ ∃ out : Nat → Nat,
        (fs_read (fs_write s d (some l) (some data) N).2 d2 (some l) (some buf) M).2.1 = some out
        ∧ ∀ p : Nat, (p : Int) < min M N → out p = data p := by
  obtain ⟨i, nb, st, hi1, hi2, hlen, hw, ht, hfd, hop, hnb, himg⟩ :=
    fs_write_success s d l data N hm h1 hres hex hN0 hN hfree hd.1
  rw [hw]
  simp only
  have hfi : find_inode st (some l) = (i.val : Int) :=
    (find_inode_aset s st i _ (some l) ht rfl rfl).trans hi1
  have hsti : st.inode_table i
      = { used := (s.inode_table i).used, size := N, name := (s.inode_table i).name,
          blocks := nb } := by
    rw [ht, aset_fin_eq]
  have hused : (st.inode_table i).used = 1 := by rw [hsti]; exact hi2
  have hfr : fs_read st d2 (some l) (some buf) M
      = ((read_blocks d2 st nb (min M N) MAX_DIRECT_BLOCKS 0 0 buf).1,
         some (read_blocks d2 st nb (min M N) MAX_DIRECT_BLOCKS 0 0 buf).2, st) := by
    unfold fs_read
    simp only
    have hb : (if M > N then N else M) = min M N := by
      split_ifs <;> omega
    rw [if_neg (by
        simp only [not_or]
        exact ⟨by simp [validate_of_strlen l hlen], by omega, by omega, by
          rw [hfd]
          have := hm.1
          omega⟩),
      hfi, if_neg (by omega), read_inode_used st i _ hused, hsti]
    simp only
    rw [if_neg (by rw [hi2]; decide), hb]
  rw [hfr]
  simp only
  have hmin : min (4096 * ((0 : Nat) : Int)) (min M N) = 0 := by
    push_cast
    omega
  have hrd := read_blocks_full d2 st nb data (min M N) N hd2.2 hop (min_le_right M N) hN hnb himg
    MAX_DIRECT_BLOCKS 0 buf (by omega) (by
      intro p hp
      rw [hmin] at hp
      omega)
  rw [hmin] at hrd
  exact ⟨trivial, hrd.1, _, rfl, hrd.2⟩

/-! ## Claim C1 at concrete volumes -/

theorem I3_of_Inv (s : FS) (hv : Inv s) : I3 s := by
  intro i k hu hk
  have hr := hv.blk_range i k
  refine ⟨by omega, by omega, hv.blk_set i k hu hk, ?_⟩
  intro i2 k2 hu2 he
  exact hv.blk_inj i i2 k k2 hu hu2 hk he

set_option maxRecDepth 100000 in
theorem I5_vol_a : I5 vol_a := by
  unfold I5
  decide

theorem data_full_dev_ok : data_full dev_ok :=
  ⟨fun _ _ => by simp [dev_ok, BLOCK_SIZE], fun _ => by simp [dev_ok, BLOCK_SIZE]⟩

set_option maxRecDepth 100000 in
theorem c1_witness :
    (fs_write vol_a dev_ok (some [97]) (some (fun _ => 65)) 5000).1 = 0
    ∧ (fs_read (fs_write vol_a dev_ok (some [97]) (some (fun _ => 65)) 5000).2 dev_ok (some [97])
        (some (fun _ => 0)) 6000).1 = min 6000 5000
    ∧ ∃ out : Nat → Nat,
        (fs_read (fs_write vol_a dev_ok (some [97]) (some (fun _ => 65)) 5000).2 dev_ok
          (some [97]) (some (fun _ => 0)) 6000).2.1 = some out
        ∧ ∀ p : Nat, (p : Int) < min 6000 5000 → out p = (fun _ => 65) p :=
  c1_write_read_round_trip vol_a dev_ok dev_ok [97] (fun _ => 65) (fun _ => 0) 5000 6000
    ⟨by decide, by decide⟩ (Reachable_Inv vol_a vol_a_reachable).i1
    (Reachable_Inv vol_a vol_a_reachable).i2 (I3_of_Inv vol_a (Reachable_Inv vol_a vol_a_reachable))
    (Reachable_Inv vol_a vol_a_reachable).names I5_vol_a
    (Reachable_Inv vol_a vol_a_reachable).resv (by decide) (by decide) (by decide) (by decide)
    (by decide) data_full_dev_ok data_full_dev_ok

theorem unreserved_inode (i : Fin MAX_FILES) :
    unreserved.inode_table i
      = if i.val = 0 then
          { used := 1, size := 0, name := fun j => if j.val = 0 then 97 else 0,
            blocks := fun _ => -1 }
        else format_inode := by
  simp [unreserved, aset]

theorem unreserved_blocks (i : Fin MAX_FILES) (k : Fin MAX_DIRECT_BLOCKS) :
    (unreserved.inode_table i).blocks k = -1 := by
  rw [unreserved_inode]
  split_ifs <;> rfl

theorem unreserved_used (i : Fin MAX_FILES) (h : (unreserved.inode_table i).used = 1) :
    i.val = 0 := by
  rw [unreserved_inode] at h
  by_contra hc
  rw [if_neg hc] at h
  simp [format_inode] at h

theorem unreserved_invariants :
    I1 unreserved ∧ I2 unreserved ∧ I3 unreserved ∧ I4 unreserved ∧ I5 unreserved := by
  refine ⟨?_, ?_, ?_, ?_, ?_⟩
  · have h0 : popcount unreserved.bitmap = 0 := by
      unfold popcount
      rw [List.countP_eq_zero]
      intro a _
      simp [aget, unreserved]
    unfold I1
    rw [h0]
    decide
  · have h := used_count_aset (fun _ => format_inode) ⟨0, by decide⟩
      { used := 1, size := 0, name := fun j => if j.val = 0 then 97 else 0,
        blocks := fun _ => -1 }
    rw [used_count_format] at h
    unfold I2
    have e : unreserved.inode_table = aset (fun _ => format_inode) 0
        { used := 1, size := 0, name := fun j => if j.val = 0 then 97 else 0,
          blocks := fun _ => -1 } := rfl
    rw [e]
    simp only [format_inode] at h
    simp only [format_inode]
    rw [h]
    decide
  · intro i k _ hk
    exact absurd (unreserved_blocks i k) hk
  · intro i j hi hj hij
    exact absurd (Fin.ext ((unreserved_used i hi).trans (unreserved_used j hj).symm)) hij
  · intro i hi
    have h0 : i.val = 0 := unreserved_used i hi
    rw [unreserved_inode, if_pos h0]
    decide

set_option maxRecDepth 100000 in
/-- C1 as stated fails on `unreserved`: the state is mounted, satisfies I1-I5,
holds the file "a" and has 2560 free blocks, and the device is reliable; `fs_write`
of the one byte 65 returns 0 and `fs_read` returns 1, yet the byte read is 0.  The
write takes block 0, whose bit is clear, and the final metadata flush overwrites
the payload with the superblock. -/
theorem c1_round_trip_fails_without_reserved_bits :
    mounted unreserved
    ∧ (I1 unreserved ∧ I2 unreserved ∧ I3 unreserved ∧ I4 unreserved ∧ I5 unreserved)
    ∧ ¬ sb_invalid unreserved.sb
    ∧ find_inode unreserved (some [97]) ≠ -1
    ∧ ((1 : Int) + 4095) / 4096 ≤ unreserved.sb.free_blocks
    ∧ data_full dev_ok
    ∧ (fs_write unreserved dev_ok (some [97]) (some (fun _ => 65)) 1).1 = 0
    ∧ (fs_read (fs_write unreserved dev_ok (some [97]) (some (fun _ => 65)) 1).2 dev_ok
        (some [97]) (some (fun _ => 7)) 1).1 = 1
    ∧ ((fs_read (fs_write unreserved dev_ok (some [97]) (some (fun _ => 65)) 1).2 dev_ok
        (some [97]) (some (fun _ => 7)) 1).2.1).map (fun out => out 0) = some 0 :=
  ⟨⟨by decide, by decide⟩, unreserved_invariants, by decide, by decide, by decide,
    data_full_dev_ok, by decide, by decide, by decide⟩

/-! ## Anatomy of a successful `fs_write` -/

theorem validate_iff (l : List Nat) :
    validate_string_manual (some l) = 0 ↔ strlen l ≤ MAX_FILENAME := by
  constructor
  · intro h
    by_contra hc
    have hlen : 28 < strlen l := by
      simp only [MAX_FILENAME] at hc
      omega
    have key : ∀ (m : List Nat) (n : Nat), n < strlen m → char_at m n ≠ 0 := by
      intro m
      induction m with
      | nil => intro n hn; simp [strlen] at hn
      | cons c cs ih =>
        intro n hn
        unfold strlen at hn
        by_cases hc0 : c = 0
        · rw [if_pos hc0] at hn
          omega
        · rw [if_neg hc0] at hn
          cases n with
          | zero => simpa [char_at] using hc0
          | succ n =>
            have := ih n (by omega)
            simpa [char_at] using this
    unfold validate_string_manual at h
    simp only at h
    have h1 : (List.range 28).any (fun i => char_at l i == 0) = false := by
      rw [List.any_eq_false]
      intro x hx
      rw [List.mem_range] at hx
      simpa using key l x (by omega)
    rw [h1] at h
    have h2 := key l 28 hlen
    simp [h2] at h
  · exact validate_of_strlen l

/-- A call of `fs_write` that returns 0 passed every check, allocated
`calculate_blocks_needed size` blocks, wrote them, replaced the block list and
the size of the inode found, released the old blocks and synced. -/
theorem fs_write_ok (s : FS) (d : Dev) (fn : Option (List Nat)) (data : Option (Nat → Nat))
    (size : Int) (h : (fs_write s d fn data size).1 = 0) :
    ∃ (l : List Nat) (buf : Nat → Nat) (i : Fin MAX_FILES) (st : FS),
      fn = some l ∧ data = some buf ∧ strlen l ≤ MAX_FILENAME ∧ 0 ≤ size ∧ 0 ≤ s.disk_fd
      ∧ find_inode s fn = (i.val : Int) ∧ (s.inode_table i).used = 1
      ∧ calculate_blocks_needed size ≤ s.sb.free_blocks
      ∧ calculate_blocks_needed size ≤ MAX_DIRECT_BLOCKS
      ∧ (alloc_blocks (calculate_blocks_needed size).toNat 0 s (fun _ => -1)).ok = true
      ∧ AllocSeg s st
          (alloc_blocks (calculate_blocks_needed size).toNat 0 s (fun _ => -1)).new_blocks 0
          (calculate_blocks_needed size).toNat
      ∧ fs_write s d fn data size
          = (0, sync_metadata_to_disk (free_blocks_of (write_inode st (i.val : Int)
              { used := (s.inode_table i).used, size := size, name := (s.inode_table i).name,
                blocks := (alloc_blocks (calculate_blocks_needed size).toNat 0 s
                  (fun _ => -1)).new_blocks }) (s.inode_table i).blocks) d) := by
  unfold fs_write at h ⊢
  cases fn with
  | none => simp at h
  | some l =>
    cases data with
    | none => simp at h
    | some buf =>
      simp only at h ⊢
      by_cases hv : validate_string_manual (some l) ≠ 0 ∨ strlen l > MAX_FILENAME ∨ size < 0
          ∨ s.disk_fd < 0
      · rw [if_pos hv] at h; simp at h
      rw [if_neg hv] at h ⊢
      by_cases hf : find_inode s (some l) = -1
      · rw [if_pos hf] at h; simp at h
      rw [if_neg hf] at h ⊢
      by_cases hk1 : calculate_blocks_needed size > s.sb.free_blocks
      · rw [if_pos hk1] at h; simp at h
      rw [if_neg hk1] at h ⊢
      by_cases hk2 : calculate_blocks_needed size > (MAX_DIRECT_BLOCKS : Int)
      · rw [if_pos hk2] at h; simp at h
      rw [if_neg hk2] at h ⊢
      obtain ⟨l2, i, hl2, hlen, hi1, hi2, _⟩ := find_inode_some s (some l) hf
      have hk : 0 + (calculate_blocks_needed size).toNat ≤ MAX_DIRECT_BLOCKS := by omega
      obtain ⟨al1, _, _⟩ := alloc_blocks_spec s (calculate_blocks_needed size).toNat 0 s
        (fun _ => -1) (AllocSeg_init s _ (fun j hj => by simp [aget, hj])) hk
      rw [hi1, read_inode_used s i _ hi2] at h ⊢
      generalize alloc_blocks (calculate_blocks_needed size).toNat 0 s (fun _ => -1) = a
        at al1 h ⊢
      by_cases hok : a.ok = false
      · rw [if_pos hok] at h; simp at h
      rw [if_neg hok] at h ⊢
      have hok2 : a.ok = true := by simpa using hok
      have hseg := al1 hok2
      rw [Nat.zero_add] at hseg
      obtain ⟨w1, w2, w3, w4, w5⟩ := write_blocks_frame d a.new_blocks buf
        (calculate_blocks_needed size).toNat 0 0 size a.st
      generalize write_blocks d a.new_blocks buf (calculate_blocks_needed size).toNat 0 0 size
        a.st = w at w1 w2 w3 w4 w5 h ⊢
      by_cases hw : w.1 ≠ 0
      · rw [if_pos hw] at h
        exact absurd h hw
      rw [if_neg hw]
      simp only [not_or, not_lt, gt_iff_lt, not_not] at hv
      refine ⟨l, buf, i, w.2, rfl, rfl, hv.2.1, hv.2.2.1, hv.2.2.2, rfl, hi2, by omega, by omega, hok2,
        AllocSeg_of_mem_eq s a.st w.2 _ _ _ hseg w1 w2 w3 w4 w5, rfl⟩

theorem mark_block_free_count (s : FS) (b : Int) (h0 : 0 ≤ b) (h1 : b < MAX_BLOCKS)
    (hb : aget s.bitmap b.toNat = true) :
    (mark_block_free s b).sb.free_blocks = s.sb.free_blocks + 1 := by
  unfold mark_block_free
  rw [if_pos ⟨h0, h1⟩, if_pos hb]

/-- Releasing distinct blocks that are all set raises `free_blocks` by their number. -/
theorem free_fold_count (blocks : Fin MAX_DIRECT_BLOCKS → Int) :
    ∀ (L : List Nat) (s : FS), L.Nodup →
      (∀ j ∈ L, aget blocks j ≠ -1 → 0 ≤ aget blocks j ∧ aget blocks j < MAX_BLOCKS
        ∧ aget s.bitmap (aget blocks j).toNat = true) →
      (∀ j ∈ L, ∀ j2 ∈ L, aget blocks j ≠ -1 → aget blocks j = aget blocks j2 → j = j2) →
      (L.foldl (fun st j => mark_block_free st (aget blocks j)) s).sb.free_blocks
        = s.sb.free_blocks + (L.countP (fun j => decide (aget blocks j ≠ -1)) : Nat) := by
  intro L
  induction L with
  | nil => intro s _ _ _; simp
  | cons a t ih =>
    intro s hnd hset hinj
    rw [List.nodup_cons] at hnd
    simp only [List.foldl_cons]
    by_cases hb : aget blocks a = -1
    · rw [hb, mark_block_free_neg s (-1) (by omega), List.countP_cons_of_neg _ _ (by simp [hb])]
      exact ih s hnd.2 (fun j hj => hset j (List.mem_cons_of_mem _ hj))
        (fun j hj j2 hj2 => hinj j (List.mem_cons_of_mem _ hj) j2 (List.mem_cons_of_mem _ hj2))
    · obtain ⟨r0, r1, r2⟩ := hset a (List.mem_cons_self _ _) hb
      rw [List.countP_cons_of_pos _ _ (by simpa using hb),
        ih (mark_block_free s (aget blocks a)) hnd.2 ?_
          (fun j hj j2 hj2 =>
            hinj j (List.mem_cons_of_mem _ hj) j2 (List.mem_cons_of_mem _ hj2)),
        mark_block_free_count s _ r0 r1 r2]
      · push_cast
        omega
      · intro j hj hjb
        obtain ⟨q0, q1, q2⟩ := hset j (List.mem_cons_of_mem _ hj) hjb
        refine ⟨q0, q1, ?_⟩
        rw [mark_block_free_bit]
        refine ⟨q2, ?_⟩
        rintro ⟨_, _, he⟩
        have hne : j ≠ a := fun e => hnd.1 (e ▸ hj)
        apply hne
        exact hinj j (List.mem_cons_of_mem _ hj) a (List.mem_cons_self _ _) hjb (by omega)

theorem free_blocks_of_count (s : FS) (blocks : Fin MAX_DIRECT_BLOCKS → Int)
    (hset : ∀ k : Fin MAX_DIRECT_BLOCKS, blocks k ≠ -1 → 0 ≤ blocks k ∧ blocks k < MAX_BLOCKS
      ∧ aget s.bitmap (blocks k).toNat = true)
    (hinj : ∀ k k2 : Fin MAX_DIRECT_BLOCKS, blocks k ≠ -1 → blocks k = blocks k2 → k = k2) :
    (free_blocks_of s blocks).sb.free_blocks = s.sb.free_blocks + (block_count blocks : Nat) := by
  unfold free_blocks_of block_count
  rw [free_if_eq]
  apply free_fold_count blocks _ s (List.nodup_range _)
  · intro j hj
    rw [List.mem_range] at hj
    rw [aget_of_lt _ _ hj]
    exact hset ⟨j, hj⟩
  · intro j hj j2 hj2
    rw [List.mem_range] at hj hj2
    rw [aget_of_lt _ _ hj, aget_of_lt _ _ hj2]
    intro h1 h2
    have := hinj ⟨j, hj⟩ ⟨j2, hj2⟩ h1 h2
    exact congrArg Fin.val this

/-- What a successful `fs_write` does to the records in memory, for any state,
device and size: `nb` holds the `calculate_blocks_needed size` new blocks, which
were clear before the call. -/
theorem fs_write_ok_effect (s : FS) (d : Dev) (fn : Option (List Nat))
    (data : Option (Nat → Nat)) (size : Int) (h : (fs_write s d fn data size).1 = 0) :
    ∃ (i : Fin MAX_FILES) (nb : Fin MAX_DIRECT_BLOCKS → Int),
      find_inode s fn = (i.val : Int) ∧ (s.inode_table i).used = 1
      ∧ calculate_blocks_needed size ≤ s.sb.free_blocks
      ∧ calculate_blocks_needed size ≤ MAX_DIRECT_BLOCKS
      ∧ (∀ j, j < (calculate_blocks_needed size).toNat →
          0 ≤ aget nb j ∧ aget nb j < MAX_BLOCKS ∧ aget s.bitmap (aget nb j).toNat = false)
      ∧ (∀ j j2, j < (calculate_blocks_needed size).toNat →
          j2 < (calculate_blocks_needed size).toNat → aget nb j = aget nb j2 → j = j2)
      ∧ (∀ j, (calculate_blocks_needed size).toNat ≤ j → j < MAX_DIRECT_BLOCKS → aget nb j = -1)
      ∧ (fs_write s d fn data size).2.inode_table
          = aset s.inode_table i.val
              { used := (s.inode_table i).used, size := size, name := (s.inode_table i).name,
                blocks := nb }
      ∧ (∀ x : Nat, aget (fs_write s d fn data size).2.bitmap x = true
          ↔ ((aget s.bitmap x = true
                ∨ ∃ j, j < (calculate_blocks_needed size).toNat ∧ aget nb j = (x : Int))
              ∧ ¬ ∃ k : Fin MAX_DIRECT_BLOCKS, (s.inode_table i).blocks k < MAX_BLOCKS
                  ∧ (s.inode_table i).blocks k = (x : Int)))
      ∧ (fs_write s d fn data size).2.sb.total_blocks = s.sb.total_blocks
      ∧ (fs_write s d fn data size).2.sb.block_size = s.sb.block_size
      ∧ (fs_write s d fn data size).2.sb.total_inodes = s.sb.total_inodes
      ∧ (fs_write s d fn data size).2.sb.free_inodes = s.sb.free_inodes
      ∧ (fs_write s d fn data size).2.disk_fd = s.disk_fd
      ∧ (fs_write s d fn data size).2.fd_open = s.fd_open
      ∧ ((∀ k : Fin MAX_DIRECT_BLOCKS, (s.inode_table i).blocks k ≠ -1 →
            0 ≤ (s.inode_table i).blocks k ∧ (s.inode_table i).blocks k < MAX_BLOCKS
            ∧ aget s.bitmap ((s.inode_table i).blocks k).toNat = true) →
          (∀ k k2 : Fin MAX_DIRECT_BLOCKS, (s.inode_table i).blocks k ≠ -1 →
            (s.inode_table i).blocks k = (s.inode_table i).blocks k2 → k = k2) →
          (fs_write s d fn data size).2.sb.free_blocks
            = s.sb.free_blocks - ((calculate_blocks_needed size).toNat : Int)
              + (block_count (s.inode_table i).blocks : Nat)) := by
  obtain ⟨l, buf, i, st, _, _, _, _, _, hfi, hu, hk1, hk2, _, hseg, heq⟩ :=
    fs_write_ok s d fn data size h
  rw [heq]
  simp only
  generalize (alloc_blocks (calculate_blocks_needed size).toNat 0 s (fun _ => -1)).new_blocks
    = nb at hseg
  have hwi := write_inode_eq st i
    { used := (s.inode_table i).used, size := size, name := (s.inode_table i).name,
      blocks := nb }
  have hst : (st.inode_table i).used = 1 := by rw [hseg.table]; exact hu
  have hz : (if (st.inode_table i).used = 0 ∧ (s.inode_table i).used = 1 then (-1 : Int)
      else if (st.inode_table i).used = 1 ∧ (s.inode_table i).used = 0 then 1 else 0) = 0 := by
    rw [if_neg (by rw [hst]; simp), if_neg (by rw [hu]; simp)]
  rw [hz] at hwi
  generalize write_inode st (i.val : Int)
    { used := (s.inode_table i).used, size := size, name := (s.inode_table i).name,
      blocks := nb } = S at hwi
  have hSb : S.bitmap = st.bitmap := by rw [hwi]
  have hSt : S.inode_table = aset st.inode_table i.val
      { used := (s.inode_table i).used, size := size, name := (s.inode_table i).name,
        blocks := nb } := by rw [hwi]
  have hSs : S.sb.free_blocks = st.sb.free_blocks ∧ S.sb.total_blocks = st.sb.total_blocks
      ∧ S.sb.block_size = st.sb.block_size ∧ S.sb.total_inodes = st.sb.total_inodes
      ∧ S.sb.free_inodes = st.sb.free_inodes := by
    rw [hwi]
    simp
  have hSf : S.disk_fd = st.disk_fd ∧ S.fd_open = st.fd_open := by rw [hwi]; simp
  obtain ⟨f1, f2, f3, f4, f5⟩ :=
    sync_metadata_frame (free_blocks_of S (s.inode_table i).blocks) d
  obtain ⟨g1, g2, g3, _, g5, g6, g7, g8⟩ := free_blocks_of_frame S (s.inode_table i).blocks
  refine ⟨i, nb, hfi, hu, hk1, hk2, fun j hj => hseg.rng j hj, hseg.inj, hseg.rest, ?_, ?_, ?_,
    ?_, ?_, ?_, ?_, ?_, ?_⟩
  · rw [f1, g1, hSt, hseg.table]
  · intro x
    rw [f3, free_blocks_of_bit, hSb, hseg.bits]
    constructor
    · rintro ⟨h1 | ⟨j, _, hj, he⟩, h2⟩
      · exact ⟨Or.inl h1, h2⟩
      · exact ⟨Or.inr ⟨j, hj, he⟩, h2⟩
    · rintro ⟨h1 | ⟨j, hj, he⟩, h2⟩
      · exact ⟨Or.inl h1, h2⟩
      · exact ⟨Or.inr ⟨j, Nat.zero_le _, hj, he⟩, h2⟩
  · rw [f2, g5, hSs.2.1, hseg.sbg.1]
  · rw [f2, g6, hSs.2.2.1, hseg.sbg.2.1]
  · rw [f2, g7, hSs.2.2.2.1, hseg.sbg.2.2.1]
  · rw [f2, g8, hSs.2.2.2.2, hseg.sbg.2.2.2]
  · rw [f4, g2, hSf.1, hseg.fd]
  · rw [f5, g3, hSf.2, hseg.op]
  · intro hset hinj
    rw [f2, free_blocks_of_count S _ ?_ hinj, hSs.1, hseg.fb]
    · push_cast
      omega
    · intro k hk
      obtain ⟨q0, q1, q2⟩ := hset k hk
      refine ⟨q0, q1, ?_⟩
      rw [hSb, hseg.bits]
      exact Or.inl q2

/-- A block list whose first `k` slots are non-negative and whose other slots are
`-1` has `k` non-sentinel entries. -/
theorem block_count_packed (nb : Fin MAX_DIRECT_BLOCKS → Int) (k : Nat)
    (hk : k ≤ MAX_DIRECT_BLOCKS) (h0 : ∀ j, j < k → 0 ≤ aget nb j)
    (h1 : ∀ j, k ≤ j → j < MAX_DIRECT_BLOCKS → aget nb j = -1) : block_count nb = k := by
  unfold block_count
  rw [countP_range_congr (fun j => decide (j < k)) _ _ (fun j hj => by
    by_cases hjk : j < k
    · have := h0 j hjk
      simp only [hjk, decide_True, decide_eq_true_eq]
      omega
    · simp [hjk, h1 j (by omega) hj]), countP_lt_range]
  omega

/-- C15 (effect of a successful overwrite): in a mounted state satisfying I1-I5,
when `fs_write` returns 0 there are an inode index `i` (the file) and a list `nb`
of newly chosen blocks, all clear before the call, such that afterwards inode `i`
holds `nb`; a bit of the bitmap is set if it is a new block, clear if it is a
previous block of the file, and unchanged otherwise; `free_blocks` is its old
value minus the number of new blocks plus the number of previous blocks;
`free_inodes`, the `used` flag and the name of inode `i` and every other inode
slot are unchanged. -/
theorem c15_successful_overwrite_effect (s : FS) (d : Dev) (fn : Option (List Nat))
    (data : Option (Nat → Nat)) (size : Int) (_hm : mounted s) (_h1 : I1 s) (_h2 : I2 s)
    (h3 : I3 s) (_h4 : I4 s) (_h5 : I5 s) (h : (fs_write s d fn data size).1 = 0) :
    ∃ (i : Fin MAX_FILES) (nb : Fin MAX_DIRECT_BLOCKS → Int),
      find_inode s fn = (i.val : Int)
      ∧ (∀ k, nb k ≠ -1 → 0 ≤ nb k ∧ nb k < MAX_BLOCKS ∧ aget s.bitmap (nb k).toNat = false)
      ∧ (∀ k k2, nb k ≠ -1 → nb k = nb k2 → k = k2)
      ∧ block_count nb = (calculate_blocks_needed size).toNat
      ∧ ((fs_write s d fn data size).2.inode_table i).blocks = nb
      ∧ ((fs_write s d fn data size).2.inode_table i).size = size
      ∧ (∀ x : Nat, (∃ k, nb k = (x : Int)) →
          aget (fs_write s d fn data size).2.bitmap x = true)
      ∧ (∀ x : Nat, (∃ k, (s.inode_table i).blocks k = (x : Int)) →
          aget (fs_write s d fn data size).2.bitmap x = false)
      ∧ (∀ x : Nat, (¬ ∃ k, nb k = (x : Int)) → (¬ ∃ k, (s.inode_table i).blocks k = (x : Int)) →
          aget (fs_write s d fn data size).2.bitmap x = aget s.bitmap x)
      ∧ (fs_write s d fn data size).2.sb.free_blocks
          = s.sb.free_blocks - (block_count nb : Nat) + (block_count (s.inode_table i).blocks : Nat)
      ∧ (fs_write s d fn data size).2.sb.free_inodes = s.sb.free_inodes
      ∧ ((fs_write s d fn data size).2.inode_table i).used = (s.inode_table i).used
      ∧ ((fs_write s d fn data size).2.inode_table i).name = (s.inode_table i).name
      ∧ ∀ j : Fin MAX_FILES, j ≠ i →
          (fs_write s d fn data size).2.inode_table j = s.inode_table j := by
  obtain ⟨i, nb, hfi, hu, _, hk2, hrng, hinj, hrest, htab, hbits, _, _, _, hfin, _, _, hfb⟩ :=
    fs_write_ok_effect s d fn data size h
  obtain ⟨l, _, _, _, _, _, _, hsz, _⟩ := fs_write_ok s d fn data size h
  have hK : (calculate_blocks_needed size).toNat ≤ MAX_DIRECT_BLOCKS := by omega
  have hbc : block_count nb = (calculate_blocks_needed size).toNat :=
    block_count_packed nb _ hK (fun j hj => (hrng j hj).1) hrest
  have hnb : ∀ k : Fin MAX_DIRECT_BLOCKS, nb k ≠ -1 →
      k.val < (calculate_blocks_needed size).toNat := by
    intro k hk
    by_contra hc
    have := hrest k.val (by omega) k.isLt
    rw [aget_fin] at this
    exact hk this
  have hti : (fs_write s d fn data size).2.inode_table i
      = { used := (s.inode_table i).used, size := size, name := (s.inode_table i).name,
          blocks := nb } := by
    rw [htab, aset_fin_eq]
  have hold : ∀ k : Fin MAX_DIRECT_BLOCKS, (s.inode_table i).blocks k ≠ -1 →
      0 ≤ (s.inode_table i).blocks k ∧ (s.inode_table i).blocks k < MAX_BLOCKS
      ∧ aget s.bitmap ((s.inode_table i).blocks k).toNat = true := by
    intro k hk
    obtain ⟨q1, q2, q3, _⟩ := h3 i k hu hk
    exact ⟨by omega, q2, q3⟩
  have hoinj : ∀ k k2 : Fin MAX_DIRECT_BLOCKS, (s.inode_table i).blocks k ≠ -1 →
      (s.inode_table i).blocks k = (s.inode_table i).blocks k2 → k = k2 := by
    intro k k2 hk he
    obtain ⟨_, _, _, q4⟩ := h3 i k hu hk
    exact ((q4 i k2 hu he.symm).2).symm
  refine ⟨i, nb, hfi, ?_, ?_, hbc, by rw [hti], by rw [hti], ?_, ?_, ?_, ?_, hfin, by rw [hti],
    by rw [hti], ?_⟩
  · intro k hk
    have := hrng k.val (hnb k hk)
    rw [aget_fin] at this
    exact this
  · intro k k2 hk he
    have hk2' : nb k2 ≠ -1 := by rw [← he]; exact hk
    have := hinj k.val k2.val (hnb k hk) (hnb k2 hk2') (by rw [aget_fin, aget_fin]; exact he)
    exact Fin.ext this
  · rintro x ⟨k, hk⟩
    rw [hbits]
    have hkn : nb k ≠ -1 := by omega
    refine ⟨Or.inr ⟨k.val, hnb k hkn, by rw [aget_fin]; exact hk⟩, ?_⟩
    rintro ⟨k2, _, he⟩
    obtain ⟨_, _, q3⟩ := hold k2 (by omega)
    have := hrng k.val (hnb k hkn)
    rw [aget_fin, hk] at this
    rw [he] at q3
    simp only [Int.toNat_ofNat] at this q3
    rw [q3] at this
    exact Bool.noConfusion this.2.2
  · rintro x ⟨k, hk⟩
    rw [Bool.eq_false_iff]
    intro hc
    rw [hbits] at hc
    apply hc.2
    obtain ⟨_, q2, _⟩ := hold k (by omega)
    exact ⟨k, q2, hk⟩
  · intro x hx1 hx2
    rw [Bool.eq_iff_iff, hbits]
    constructor
    · rintro ⟨h1 | ⟨j, hj, he⟩, _⟩
      · exact h1
      · exfalso
        apply hx1
        have hjl : j < MAX_DIRECT_BLOCKS := by omega
        exact ⟨⟨j, hjl⟩, by rw [← he, aget_of_lt _ _ hjl]⟩
    · intro h1
      refine ⟨Or.inl h1, ?_⟩
      rintro ⟨k, _, he⟩
      exact hx2 ⟨k, he⟩
  · rw [hfb hold hoinj, hbc]
  · intro j hj
    rw [htab, aset_fin_ne _ _ _ _ (fun e => hj (Fin.ext e))]

set_option maxRecDepth 100000 in
theorem I5_sample_volume : I5 sample_volume := by
  unfold I5
  decide

set_option maxRecDepth 100000 in
theorem c15_witness :
    ∃ (i : Fin MAX_FILES) (nb : Fin MAX_DIRECT_BLOCKS → Int),
      find_inode sample_volume (some [97]) = (i.val : Int)
      ∧ (∀ k, nb k ≠ -1 → 0 ≤ nb k ∧ nb k < MAX_BLOCKS
          ∧ aget sample_volume.bitmap (nb k).toNat = false)
      ∧ (∀ k k2, nb k ≠ -1 → nb k = nb k2 → k = k2)
      ∧ block_count nb = (calculate_blocks_needed 100).toNat
      ∧ ((fs_write sample_volume dev_ok (some [97]) (some (fun _ => 66)) 100).2.inode_table
          i).blocks = nb
      ∧ ((fs_write sample_volume dev_ok (some [97]) (some (fun _ => 66)) 100).2.inode_table
          i).size = 100
      ∧ (∀ x : Nat, (∃ k, nb k = (x : Int)) →
          aget (fs_write sample_volume dev_ok (some [97]) (some (fun _ => 66)) 100).2.bitmap x
            = true)
      ∧ (∀ x : Nat, (∃ k, (sample_volume.inode_table i).blocks k = (x : Int)) →
          aget (fs_write sample_volume dev_ok (some [97]) (some (fun _ => 66)) 100).2.bitmap x
            = false)
      ∧ (∀ x : Nat, (¬ ∃ k, nb k = (x : Int)) →
          (¬ ∃ k, (sample_volume.inode_table i).blocks k = (x : Int)) →
          aget (fs_write sample_volume dev_ok (some [97]) (some (fun _ => 66)) 100).2.bitmap x
            = aget sample_volume.bitmap x)
      ∧ (fs_write sample_volume dev_ok (some [97]) (some (fun _ => 66)) 100).2.sb.free_blocks
          = sample_volume.sb.free_blocks - (block_count nb : Nat)
            + (block_count (sample_volume.inode_table i).blocks : Nat)
      ∧ (fs_write sample_volume dev_ok (some [97]) (some (fun _ => 66)) 100).2.sb.free_inodes
          = sample_volume.sb.free_inodes
      ∧ ((fs_write sample_volume dev_ok (some [97]) (some (fun _ => 66)) 100).2.inode_table
          i).used = (sample_volume.inode_table i).used
      ∧ ((fs_write sample_volume dev_ok (some [97]) (some (fun _ => 66)) 100).2.inode_table
          i).name = (sample_volume.inode_table i).name
      ∧ ∀ j : Fin MAX_FILES, j ≠ i →
          (fs_write sample_volume dev_ok (some [97]) (some (fun _ => 66)) 100).2.inode_table j
            = sample_volume.inode_table j :=
  c15_successful_overwrite_effect sample_volume dev_ok (some [97]) (some (fun _ => 66)) 100
    ⟨by decide, by decide⟩ (Reachable_Inv sample_volume sample_volume_reachable).i1
    (Reachable_Inv sample_volume sample_volume_reachable).i2
    (I3_of_Inv sample_volume (Reachable_Inv sample_volume sample_volume_reachable))
    (Reachable_Inv sample_volume sample_volume_reachable).names I5_sample_volume (by decide)

/-- C16 (zero-byte write): in a mounted state (`free_blocks` may be 0), for the
name of an existing file and non-null data, `fs_write(name, data, 0)` returns 0;
afterwards the inode of the file has size 0 and all 12 block slots -1, its `used`
flag and name and every other inode are unchanged, and the bit of every block the
file held before is clear. -/
theorem c16_zero_byte_write (s : FS) (d : Dev) (l : List Nat) (buf : Nat → Nat)
    (hm : mounted s) (hfb : 0 ≤ s.sb.free_blocks) (hex : find_inode s (some l) ≠ -1) :
    ∃ i : Fin MAX_FILES, find_inode s (some l) = (i.val : Int)
      ∧ (fs_write s d (some l) (some buf) 0).1 = 0
      ∧ ((fs_write s d (some l) (some buf) 0).2.inode_table i).size = 0
      ∧ (∀ k, ((fs_write s d (some l) (some buf) 0).2.inode_table i).blocks k = -1)
      ∧ ((fs_write s d (some l) (some buf) 0).2.inode_table i).used = 1
      ∧ ((fs_write s d (some l) (some buf) 0).2.inode_table i).name = (s.inode_table i).name
      ∧ (∀ j : Fin MAX_FILES, j ≠ i →
          (fs_write s d (some l) (some buf) 0).2.inode_table j = s.inode_table j)
      ∧ ∀ k, 0 ≤ (s.inode_table i).blocks k → (s.inode_table i).blocks k < MAX_BLOCKS →
          aget (fs_write s d (some l) (some buf) 0).2.bitmap ((s.inode_table i).blocks k).toNat
            = false := by
  obtain ⟨l2, i0, hl2, hlen, _, _, _⟩ := find_inode_some s (some l) hex
  have hl : l = l2 := by injection hl2
  subst hl
  have hc : calculate_blocks_needed 0 = 0 := by simp [calculate_blocks_needed]
  have hret : (fs_write s d (some l) (some buf) 0).1 = 0 := by
    rw [fs_write_ret s d l buf 0 (validate_of_strlen l hlen) hlen (le_refl _) hm.1 hex
      (by rw [hc]; exact hfb) (by rw [hc]; simp) (by rw [hc]; rfl), hc]
    rfl
  obtain ⟨i, nb, hfi, hu, _, _, _, _, hrest, htab, hbits, _⟩ :=
    fs_write_ok_effect s d (some l) (some buf) 0 hret
  rw [hc] at hrest hbits
  have hti : (fs_write s d (some l) (some buf) 0).2.inode_table i
      = { used := (s.inode_table i).used, size := 0, name := (s.inode_table i).name,
          blocks := nb } := by
    rw [htab, aset_fin_eq]
  refine ⟨i, hfi, hret, by rw [hti], ?_, by rw [hti]; exact hu, by rw [hti], ?_, ?_⟩
  · intro k
    rw [hti]
    have := hrest k.val (Nat.zero_le _) k.isLt
    rw [aget_fin] at this
    exact this
  · intro j hj
    rw [htab, aset_fin_ne _ _ _ _ (fun e => hj (Fin.ext e))]
  · intro k hk0 hk1
    rw [Bool.eq_false_iff]
    intro hset
    rw [hbits] at hset
    apply hset.2
    exact ⟨k, hk1, by omega⟩

set_option maxRecDepth 100000 in
theorem c16_witness :
    ∃ i : Fin MAX_FILES, find_inode sample_volume (some [97]) = (i.val : Int)
      ∧ (fs_write sample_volume dev_error_after_one (some [97]) (some (fun _ => 0)) 0).1 = 0
      ∧ ((fs_write sample_volume dev_error_after_one (some [97]) (some (fun _ => 0)) 0).2.inode_table i).size = 0
      ∧ (∀ k, ((fs_write sample_volume dev_error_after_one (some [97]) (some (fun _ => 0)) 0).2.inode_table i).blocks k = -1)
      ∧ ((fs_write sample_volume dev_error_after_one (some [97]) (some (fun _ => 0)) 0).2.inode_table i).used = 1
      ∧ ((fs_write sample_volume dev_error_after_one (some [97]) (some (fun _ => 0)) 0).2.inode_table i).name = (sample_volume.inode_table i).name
      ∧ (∀ j : Fin MAX_FILES, j ≠ i →
          (fs_write sample_volume dev_error_after_one (some [97]) (some (fun _ => 0)) 0).2.inode_table j = sample_volume.inode_table j)
      ∧ ∀ k, 0 ≤ (sample_volume.inode_table i).blocks k →
          (sample_volume.inode_table i).blocks k < MAX_BLOCKS →
          aget (fs_write sample_volume dev_error_after_one (some [97]) (some (fun _ => 0)) 0).2.bitmap ((sample_volume.inode_table i).blocks k).toNat = false :=
  c16_zero_byte_write sample_volume dev_error_after_one [97] (fun _ => 0)
    ⟨by decide, by decide⟩ (by decide) (by decide)

/-! ## `fs_create`: result and effect (claims C19, C20) -/

theorem find_free_inode_none_iff (s : FS) : find_free_inode s = -2 ↔ no_free_inode s := by
  unfold no_free_inode
  constructor
  · intro h
    by_cases h0 : s.sb.free_inodes = 0
    · exact Or.inl h0
    · right
      unfold find_free_inode at h
      rw [if_neg h0] at h
      rcases find_free_inode_loop_spec s.inode_table MAX_FILES 0 with ⟨_, h2⟩ | ⟨r, h2, _⟩
      · intro i
        have := h2 i.val (Nat.zero_le _) (by have := i.isLt; omega)
        rw [aget_fin] at this
        exact this
      · rw [h2] at h
        omega
  · intro h
    by_contra hc
    obtain ⟨i, h1, h2, _⟩ := find_free_inode_found s hc
    rcases h with h | h
    · unfold find_free_inode at hc
      rw [if_pos h] at hc
      exact hc rfl
    · exact h i h2

theorem name_taken_iff (s : FS) (l : List Nat) (hlen : strlen l ≤ MAX_FILENAME) :
    find_inode s (some l) ≠ -1 ↔ name_taken s (some l) := by
  constructor
  · intro h
    obtain ⟨l2, i, hl2, _, _, hu, hn⟩ := find_inode_some s (some l) h
    have hl : l = l2 := by injection hl2
    subst hl
    exact ⟨l, rfl, i, hu, hn⟩
  · rintro ⟨l2, hl2, i, hu, hn⟩ h
    have hl : l = l2 := by injection hl2
    subst hl
    exact find_inode_none s l h hlen i ⟨hu, hn⟩

/-- The four outcomes of `fs_create`, in the order the checks are made. -/
theorem fs_create_cases (s : FS) (d : Dev) (fn : Option (List Nat)) :
    (create_invalid s fn ∧ fs_create s d fn = (-3, s))
    ∨ (¬ create_invalid s fn ∧ name_taken s fn ∧ fs_create s d fn = (-1, s))
    ∨ (¬ create_invalid s fn ∧ ¬ name_taken s fn ∧ no_free_inode s
        ∧ fs_create s d fn = (-2, s))
    ∨ (¬ create_invalid s fn ∧ ¬ name_taken s fn ∧ ¬ no_free_inode s
        ∧ ∃ (l : List Nat) (i : Fin MAX_FILES), fn = some l
          ∧ (s.inode_table i).used = 0
          ∧ (∀ j : Fin MAX_FILES, j.val < i.val → (s.inode_table j).used ≠ 0)
          ∧ fs_create s d fn = (0, sync_metadata_to_disk (write_inode s (i.val : Int)
              { used := 1, size := 0, name := name_field l, blocks := fun _ => -1 }) d)) := by
  unfold fs_create
  cases fn with
  | none => exact Or.inl ⟨Or.inl rfl, rfl⟩
  | some l =>
    simp only
    by_cases hv : validate_string_manual (some l) ≠ 0 ∨ strlen l > MAX_FILENAME ∨ strlen l = 0
        ∨ s.disk_fd = -1
    · left
      rw [if_pos hv]
      refine ⟨?_, rfl⟩
      rcases hv with h | h | h | h
      · rw [ne_eq, validate_iff] at h
        exact Or.inr (Or.inl ⟨l, rfl, Or.inr (by omega)⟩)
      · exact Or.inr (Or.inl ⟨l, rfl, Or.inr h⟩)
      · exact Or.inr (Or.inl ⟨l, rfl, Or.inl h⟩)
      · exact Or.inr (Or.inr h)
    · right
      rw [if_neg hv]
      simp only [not_or, not_lt, gt_iff_lt] at hv
      obtain ⟨_, hlen, hne, hfd⟩ := hv
      have hinv : ¬ create_invalid s (some l) := by
        rintro (h | ⟨l2, hl2, h⟩ | h)
        · exact Option.noConfusion h
        · have hl : l = l2 := by injection hl2
          subst hl
          omega
        · exact hfd h
      by_cases hf : find_inode s (some l) ≠ -1
      · left
        rw [if_pos hf]
        exact ⟨hinv, (name_taken_iff s l hlen).mp hf, rfl⟩
      · right
        rw [if_neg hf]
        have hnt : ¬ name_taken s (some l) := fun h => hf ((name_taken_iff s l hlen).mpr h)
        by_cases hfi : find_free_inode s = -2
        · left
          rw [if_pos hfi]
          exact ⟨hinv, hnt, (find_free_inode_none_iff s).mp hfi, rfl⟩
        · right
          rw [if_neg hfi]
          obtain ⟨i, h1, h2, h3⟩ := find_free_inode_found s hfi
          refine ⟨hinv, hnt, fun h => hfi ((find_free_inode_none_iff s).mpr h), l, i, rfl, h2,
            h3, ?_⟩
          rw [h1]
          rfl

/-- C19 (result of create): `fs_create` returns -3 iff the name is NULL, empty or
longer than 28 bytes or no volume is mounted; otherwise -1 iff a used inode holds
the name; otherwise -2 iff `free_inodes == 0` or no slot has `used == 0`;
otherwise 0; and every non-zero result leaves the state unchanged. -/
theorem c19_create_result (s : FS) (d : Dev) (fn : Option (List Nat)) :
    ((fs_create s d fn).1 = -3 ↔ create_invalid s fn)
    ∧ (¬ create_invalid s fn → ((fs_create s d fn).1 = -1 ↔ name_taken s fn))
    ∧ (¬ create_invalid s fn → ¬ name_taken s fn →
        ((fs_create s d fn).1 = -2 ↔ no_free_inode s))
    ∧ (¬ create_invalid s fn → ¬ name_taken s fn → ¬ no_free_inode s →
        (fs_create s d fn).1 = 0)
    ∧ ((fs_create s d fn).1 ≠ 0 → (fs_create s d fn).2 = s) := by
  rcases fs_create_cases s d fn with ⟨a, e⟩ | ⟨a, b, e⟩ | ⟨a, b, c, e⟩ | ⟨a, b, c, _, _, _, _, _, e⟩
  · rw [e]
    dsimp only
    exact ⟨⟨fun _ => a, fun _ => rfl⟩, fun h => absurd a h, fun h => absurd a h,
      fun h => absurd a h, fun _ => rfl⟩
  · rw [e]
    dsimp only
    exact ⟨⟨fun h => absurd h (by decide), fun h => absurd h a⟩, fun _ => ⟨fun _ => b, fun _ => rfl⟩,
      fun _ h => absurd b h, fun _ h => absurd b h, fun _ => rfl⟩
  · rw [e]
    dsimp only
    exact ⟨⟨fun h => absurd h (by decide), fun h => absurd h a⟩,
      fun _ => ⟨fun h => absurd h (by decide), fun h => absurd h b⟩,
      fun _ _ => ⟨fun _ => c, fun _ => rfl⟩, fun _ _ h => absurd c h, fun _ => rfl⟩
  · rw [e]
    dsimp only
    exact ⟨⟨fun h => absurd h (by decide), fun h => absurd h a⟩,
      fun _ => ⟨fun h => absurd h (by decide), fun h => absurd h b⟩,
      fun _ _ => ⟨fun h => absurd h (by decide), fun h => absurd h c⟩, fun _ _ _ => rfl,
      fun h => absurd rfl h⟩

/-- C20 (effect of create): when `fs_create(name)` returns 0, the lowest-indexed
slot `i` with `used == 0` afterwards holds `used = 1`, `size = 0`, the name
followed by zero bytes up to 28 bytes and all 12 block slots -1; `free_inodes` is
smaller by exactly 1; every other inode slot, the bitmap, `free_blocks` and the
other superblock fields, the descriptor and the data region of the image are
unchanged. -/
theorem c20_create_effect (s : FS) (d : Dev) (fn : Option (List Nat))
    (h : (fs_create s d fn).1 = 0) :
    ∃ (l : List Nat) (i : Fin MAX_FILES), fn = some l
      ∧ (s.inode_table i).used = 0
      ∧ (∀ j : Fin MAX_FILES, j.val < i.val → (s.inode_table j).used ≠ 0)
      ∧ (fs_create s d fn).2.inode_table i
          = { used := 1, size := 0, name := name_field l, blocks := fun _ => -1 }
      ∧ (∀ j : Fin MAX_FILENAME, j.val < strlen l →
          ((fs_create s d fn).2.inode_table i).name j = char_at l j.val)
      ∧ (∀ j : Fin MAX_FILENAME, strlen l ≤ j.val →
          ((fs_create s d fn).2.inode_table i).name j = 0)
      ∧ (∀ j : Fin MAX_FILES, j ≠ i → (fs_create s d fn).2.inode_table j = s.inode_table j)
      ∧ (fs_create s d fn).2.sb.free_inodes = s.sb.free_inodes - 1
      ∧ (fs_create s d fn).2.sb.free_blocks = s.sb.free_blocks
      ∧ (fs_create s d fn).2.sb.total_blocks = s.sb.total_blocks
      ∧ (fs_create s d fn).2.sb.block_size = s.sb.block_size
      ∧ (fs_create s d fn).2.sb.total_inodes = s.sb.total_inodes
      ∧ (fs_create s d fn).2.bitmap = s.bitmap
      ∧ (fs_create s d fn).2.disk_fd = s.disk_fd
      ∧ (fs_create s d fn).2.fd_open = s.fd_open
      ∧ ∀ p : Nat, 10 * BLOCK_SIZE ≤ p → (fs_create s d fn).2.image p = s.image p := by
  rcases fs_create_cases s d fn with ⟨_, e⟩ | ⟨_, _, e⟩ | ⟨_, _, _, e⟩
    | ⟨_, _, _, l, i, hl, hu, hlow, e⟩
  · rw [e] at h; dsimp only at h; exact absurd h (by decide)
  · rw [e] at h; dsimp only at h; exact absurd h (by decide)
  · rw [e] at h; dsimp only at h; exact absurd h (by decide)
  rw [e]
  dsimp only
  have hwi := write_inode_eq s i
    { used := 1, size := 0, name := name_field l, blocks := fun _ => -1 }
  have hz : (if (s.inode_table i).used = 0 ∧ (1 : Int) = 1 then (-1 : Int)
      else if (s.inode_table i).used = 1 ∧ (1 : Int) = 0 then 1 else 0) = -1 := by
    rw [if_pos ⟨hu, rfl⟩]
  dsimp only at hwi
  rw [hz] at hwi
  obtain ⟨f1, f2, f3, f4, f5⟩ := sync_metadata_frame (write_inode s (i.val : Int)
    { used := 1, size := 0, name := name_field l, blocks := fun _ => -1 }) d
  have himg := fun p hp => sync_metadata_data (write_inode s (i.val : Int)
    { used := 1, size := 0, name := name_field l, blocks := fun _ => -1 }) d p hp
  generalize write_inode s (i.val : Int)
    { used := 1, size := 0, name := name_field l, blocks := fun _ => -1 } = S
    at hwi f1 f2 f3 f4 f5 himg
  have hti : (sync_metadata_to_disk S d).inode_table i
      = { used := 1, size := 0, name := name_field l, blocks := fun _ => -1 } := by
    rw [f1, hwi]
    exact aset_fin_eq _ _ _
  refine ⟨l, i, hl, hu, hlow, hti, ?_, ?_, ?_, ?_, ?_, ?_, ?_, ?_, ?_, ?_, ?_, ?_⟩
  · intro j hj
    rw [hti]
    simp [name_field, hj]
  · intro j hj
    rw [hti]
    have : ¬ j.val < strlen l := by omega
    simp [name_field, this]
  · intro j hj
    rw [f1, hwi]
    exact aset_fin_ne _ _ _ _ (fun e => hj (Fin.ext e))
  · rw [f2, hwi]
    simp [Int.sub_eq_add_neg]
  · rw [f2, hwi]
  · rw [f2, hwi]
  · rw [f2, hwi]
  · rw [f2, hwi]
  · rw [f3, hwi]
  · rw [f4, hwi]
  · rw [f5, hwi]
  · intro p hp
    rw [himg p hp, hwi]

set_option maxRecDepth 100000 in
theorem c20_witness :
    ∃ (l : List Nat) (i : Fin MAX_FILES), some [97, 98] = some l
      ∧ (vol_a.inode_table i).used = 0
      ∧ (∀ j : Fin MAX_FILES, j.val < i.val → (vol_a.inode_table j).used ≠ 0)
      ∧ (fs_create vol_a dev_ok (some [97, 98])).2.inode_table i
          = { used := 1, size := 0, name := name_field l, blocks := fun _ => -1 }
      ∧ (∀ j : Fin MAX_FILENAME, j.val < strlen l →
          ((fs_create vol_a dev_ok (some [97, 98])).2.inode_table i).name j = char_at l j.val)
      ∧ (∀ j : Fin MAX_FILENAME, strlen l ≤ j.val →
          ((fs_create vol_a dev_ok (some [97, 98])).2.inode_table i).name j = 0)
      ∧ (∀ j : Fin MAX_FILES, j ≠ i →
          (fs_create vol_a dev_ok (some [97, 98])).2.inode_table j = vol_a.inode_table j)
      ∧ (fs_create vol_a dev_ok (some [97, 98])).2.sb.free_inodes = vol_a.sb.free_inodes - 1
      ∧ (fs_create vol_a dev_ok (some [97, 98])).2.sb.free_blocks = vol_a.sb.free_blocks
      ∧ (fs_create vol_a dev_ok (some [97, 98])).2.sb.total_blocks = vol_a.sb.total_blocks
      ∧ (fs_create vol_a dev_ok (some [97, 98])).2.sb.block_size = vol_a.sb.block_size
      ∧ (fs_create vol_a dev_ok (some [97, 98])).2.sb.total_inodes = vol_a.sb.total_inodes
      ∧ (fs_create vol_a dev_ok (some [97, 98])).2.bitmap = vol_a.bitmap
      ∧ (fs_create vol_a dev_ok (some [97, 98])).2.disk_fd = vol_a.disk_fd
      ∧ (fs_create vol_a dev_ok (some [97, 98])).2.fd_open = vol_a.fd_open
      ∧ ∀ p : Nat, 10 * BLOCK_SIZE ≤ p →
          (fs_create vol_a dev_ok (some [97, 98])).2.image p = vol_a.image p :=
  c20_create_effect vol_a dev_ok (some [97, 98]) (by decide)

/-! ## Length of a read (claim C18) -/

theorem read_blocks_len (d : Dev) (s : FS) (blocks : Fin MAX_DIRECT_BLOCKS → Int) (R : Int)
    (hd : ∀ i, (BLOCK_SIZE : Int) ≤ d.data_rd i) (ho : s.fd_open = true)
    (hblk : ∀ j, j < MAX_DIRECT_BLOCKS →
      aget blocks j = -1 ∨ (0 ≤ aget blocks j ∧ aget blocks j < MAX_BLOCKS)) :
    ∀ (n i : Nat) (buf : Nat → Nat), i + n = MAX_DIRECT_BLOCKS →
      (read_blocks d s blocks R n i (min (4096 * (i : Int)) R) buf).1
        = min R (4096 * ((i + leading_from blocks n i : Nat) : Int)) := by
  intro n
  induction n with
  | zero =>
    intro i buf _
    simp only [read_blocks, leading_from, Nat.add_zero]
    exact min_comm _ _
  | succ n ih =>
    intro i buf hi
    have hi12 : i < MAX_DIRECT_BLOCKS := by omega
    unfold read_blocks leading_from
    simp only
    by_cases hlt : min (4096 * (i : Int)) R < R
    · rw [if_pos hlt]
      have htot : min (4096 * (i : Int)) R = 4096 * (i : Int) := by
        apply min_eq_left
        by_contra hc
        rw [min_eq_right (by omega)] at hlt
        omega
      rw [htot] at hlt ⊢
      by_cases hb : aget blocks i = -1
      · rw [if_pos hb, if_pos hb, Nat.add_zero, min_eq_right (by omega)]
      · rw [if_neg hb, if_neg hb]
        rcases hblk i hi12 with hc | ⟨b2, b3⟩
        · exact absurd hc hb
        rw [if_neg (by omega)]
        have hbfb1 : (1 : Int) ≤ (if R - 4096 * (i : Int) > (BLOCK_SIZE : Int)
            then (BLOCK_SIZE : Int) else R - 4096 * (i : Int)) := by
          simp only [BLOCK_SIZE]
          split_ifs <;> omega
        have hbfb2 : (if R - 4096 * (i : Int) > (BLOCK_SIZE : Int)
            then (BLOCK_SIZE : Int) else R - 4096 * (i : Int)) ≤ (BLOCK_SIZE : Int) := by
          split_ifs <;> omega
        have hbfb3 : 4096 * (i : Int) + (if R - 4096 * (i : Int) > (BLOCK_SIZE : Int)
            then (BLOCK_SIZE : Int) else R - 4096 * (i : Int))
              = min (4096 * ((i + 1 : Nat) : Int)) R := by
          simp only [BLOCK_SIZE]
          push_cast
          split_ifs with hc
          · rw [min_eq_left (by omega)]
            omega
          · rw [min_eq_right (by omega)]
            omega
        generalize (if R - 4096 * (i : Int) > (BLOCK_SIZE : Int)
            then (BLOCK_SIZE : Int) else R - 4096 * (i : Int)) = bfb at hbfb1 hbfb2 hbfb3
        have hr : dev_count s.fd_open (d.data_rd i) bfb.toNat = bfb := by
          rw [ho, dev_count_full _ _ (by have := hd i; omega)]
          omega
        rw [hr, if_neg (by omega), if_neg (by omega), hbfb3, ih (i + 1) _ (by omega)]
        congr 2
        omega
    · rw [if_neg hlt]
      have htot : min (4096 * (i : Int)) R = R := by
        have := min_le_right (4096 * (i : Int)) R
        omega
      rw [htot]
      have h4 : R ≤ 4096 * (i : Int) := by
        rw [← htot]
        exact min_le_left _ _
      rw [min_eq_left]
      push_cast
      omega

/-- C18 (read length): in a mounted state, for a file whose inode `i` has
`size >= 0` and block entries that are -1 or in `[0, 2560)`, on a device that
serves every read in full, `fs_read(name, buf, size)` with `size >= 0` returns
`min(size, inode.size, 4096 * j)`, where `j` is the number of leading block slots
before the first -1. -/
theorem c18_read_length (s : FS) (d : Dev) (l : List Nat) (buf : Nat → Nat) (size : Int)
    (i : Fin MAX_FILES) (hm : mounted s) (hfi : find_inode s (some l) = (i.val : Int))
    (hsz : 0 ≤ (s.inode_table i).size)
    (hblk : ∀ k, (s.inode_table i).blocks k = -1
      ∨ (0 ≤ (s.inode_table i).blocks k ∧ (s.inode_table i).blocks k < 2560))
    (hd : ∀ j, (BLOCK_SIZE : Int) ≤ d.data_rd j) (hsize : 0 ≤ size) :
    (fs_read s d (some l) (some buf) size).1
      = min size (min (s.inode_table i).size
          (4096 * (leading_blocks (s.inode_table i).blocks : Int))) := by
  have hex : find_inode s (some l) ≠ -1 := by
    rw [hfi]
    omega
  obtain ⟨l2, i2, hl2, hlen, hi1, hi2, _⟩ := find_inode_some s (some l) hex
  have hl : l = l2 := by injection hl2
  subst hl
  have hii : i2 = i := by
    apply Fin.ext
    rw [hfi] at hi1
    omega
  subst hii
  unfold fs_read
  simp only
  have hb : (if size > (s.inode_table i2).size then (s.inode_table i2).size else size)
      = min size (s.inode_table i2).size := by
    split_ifs <;> omega
  rw [if_neg (by
      simp only [not_or]
      exact ⟨by simp [validate_of_strlen l hlen], by omega, by omega, by
        have := hm.1
        omega⟩),
    hfi, if_neg (by omega), read_inode_used s i2 _ hi2, if_neg (by rw [hi2]; decide), hb]
  simp only
  have hmin : min (4096 * ((0 : Nat) : Int)) (min size (s.inode_table i2).size) = 0 := by
    push_cast
    omega
  have key := read_blocks_len d s (s.inode_table i2).blocks (min size (s.inode_table i2).size)
    hd hm.2 (fun j hj => by
      rw [aget_of_lt _ _ hj]
      have := hblk ⟨j, hj⟩
      simp only [MAX_BLOCKS]
      omega) MAX_DIRECT_BLOCKS 0 buf (by omega)
  rw [hmin, Nat.zero_add] at key
  rw [key]
  unfold leading_blocks
  omega

set_option maxRecDepth 100000 in
theorem c18_witness :
    (fs_read sample_volume dev_ok (some [97]) (some (fun _ => 0)) 6000).1
      = min 6000 (min (sample_volume.inode_table ⟨0, by decide⟩).size
          (4096 * (leading_blocks (sample_volume.inode_table ⟨0, by decide⟩).blocks : Int))) :=
  c18_read_length sample_volume dev_ok [97] (fun _ => 0) 6000 ⟨0, by decide⟩
    ⟨by decide, by decide⟩ (by decide) (by decide) (by decide) (data_full_dev_ok).2 (by decide)

/-! ## Validation of `fs_read` and `fs_write` (claim C17) -/

theorem fs_write_rejected (s : FS) (d : Dev) (fn : Option (List Nat))
    (data : Option (Nat → Nat)) (size : Int) (h : write_rejects s fn data size) :
    fs_write s d fn data size = (-3, s) := by
  unfold fs_write
  cases fn with
  | none => rfl
  | some l =>
    cases data with
    | none => rfl
    | some buf =>
      simp only
      rw [if_pos]
      rcases h with h | h | ⟨l2, hl2, h⟩ | h | h | h
      · exact Option.noConfusion h
      · exact Or.inl h
      · have hl : l = l2 := by injection hl2
        subst hl
        exact Or.inr (Or.inl h)
      · exact Option.noConfusion h
      · exact Or.inr (Or.inr (Or.inl h))
      · exact Or.inr (Or.inr (Or.inr h))

theorem fs_read_rejected (s : FS) (d : Dev) (fn : Option (List Nat))
    (buffer : Option (Nat → Nat)) (size : Int) (h : read_rejects s fn buffer size) :
    (fs_read s d fn buffer size).1 = -3 := by
  unfold fs_read
  cases fn with
  | none => rfl
  | some l =>
    cases buffer with
    | none => rfl
    | some buf =>
      simp only
      rw [if_pos]
      rcases h with h | h | ⟨l2, hl2, h⟩ | h | h | h
      · exact Option.noConfusion h
      · exact Or.inl h
      · have hl : l = l2 := by injection hl2
        subst hl
        exact Or.inr (Or.inl h)
      · exact Option.noConfusion h
      · exact Or.inr (Or.inr (Or.inl h))
      · exact Or.inr (Or.inr (Or.inr h))

theorem dev_count_neg (o : Bool) (offer : Int) (n : Nat) (h : dev_count o offer n < 0) :
    o = false ∨ offer < 0 := by
  unfold dev_count at h
  by_cases hc : o = false ∨ offer < 0
  · exact hc
  · rw [if_neg hc] at h
    simp only [not_or, not_lt] at hc
    have : 0 ≤ min offer (n : Int) := le_min hc.2 (by omega)
    omega

theorem dev_count_nonneg (o : Bool) (offer : Int) (n : Nat) (h : ¬ dev_count o offer n < 0) :
    0 ≤ dev_count o offer n := by omega

/-- The block loop of `fs_read` yields a negative result only through one of its
two error exits. -/
theorem read_blocks_neg (d : Dev) (s : FS) (blocks : Fin MAX_DIRECT_BLOCKS → Int) (R : Int) :
    ∀ (n i : Nat) (total : Int) (buf : Nat → Nat), i + n ≤ MAX_DIRECT_BLOCKS → 0 ≤ total →
      (read_blocks d s blocks R n i total buf).1 < 0 →
      (∃ j, j < MAX_DIRECT_BLOCKS ∧ aget blocks j ≠ -1
        ∧ (aget blocks j < 0 ∨ aget blocks j ≥ MAX_BLOCKS))
      ∨ s.fd_open = false ∨ ∃ j, d.data_rd j < 0 := by
  intro n
  induction n with
  | zero =>
    intro i total buf _ h0 h
    simp only [read_blocks] at h
    omega
  | succ n ih =>
    intro i total buf hi h0 h
    unfold read_blocks at h
    simp only at h
    by_cases h1 : total < R
    · rw [if_pos h1] at h
      by_cases h2 : aget blocks i = -1
      · rw [if_pos h2] at h
        simp only at h
        omega
      rw [if_neg h2] at h
      by_cases h3 : aget blocks i < 0 ∨ aget blocks i ≥ MAX_BLOCKS
      · exact Or.inl ⟨i, by omega, h2, h3⟩
      rw [if_neg h3] at h
      generalize (if R - total > (BLOCK_SIZE : Int) then (BLOCK_SIZE : Int) else R - total)
        = bfb at h
      by_cases h4 : dev_count s.fd_open (d.data_rd i) bfb.toNat < 0
      · rcases dev_count_neg _ _ _ h4 with h5 | h5
        · exact Or.inr (Or.inl h5)
        · exact Or.inr (Or.inr ⟨i, h5⟩)
      rw [if_neg h4] at h
      by_cases h5 : dev_count s.fd_open (d.data_rd i) bfb.toNat < bfb
      · rw [if_pos h5] at h
        simp only at h
        omega
      · rw [if_neg h5] at h
        exact ih _ _ _ (by omega) (by omega) h
    · rw [if_neg h1] at h
      simp only at h
      omega

/-- C17 (read validates like write), with the device-error exit of `fs_read`
kept apart: in a state with `disk_fd >= -1`, for a name, a size and two buffers of
the same nullness, the argument validation of `fs_read` rejects exactly when that
of `fs_write` does, and then both return -3; when validation passes and no used
inode holds the name, both return -1; when validation passes and `fs_read` still
returns -3, the file exists and one of its block entries is outside `[0, 2560)`
or a read of the device failed. -/
theorem c17_read_validates_like_write (s : FS) (d d2 : Dev) (fn : Option (List Nat))
    (data buffer : Option (Nat → Nat)) (size : Int) (hfd : -1 ≤ s.disk_fd)
    (hnull : data.isSome = buffer.isSome) :
    (write_rejects s fn data size ↔ read_rejects s fn buffer size)
    ∧ (write_rejects s fn data size →
        (fs_write s d fn data size).1 = -3 ∧ (fs_read s d2 fn buffer size).1 = -3)
    ∧ (¬ write_rejects s fn data size → ¬ name_taken s fn →
        (fs_write s d fn data size).1 = -1 ∧ (fs_read s d2 fn buffer size).1 = -1)
    ∧ (¬ write_rejects s fn data size → (fs_read s d2 fn buffer size).1 = -3 →
        ∃ i : Fin MAX_FILES, find_inode s fn = (i.val : Int) ∧ (s.inode_table i).used = 1
          ∧ ((∃ k, (s.inode_table i).blocks k ≠ -1
                ∧ ((s.inode_table i).blocks k < 0 ∨ (s.inode_table i).blocks k ≥ MAX_BLOCKS))
              ∨ s.fd_open = false ∨ ∃ j, d2.data_rd j < 0)) := by
  have hbn : data = none ↔ buffer = none := by
    cases data <;> cases buffer <;> simp at hnull ⊢
  have hiff : write_rejects s fn data size ↔ read_rejects s fn buffer size := by
    unfold write_rejects read_rejects
    rw [hbn]
    have : s.disk_fd < 0 ↔ s.disk_fd = -1 := by omega
    rw [this]
  refine ⟨hiff, fun h => ⟨?_, fs_read_rejected s d2 fn buffer size (hiff.mp h)⟩, ?_, ?_⟩
  · rw [fs_write_rejected s d fn data size h]
  · intro hv hnt
    have hr : ¬ read_rejects s fn buffer size := fun h => hv (hiff.mpr h)
    unfold write_rejects at hv
    unfold read_rejects at hr
    simp only [not_or, not_lt, not_exists, not_and] at hv hr
    obtain ⟨hv1, hv2, hv3, hv4, hv5, hv6⟩ := hv
    cases fn with
    | none => exact absurd rfl hv1
    | some l =>
      cases data with
      | none => exact absurd rfl hv4
      | some dat =>
        cases buffer with
        | none => exact absurd rfl hr.2.2.2.1
        | some buf =>
          have hlen : strlen l ≤ MAX_FILENAME := by
            have := hv3 l rfl
            omega
          have hfi : find_inode s (some l) = -1 := by
            by_contra hc
            exact hnt ((name_taken_iff s l hlen).mp hc)
          unfold fs_write fs_read
          simp only
          rw [if_neg (by
              simp only [not_or]
              exact ⟨by simpa using hv2, by omega, by omega, by omega⟩),
            if_pos hfi, if_neg (by
              simp only [not_or]
              exact ⟨by simpa using hv2, by omega, by omega, hr.2.2.2.2.2⟩),
            if_pos hfi]
          exact ⟨rfl, rfl⟩
  · intro hv h3
    have hr : ¬ read_rejects s fn buffer size := fun h => hv (hiff.mpr h)
    unfold read_rejects at hr
    simp only [not_or, not_lt, not_exists, not_and] at hr
    obtain ⟨hr1, hr2, hr3, hr4, hr5, hr6⟩ := hr
    cases fn with
    | none => exact absurd rfl hr1
    | some l =>
      cases buffer with
      | none => exact absurd rfl hr4
      | some buf =>
        have hlen : strlen l ≤ MAX_FILENAME := by
          have := hr3 l rfl
          omega
        unfold fs_read at h3
        simp only at h3
        rw [if_neg (by
            simp only [not_or]
            exact ⟨by simpa using hr2, by omega, by omega, hr6⟩)] at h3
        by_cases hfi : find_inode s (some l) = -1
        · rw [if_pos hfi] at h3
          dsimp only at h3
          exact absurd h3 (by decide)
        rw [if_neg hfi] at h3
        obtain ⟨l2, i, _, _, hi1, hi2, _⟩ := find_inode_some s (some l) hfi
        rw [hi1, read_inode_used s i _ hi2, if_neg (by rw [hi2]; decide)] at h3
        simp only at h3
        refine ⟨i, hi1, hi2, ?_⟩
        rcases read_blocks_neg d2 s _ _ _ _ _ _ (le_refl _) (le_refl 0) (by rw [h3]; decide)
          with ⟨j, hj, hj1, hj2⟩ | h | h
        · left
          rw [aget_of_lt _ _ hj] at hj1 hj2
          exact ⟨⟨j, hj⟩, hj1, hj2⟩
        · exact Or.inr (Or.inl h)
        · exact Or.inr (Or.inr h)

set_option maxRecDepth 100000 in
theorem c17_witness :
    (write_rejects sample_volume (some [97]) (some (fun _ => 0)) 100
      ↔ read_rejects sample_volume (some [97]) (some (fun _ => 7)) 100)
    ∧ (write_rejects sample_volume (some [97]) (some (fun _ => 0)) 100 →
        (fs_write sample_volume dev_ok (some [97]) (some (fun _ => 0)) 100).1 = -3
        ∧ (fs_read sample_volume dev_read_error (some [97]) (some (fun _ => 7)) 100).1 = -3)
    ∧ (¬ write_rejects sample_volume (some [97]) (some (fun _ => 0)) 100 →
        ¬ name_taken sample_volume (some [97]) →
        (fs_write sample_volume dev_ok (some [97]) (some (fun _ => 0)) 100).1 = -1
        ∧ (fs_read sample_volume dev_read_error (some [97]) (some (fun _ => 7)) 100).1 = -1)
    ∧ (¬ write_rejects sample_volume (some [97]) (some (fun _ => 0)) 100 →
        (fs_read sample_volume dev_read_error (some [97]) (some (fun _ => 7)) 100).1 = -3 →
        ∃ i : Fin MAX_FILES, find_inode sample_volume (some [97]) = (i.val : Int)
          ∧ (sample_volume.inode_table i).used = 1
          ∧ ((∃ k, (sample_volume.inode_table i).blocks k ≠ -1
                ∧ ((sample_volume.inode_table i).blocks k < 0
                  ∨ (sample_volume.inode_table i).blocks k ≥ MAX_BLOCKS))
              ∨ sample_volume.fd_open = false ∨ ∃ j, dev_read_error.data_rd j < 0)) :=
  c17_read_validates_like_write sample_volume dev_ok dev_read_error (some [97])
    (some (fun _ => 0)) (some (fun _ => 7)) 100 (by decide) rfl

set_option maxRecDepth 100000 in
/-- C17 as stated fails: on the volume `sample_volume` the arguments
`("a", buffer, 100)` pass the validation of `fs_write` (which returns 0), yet
`fs_read` returns -3 because the device fails the read of the first block.  In a
state with `disk_fd = -2`, which `open` never leaves, `fs_write` is rejected but
`fs_read` passes validation and returns -1. -/
theorem c17_read_error_after_validation :
    (¬ write_rejects sample_volume (some [97]) (some (fun _ => 0)) 100
      ∧ (fs_write sample_volume dev_read_error (some [97]) (some (fun _ => 0)) 100).1 = 0
      ∧ (fs_read sample_volume dev_read_error (some [97]) (some (fun _ => 0)) 100).1 = -3)
    ∧ (write_rejects { blank with disk_fd := -2 } (some [97]) (some (fun _ => 0)) 100
      ∧ (fs_write { blank with disk_fd := -2 } dev_ok (some [97]) (some (fun _ => 0)) 100).1 = -3
      ∧ (fs_read { blank with disk_fd := -2 } dev_ok (some [97]) (some (fun _ => 0)) 100).1
          = -1) := by
  refine ⟨⟨?_, by decide, by decide⟩, Or.inr (Or.inr (Or.inr (Or.inr (Or.inr (by decide))))),
    by decide, by decide⟩
  rintro (h | h | ⟨l, hl, h⟩ | h | h | h)
  · exact Option.noConfusion h
  · exact h (by decide)
  · have hl2 : [97] = l := by injection hl
    subst hl2
    exact absurd h (by decide)
  · exact Option.noConfusion h
  · exact absurd h (by decide)
  · exact absurd h (by decide)

/-! ## A nearly full volume -/

theorem tight_inode (i : Fin MAX_FILES) :
    tight_volume.inode_table i
      = if i.val < 212 then
          { used := 1, size := 49152, name := fun j => if j.val = 0 then i.val + 1 else 0,
            blocks := fun k => 10 + 12 * (i.val : Int) + (k.val : Int) }
        else if i.val = 212 then
          { used := 1, size := 0, name := fun j => if j.val = 0 then 213 else 0,
            blocks := fun _ => -1 }
        else format_inode := rfl

theorem tight_used (i : Fin MAX_FILES) :
    (tight_volume.inode_table i).used = 1 ↔ i.val < 213 := by
  rw [tight_inode]
  by_cases h1 : i.val < 212
  · rw [if_pos h1]
    simp only [true_iff]
    omega
  · rw [if_neg h1]
    by_cases h2 : i.val = 212
    · rw [if_pos h2]
      simp only [true_iff]
      omega
    · rw [if_neg h2]
      simp only [format_inode]
      constructor
      · intro h
        exact absurd h (by decide)
      · intro h
        omega

theorem tight_blocks (i : Fin MAX_FILES) (k : Fin MAX_DIRECT_BLOCKS)
    (h : (tight_volume.inode_table i).blocks k ≠ -1) :
    i.val < 212
    ∧ (tight_volume.inode_table i).blocks k = 10 + 12 * (i.val : Int) + (k.val : Int) := by
  rw [tight_inode] at h ⊢
  by_cases h1 : i.val < 212
  · rw [if_pos h1]
    exact ⟨h1, rfl⟩
  · rw [if_neg h1] at h
    by_cases h2 : i.val = 212
    · rw [if_pos h2] at h
      exact absurd rfl h
    · rw [if_neg h2] at h
      exact absurd rfl h

theorem tight_bit (x : Nat) (hx : x < 8 * BLOCK_SIZE) :
    aget tight_volume.bitmap x = decide (x < 2554) := by
  rw [aget_of_lt _ _ hx]
  rfl

theorem tight_volume_invariants :
    I1 tight_volume ∧ I2 tight_volume ∧ I3 tight_volume ∧ I4 tight_volume ∧ I5 tight_volume := by
  refine ⟨?_, ?_, ?_, ?_, ?_⟩
  · have h0 : popcount tight_volume.bitmap = 2554 := by
      unfold popcount
      rw [countP_range_congr (fun i => decide (i < 2554)) _ _ (fun j hj => tight_bit j hj),
        countP_lt_range]
      simp [BLOCK_SIZE]
    unfold I1
    rw [h0]
    decide
  · have h0 : used_count tight_volume.inode_table = 213 := by
      unfold used_count
      rw [countP_range_congr (fun i => decide (i < 213)) _ _ (fun j hj => by
        rw [aget_of_lt _ _ hj]
        have := tight_used ⟨j, hj⟩
        simp only at this
        by_cases hc : j < 213
        · simp [hc, this.mpr hc]
        · have hn : ¬ (tight_volume.inode_table ⟨j, hj⟩).used = 1 := fun e => hc (this.mp e)
          simp [hc, hn]), countP_lt_range]
      simp [MAX_FILES]
    unfold I2
    rw [h0]
    decide
  · intro i k _ hk
    obtain ⟨hi, hb⟩ := tight_blocks i k hk
    have hk12 := k.isLt
    simp only [MAX_DIRECT_BLOCKS] at hk12
    rw [hb]
    refine ⟨by omega, by simp only [MAX_BLOCKS]; omega, ?_, ?_⟩
    · rw [tight_bit _ (by simp only [BLOCK_SIZE]; omega)]
      simp only [decide_eq_true_eq]
      omega
    · intro i2 k2 _ he
      obtain ⟨_, hb2⟩ := tight_blocks i2 k2 (by rw [he]; omega)
      have hk22 := k2.isLt
      simp only [MAX_DIRECT_BLOCKS] at hk22
      rw [hb2] at he
      exact ⟨Fin.ext (by omega), Fin.ext (by omega)⟩
  · intro i j hi hj hij hn
    have hi2 := (tight_used i).mp hi
    have hj2 := (tight_used j).mp hj
    have h0 := congrFun hn ⟨0, by decide⟩
    rw [tight_inode, tight_inode] at h0
    apply hij
    apply Fin.ext
    by_cases a1 : i.val < 212 <;> by_cases a2 : j.val < 212
    · rw [if_pos a1, if_pos a2] at h0
      simp at h0
      exact h0
    · rw [if_pos a1, if_neg a2, if_pos (by omega)] at h0
      simp at h0
      omega
    · rw [if_neg a1, if_pos (by omega), if_pos a2] at h0
      simp at h0
      omega
    · omega
  · intro i hi
    have hi2 := (tight_used i).mp hi
    rw [tight_inode]
    by_cases a1 : i.val < 212
    · rw [if_pos a1]
      have hbc : block_count (fun k : Fin MAX_DIRECT_BLOCKS =>
          10 + 12 * (i.val : Int) + (k.val : Int)) = 12 :=
        block_count_packed _ 12 (le_refl _) (fun j hj => by
          rw [aget_of_lt _ _ hj]
          omega) (fun j h1 h2 => by
          simp only [MAX_DIRECT_BLOCKS] at h2
          omega)
      simp only [hbc, BLOCK_SIZE]
      decide
    · rw [if_neg a1, if_pos (by omega)]
      simp only [BLOCK_SIZE]
      constructor
      · positivity
      · intro h
        exact absurd h (by decide)

/-! ## Writes larger than 12 blocks (claim C12) -/

/-- C12 (oversize write), in the order of the checks: in a mounted state, for the
name of an existing file, non-null data and a size with
`49152 < size <= 2147479552`, `fs_write` returns -3 when
`ceil(size / 4096) <= free_blocks` and -2 when `ceil(size / 4096) > free_blocks`;
the state is unchanged in both cases. -/
theorem c12_oversize_write (s : FS) (d : Dev) (l : List Nat) (buf : Nat → Nat) (size : Int)
    (hm : mounted s) (hex : find_inode s (some l) ≠ -1) (h1 : 49152 < size)
    (h2 : size ≤ 2147479552) :
    ((size + 4095) / 4096 ≤ s.sb.free_blocks → fs_write s d (some l) (some buf) size = (-3, s))
    ∧ ((size + 4095) / 4096 > s.sb.free_blocks →
        fs_write s d (some l) (some buf) size = (-2, s)) := by
  refine ⟨fun hfree => ?_, fun hfree =>
    fs_write_insufficient_space s d (some l) buf size hm.1 hex (by omega) h2 hfree⟩
  obtain ⟨l2, _, hl2, hlen, _⟩ := find_inode_some s (some l) hex
  have hl : l = l2 := by injection hl2
  subst hl
  have hcalc : calculate_blocks_needed size = (size + 4095) / 4096 := by
    rcases calc_blocks_cases size ⟨by omega, by omega⟩ with ⟨a1, _⟩ | ⟨_, _, a2⟩ | ⟨a1, _⟩
    · omega
    · exact a2
    · omega
  unfold fs_write
  simp only
  rw [if_neg (by
      simp only [not_or]
      exact ⟨by simp [validate_of_strlen l hlen], by omega, by omega, by have := hm.1; omega⟩),
    if_neg hex, hcalc, if_neg (by omega), if_pos (by simp only [MAX_DIRECT_BLOCKS]; omega)]

set_option maxRecDepth 100000 in
theorem c12_witness :
    ((49153 + 4095 : Int) / 4096 ≤ sample_volume.sb.free_blocks →
      fs_write sample_volume dev_ok (some [97]) (some (fun _ => 65)) 49153 = (-3, sample_volume))
    ∧ ((49153 + 4095 : Int) / 4096 > sample_volume.sb.free_blocks →
      fs_write sample_volume dev_ok (some [97]) (some (fun _ => 65)) 49153
        = (-2, sample_volume)) :=
  c12_oversize_write sample_volume dev_ok [97] (fun _ => 65) 49153 ⟨by decide, by decide⟩
    (by decide) (by decide) (by decide)

set_option maxRecDepth 100000 in
/-- C12 as stated fails on `tight_volume`: the volume is mounted, satisfies I1-I5
and holds the empty file whose name is the byte 213; a write of 49153 bytes
(13 blocks) to it returns -2, not -3, because only 6 blocks are free and the
free-block check comes first. -/
theorem c12_oversize_write_on_full_volume :
    mounted tight_volume
    ∧ (I1 tight_volume ∧ I2 tight_volume ∧ I3 tight_volume ∧ I4 tight_volume ∧ I5 tight_volume)
    ∧ find_inode tight_volume (some [213]) = 212
    ∧ (49153 : Int) > 12 * 4096
    ∧ (fs_write tight_volume dev_ok (some [213]) (some (fun _ => 65)) 49153).1 = -2 :=
  ⟨⟨by decide, by decide⟩, tight_volume_invariants, by decide, by decide, by decide⟩

/-! ## Which blocks a write takes (claim C14) -/

/-- The allocation loop takes the lowest clear blocks in ascending order: the
entries `nb[0..i)` ascend strictly, and every block below `nb[j]` that was clear
before the loop is an earlier entry. -/
theorem alloc_blocks_lowest (s0 : FS) :
    ∀ (n i : Nat) (s : FS) (nb : Fin MAX_DIRECT_BLOCKS → Int),
      AllocSeg s0 s nb 0 i →
      (∀ j j2, j < j2 → j2 < i → aget nb j < aget nb j2) →
      (∀ j, j < i → ∀ x : Nat, (x : Int) < aget nb j → aget s0.bitmap x = false →
        ∃ j2, j2 < j ∧ aget nb j2 = (x : Int)) →
      i + n ≤ MAX_DIRECT_BLOCKS → (alloc_blocks n i s nb).ok = true →
      (∀ j j2, j < j2 → j2 < i + n →
        aget (alloc_blocks n i s nb).new_blocks j < aget (alloc_blocks n i s nb).new_blocks j2)
      ∧ (∀ j, j < i + n → ∀ x : Nat, (x : Int) < aget (alloc_blocks n i s nb).new_blocks j →
          aget s0.bitmap x = false →
          ∃ j2, j2 < j ∧ aget (alloc_blocks n i s nb).new_blocks j2 = (x : Int)) := by
  intro n
  induction n with
  | zero =>
    intro i s nb _ hasc hlow _ _
    unfold alloc_blocks
    exact ⟨hasc, hlow⟩
  | succ n ih =>
    intro i s nb h hasc hlow hi hok
    unfold alloc_blocks at hok ⊢
    rcases find_free_block_spec s with ⟨hf, _⟩ | ⟨r, hf, hr1, hr2, hr3⟩
    · simp [hf] at hok
    · have hne : ¬ ((r : Int) = -1) := by omega
      simp only [hf, hne, if_false] at hok ⊢
      have hi12 : i < MAX_DIRECT_BLOCKS := by omega
      have hstep := AllocSeg_step s0 s nb i r h hi12 hr1 hr2
      have hr0 : aget s0.bitmap r = false := by
        by_contra hc
        have : aget s.bitmap r = true := (h.bits r).mpr (Or.inl (by simpa using hc))
        rw [hr2] at this
        exact Bool.false_ne_true this
      have hlt : ∀ j, j < i → aget nb j < (r : Int) := by
        intro j hj
        obtain ⟨q0, _, _⟩ := h.rng j hj
        have hset : aget s.bitmap (aget nb j).toNat = true :=
          (h.bits _).mpr (Or.inr ⟨j, Nat.zero_le _, hj, by omega⟩)
        by_contra hc
        have hge : (r : Int) ≤ aget nb j := by omega
        rcases eq_or_lt_of_le hge with he | hgt
        · rw [← he] at hset
          simp only [Int.toNat_ofNat] at hset
          rw [hr2] at hset
          exact Bool.false_ne_true hset
        · obtain ⟨j2, hj2, he2⟩ := hlow j hj r hgt hr0
          have : aget s.bitmap r = true :=
            (h.bits r).mpr (Or.inr ⟨j2, Nat.zero_le _, by omega, he2⟩)
          rw [hr2] at this
          exact Bool.false_ne_true this
      have key := ih (i + 1) (mark_block_used s (r : Int)) (aset nb i (r : Int)) hstep ?_ ?_
        (by omega) hok
      · rwa [show i + 1 + n = i + (n + 1) by omega] at key
      · intro j j2 hj hj2
        by_cases hj2i : j2 = i
        · subst hj2i
          rw [aget_aset_eq _ _ _ hi12, aget_aset_ne _ _ _ _ (by omega)]
          exact hlt j hj
        · rw [aget_aset_ne _ _ _ _ hj2i, aget_aset_ne _ _ _ _ (by omega)]
          exact hasc j j2 hj (by omega)
      · intro j hj x hx hx0
        by_cases hji : j = i
        · subst hji
          rw [aget_aset_eq _ _ _ hi12] at hx
          have hxs : aget s.bitmap x = true := hr3 x (by omega)
          rcases (h.bits x).mp hxs with hc | ⟨j2, _, hj2, he⟩
          · rw [hx0] at hc
            exact absurd hc Bool.false_ne_true
          · exact ⟨j2, hj2, by rw [aget_aset_ne _ _ _ _ (by omega)]; exact he⟩
        · rw [aget_aset_ne _ _ _ _ hji] at hx
          obtain ⟨j2, hj2, he⟩ := hlow j (by omega) x hx hx0
          exact ⟨j2, hj2, by rw [aget_aset_ne _ _ _ _ (by omega)]; exact he⟩

/-- Block selection of a successful `fs_write` whose size does not overflow
`size + 4095`: with `k = ceil(size / 4096)`, slots `0..k-1` of the file hold the
`k` lowest-indexed blocks that were clear before the call, in strictly ascending
order, the other slots hold -1, and the inode's size is the requested size. -/
theorem fs_write_block_selection (s : FS) (d : Dev) (fn : Option (List Nat))
    (data : Option (Nat → Nat)) (size : Int) (h : (fs_write s d fn data size).1 = 0)
    (hsz : size ≤ 2147479552) :
    ∃ (i : Fin MAX_FILES) (k : Nat),
      find_inode s fn = (i.val : Int) ∧ (k : Int) = (size + 4095) / 4096
      ∧ k ≤ MAX_DIRECT_BLOCKS
      ∧ ((fs_write s d fn data size).2.inode_table i).size = size
      ∧ (∀ j : Fin MAX_DIRECT_BLOCKS, j.val < k →
          0 ≤ ((fs_write s d fn data size).2.inode_table i).blocks j
          ∧ ((fs_write s d fn data size).2.inode_table i).blocks j < MAX_BLOCKS
          ∧ aget s.bitmap (((fs_write s d fn data size).2.inode_table i).blocks j).toNat = false)
      ∧ (∀ j j2 : Fin MAX_DIRECT_BLOCKS, j.val < j2.val → j2.val < k →
          ((fs_write s d fn data size).2.inode_table i).blocks j
            < ((fs_write s d fn data size).2.inode_table i).blocks j2)
      ∧ (∀ j : Fin MAX_DIRECT_BLOCKS, j.val < k → ∀ x : Nat,
          (x : Int) < ((fs_write s d fn data size).2.inode_table i).blocks j →
          aget s.bitmap x = false →
          ∃ j2 : Fin MAX_DIRECT_BLOCKS, j2.val < j.val
            ∧ ((fs_write s d fn data size).2.inode_table i).blocks j2 = (x : Int))
      ∧ (∀ j : Fin MAX_DIRECT_BLOCKS, k ≤ j.val →
          ((fs_write s d fn data size).2.inode_table i).blocks j = -1) := by
  obtain ⟨l, buf, i, st, _, _, _, h0, _, hfi, hu, _, hk2, hok, hseg, heq⟩ :=
    fs_write_ok s d fn data size h
  have hcalc : calculate_blocks_needed size = (size + 4095) / 4096 := by
    rcases calc_blocks_cases size ⟨by omega, by omega⟩ with ⟨a1, a2⟩ | ⟨_, _, a2⟩ | ⟨a1, _⟩
    · rw [a2]
      omega
    · exact a2
    · omega
  have hK : ((calculate_blocks_needed size).toNat : Int) = (size + 4095) / 4096 := by
    rw [hcalc]
    omega
  obtain ⟨hasc, hlow⟩ := alloc_blocks_lowest s (calculate_blocks_needed size).toNat 0 s
    (fun _ => -1) (AllocSeg_init s _ (fun j hj => by simp [aget, hj]))
    (fun j j2 _ hj2 => by omega) (fun j hj => by omega) (by omega) hok
  rw [Nat.zero_add] at hasc hlow
  have hti : (fs_write s d fn data size).2.inode_table i
      = { used := (s.inode_table i).used, size := size, name := (s.inode_table i).name,
          blocks := (alloc_blocks (calculate_blocks_needed size).toNat 0 s
            (fun _ => -1)).new_blocks } := by
    rw [heq]
    dsimp only
    rw [(sync_metadata_frame _ d).1, (free_blocks_of_frame _ _).1, write_inode_eq]
    dsimp only
    rw [aset_fin_eq]
  generalize (alloc_blocks (calculate_blocks_needed size).toNat 0 s (fun _ => -1)).new_blocks
    = nb at hseg hasc hlow hti
  refine ⟨i, (calculate_blocks_needed size).toNat, hfi, hK, by omega, by rw [hti], ?_, ?_, ?_,
    ?_⟩
  · intro j hj
    rw [hti]
    have := hseg.rng j.val hj
    rw [aget_fin] at this
    exact this
  · intro j j2 hj hj2
    rw [hti]
    have := hasc j.val j2.val hj hj2
    rw [aget_fin, aget_fin] at this
    exact this
  · intro j hj x hx hx0
    rw [hti] at hx ⊢
    dsimp only at hx ⊢
    rw [← aget_fin nb j] at hx
    obtain ⟨j2, hj2, he⟩ := hlow j.val hj x hx hx0
    have hj12 : j2 < MAX_DIRECT_BLOCKS := by have := j.isLt; omega
    exact ⟨⟨j2, hj12⟩, hj2, by rw [← he, aget_of_lt _ _ hj12]⟩
  · intro j hj
    rw [hti]
    have := hseg.rest j.val hj j.isLt
    rw [aget_fin] at this
    exact this

/-- On a volume whose only set bits below `MAX_BLOCKS` are the reserved bits 0-9,
a successful write of `k` blocks puts the blocks 10, 11, ..., 9 + k into the file. -/
theorem fs_write_first_blocks (s : FS) (d : Dev) (fn : Option (List Nat))
    (data : Option (Nat → Nat)) (size : Int) (h : (fs_write s d fn data size).1 = 0)
    (hsz : size ≤ 2147479552)
    (hbm : ∀ x : Nat, x < MAX_BLOCKS → (aget s.bitmap x = true ↔ x < 10)) :
    ∃ i : Fin MAX_FILES, find_inode s fn = (i.val : Int)
      ∧ ∀ j : Fin MAX_DIRECT_BLOCKS, (j.val : Int) < (size + 4095) / 4096 →
          ((fs_write s d fn data size).2.inode_table i).blocks j = 10 + (j.val : Int) := by
  obtain ⟨i, k, hfi, hk, _, _, hrng, hasc, hlow, _⟩ :=
    fs_write_block_selection s d fn data size h hsz
  refine ⟨i, hfi, ?_⟩
  generalize ((fs_write s d fn data size).2.inode_table i).blocks = nb at hrng hasc hlow
  have key : ∀ m : Nat, ∀ j : Fin MAX_DIRECT_BLOCKS, j.val = m → j.val < k →
      nb j = 10 + (j.val : Int) := by
    intro m
    induction m using Nat.strong_induction_on with
    | _ m ih =>
      intro j hjm hj
      obtain ⟨q0, q1, q2⟩ := hrng j hj
      have hge10 : 10 ≤ nb j := by
        by_contra hc
        have := (hbm (nb j).toNat (by omega)).mpr (by omega)
        rw [q2] at this
        exact Bool.false_ne_true this
      have hlo : 10 + (j.val : Int) ≤ nb j := by
        by_cases hj0 : j.val = 0
        · omega
        · have hp : j.val - 1 < MAX_DIRECT_BLOCKS := by have := j.isLt; omega
          have h1 := ih (j.val - 1) (by omega) ⟨j.val - 1, hp⟩ rfl (by simp only; omega)
          have h2 := hasc ⟨j.val - 1, hp⟩ j (by simp only; omega) hj
          simp only at h1
          omega
      by_contra hne
      have hgt : ((10 + j.val : Nat) : Int) < nb j := by push_cast; omega
      have hclear : aget s.bitmap (10 + j.val) = false := by
        by_contra hc
        have := (hbm (10 + j.val) (by omega)).mp (by simpa using hc)
        omega
      obtain ⟨j2, hj2, he⟩ := hlow j hj (10 + j.val) hgt hclear
      have := ih j2.val (by omega) j2 rfl (by omega)
      rw [this] at he
      push_cast at he
      omega
  intro j hj
  exact key j.val j rfl (by omega)

/-! ## When a write succeeds (claim C13) -/

/-- Success condition of `fs_write` for sizes that do not overflow `size + 4095`:
in a mounted state with I1, for an existing file, on a device that moves every
data write in full, the call returns 0 iff `ceil(size / 4096)` is at most 12 and
at most `free_blocks`. -/
theorem fs_write_ok_iff (s : FS) (d : Dev) (l : List Nat) (buf : Nat → Nat) (size : Int)
    (hm : mounted s) (h1 : I1 s) (hex : find_inode s (some l) ≠ -1) (h0 : 0 ≤ size)
    (hsz : size ≤ 2147479552) (hd : ∀ i t, (BLOCK_SIZE : Int) ≤ d.data_wr i t) :
    (fs_write s d (some l) (some buf) size).1 = 0
      ↔ ((size + 4095) / 4096 ≤ 12 ∧ (size + 4095) / 4096 ≤ s.sb.free_blocks) := by
  have hcalc : calculate_blocks_needed size = (size + 4095) / 4096 := by
    rcases calc_blocks_cases size ⟨by omega, by omega⟩ with ⟨a1, a2⟩ | ⟨_, _, a2⟩ | ⟨a1, _⟩
    · rw [a2]
      omega
    · exact a2
    · omega
  constructor
  · intro h
    obtain ⟨_, _, _, _, _, _, _, _, _, _, _, hk1, hk2, _⟩ :=
      fs_write_ok s d (some l) (some buf) size h
    rw [hcalc] at hk1 hk2
    simp only [MAX_DIRECT_BLOCKS] at hk2
    exact ⟨by omega, hk1⟩
  · rintro ⟨hk2, hk1⟩
    obtain ⟨l2, _, hl2, hlen, _⟩ := find_inode_some s (some l) hex
    have hl : l = l2 := by injection hl2
    subst hl
    have hbits : (calculate_blocks_needed size).toNat ≤ clear_count s.bitmap := by
      have := clear_count_ge s h1
      rw [hcalc]
      omega
    have hok := alloc_blocks_ok (calculate_blocks_needed size).toNat 0 s (fun _ => -1) hbits
    obtain ⟨al1, _, _⟩ := alloc_blocks_spec s (calculate_blocks_needed size).toNat 0 s
      (fun _ => -1) (AllocSeg_init s _ (fun j hj => by simp [aget, hj]))
      (by rw [hcalc]; simp only [MAX_DIRECT_BLOCKS]; omega)
    have hseg := al1 hok
    rw [Nat.zero_add] at hseg
    rw [fs_write_ret s d l buf size (validate_of_strlen l hlen) hlen h0 hm.1 hex
      (by rw [hcalc]; exact hk1) (by rw [hcalc]; simp only [MAX_DIRECT_BLOCKS]; omega) hok]
    have hw := (write_blocks_full d
      (alloc_blocks (calculate_blocks_needed size).toNat 0 s (fun _ => -1)).new_blocks buf size
      hd (calculate_blocks_needed size).toNat 0
      (alloc_blocks (calculate_blocks_needed size).toNat 0 s (fun _ => -1)).st
      (hseg.op.trans hm.2) (Or.inr (by rw [hcalc]; push_cast; omega))
      (fun j _ hj => (hseg.rng j (by omega)).1)
      (fun j j2 _ hj _ hj2 he => hseg.inj j j2 (by omega) (by omega) he)).1
    simpa using hw

set_option maxRecDepth 1000000 in
/-- On the nearly full volume a 10-block write to the empty file fails with -2;
after the 12-block file with name byte 1 is deleted the same write succeeds. -/
theorem retry_after_delete :
    (fs_write tight_volume dev_ok (some [213]) (some (fun _ => 65)) 40960).1 = -2
    ∧ (fs_delete tight_volume dev_ok (some [1])).1 = 0
    ∧ (fs_write (fs_delete tight_volume dev_ok (some [1])).2 dev_ok (some [213])
        (some (fun _ => 65)) 40960).1 = 0 := by
  refine ⟨by decide, by decide, by decide⟩

/-! ## The overflow of `calculate_blocks_needed` seen from claims C11, C13, C14 -/

set_option maxRecDepth 100000 in
/-- C11 fails at `size = 2147483647`: the state after `fs_format`, `fs_mount`,
`fs_create("a")` and `fs_write("a", data, 2147483647)` on a reliable device is
reachable, and in it the used inode 0 has size 2147483647, above `12 * 4096`,
while all its 12 block slots are -1. -/
theorem c11_overflowing_size_breaks_i5 :
    Reachable (fs_write vol_a dev_ok (some [97]) (some (fun _ => 65)) 2147483647).2
    ∧ is_int32 2147483647
    ∧ ((fs_write vol_a dev_ok (some [97]) (some (fun _ => 65)) 2147483647).2.inode_table
        ⟨0, by decide⟩).used = 1
    ∧ ((fs_write vol_a dev_ok (some [97]) (some (fun _ => 65)) 2147483647).2.inode_table
        ⟨0, by decide⟩).size = 2147483647
    ∧ ¬ ((2147483647 : Int) ≤ 12 * 4096)
    ∧ ∀ k, ((fs_write vol_a dev_ok (some [97]) (some (fun _ => 65)) 2147483647).2.inode_table
        ⟨0, by decide⟩).blocks k = -1 :=
  ⟨Reachable.write vol_a dev_ok _ _ _ vol_a_reachable (by unfold is_int32; omega),
    by unfold is_int32; omega, by decide, by decide, by decide, by decide⟩

set_option maxRecDepth 100000 in
/-- C13 fails at `size = 2147483647`: `vol_a` is mounted, satisfies I1-I5 and
holds the file "a", the device moves every data write in full, and
`ceil(size / 4096) = 524288` exceeds both 12 and `free_blocks`, yet `fs_write`
returns 0. -/
theorem c13_overflowing_size_succeeds :
    mounted vol_a
    ∧ (I1 vol_a ∧ I2 vol_a ∧ I3 vol_a ∧ I4 vol_a ∧ I5 vol_a)
    ∧ find_inode vol_a (some [97]) ≠ -1
    ∧ data_full dev_ok
    ∧ ¬ ((2147483647 + 4095 : Int) / 4096 ≤ 12)
    ∧ ¬ ((2147483647 + 4095 : Int) / 4096 ≤ vol_a.sb.free_blocks)
    ∧ (fs_write vol_a dev_ok (some [97]) (some (fun _ => 65)) 2147483647).1 = 0 :=
  ⟨⟨by decide, by decide⟩,
    ⟨(Reachable_Inv vol_a vol_a_reachable).i1, (Reachable_Inv vol_a vol_a_reachable).i2,
      I3_of_Inv vol_a (Reachable_Inv vol_a vol_a_reachable),
      (Reachable_Inv vol_a vol_a_reachable).names, I5_vol_a⟩,
    by decide, data_full_dev_ok, by decide, by decide, by decide⟩

set_option maxRecDepth 100000 in
/-- C14 fails at `size = 2147483647`: on `vol_a` the write succeeds with
`k = ceil(size / 4096) = 524288`, the lowest clear block of the bitmap is 10, but
slot 0 of the file holds -1 and not block 10. -/
theorem c14_overflowing_size_takes_no_block :
    (fs_write vol_a dev_ok (some [97]) (some (fun _ => 65)) 2147483647).1 = 0
    ∧ (2147483647 + 4095 : Int) / 4096 = 524288
    ∧ find_inode vol_a (some [97]) = 0
    ∧ find_free_block vol_a = 10
    ∧ ((fs_write vol_a dev_ok (some [97]) (some (fun _ => 65)) 2147483647).2.inode_table
        ⟨0, by decide⟩).blocks ⟨0, by decide⟩ = -1
    ∧ ((fs_write vol_a dev_ok (some [97]) (some (fun _ => 65)) 2147483647).2.inode_table
        ⟨0, by decide⟩).size = 2147483647 :=
  ⟨by decide, by decide, by decide, by decide, by decide, by decide⟩

/-! ## Size and block list agree when no size overflows (claim C11) -/

theorem Reachable_of_no_overflow (s : FS) (h : ReachableNoOverflow s) : Reachable s := by
  induction h with
  | init s0 d0 d1 p0 p1 h0 h1 => exact Reachable.init s0 d0 d1 p0 p1 h0 h1
  | create s d fn _ ih => exact Reachable.create s d fn ih
  | delete s d fn _ ih => exact Reachable.delete s d fn ih
  | write s d fn data size _ hsz _ ih => exact Reachable.write s d fn data size ih hsz
  | read s d fn buf size _ ih => exact Reachable.read s d fn buf size ih
  | list s buf mx _ ih => exact Reachable.list s buf mx ih
  | format s d p _ hd ih => exact Reachable.format s d p ih hd
  | mount s d p _ hd ih => exact Reachable.mount s d p ih hd
  | unmount s d _ hd ih => exact Reachable.unmount s d ih hd

theorem fs_format_table (s : FS) (d : Dev) (p : Option (List Nat)) :
    (fs_format s d p).2.inode_table = s.inode_table
    ∨ (fs_format s d p).2.inode_table = fun _ => format_inode := by
  unfold fs_format
  cases p with
  | none => exact Or.inl rfl
  | some l =>
    simp only
    split_ifs
    · exact Or.inl rfl
    · exact Or.inl rfl
    · exact Or.inr (by simp [do_write])
    · exact Or.inr (by simp [do_write])
    · exact Or.inr (by simp [do_write])
    · exact Or.inr (by simp [do_write])

theorem fs_format_ok_table (s : FS) (d : Dev) (p : Option (List Nat))
    (h : (fs_format s d p).1 = 0) : (fs_format s d p).2.inode_table = fun _ => format_inode := by
  unfold fs_format at h ⊢
  cases p with
  | none => simp at h
  | some l =>
    simp only at h ⊢
    split_ifs at h ⊢
    · simp at h
    · simp at h
    · simp at h
    · simp at h
    · simp at h
    · simp [do_write]

theorem fs_unmount_table (s : FS) (d : Dev) :
    (fs_unmount s d).inode_table = s.inode_table := by
  unfold fs_unmount
  split_ifs
  · exact (flush_metadata_frame s d).1
  · rfl

/-- `fs_mount` of the volume's own image loads back the inode table held in memory. -/
theorem fs_mount_table (s : FS) (d : Dev) (p : Option (List Nat)) (h : Inv s)
    (hd : meta_full d ∨ (fs_mount s d p).1 = 0) :
    (fs_mount s d p).2.inode_table = s.inode_table := by
  unfold fs_mount at hd ⊢
  cases p with
  | none => rfl
  | some l =>
    simp only at hd ⊢
    by_cases c1 : s.disk_fd ≥ 0
    · rw [if_pos c1]
    rw [if_neg c1] at hd ⊢
    have hfd : s.disk_fd = -1 := by
      rcases h.fd_ok with hf | hf
      · exact hf.1
      · omega
    have hi := h.img_ok hfd
    by_cases c2 : host_open d < 0
    · rw [if_pos c2]
    rw [if_neg c2] at hd ⊢
    have hr1 : dev_count true (d.meta_rd 0) SB_BYTES = (SB_BYTES : Int) := by
      rcases hd with hm | hr
      · exact dev_count_full _ _ (meta_full_rd d hm 0).1
      · by_contra hc
        rw [if_pos hc] at hr
        simp at hr
    rw [hr1] at hd ⊢
    have e0 : ¬ ((SB_BYTES : Int) ≤ 0) := by simp [SB_BYTES]
    simp only [e0, if_false, Int.toNat_ofNat, ne_eq, not_true_eq_false, load_sb s h hi,
      sb_valid_of_Inv s h] at hd ⊢
    have hr2 : dev_count true (d.meta_rd 1) BLOCK_SIZE = (BLOCK_SIZE : Int) := by
      rcases hd with hm | hr
      · exact dev_count_full _ _ (meta_full_rd d hm 1).2.1
      · by_contra hc
        rw [if_pos hc] at hr
        simp at hr
    rw [hr2] at hd ⊢
    have e1 : ¬ ((BLOCK_SIZE : Int) ≤ 0) := by simp [BLOCK_SIZE]
    simp only [e1, if_false, Int.toNat_ofNat, not_true_eq_false, load_bitmap s hi] at hd ⊢
    have hr3 : dev_count true (d.meta_rd 2) ITAB_BYTES = (ITAB_BYTES : Int) := by
      rcases hd with hm | hr
      · exact dev_count_full _ _ (meta_full_rd d hm 2).2.2
      · by_contra hc
        rw [if_pos hc] at hr
        simp at hr
    rw [hr3]
    have e2 : ¬ ((ITAB_BYTES : Int) ≤ 0) := by simp [ITAB_BYTES, MAX_FILES, INODE_BYTES]
    simp only [e2, if_false, Int.toNat_ofNat, not_true_eq_false, load_itab s h hi]

theorem I5_packed_of_table (s s2 : FS) (h : I5_packed s)
    (ht : s2.inode_table = s.inode_table) : I5_packed s2 := by
  unfold I5_packed
  rw [ht]
  exact h

theorem I5_packed_aset (s s2 : FS) (i : Fin MAX_FILES) (v : inode) (h : I5_packed s)
    (ht : s2.inode_table = aset s.inode_table i.val v)
    (hv : v.used = 1 → 0 ≤ v.size ∧ v.size ≤ 12 * 4096
      ∧ ∀ k : Fin MAX_DIRECT_BLOCKS,
          ((k.val : Int) < (v.size + 4095) / 4096 → v.blocks k ≠ -1)
          ∧ ((v.size + 4095) / 4096 ≤ (k.val : Int) → v.blocks k = -1)) :
    I5_packed s2 := by
  intro j hj
  rw [ht] at hj ⊢
  by_cases hji : j = i
  · subst hji
    rw [aset_fin_eq] at hj ⊢
    exact hv hj
  · rw [aset_fin_ne _ _ _ _ (fun e => hji (Fin.ext e))] at hj ⊢
    exact h j hj

theorem I5_packed_fs_create (s : FS) (d : Dev) (fn : Option (List Nat)) (h : I5_packed s) :
    I5_packed (fs_create s d fn).2 := by
  rcases fs_create_cases s d fn with ⟨_, e⟩ | ⟨_, _, e⟩ | ⟨_, _, _, e⟩
    | ⟨_, _, _, l, i, _, _, _, e⟩
  · rw [e]; exact h
  · rw [e]; exact h
  · rw [e]; exact h
  rw [e]
  refine I5_packed_aset s _ i
    { used := 1, size := 0, name := name_field l, blocks := fun _ => -1 } h ?_ ?_
  · dsimp only
    rw [(sync_metadata_frame _ d).1, write_inode_eq]
  · intro _
    refine ⟨le_refl _, ?_, fun k => ⟨fun hk => ?_, fun _ => rfl⟩⟩
    · dsimp only
      omega
    · dsimp only at hk
      omega

theorem I5_packed_fs_delete (s : FS) (d : Dev) (fn : Option (List Nat)) (h : I5_packed s) :
    I5_packed (fs_delete s d fn).2 := by
  by_cases hret : (fs_delete s d fn).1 = 0
  · unfold fs_delete at hret ⊢
    cases fn with
    | none => exact h
    | some l =>
      simp only at hret ⊢
      by_cases hv : validate_string_manual (some l) ≠ 0 ∨ strlen l > MAX_FILENAME
          ∨ find_inode s (some l) = -1 ∨ s.disk_fd = -1
      · rw [if_pos hv]; exact h
      rw [if_neg hv]
      simp only [not_or] at hv
      obtain ⟨_, i, _, _, hi1, _, _⟩ := find_inode_some s (some l) hv.2.2.1
      rw [hi1]
      refine I5_packed_aset s _ i
        { used := 0, size := 0, name := fun _ => 0, blocks := fun _ => -1 } h ?_ ?_
      · dsimp only
        rw [(sync_metadata_frame _ d).1, write_inode_eq]
        dsimp only
        rw [(free_blocks_of_frame _ _).1]
      · intro hc
        exact absurd hc (by decide)
  · rw [fs_delete_failure s d fn hret]
    exact h

theorem I5_packed_fs_write (s : FS) (d : Dev) (fn : Option (List Nat))
    (data : Option (Nat → Nat)) (size : Int) (h : I5_packed s) (hsz : size ≤ 2147479552) :
    I5_packed (fs_write s d fn data size).2 := by
  by_cases hret : (fs_write s d fn data size).1 = 0
  · obtain ⟨i, nb, _, hu, _, hk2, hrng, _, hrest, htab, _⟩ :=
      fs_write_ok_effect s d fn data size hret
    obtain ⟨_, _, _, _, _, _, _, h0, _⟩ := fs_write_ok s d fn data size hret
    have hcalc : calculate_blocks_needed size = (size + 4095) / 4096 := by
      rcases calc_blocks_cases size ⟨by omega, by omega⟩ with ⟨a1, a2⟩ | ⟨_, _, a2⟩ | ⟨a1, _⟩
      · rw [a2]
        omega
      · exact a2
      · omega
    rw [hcalc] at hk2 hrng hrest
    simp only [MAX_DIRECT_BLOCKS] at hk2
    refine I5_packed_aset s _ i _ h htab ?_
    intro _
    dsimp only
    refine ⟨h0, by omega, fun k => ⟨fun hk => ?_, fun hk => ?_⟩⟩
    · have := hrng k.val (by omega)
      rw [aget_fin] at this
      omega
    · have := hrest k.val (by omega) k.isLt
      rw [aget_fin] at this
      exact this
  · exact I5_packed_of_table s _ h (fs_write_failure s d fn data size hret).1

/-- In every state reached without a write size above `2147479552`, every used
inode has `0 <= size <= 12 * 4096` and exactly `ceil(size / 4096)` block entries,
packed into the lowest slots. -/
theorem I5_packed_of_no_overflow (s : FS) (h : ReachableNoOverflow s) : I5_packed s := by
  induction h with
  | init s0 d0 d1 p0 p1 h0 h1 =>
    intro i hi
    rw [fs_mount_table _ d1 p1 (fs_format_ok s0 d0 p0 h0) (Or.inr h1),
      fs_format_ok_table s0 d0 p0 h0] at hi
    dsimp only [format_inode] at hi
    omega
  | create s d fn _ ih => exact I5_packed_fs_create s d fn ih
  | delete s d fn _ ih => exact I5_packed_fs_delete s d fn ih
  | write s d fn data size _ _ hsz ih => exact I5_packed_fs_write s d fn data size ih hsz
  | read s d fn buf size hr ih =>
    have : (fs_read s d fn buf size).2.2 = s := by
      unfold fs_read
      cases fn <;> cases buf <;> simp only <;> split_ifs <;> rfl
    rw [this]; exact ih
  | list s buf mx _ ih =>
    have : (fs_list s buf mx).2.2 = s := by
      unfold fs_list
      by_cases h0 : mx = 0
      · rw [if_pos h0]
      · rw [if_neg h0]
        cases buf with
        | none => rfl
        | some b =>
          simp only
          by_cases h1 : mx < 0 ∨ mx > (MAX_FILES : Int) ∨ s.disk_fd = -1
          · rw [if_pos h1]
          · rw [if_neg h1]
    rw [this]; exact ih
  | format s d p _ _ ih =>
    rcases fs_format_table s d p with e | e
    · exact I5_packed_of_table s _ ih e
    · intro i hi
      rw [e] at hi
      dsimp only [format_inode] at hi
      omega
  | mount s d p hr hd ih =>
    exact I5_packed_of_table s _ ih
      (fs_mount_table s d p (Reachable_Inv s (Reachable_of_no_overflow s hr)) (Or.inl hd))
  | unmount s d _ _ ih => exact I5_packed_of_table s _ ih (fs_unmount_table s d)

/-! ## `fs_format`: result and failure (claims C28, C29) -/

theorem fs_format_ok_mem (s : FS) (d : Dev) (p : Option (List Nat))
    (h : (fs_format s d p).1 = 0) :
    (fs_format s d p).2.sb = format_sb ∧ (fs_format s d p).2.bitmap = format_bitmap
    ∧ (fs_format s d p).2.disk_fd = -1 ∧ (fs_format s d p).2.fd_open = false := by
  unfold fs_format at h ⊢
  cases p with
  | none => simp at h
  | some l =>
    simp only at h ⊢
    split_ifs at h ⊢
    · simp at h
    · simp at h
    · simp at h
    · simp at h
    · simp at h
    · simp [do_write]

/-- C28 (result of format): after an `fs_format` call that returns 0 no volume is
mounted (`disk_fd == -1`, descriptor closed); the superblock in memory has
`total_blocks = 2560`, `block_size = 4096`, `free_blocks = 2550`,
`total_inodes = 256`, `free_inodes = 256`; bits 0-9 of the bitmap are set and bits
10-2559 clear; every inode is unused with size 0, an all-zero name and all 12
block slots -1; and the image holds these records at offsets 0, 4096 and 8192. -/
theorem c28_format_result (s : FS) (d : Dev) (p : Option (List Nat))
    (h : (fs_format s d p).1 = 0) :
    (fs_format s d p).2.disk_fd = -1 ∧ (fs_format s d p).2.fd_open = false
    ∧ (fs_format s d p).2.sb.total_blocks = 2560 ∧ (fs_format s d p).2.sb.block_size = 4096
    ∧ (fs_format s d p).2.sb.total_inodes = 256 ∧ (fs_format s d p).2.sb.free_blocks = 2550
    ∧ (fs_format s d p).2.sb.free_inodes = 256
    ∧ (∀ b : Nat, b < 10 → aget (fs_format s d p).2.bitmap b = true)
    ∧ (∀ b : Nat, 10 ≤ b → b < 2560 → aget (fs_format s d p).2.bitmap b = false)
    ∧ (∀ i : Fin MAX_FILES, ((fs_format s d p).2.inode_table i).used = 0
        ∧ ((fs_format s d p).2.inode_table i).size = 0
        ∧ (∀ j, ((fs_format s d p).2.inode_table i).name j = 0)
        ∧ ∀ k, ((fs_format s d p).2.inode_table i).blocks k = -1)
    ∧ on_image (fs_format s d p).2
    ∧ dec_sb (fs_format s d p).2.image = (fs_format s d p).2.sb
    ∧ dec_bitmap (fun q => (fs_format s d p).2.image (BLOCK_SIZE + q))
        = (fs_format s d p).2.bitmap
    ∧ dec_itab (fun q => (fs_format s d p).2.image (2 * BLOCK_SIZE + q))
        = (fs_format s d p).2.inode_table := by
  obtain ⟨hs, hb, hfd, ho⟩ := fs_format_ok_mem s d p h
  have ht := fs_format_ok_table s d p h
  have hinv := fs_format_ok s d p h
  have himg := hinv.img_ok hfd
  refine ⟨hfd, ho, by rw [hs]; rfl, by rw [hs]; rfl, by rw [hs]; rfl, by rw [hs]; rfl,
    by rw [hs]; rfl, ?_, ?_, ?_, himg, ?_, ?_, ?_⟩
  · intro b hb10
    rw [hb, format_bitmap_bit]
    simpa using hb10
  · intro b h1 _
    rw [hb, format_bitmap_bit]
    simp only [decide_eq_false_iff_not]
    omega
  · intro i
    rw [ht]
    exact ⟨rfl, rfl, fun _ => rfl, fun _ => rfl⟩
  · exact dec_sb_enc_sb _ _ (Inv_ranges _ hinv).1 himg.1
  · exact dec_bitmap_enc_bitmap _ _ himg.2.1
  · exact dec_itab_enc_itab _ _ (Inv_ranges _ hinv).2.1 himg.2.2

theorem c28_witness :
    (fs_format blank dev_ok (some [100])).2.disk_fd = -1 ∧ (fs_format blank dev_ok (some [100])).2.fd_open = false
    ∧ (fs_format blank dev_ok (some [100])).2.sb.total_blocks = 2560 ∧ (fs_format blank dev_ok (some [100])).2.sb.block_size = 4096
    ∧ (fs_format blank dev_ok (some [100])).2.sb.total_inodes = 256 ∧ (fs_format blank dev_ok (some [100])).2.sb.free_blocks = 2550
    ∧ (fs_format blank dev_ok (some [100])).2.sb.free_inodes = 256
    ∧ (∀ b : Nat, b < 10 → aget (fs_format blank dev_ok (some [100])).2.bitmap b = true)
    ∧ (∀ b : Nat, 10 ≤ b → b < 2560 → aget (fs_format blank dev_ok (some [100])).2.bitmap b = false)
    ∧ (∀ i : Fin MAX_FILES, ((fs_format blank dev_ok (some [100])).2.inode_table i).used = 0
        ∧ ((fs_format blank dev_ok (some [100])).2.inode_table i).size = 0
        ∧ (∀ j, ((fs_format blank dev_ok (some [100])).2.inode_table i).name j = 0)
        ∧ ∀ k, ((fs_format blank dev_ok (some [100])).2.inode_table i).blocks k = -1)
    ∧ on_image (fs_format blank dev_ok (some [100])).2
    ∧ dec_sb (fs_format blank dev_ok (some [100])).2.image = (fs_format blank dev_ok (some [100])).2.sb
    ∧ dec_bitmap (fun q => (fs_format blank dev_ok (some [100])).2.image (BLOCK_SIZE + q))
        = (fs_format blank dev_ok (some [100])).2.bitmap
    ∧ dec_itab (fun q => (fs_format blank dev_ok (some [100])).2.image (2 * BLOCK_SIZE + q))
        = (fs_format blank dev_ok (some [100])).2.inode_table :=
  c28_format_result blank dev_ok (some [100])
    (fs_format_full blank dev_ok [100] rfl (by decide) (by decide) meta_full_dev_ok)

/-- C29 (failure of format): `fs_format` returns -1 when the path is NULL, when it
is the empty string and when a volume is mounted (`disk_fd != -1`); the records
in memory, the descriptor and the image are then unchanged. -/
theorem c29_format_failure (s : FS) (d : Dev) (p : Option (List Nat))
    (h : p = none ∨ (∃ l, p = some l ∧ strlen l = 0) ∨ s.disk_fd ≠ -1) :
    fs_format s d p = (-1, s) := by
  unfold fs_format
  cases p with
  | none => rfl
  | some l =>
    simp only
    rw [if_pos]
    rcases h with h | ⟨l2, hl2, h⟩ | h
    · exact Option.noConfusion h
    · have hl : l = l2 := by injection hl2
      subst hl
      exact Or.inl h
    · exact Or.inr h

set_option maxRecDepth 100000 in
theorem c29_witness :
    fs_format sample_volume dev_ok (some [100]) = (-1, sample_volume) :=
  c29_format_failure sample_volume dev_ok (some [100]) (Or.inr (Or.inr (by decide)))

/-! ## Calls while no volume is mounted (claim C27) -/

theorem fs_unmount_fd (s : FS) (d : Dev) (h : -1 ≤ s.disk_fd) :
    (fs_unmount s d).disk_fd = -1 := by
  unfold fs_unmount
  split_ifs with hc
  · rfl
  · omega

theorem blank_unmounted : blank.disk_fd = -1 := rfl

/-- C26 (failure of list), with the case `max == 0` kept apart: for every state
and every `max != 0`, `fs_list` returns -1 and leaves the buffer and the state
untouched when the buffer is NULL, `max < 0`, `max > 256` or no volume is
mounted; for `max == 0` it returns 0 and leaves the buffer and the state
untouched, whatever the buffer and the mount status. -/
theorem c26_list_failure (s : FS) (filenames : Option (Nat → Nat)) (max_files : Int) :
    (max_files ≠ 0 →
      (filenames = none ∨ max_files < 0 ∨ max_files > 256 ∨ s.disk_fd = -1) →
      fs_list s filenames max_files = (-1, filenames, s))
    ∧ (max_files = 0 → fs_list s filenames max_files = (0, filenames, s)) := by
  refine ⟨fun h0 h => ?_, fun h0 => ?_⟩
  · unfold fs_list
    rw [if_neg h0]
    cases filenames with
    | none => rfl
    | some buf =>
      simp only
      rw [if_pos]
      rcases h with h | h | h | h
      · exact Option.noConfusion h
      · exact Or.inl h
      · exact Or.inr (Or.inl (by simp only [MAX_FILES]; exact_mod_cast h))
      · exact Or.inr (Or.inr h)
  · unfold fs_list
    rw [if_pos h0]

/-- C26 as stated fails for `max == 0`: with a NULL buffer and no volume mounted
`fs_list(NULL, 0)` returns 0, not -1. -/
theorem c26_list_zero_max_returns_zero :
    blank.disk_fd = -1 ∧ (fs_list blank none 0).1 = 0 := ⟨rfl, rfl⟩

/-! ## Result of `fs_mount` (claim C30) -/

theorem dev_count_eq_iff (offer : Int) (n : Nat) (hn : 0 < n) :
    dev_count true offer n = (n : Int) ↔ (n : Int) ≤ offer := by
  unfold dev_count
  constructor
  · intro h
    by_cases hc : true = false ∨ offer < 0
    · rw [if_pos hc] at h
      omega
    · rw [if_neg hc] at h
      have := min_le_left offer (n : Int)
      omega
  · intro h
    rw [if_neg (by simp; omega)]
    exact min_eq_right h

theorem dec_sb_read (img src : Nat → Nat) : dec_sb (dev_read img 0 src SB_BYTES) = dec_sb img := by
  simp [dec_sb, dec32, dev_read, SB_BYTES]

/-- C30 (result of mount): `fs_mount(path)` returns 0 iff the path is non-NULL, no
volume is mounted (`disk_fd < 0`), `open` succeeds, the device delivers each of
the three metadata regions in full, and the superblock stored at offset 0 of the
image passes the range checks; otherwise it returns -1; and a mount attempted
while a volume is mounted leaves the whole state unchanged. -/
theorem c30_mount_result (s : FS) (d : Dev) (p : Option (List Nat)) :
    ((fs_mount s d p).1 = 0
      ↔ (p ≠ none ∧ s.disk_fd < 0 ∧ 0 ≤ d.open_fd
          ∧ (SB_BYTES : Int) ≤ d.meta_rd 0 ∧ (BLOCK_SIZE : Int) ≤ d.meta_rd 1
          ∧ (ITAB_BYTES : Int) ≤ d.meta_rd 2
          ∧ (dec_sb s.image).total_blocks = 2560 ∧ (dec_sb s.image).block_size = 4096
          ∧ (dec_sb s.image).total_inodes = 256
          ∧ 0 ≤ (dec_sb s.image).free_blocks ∧ (dec_sb s.image).free_blocks ≤ 2560
          ∧ 0 ≤ (dec_sb s.image).free_inodes ∧ (dec_sb s.image).free_inodes ≤ 256))
    ∧ ((fs_mount s d p).1 = 0 ∨ (fs_mount s d p).1 = -1)
    ∧ (0 ≤ s.disk_fd → fs_mount s d p = (-1, s)) := by
  have e0 : ¬ ((SB_BYTES : Int) ≤ 0) := by simp [SB_BYTES]
  have e1 : ¬ ((BLOCK_SIZE : Int) ≤ 0) := by simp [BLOCK_SIZE]
  have e2 : ¬ ((ITAB_BYTES : Int) ≤ 0) := by simp [ITAB_BYTES, MAX_FILES, INODE_BYTES]
  have hsbv : ¬ sb_invalid (dec_sb s.image)
      ↔ ((dec_sb s.image).total_blocks = 2560 ∧ (dec_sb s.image).block_size = 4096
          ∧ (dec_sb s.image).total_inodes = 256
          ∧ 0 ≤ (dec_sb s.image).free_blocks ∧ (dec_sb s.image).free_blocks ≤ 2560
          ∧ 0 ≤ (dec_sb s.image).free_inodes ∧ (dec_sb s.image).free_inodes ≤ 256) := by
    unfold sb_invalid
    simp only [MAX_BLOCKS, BLOCK_SIZE, MAX_FILES, not_or, not_lt, ne_eq, not_not, gt_iff_lt,
      Nat.cast_ofNat]
    tauto
  unfold fs_mount
  cases p with
  | none =>
    dsimp only
    exact ⟨⟨fun h => by simp at h, fun h => absurd rfl h.1⟩, Or.inr rfl, fun _ => rfl⟩
  | some l =>
    simp only
    by_cases c1 : s.disk_fd ≥ 0
    · rw [if_pos c1]
      exact ⟨⟨fun h => by simp at h, fun h => by omega⟩, Or.inr rfl, fun _ => rfl⟩
    rw [if_neg c1]
    by_cases c2 : host_open d < 0
    · rw [if_pos c2]
      refine ⟨⟨fun h => by simp at h, fun h => ?_⟩, Or.inr rfl, fun h => by omega⟩
      rw [host_open_ok d h.2.2.1] at c2
      omega
    rw [if_neg c2]
    have hopen : 0 ≤ d.open_fd := by
      unfold host_open at c2
      split_ifs at c2 with hc
      · omega
      · omega
    by_cases c3 : dev_count true (d.meta_rd 0) SB_BYTES ≠ (SB_BYTES : Int)
    · rw [if_pos c3]
      refine ⟨⟨fun h => by simp at h, fun h => ?_⟩, Or.inr rfl, fun h => by omega⟩
      exact (c3 ((dev_count_eq_iff _ _ (by decide)).mpr h.2.2.2.1)).elim
    rw [if_neg c3]
    have r1 := not_not.mp c3
    have h1 := (dev_count_eq_iff _ _ (by decide)).mp r1
    simp only [r1, e0, if_false, Int.toNat_ofNat, dec_sb_read]
    by_cases c4 : sb_invalid (dec_sb s.image)
    · rw [if_pos c4]
      refine ⟨⟨fun h => by simp at h, fun h => ?_⟩, Or.inr rfl, fun h => by omega⟩
      exact absurd c4 (hsbv.mpr h.2.2.2.2.2.2)
    rw [if_neg c4]
    by_cases c5 : dev_count true (d.meta_rd 1) BLOCK_SIZE ≠ (BLOCK_SIZE : Int)
    · rw [if_pos c5]
      refine ⟨⟨fun h => by simp at h, fun h => ?_⟩, Or.inr rfl, fun h => by omega⟩
      exact (c5 ((dev_count_eq_iff _ _ (by decide)).mpr h.2.2.2.2.1)).elim
    rw [if_neg c5]
    have h2 := (dev_count_eq_iff _ _ (by decide)).mp (not_not.mp c5)
    by_cases c6 : dev_count true (d.meta_rd 2) ITAB_BYTES ≠ (ITAB_BYTES : Int)
    · rw [if_pos c6]
      refine ⟨⟨fun h => by simp at h, fun h => ?_⟩, Or.inr rfl, fun h => by omega⟩
      exact (c6 ((dev_count_eq_iff _ _ (by decide)).mpr h.2.2.2.2.2.1)).elim
    rw [if_neg c6]
    have h3 := (dev_count_eq_iff _ _ (by decide)).mp (not_not.mp c6)
    exact ⟨⟨fun _ => ⟨by simp, by omega, hopen, h1, h2, h3, hsbv.mp c4⟩, fun _ => rfl⟩,
      Or.inl rfl, fun h => by omega⟩

/-! ## `fs_delete`: result and effect (claims C22, C23, C24) -/

/-- The two outcomes of `fs_delete`. -/
theorem fs_delete_cases (s : FS) (d : Dev) (fn : Option (List Nat)) :
    ((fn = none ∨ (∃ l, fn = some l ∧ strlen l > MAX_FILENAME) ∨ find_inode s fn = -1
        ∨ s.disk_fd = -1) ∧ fs_delete s d fn = (-1, s))
    ∨ (∃ (l : List Nat) (i : Fin MAX_FILES), fn = some l ∧ strlen l ≤ MAX_FILENAME
        ∧ s.disk_fd ≠ -1 ∧ find_inode s fn = (i.val : Int) ∧ (s.inode_table i).used = 1
        ∧ (s.inode_table i).name = name_field l
        ∧ fs_delete s d fn = (0, sync_metadata_to_disk (write_inode
            (free_blocks_of s (s.inode_table i).blocks) (i.val : Int)
            { used := 0, size := 0, name := fun _ => 0, blocks := fun _ => -1 }) d)) := by
  unfold fs_delete
  cases fn with
  | none => exact Or.inl ⟨Or.inl rfl, rfl⟩
  | some l =>
    simp only
    by_cases hv : validate_string_manual (some l) ≠ 0 ∨ strlen l > MAX_FILENAME
        ∨ find_inode s (some l) = -1 ∨ s.disk_fd = -1
    · left
      rw [if_pos hv]
      refine ⟨?_, rfl⟩
      rcases hv with h | h | h | h
      · rw [ne_eq, validate_iff] at h
        exact Or.inr (Or.inl ⟨l, rfl, by omega⟩)
      · exact Or.inr (Or.inl ⟨l, rfl, h⟩)
      · exact Or.inr (Or.inr (Or.inl h))
      · exact Or.inr (Or.inr (Or.inr h))
    · right
      rw [if_neg hv]
      simp only [not_or, not_lt, gt_iff_lt] at hv
      obtain ⟨l2, i, hl2, hlen, hi1, hi2, hn⟩ := find_inode_some s (some l) hv.2.2.1
      have hl : l = l2 := by injection hl2
      subst hl
      refine ⟨l, i, rfl, hlen, hv.2.2.2, hi1, hi2, hn, ?_⟩
      rw [hi1]
      simp only [Int.toNat_ofNat, aget_fin]

/-- What a successful `fs_delete` does to the records in memory, for any state. -/
theorem fs_delete_ok_effect (s : FS) (d : Dev) (fn : Option (List Nat))
    (h : (fs_delete s d fn).1 = 0) :
    ∃ (l : List Nat) (i : Fin MAX_FILES), fn = some l ∧ strlen l ≤ MAX_FILENAME
      ∧ s.disk_fd ≠ -1 ∧ find_inode s fn = (i.val : Int) ∧ (s.inode_table i).used = 1
      ∧ (s.inode_table i).name = name_field l
      ∧ (fs_delete s d fn).2.inode_table = aset s.inode_table i.val format_inode
      ∧ (∀ x : Nat, aget (fs_delete s d fn).2.bitmap x = true
          ↔ (aget s.bitmap x = true
              ∧ ¬ ∃ k : Fin MAX_DIRECT_BLOCKS, (s.inode_table i).blocks k < MAX_BLOCKS
                  ∧ (s.inode_table i).blocks k = (x : Int)))
      ∧ (fs_delete s d fn).2.sb.total_blocks = s.sb.total_blocks
      ∧ (fs_delete s d fn).2.sb.block_size = s.sb.block_size
      ∧ (fs_delete s d fn).2.sb.total_inodes = s.sb.total_inodes
      ∧ (fs_delete s d fn).2.sb.free_inodes = s.sb.free_inodes + 1
      ∧ (fs_delete s d fn).2.disk_fd = s.disk_fd
      ∧ (fs_delete s d fn).2.fd_open = s.fd_open
      ∧ (∀ q : Nat, 10 * BLOCK_SIZE ≤ q → (fs_delete s d fn).2.image q = s.image q)
      ∧ (fs_delete s d fn).2.sb.free_blocks
          = (free_blocks_of s (s.inode_table i).blocks).sb.free_blocks := by
  rcases fs_delete_cases s d fn with ⟨_, e⟩ | ⟨l, i, hl, hlen, hfd, hfi, hu, hn, e⟩
  · rw [e] at h
    simp at h
  rw [e]
  dsimp only
  have hwi := write_inode_eq (free_blocks_of s (s.inode_table i).blocks) i
    { used := 0, size := 0, name := fun _ => 0, blocks := fun _ => -1 }
  obtain ⟨g1, g2, g3, g4, g5, g6, g7, g8⟩ := free_blocks_of_frame s (s.inode_table i).blocks
  have hz : (if ((free_blocks_of s (s.inode_table i).blocks).inode_table i).used = 0
        ∧ (0 : Int) = 1 then (-1 : Int)
      else if ((free_blocks_of s (s.inode_table i).blocks).inode_table i).used = 1
        ∧ (0 : Int) = 0 then 1 else 0) = 1 := by
    rw [g1, hu]
    simp
  dsimp only at hwi
  rw [hz] at hwi
  obtain ⟨f1, f2, f3, f4, f5⟩ := sync_metadata_frame (write_inode
    (free_blocks_of s (s.inode_table i).blocks) (i.val : Int)
    { used := 0, size := 0, name := fun _ => 0, blocks := fun _ => -1 }) d
  have himg := fun q hq => sync_metadata_data (write_inode
    (free_blocks_of s (s.inode_table i).blocks) (i.val : Int)
    { used := 0, size := 0, name := fun _ => 0, blocks := fun _ => -1 }) d q hq
  have hbit := free_blocks_of_bit s (s.inode_table i).blocks
  generalize write_inode (free_blocks_of s (s.inode_table i).blocks) (i.val : Int)
    { used := 0, size := 0, name := fun _ => 0, blocks := fun _ => -1 } = S
    at hwi f1 f2 f3 f4 f5 himg
  refine ⟨l, i, hl, hlen, hfd, hfi, hu, hn, ?_, ?_, ?_, ?_, ?_, ?_, ?_, ?_, ?_, ?_⟩
  · rw [f1, hwi]
    dsimp only
    rw [g1]
    rfl
  · intro x
    rw [f3, hwi]
    exact hbit x
  · rw [f2, hwi]; exact g5
  · rw [f2, hwi]; exact g6
  · rw [f2, hwi]; exact g7
  · rw [f2, hwi]
    dsimp only
    rw [g8]
  · rw [f4, hwi]; exact g2
  · rw [f5, hwi]; exact g3
  · intro q hq
    rw [himg q hq, hwi]
    dsimp only
    rw [g4]
  · rw [f2, hwi]

/-- C23 (effect of delete): in a mounted state satisfying I1-I5, for a name of at
most 28 bytes held by a used inode, `fs_delete(name)` returns 0; with `i` the
inode that holds the name, every block `i` referenced is clear in the bitmap
afterwards and no other bit has changed, `free_blocks` has grown by the number of
non-sentinel block entries of `i` and `free_inodes` by 1, slot `i` has
`used = 0`, `size = 0`, an all-zero name and all block slots -1, and no other
inode slot has changed. -/
theorem c23_delete_effect (s : FS) (d : Dev) (l : List Nat) (hm : mounted s) (_h1 : I1 s)
    (_h2 : I2 s) (h3 : I3 s) (_h4 : I4 s) (_h5 : I5 s) (hlen : strlen l ≤ MAX_FILENAME)
    (ht : name_taken s (some l)) :
    ∃ i : Fin MAX_FILES, find_inode s (some l) = (i.val : Int)
      ∧ (s.inode_table i).used = 1 ∧ (s.inode_table i).name = name_field l
      ∧ (fs_delete s d (some l)).1 = 0
      ∧ (∀ k, (s.inode_table i).blocks k ≠ -1 →
          aget (fs_delete s d (some l)).2.bitmap ((s.inode_table i).blocks k).toNat = false)
      ∧ (∀ x : Nat, (¬ ∃ k, (s.inode_table i).blocks k = (x : Int)) →
          aget (fs_delete s d (some l)).2.bitmap x = aget s.bitmap x)
      ∧ (fs_delete s d (some l)).2.sb.free_blocks
          = s.sb.free_blocks + (block_count (s.inode_table i).blocks : Nat)
      ∧ (fs_delete s d (some l)).2.sb.free_inodes = s.sb.free_inodes + 1
      ∧ ((fs_delete s d (some l)).2.inode_table i).used = 0
      ∧ ((fs_delete s d (some l)).2.inode_table i).size = 0
      ∧ (∀ j, ((fs_delete s d (some l)).2.inode_table i).name j = 0)
      ∧ (∀ k, ((fs_delete s d (some l)).2.inode_table i).blocks k = -1)
      ∧ ∀ j : Fin MAX_FILES, j ≠ i →
          (fs_delete s d (some l)).2.inode_table j = s.inode_table j := by
  have hfind : find_inode s (some l) ≠ -1 := (name_taken_iff s l hlen).mpr ht
  have hret : (fs_delete s d (some l)).1 = 0 := by
    rcases fs_delete_cases s d (some l) with ⟨hc, _⟩ | ⟨_, _, _, _, _, _, _, _, e⟩
    · rcases hc with hc | ⟨l2, hl2, hc⟩ | hc | hc
      · exact Option.noConfusion hc
      · have hl : l = l2 := by injection hl2
        subst hl
        omega
      · exact absurd hc hfind
      · have := hm.1
        omega
    · rw [e]
  obtain ⟨l2, i, hl2, _, _, hfi, hu, hn, htab, hbits, _, _, _, hfin, _, _, _, hfb⟩ :=
    fs_delete_ok_effect s d (some l) hret
  have hl : l = l2 := by injection hl2
  subst hl
  have hold : ∀ k : Fin MAX_DIRECT_BLOCKS, (s.inode_table i).blocks k ≠ -1 →
      0 ≤ (s.inode_table i).blocks k ∧ (s.inode_table i).blocks k < MAX_BLOCKS
      ∧ aget s.bitmap ((s.inode_table i).blocks k).toNat = true := by
    intro k hk
    obtain ⟨q1, q2, q3, _⟩ := h3 i k hu hk
    exact ⟨by omega, q2, q3⟩
  have hoinj : ∀ k k2 : Fin MAX_DIRECT_BLOCKS, (s.inode_table i).blocks k ≠ -1 →
      (s.inode_table i).blocks k = (s.inode_table i).blocks k2 → k = k2 := by
    intro k k2 hk he
    obtain ⟨_, _, _, q4⟩ := h3 i k hu hk
    exact ((q4 i k2 hu he.symm).2).symm
  have hti : (fs_delete s d (some l)).2.inode_table i = format_inode := by
    rw [htab, aset_fin_eq]
  refine ⟨i, hfi, hu, hn, hret, ?_, ?_, ?_, hfin, by rw [hti]; rfl, by rw [hti]; rfl,
    fun j => by rw [hti]; rfl, fun k => by rw [hti]; rfl, ?_⟩
  · intro k hk
    obtain ⟨q0, q1, _⟩ := hold k hk
    rw [Bool.eq_false_iff]
    intro hc
    rw [hbits] at hc
    exact hc.2 ⟨k, q1, by omega⟩
  · intro x hx
    rw [Bool.eq_iff_iff, hbits]
    constructor
    · exact fun hc => hc.1
    · intro hc
      refine ⟨hc, ?_⟩
      rintro ⟨k, _, he⟩
      exact hx ⟨k, he⟩
  · rw [hfb, free_blocks_of_count s _ hold hoinj]
  · intro j hj
    rw [htab, aset_fin_ne _ _ _ _ (fun e => hj (Fin.ext e))]

set_option maxRecDepth 100000 in
theorem c23_witness :
    ∃ i : Fin MAX_FILES, find_inode sample_volume (some [97]) = (i.val : Int)
      ∧ (sample_volume.inode_table i).used = 1 ∧ (sample_volume.inode_table i).name = name_field [97]
      ∧ (fs_delete sample_volume dev_ok (some [97])).1 = 0
      ∧ (∀ k, (sample_volume.inode_table i).blocks k ≠ -1 →
          aget (fs_delete sample_volume dev_ok (some [97])).2.bitmap ((sample_volume.inode_table i).blocks k).toNat = false)
      ∧ (∀ x : Nat, (¬ ∃ k, (sample_volume.inode_table i).blocks k = (x : Int)) →
          aget (fs_delete sample_volume dev_ok (some [97])).2.bitmap x = aget sample_volume.bitmap x)
      ∧ (fs_delete sample_volume dev_ok (some [97])).2.sb.free_blocks
          = sample_volume.sb.free_blocks + (block_count (sample_volume.inode_table i).blocks : Nat)
      ∧ (fs_delete sample_volume dev_ok (some [97])).2.sb.free_inodes = sample_volume.sb.free_inodes + 1
      ∧ ((fs_delete sample_volume dev_ok (some [97])).2.inode_table i).used = 0
      ∧ ((fs_delete sample_volume dev_ok (some [97])).2.inode_table i).size = 0
      ∧ (∀ j, ((fs_delete sample_volume dev_ok (some [97])).2.inode_table i).name j = 0)
      ∧ (∀ k, ((fs_delete sample_volume dev_ok (some [97])).2.inode_table i).blocks k = -1)
      ∧ ∀ j : Fin MAX_FILES, j ≠ i →
          (fs_delete sample_volume dev_ok (some [97])).2.inode_table j = sample_volume.inode_table j :=
  c23_delete_effect sample_volume dev_ok [97] ⟨by decide, by decide⟩
    (Reachable_Inv sample_volume sample_volume_reachable).i1
    (Reachable_Inv sample_volume sample_volume_reachable).i2
    (I3_of_Inv sample_volume (Reachable_Inv sample_volume sample_volume_reachable))
    (Reachable_Inv sample_volume sample_volume_reachable).names I5_sample_volume (by decide)
    ((name_taken_iff sample_volume [97] (by decide)).mp (by decide))

/-! ## Properties of every inode slot of a reachable state -/

theorem fs_read_state (s : FS) (d : Dev) (fn : Option (List Nat))
    (buffer : Option (Nat → Nat)) (size : Int) : (fs_read s d fn buffer size).2.2 = s := by
  unfold fs_read
  cases fn with
  | none => rfl
  | some l =>
    cases buffer with
    | none => rfl
    | some buf =>
      simp only
      split_ifs <;> rfl

theorem fs_list_state (s : FS) (filenames : Option (Nat → Nat)) (max_files : Int) :
    (fs_list s filenames max_files).2.2 = s := by
  unfold fs_list
  by_cases h0 : max_files = 0
  · rw [if_pos h0]
  · rw [if_neg h0]
    cases filenames with
    | none => rfl
    | some b =>
      simp only
      split_ifs <;> rfl

/-- What a successful `fs_create` does to the records in memory. -/
theorem fs_create_ok_effect (s : FS) (d : Dev) (fn : Option (List Nat))
    (h : (fs_create s d fn).1 = 0) :
    ∃ (l : List Nat) (i : Fin MAX_FILES), fn = some l ∧ strlen l ≠ 0
      ∧ strlen l ≤ MAX_FILENAME ∧ s.disk_fd ≠ -1 ∧ ¬ name_taken s fn
      ∧ (s.inode_table i).used = 0
      ∧ (∀ j : Fin MAX_FILES, j.val < i.val → (s.inode_table j).used ≠ 0)
      ∧ (fs_create s d fn).2.inode_table = aset s.inode_table i.val
          { used := 1, size := 0, name := name_field l, blocks := fun _ => -1 }
      ∧ (fs_create s d fn).2.sb = { s.sb with free_inodes := s.sb.free_inodes - 1 }
      ∧ (fs_create s d fn).2.bitmap = s.bitmap
      ∧ (fs_create s d fn).2.disk_fd = s.disk_fd
      ∧ (fs_create s d fn).2.fd_open = s.fd_open := by
  rcases fs_create_cases s d fn with ⟨_, e⟩ | ⟨_, _, e⟩ | ⟨_, _, _, e⟩
    | ⟨hinv, hnt, _, l, i, hl, hu, hlow, e⟩
  · rw [e] at h; simp at h
  · rw [e] at h; simp at h
  · rw [e] at h; simp at h
  have hv : strlen l ≠ 0 ∧ strlen l ≤ MAX_FILENAME ∧ s.disk_fd ≠ -1 := by
    refine ⟨fun h0 => hinv (Or.inr (Or.inl ⟨l, hl, Or.inl h0⟩)), ?_,
      fun h0 => hinv (Or.inr (Or.inr h0))⟩
    by_contra hgt
    exact hinv (Or.inr (Or.inl ⟨l, hl, Or.inr (by omega)⟩))
  rw [e]
  dsimp only
  obtain ⟨f1, f2, f3, f4, f5⟩ := sync_metadata_frame (write_inode s (i.val : Int)
    { used := 1, size := 0, name := name_field l, blocks := fun _ => -1 }) d
  have hwi := write_inode_eq s i
    { used := 1, size := 0, name := name_field l, blocks := fun _ => -1 }
  have hz : (if (s.inode_table i).used = 0 ∧ (1 : Int) = 1 then (-1 : Int)
      else if (s.inode_table i).used = 1 ∧ (1 : Int) = 0 then 1 else 0) = -1 := by
    rw [if_pos ⟨hu, rfl⟩]
  dsimp only at hwi
  rw [hz] at hwi
  refine ⟨l, i, hl, hv.1, hv.2.1, hv.2.2, hnt, hu, hlow, ?_, ?_, ?_, ?_, ?_⟩
  · rw [f1, hwi]
  · rw [f2, hwi]
    simp [Int.sub_eq_add_neg]
  · rw [f3, hwi]
  · rw [f4, hwi]
  · rw [f5, hwi]

theorem fs_create_ok_of (s : FS) (d : Dev) (fn : Option (List Nat))
    (h1 : ¬ create_invalid s fn) (h2 : ¬ name_taken s fn) (h3 : ¬ no_free_inode s) :
    (fs_create s d fn).1 = 0 := by
  rcases fs_create_cases s d fn with ⟨a, _⟩ | ⟨_, a, _⟩ | ⟨_, _, a, _⟩
    | ⟨_, _, _, _, _, _, _, _, e⟩
  · exact absurd a h1
  · exact absurd a h2
  · exact absurd a h3
  · rw [e]

theorem used_count_all (t : Fin MAX_FILES → inode) (h : ∀ i, (t i).used = 1) :
    used_count t = MAX_FILES := by
  unfold used_count
  rw [countP_range_congr (fun _ => true) _ _ (fun j hj => by
    rw [aget_of_lt _ _ hj]
    simp [h ⟨j, hj⟩])]
  simp

theorem fs_mount_ok_fd (s : FS) (d : Dev) (p : Option (List Nat))
    (h : (fs_mount s d p).1 = 0) : 0 ≤ (fs_mount s d p).2.disk_fd := by
  unfold fs_mount at h ⊢
  cases p with
  | none => simp at h
  | some l =>
    simp only at h ⊢
    by_cases c1 : s.disk_fd ≥ 0
    · rw [if_pos c1] at h
      simp at h
    rw [if_neg c1] at h ⊢
    by_cases c2 : host_open d < 0
    · rw [if_pos c2] at h
      simp at h
    rw [if_neg c2] at h ⊢
    by_cases c3 : dev_count true (d.meta_rd 0) SB_BYTES ≠ SB_BYTES
    · rw [if_pos c3] at h
      simp at h
    rw [if_neg c3] at h ⊢
    split_ifs at h ⊢
    all_goals first
      | (exfalso; revert h; simp; done)
      | (dsimp only; omega)

/-- A create with a valid name that is not taken succeeds in a reachable mounted
state with a free inode; afterwards one inode less is free and exactly the new
name has been added to the names held. -/
theorem fs_create_step (s : FS) (d : Dev) (l : List Nat) (h : Reachable s)
    (hfd : s.disk_fd ≠ -1) (hl0 : strlen l ≠ 0) (hlen : strlen l ≤ MAX_FILENAME)
    (hnt : ¬ name_taken s (some l)) (hfree : 0 < s.sb.free_inodes) :
    (fs_create s d (some l)).1 = 0
    ∧ (fs_create s d (some l)).2.sb.free_inodes = s.sb.free_inodes - 1
    ∧ (fs_create s d (some l)).2.disk_fd = s.disk_fd
    ∧ ∀ l2 : List Nat, name_taken (fs_create s d (some l)).2 (some l2)
        ↔ (name_taken s (some l2) ∨ name_field l2 = name_field l) := by
  have hinv := Reachable_Inv s h
  have hret : (fs_create s d (some l)).1 = 0 := by
    apply fs_create_ok_of s d (some l) ?_ hnt ?_
    · rintro (hx | ⟨l3, hl3, hx⟩ | hx)
      · exact Option.noConfusion hx
      · have : l = l3 := by injection hl3
        subst this
        omega
      · exact hfd hx
    · rintro (hx | hx)
      · omega
      · have hall : ∀ i, (s.inode_table i).used = 1 := by
          intro i
          rcases hinv.used01 i with h0 | h1
          · exact absurd h0 (hx i)
          · exact h1
        have h2 := hinv.i2
        unfold I2 at h2
        rw [used_count_all _ hall] at h2
        omega
  obtain ⟨l3, i, hl3, _, _, _, _, hu, _, c1, c2, _, c4, _⟩ :=
    fs_create_ok_effect s d (some l) hret
  have hl4 : l = l3 := by injection hl3
  subst hl4
  refine ⟨hret, by rw [c2], c4, ?_⟩
  intro l2
  constructor
  · rintro ⟨l5, hl5, j, hj1, hj2⟩
    have hl6 : l2 = l5 := by injection hl5
    subst hl6
    rw [c1] at hj1 hj2
    by_cases hji : j = i
    · subst hji
      rw [aset_fin_eq] at hj2
      exact Or.inr hj2.symm
    · rw [aset_fin_ne _ _ _ _ (fun e => hji (Fin.ext e))] at hj1 hj2
      exact Or.inl ⟨l2, rfl, j, hj1, hj2⟩
  · rintro (⟨l5, hl5, j, hj1, hj2⟩ | he)
    · have hji : j ≠ i := by
        intro e
        rw [e, hu] at hj1
        exact absurd hj1 (by decide)
      refine ⟨l5, hl5, j, ?_, ?_⟩
      · rw [c1, aset_fin_ne _ _ _ _ (fun e => hji (Fin.ext e))]
        exact hj1
      · rw [c1, aset_fin_ne _ _ _ _ (fun e => hji (Fin.ext e))]
        exact hj2
    · refine ⟨l2, rfl, i, ?_, ?_⟩
      · rw [c1, aset_fin_eq]
      · rw [c1, aset_fin_eq]
        exact he.symm

/-- A run of creates with valid, pairwise different names that are not yet taken
succeeds at every call as long as free inodes remain; `acc` lists the names held
before the run. -/
theorem run_creates_ok : ∀ (calls : List (Dev × List Nat)) (s : FS)
    (acc : List (Fin MAX_FILENAME → Nat)), Reachable s → s.disk_fd ≠ -1 →
    s.sb.free_inodes = 256 - (acc.length : Int) → acc.length + calls.length ≤ 256 →
    (∀ l : List Nat, name_taken s (some l) ↔ name_field l ∈ acc) →
    (∀ c ∈ calls, strlen c.2 ≠ 0 ∧ strlen c.2 ≤ MAX_FILENAME) →
    (acc ++ calls.map (fun c => name_field c.2)).Nodup →
    (run_creates s calls).1 = List.replicate calls.length 0
    ∧ Reachable (run_creates s calls).2
    ∧ (run_creates s calls).2.disk_fd ≠ -1
    ∧ (run_creates s calls).2.sb.free_inodes
        = 256 - ((acc.length + calls.length : Nat) : Int)
    ∧ (∀ l : List Nat, name_taken (run_creates s calls).2 (some l)
        ↔ name_field l ∈ acc ++ calls.map (fun c => name_field c.2)) := by
  intro calls
  induction calls with
  | nil =>
    intro s acc hr hfd hfree _ htk _ _
    refine ⟨rfl, hr, hfd, ?_, ?_⟩
    · simp only [run_creates, List.length_nil, Nat.add_zero]
      exact hfree
    · intro l
      simp only [run_creates, List.map_nil, List.append_nil]
      exact htk l
  | cons c rest ih =>
    intro s acc hr hfd hfree hlen htk hval hnd
    have hv := hval c (List.mem_cons_self _ _)
    have hnd2 := List.nodup_append.mp hnd
    have hnotin : name_field c.2 ∉ acc := by
      intro hm
      exact hnd2.2.2 hm (by simp)
    have hnt : ¬ name_taken s (some c.2) := fun h => hnotin ((htk c.2).mp h)
    simp only [List.length_cons] at hlen
    have hpos : 0 < s.sb.free_inodes := by omega
    obtain ⟨e1, e2, e3, e4⟩ := fs_create_step s c.1 c.2 hr hfd hv.1 hv.2 hnt hpos
    have hr2 : Reachable (fs_create s c.1 (some c.2)).2 := Reachable.create _ _ _ hr
    have hnd3 : ((acc ++ [name_field c.2]) ++ rest.map (fun c => name_field c.2)).Nodup := by
      rw [List.append_assoc]
      exact hnd
    obtain ⟨r1, r2, r3, r4, r5⟩ := ih (fs_create s c.1 (some c.2)).2 (acc ++ [name_field c.2])
      hr2 (by rw [e3]; exact hfd)
      (by rw [e2, hfree]; simp only [List.length_append, List.length_singleton]; push_cast; omega)
      (by simp only [List.length_append, List.length_singleton]; omega)
      (by
        intro l
        rw [e4 l, htk l]
        simp only [List.mem_append, List.mem_singleton])
      (fun c2 hc2 => hval c2 (List.mem_cons_of_mem _ hc2))
      hnd3
    refine ⟨?_, r2, r3, ?_, ?_⟩
    · simp only [run_creates, List.length_cons, List.replicate_succ]
      rw [r1, e1]
    · simp only [run_creates, List.length_cons]
      rw [r4]
      simp only [List.length_append, List.length_singleton]
      push_cast
      omega
    · intro l
      simp only [run_creates]
      rw [r5 l]
      simp only [List.map_cons, List.append_assoc, List.singleton_append]

/-- A freshly formatted and mounted volume is mounted, has 256 free inodes and
holds no name. -/
theorem fresh_volume_facts (s0 : FS) (d0 d1 : Dev) (p0 p1 : Option (List Nat))
    (hf : (fs_format s0 d0 p0).1 = 0) (hm : (fs_mount (fs_format s0 d0 p0).2 d1 p1).1 = 0) :
    (fs_mount (fs_format s0 d0 p0).2 d1 p1).2.disk_fd ≠ -1
    ∧ (fs_mount (fs_format s0 d0 p0).2 d1 p1).2.sb.free_inodes = 256
    ∧ ∀ l : List Nat, ¬ name_taken (fs_mount (fs_format s0 d0 p0).2 d1 p1).2 (some l) := by
  have hr : Reachable (fs_mount (fs_format s0 d0 p0).2 d1 p1).2 :=
    Reachable.init s0 d0 d1 p0 p1 hf hm
  have hinv := Reachable_Inv _ hr
  have ht : (fs_mount (fs_format s0 d0 p0).2 d1 p1).2.inode_table = fun _ => format_inode := by
    rw [fs_mount_table _ d1 p1 (fs_format_ok s0 d0 p0 hf) (Or.inr hm)]
    exact fs_format_ok_table s0 d0 p0 hf
  refine ⟨?_, ?_, ?_⟩
  · have := fs_mount_ok_fd _ d1 p1 hm
    omega
  · have h2 := hinv.i2
    unfold I2 at h2
    rw [ht, used_count_format] at h2
    simp only [MAX_FILES] at h2
    omega
  · rintro l ⟨_, _, i, hu, _⟩
    rw [ht] at hu
    simp [format_inode] at hu

theorem fs_delete_ok_of (s : FS) (d : Dev) (l : List Nat) (hfd : s.disk_fd ≠ -1)
    (hlen : strlen l ≤ MAX_FILENAME) (ht : name_taken s (some l)) :
    (fs_delete s d (some l)).1 = 0 := by
  rcases fs_delete_cases s d (some l) with ⟨hc, _⟩ | ⟨_, _, _, _, _, _, _, _, e⟩
  · exfalso
    rcases hc with hc | ⟨l3, hl3, hc⟩ | hc | hc
    · exact Option.noConfusion hc
    · have : l = l3 := by injection hl3
      subst this
      omega
    · exact (name_taken_iff s l hlen).mpr ht hc
    · exact hfd hc
  · rw [e]

theorem fresh_mounted_steps :
    (fs_format blank dev_ok (some [100])).1 = 0
    ∧ (fs_mount (fs_format blank dev_ok (some [100])).2 dev_ok (some [100])).1 = 0 := by
  have h0 : (fs_format blank dev_ok (some [100])).1 = 0 :=
    fs_format_full blank dev_ok [100] rfl (by decide) (by decide) meta_full_dev_ok
  refine ⟨h0, ?_⟩
  rw [fs_mount_full _ dev_ok [100] (fs_format_ok blank dev_ok (some [100]) h0)
    (fs_format_ok_mem blank dev_ok (some [100]) h0).2.2.1 (by decide) meta_full_dev_ok]

theorem strlen_pair (a b : Nat) : strlen [1 + a, 1 + b] = 2 := by
  simp [strlen]

theorem name_field_pair (a b : Nat) :
    name_field [1 + a, 1 + b] ⟨0, by decide⟩ = 1 + a
    ∧ name_field [1 + a, 1 + b] ⟨1, by decide⟩ = 1 + b := by
  simp [name_field, strlen_pair, char_at]

theorem many_names_length : many_names.length = MAX_FILES := by
  simp [many_names, MAX_FILES]

theorem many_names_valid :
    ∀ c ∈ many_names, strlen c.2 ≠ 0 ∧ strlen c.2 ≤ MAX_FILENAME := by
  intro c hc
  simp only [many_names, List.mem_map, List.mem_range] at hc
  obtain ⟨i, _, rfl⟩ := hc
  simp only [strlen_pair, MAX_FILENAME]
  omega

theorem many_names_nodup : (many_names.map (fun c => name_field c.2)).Nodup := by
  simp only [many_names, List.map_map]
  apply List.Nodup.map_on _ (List.nodup_range 256)
  intro i _ j _ hij
  simp only [Function.comp] at hij
  have h0 := congrFun hij ⟨0, by decide⟩
  have h1 := congrFun hij ⟨1, by decide⟩
  rw [(name_field_pair _ _).1, (name_field_pair _ _).1] at h0
  rw [(name_field_pair _ _).2, (name_field_pair _ _).2] at h1
  omega

theorem many_names_fresh :
    name_field [100] ∉ many_names.map (fun c => name_field c.2) := by
  intro hm
  simp only [many_names, List.map_map, List.mem_map, List.mem_range, Function.comp] at hm
  obtain ⟨i, hi, he⟩ := hm
  have h0 := congrFun he ⟨0, by decide⟩
  rw [(name_field_pair _ _).1] at h0
  simp [name_field, strlen, char_at] at h0
  omega

/-- C21 (inode capacity): after a successful `fs_format` and `fs_mount`, 256
`fs_create` calls with valid, pairwise different names all return 0; in the state
they leave, `fs_create` of any further valid name returns -2 and changes nothing,
every created name can be deleted, and after any one successful `fs_delete` an
`fs_create` of a fresh valid name returns 0. -/
theorem c21_inode_capacity (s0 : FS) (d0 d1 : Dev) (p0 p1 : Option (List Nat))
    (calls : List (Dev × List Nat))
    (hf : (fs_format s0 d0 p0).1 = 0) (hm : (fs_mount (fs_format s0 d0 p0).2 d1 p1).1 = 0)
    (hlen : calls.length = MAX_FILES)
    (hval : ∀ c ∈ calls, strlen c.2 ≠ 0 ∧ strlen c.2 ≤ MAX_FILENAME)
    (hnd : (calls.map (fun c => name_field c.2)).Nodup) :
    (run_creates (fs_mount (fs_format s0 d0 p0).2 d1 p1).2 calls).1 = List.replicate MAX_FILES 0
    ∧ (∀ (d : Dev) (l : List Nat), strlen l ≠ 0 → strlen l ≤ MAX_FILENAME →
        name_field l ∉ calls.map (fun c => name_field c.2) →
        fs_create (run_creates (fs_mount (fs_format s0 d0 p0).2 d1 p1).2 calls).2 d (some l)
          = (-2, (run_creates (fs_mount (fs_format s0 d0 p0).2 d1 p1).2 calls).2))
    ∧ (∀ c ∈ calls, ∀ dd : Dev,
        (fs_delete (run_creates (fs_mount (fs_format s0 d0 p0).2 d1 p1).2 calls).2 dd
          (some c.2)).1 = 0)
    ∧ (∀ (dd : Dev) (fn : Option (List Nat)),
        (fs_delete (run_creates (fs_mount (fs_format s0 d0 p0).2 d1 p1).2 calls).2 dd fn).1 = 0 →
        ∀ (d : Dev) (l : List Nat), strlen l ≠ 0 → strlen l ≤ MAX_FILENAME →
          name_field l ∉ calls.map (fun c => name_field c.2) →
          (fs_create
            (fs_delete (run_creates (fs_mount (fs_format s0 d0 p0).2 d1 p1).2 calls).2 dd fn).2
            d (some l)).1 = 0) := by
  have hr : Reachable (fs_mount (fs_format s0 d0 p0).2 d1 p1).2 :=
    Reachable.init s0 d0 d1 p0 p1 hf hm
  obtain ⟨f1, f2, f3⟩ := fresh_volume_facts s0 d0 d1 p0 p1 hf hm
  generalize (fs_mount (fs_format s0 d0 p0).2 d1 p1).2 = s at hr f1 f2 f3 ⊢
  obtain ⟨r1, r2, r3, r4, r5⟩ := run_creates_ok calls s [] hr f1
    (by rw [f2]; simp) (by simp only [List.length_nil, MAX_FILES] at hlen ⊢; omega)
    (fun l => by simp only [List.not_mem_nil, iff_false]; exact f3 l)
    hval (by simpa using hnd)
  simp only [List.nil_append, List.length_nil, Nat.zero_add] at r4 r5
  rw [hlen] at r1
  rw [hlen] at r4
  generalize (run_creates s calls).2 = t at r2 r3 r4 r5 ⊢
  simp only [MAX_FILES] at r4
  refine ⟨r1, ?_, ?_, ?_⟩
  · intro d l hl0 hl1 hfresh
    rcases fs_create_cases t d (some l) with ⟨hc, _⟩ | ⟨_, hc, _⟩ | ⟨_, _, _, e⟩
      | ⟨_, _, hc, _⟩
    · exfalso
      rcases hc with hc | ⟨l3, hl3, hc⟩ | hc
      · exact Option.noConfusion hc
      · have : l = l3 := by injection hl3
        subst this
        omega
      · exact r3 hc
    · exact absurd ((r5 l).mp hc) hfresh
    · exact e
    · exact absurd (Or.inl (by rw [r4]; norm_num)) hc
  · intro c hc dd
    exact fs_delete_ok_of t dd c.2 r3 (hval c hc).2
      ((r5 c.2).mpr (List.mem_map.mpr ⟨c, hc, rfl⟩))
  · intro dd fn hdel d l hl0 hl1 hfresh
    obtain ⟨l2, i, _, _, _, _, _, _, e1, _, _, _, _, e6, e7, _⟩ :=
      fs_delete_ok_effect t dd fn hdel
    have hnt : ¬ name_taken (fs_delete t dd fn).2 (some l) := by
      rintro ⟨l3, hl3, j, hu, hn⟩
      rw [e1] at hu hn
      by_cases hji : j = i
      · subst hji
        rw [aset_fin_eq] at hu
        simp [format_inode] at hu
      · rw [aset_fin_ne _ _ _ _ (fun e => hji (Fin.ext e))] at hu hn
        exact hfresh ((r5 l).mp ⟨l3, hl3, j, hu, hn⟩)
    exact (fs_create_step (fs_delete t dd fn).2 d l (Reachable.delete t dd fn r2)
      (by rw [e7]; exact r3) hl0 hl1 hnt (by rw [e6, r4]; norm_num)).1

theorem c21_witness :
    ((fs_format blank dev_ok (some [100])).1 = 0
      ∧ (fs_mount (fs_format blank dev_ok (some [100])).2 dev_ok (some [100])).1 = 0
      ∧ many_names.length = MAX_FILES
      ∧ (∀ c ∈ many_names, strlen c.2 ≠ 0 ∧ strlen c.2 ≤ MAX_FILENAME)
      ∧ (many_names.map (fun c => name_field c.2)).Nodup)
    ∧ (run_creates (fs_mount (fs_format blank dev_ok (some [100])).2 dev_ok (some [100])).2
        many_names).1 = List.replicate MAX_FILES 0
    ∧ fs_create (run_creates (fs_mount (fs_format blank dev_ok (some [100])).2 dev_ok
          (some [100])).2 many_names).2 dev_ok (some [100])
        = (-2, (run_creates (fs_mount (fs_format blank dev_ok (some [100])).2 dev_ok
            (some [100])).2 many_names).2)
    ∧ (fs_delete (run_creates (fs_mount (fs_format blank dev_ok (some [100])).2 dev_ok
          (some [100])).2 many_names).2 dev_ok (some [1, 1])).1 = 0
    ∧ (fs_create (fs_delete (run_creates (fs_mount (fs_format blank dev_ok (some [100])).2
          dev_ok (some [100])).2 many_names).2 dev_ok (some [1, 1])).2 dev_ok
        (some [100])).1 = 0 := by
  have hw := c21_inode_capacity blank dev_ok dev_ok (some [100]) (some [100]) many_names
    fresh_mounted_steps.1 fresh_mounted_steps.2 many_names_length many_names_valid
    many_names_nodup
  have hmem : ((dev_ok, [1, 1]) : Dev × List Nat) ∈ many_names := by
    simp only [many_names, List.mem_map, List.mem_range]
    exact ⟨0, by decide, rfl⟩
  have hdel := hw.2.2.1 _ hmem dev_ok
  exact ⟨⟨fresh_mounted_steps.1, fresh_mounted_steps.2, many_names_length, many_names_valid,
      many_names_nodup⟩, hw.1,
    hw.2.1 dev_ok [100] (by decide) (by decide) many_names_fresh, hdel,
    hw.2.2.2 dev_ok (some [1, 1]) hdel dev_ok [100] (by decide) (by decide) many_names_fresh⟩

/-! ## Result of `fs_list` (claim C25) -/

theorem raw_name_len_spec (nm : Fin MAX_FILENAME → Nat) :
    ∀ n j : Nat, raw_name_len nm n j ≤ n
      ∧ (∀ q, q < raw_name_len nm n j → aget nm (j + q) ≠ 0)
      ∧ (raw_name_len nm n j < n → aget nm (j + raw_name_len nm n j) = 0) := by
  intro n
  induction n with
  | zero =>
    intro j
    simp [raw_name_len]
  | succ n ih =>
    intro j
    unfold raw_name_len
    by_cases h : aget nm j ≠ 0
    · rw [if_pos h]
      obtain ⟨a, b, c⟩ := ih (j + 1)
      refine ⟨by omega, ?_, ?_⟩
      · intro q hq
        cases q with
        | zero => exact h
        | succ q =>
          have := b q (by omega)
          rw [show j + (q + 1) = j + 1 + q by omega]
          exact this
      · intro hlt
        have := c (by omega)
        rw [show j + (raw_name_len nm n (j + 1) + 1) = j + 1 + raw_name_len nm n (j + 1) by omega]
        exact this
    · rw [if_neg h]
      refine ⟨by omega, ?_, ?_⟩
      · intro q hq
        omega
      · intro _
        simpa using h

theorem used_slots_from_length (t : Fin MAX_FILES → inode) :
    ∀ n i : Nat, (used_slots_from t n i).length
      = (List.range' i n).countP (fun i => decide ((aget t i).used = 1)) := by
  intro n
  induction n with
  | zero =>
    intro i
    simp [used_slots_from]
  | succ n ih =>
    intro i
    unfold used_slots_from
    rw [List.range'_succ, List.countP_cons]
    by_cases h : (aget t i).used = 1
    · rw [if_pos h, List.length_cons, ih (i + 1)]
      simp [h]
    · rw [if_neg h, ih (i + 1)]
      simp [h]

theorem used_slots_length (t : Fin MAX_FILES → inode) :
    (used_slots t).length = used_count t := by
  unfold used_slots used_count
  rw [used_slots_from_length, List.range_eq_range']

theorem used_slots_from_spec (t : Fin MAX_FILES → inode) :
    ∀ n i : Nat, (∀ x ∈ used_slots_from t n i, i ≤ x ∧ x < i + n ∧ (aget t x).used = 1)
      ∧ (used_slots_from t n i).Sorted (· < ·) := by
  intro n
  induction n with
  | zero =>
    intro i
    simp [used_slots_from]
  | succ n ih =>
    intro i
    unfold used_slots_from
    obtain ⟨a, b⟩ := ih (i + 1)
    by_cases h : (aget t i).used = 1
    · rw [if_pos h]
      refine ⟨?_, ?_⟩
      · intro x hx
        rcases List.mem_cons.mp hx with rfl | hx
        · exact ⟨le_refl _, by omega, h⟩
        · have := a x hx
          exact ⟨by omega, by omega, this.2.2⟩
      · rw [List.sorted_cons]
        refine ⟨fun y hy => ?_, b⟩
        have := a y hy
        omega
    · rw [if_neg h]
      refine ⟨fun x hx => ?_, b⟩
      have := a x hx
      exact ⟨by omega, by omega, this.2.2⟩

/-- The scan of `fs_list` from slot `i` with `c` rows already written: it stops
after `max_files` rows or at the end of the table, keeps the rows below `c`, and
row `c + k` receives the name of the `k`-th used slot from `i` on. -/
theorem fs_list_loop_spec (t : Fin MAX_FILES → inode) (max_files : Int) :
    ∀ (n i c : Nat) (buf : Nat → Nat), (c : Int) ≤ max_files →
      ((fs_list_loop t max_files n i c buf).1 : Int)
          = min max_files ((c + (used_slots_from t n i).length : Nat) : Int)
      ∧ (∀ p, p < c * MAX_FILENAME → (fs_list_loop t max_files n i c buf).2 p = buf p)
      ∧ (∀ k, c + k < (fs_list_loop t max_files n i c buf).1 →
          row_holds (fs_list_loop t max_files n i c buf).2 (c + k)
            (aget t ((used_slots_from t n i).getD k 0)).name) := by
  intro n
  induction n with
  | zero =>
    intro i c buf hc
    unfold fs_list_loop used_slots_from
    dsimp only
    refine ⟨?_, fun _ _ => rfl, fun k hk => by omega⟩
    rw [List.length_nil, Nat.add_zero]
    omega
  | succ n ih =>
    intro i c buf hc
    unfold fs_list_loop used_slots_from
    by_cases h1 : (c : Int) < max_files
    · rw [if_pos h1]
      by_cases h2 : (aget t i).used = 1
      · rw [if_pos h2, if_pos h2]
        dsimp only
        obtain ⟨a1, a2, a3⟩ := ih (i + 1) (c + 1)
          (fun p => if p = c * MAX_FILENAME + raw_name_len (aget t i).name MAX_FILENAME 0 then 0
            else if c * MAX_FILENAME ≤ p
                ∧ p < c * MAX_FILENAME + raw_name_len (aget t i).name MAX_FILENAME 0
              then aget (aget t i).name (p - c * MAX_FILENAME) else buf p)
          (by push_cast; omega)
        refine ⟨?_, ?_, ?_⟩
        · rw [a1, List.length_cons]
          push_cast
          omega
        · intro p hp
          rw [a2 p (by simp only [MAX_FILENAME] at hp ⊢; omega)]
          rw [if_neg (by omega), if_neg (by omega)]
        · intro k hk
          cases k with
          | zero =>
            intro j hj hjl
            simp only [Nat.add_zero, List.getD_cons_zero] at hjl ⊢
            rw [a2 _ (by simp only [MAX_FILENAME] at hj ⊢; omega)]
            by_cases hje : j = raw_name_len (aget t i).name MAX_FILENAME 0
            · rw [if_pos (by omega)]
              have hs := (raw_name_len_spec (aget t i).name MAX_FILENAME 0).2.2 (by omega)
              rw [Nat.zero_add] at hs
              rw [hje, hs]
            · rw [if_neg (by omega), if_pos ⟨by omega, by omega⟩]
              rw [Nat.add_sub_cancel_left]
          | succ k =>
            have := a3 k (by omega)
            rw [show c + 1 + k = c + (k + 1) by omega] at this
            rw [List.getD_cons_succ]
            exact this
      · rw [if_neg h2, if_neg h2]
        exact ih (i + 1) c buf hc
    · rw [if_neg h1]
      dsimp only
      refine ⟨by omega, fun _ _ => rfl, fun k hk => by omega⟩

theorem used_slots_from_mem (t : Fin MAX_FILES → inode) :
    ∀ (n i x : Nat), x ∈ used_slots_from t n i ↔ (i ≤ x ∧ x < i + n ∧ (aget t x).used = 1) := by
  intro n
  induction n with
  | zero =>
    intro i x
    simp only [used_slots_from, List.not_mem_nil, false_iff]
    omega
  | succ n ih =>
    intro i x
    unfold used_slots_from
    by_cases h : (aget t i).used = 1
    · rw [if_pos h, List.mem_cons, ih (i + 1) x]
      constructor
      · rintro (rfl | ⟨a, b, c⟩)
        · exact ⟨le_refl _, by omega, h⟩
        · exact ⟨by omega, by omega, c⟩
      · rintro ⟨a, b, c⟩
        by_cases hx : x = i
        · exact Or.inl hx
        · exact Or.inr ⟨by omega, by omega, c⟩
    · rw [if_neg h, ih (i + 1) x]
      constructor
      · rintro ⟨a, b, c⟩
        exact ⟨by omega, by omega, c⟩
      · rintro ⟨a, b, c⟩
        have hx : x ≠ i := fun e => h (e ▸ c)
        exact ⟨by omega, by omega, c⟩

/-- Anatomy of an accepted `fs_list` call. -/
theorem fs_list_ok (s : FS) (buf : Nat → Nat) (max_files : Int)
    (hm : s.disk_fd ≠ -1) (h0 : 0 < max_files) (h1 : max_files ≤ MAX_FILES) :
    ∃ (c : Nat) (out : Nat → Nat),
      fs_list s (some buf) max_files = ((c : Int), some out, s)
      ∧ (c : Int) = min max_files (used_count s.inode_table)
      ∧ (∀ k, k < c → row_holds out k
            (aget s.inode_table ((used_slots s.inode_table).getD k 0)).name) := by
  obtain ⟨a1, _, a3⟩ := fs_list_loop_spec s.inode_table max_files MAX_FILES 0 0 buf (by omega)
  refine ⟨(fs_list_loop s.inode_table max_files MAX_FILES 0 0 buf).1,
    (fs_list_loop s.inode_table max_files MAX_FILES 0 0 buf).2, ?_, ?_, ?_⟩
  · unfold fs_list
    rw [if_neg (by omega)]
    dsimp only
    rw [if_neg (by omega)]
  · rw [a1, Nat.zero_add, ← used_slots_length]
    rfl
  · intro k hk
    have := a3 k (by omega)
    rw [Nat.zero_add] at this
    exact this

/-- C25 (result of list): in a mounted state (`disk_fd != -1`), with a non-null
buffer and `0 < max <= 256`, `fs_list` leaves the state unchanged and returns
`c = min(max, number of used inodes)`; for every `k < c`, row `k` of the buffer
holds the name of the `k`-th slot of `used_slots` (the slots with `used == 1` in
strictly ascending order): the bytes up to the first zero byte of the field
followed by a zero byte, or all 28 bytes when the field has no zero byte; a
second call, on any buffer, returns the same count and the same names. -/
theorem c25_list_result (s : FS) (buf : Nat → Nat) (max_files : Int)
    (hm : s.disk_fd ≠ -1) (h0 : 0 < max_files) (h1 : max_files ≤ MAX_FILES) :
    ∃ (c : Nat) (out : Nat → Nat),
      fs_list s (some buf) max_files = ((c : Int), some out, s)
      ∧ (c : Int) = min max_files (used_count s.inode_table)
      ∧ (used_slots s.inode_table).length = used_count s.inode_table
      ∧ (used_slots s.inode_table).Sorted (· < ·)
      ∧ (∀ x, x ∈ used_slots s.inode_table ↔ (x < MAX_FILES ∧ (aget s.inode_table x).used = 1))
      ∧ (∀ k, k < c → row_holds out k
            (aget s.inode_table ((used_slots s.inode_table).getD k 0)).name)
      ∧ (∀ nm : Fin MAX_FILENAME → Nat,
          raw_name_len nm MAX_FILENAME 0 ≤ MAX_FILENAME
          ∧ (∀ j, j < raw_name_len nm MAX_FILENAME 0 → aget nm j ≠ 0)
          ∧ (raw_name_len nm MAX_FILENAME 0 < MAX_FILENAME →
              aget nm (raw_name_len nm MAX_FILENAME 0) = 0))
      ∧ (∀ buf2 : Nat → Nat, ∃ out2 : Nat → Nat,
          fs_list (fs_list s (some buf) max_files).2.2 (some buf2) max_files
            = ((c : Int), some out2, s)
          ∧ ∀ k, k < c → ∀ j, j < MAX_FILENAME →
              j ≤ raw_name_len (aget s.inode_table
                  ((used_slots s.inode_table).getD k 0)).name MAX_FILENAME 0 →
              out2 (k * MAX_FILENAME + j) = out (k * MAX_FILENAME + j)) := by
  obtain ⟨c, out, e1, e2, e3⟩ := fs_list_ok s buf max_files hm h0 h1
  refine ⟨c, out, e1, e2, used_slots_length _, (used_slots_from_spec _ _ _).2, ?_, e3, ?_, ?_⟩
  · intro x
    unfold used_slots
    rw [used_slots_from_mem]
    constructor
    · rintro ⟨_, b, c⟩
      exact ⟨by omega, c⟩
    · rintro ⟨b, c⟩
      exact ⟨by omega, by omega, c⟩
  · intro nm
    have hs := raw_name_len_spec nm MAX_FILENAME 0
    refine ⟨hs.1, ?_, ?_⟩
    · intro j hj
      have := hs.2.1 j hj
      rw [Nat.zero_add] at this
      exact this
    · intro hlt
      have := hs.2.2 hlt
      rw [Nat.zero_add] at this
      exact this
  · intro buf2
    obtain ⟨c2, out2, f1, f2, f3⟩ := fs_list_ok s buf2 max_files hm h0 h1
    have hc : c2 = c := by omega
    subst hc
    refine ⟨out2, ?_, ?_⟩
    · rw [fs_list_state]
      exact f1
    · intro k hk j hj hjl
      rw [f3 k hk j hj hjl, e3 k hk j hj hjl]

set_option maxRecDepth 100000 in
theorem c25_witness :
    (sample_volume.disk_fd ≠ -1 ∧ (0 : Int) < 5 ∧ (5 : Int) ≤ MAX_FILES)
    ∧ (
    ∃ (c : Nat) (out : Nat → Nat),
      fs_list sample_volume (some (fun _ => 7)) 5 = ((c : Int), some out, sample_volume)
      ∧ (c : Int) = min 5 (used_count sample_volume.inode_table)
      ∧ (used_slots sample_volume.inode_table).length = used_count sample_volume.inode_table
      ∧ (used_slots sample_volume.inode_table).Sorted (· < ·)
      ∧ (∀ x, x ∈ used_slots sample_volume.inode_table ↔ (x < MAX_FILES ∧ (aget sample_volume.inode_table x).used = 1))
      ∧ (∀ k, k < c → row_holds out k
            (aget sample_volume.inode_table ((used_slots sample_volume.inode_table).getD k 0)).name)
      ∧ (∀ nm : Fin MAX_FILENAME → Nat,
          raw_name_len nm MAX_FILENAME 0 ≤ MAX_FILENAME
          ∧ (∀ j, j < raw_name_len nm MAX_FILENAME 0 → aget nm j ≠ 0)
          ∧ (raw_name_len nm MAX_FILENAME 0 < MAX_FILENAME →
              aget nm (raw_name_len nm MAX_FILENAME 0) = 0))
      ∧ (∀ buf2 : Nat → Nat, ∃ out2 : Nat → Nat,
          fs_list (fs_list sample_volume (some (fun _ => 7)) 5).2.2 (some buf2) 5
            = ((c : Int), some out2, sample_volume)
          ∧ ∀ k, k < c → ∀ j, j < MAX_FILENAME →
              j ≤ raw_name_len (aget sample_volume.inode_table
                  ((used_slots sample_volume.inode_table).getD k 0)).name MAX_FILENAME 0 →
              out2 (k * MAX_FILENAME + j) = out (k * MAX_FILENAME + j))) :=
  ⟨⟨by decide, by decide, by decide⟩,
    c25_list_result sample_volume (fun _ => 7) 5 (by decide) (by decide) (by decide)⟩

set_option maxRecDepth 100000 in
/-- Listing the sample volume into a buffer of sevens: two rows, "a" and "b", each
with its terminator, and the rest of the buffer untouched. -/
theorem sample_volume_list :
    (fs_list sample_volume (some (fun _ => 7)) 5).1 = 2
    ∧ (fs_list sample_volume (some (fun _ => 7)) 5).2.1.map
        (fun b => [b 0, b 1, b 2, b 28, b 29, b 30, b 56]) = some [97, 0, 7, 98, 0, 7, 7] := by
  decide

/-! ## `fs_unmount` is idempotent (claim C32) -/

/-- C32 (unmount is idempotent and never fails): `fs_unmount` is a total function
without a result code; on an unmounted volume (`disk_fd < 0`) it changes nothing;
on a mounted volume (`disk_fd >= 0`) it leaves `disk_fd = -1` with the descriptor
closed and the superblock, bitmap and inode table in memory as they were; and a
second `fs_unmount`, whatever the device does, leaves exactly the state the first
one left. -/
theorem c32_unmount_idempotent (s : FS) (d d2 : Dev) :
    (s.disk_fd < 0 → fs_unmount s d = s)
    ∧ (0 ≤ s.disk_fd → (fs_unmount s d).disk_fd = -1 ∧ (fs_unmount s d).fd_open = false
        ∧ (fs_unmount s d).sb = s.sb ∧ (fs_unmount s d).bitmap = s.bitmap
        ∧ (fs_unmount s d).inode_table = s.inode_table)
    ∧ (fs_unmount s d).disk_fd < 0
    ∧ fs_unmount (fs_unmount s d) d2 = fs_unmount s d := by
  have h1 : s.disk_fd < 0 → fs_unmount s d = s := by
    intro h
    unfold fs_unmount
    rw [if_neg (by omega)]
  have h2 : 0 ≤ s.disk_fd → (fs_unmount s d).disk_fd = -1 ∧ (fs_unmount s d).fd_open = false
        ∧ (fs_unmount s d).sb = s.sb ∧ (fs_unmount s d).bitmap = s.bitmap
        ∧ (fs_unmount s d).inode_table = s.inode_table := by
    intro h
    obtain ⟨a1, a2, a3, _, _⟩ := flush_metadata_frame s d
    unfold fs_unmount
    rw [if_pos (by omega)]
    exact ⟨rfl, rfl, a2, a3, a1⟩
  have h3 : (fs_unmount s d).disk_fd < 0 := by
    by_cases h : 0 ≤ s.disk_fd
    · rw [(h2 h).1]
      decide
    · rw [h1 (by omega)]
      omega
  refine ⟨h1, h2, h3, ?_⟩
  generalize fs_unmount s d = t at h3
  unfold fs_unmount
  rw [if_neg (by omega)]

/-! ## The bitmap allocator (claims C33, C34) -/

/-- Bit `i` of the bitmap is bit `i % 8` of byte `i / 8` of its memory image. -/
theorem bitmap_bit_byte (bm : Fin (8 * BLOCK_SIZE) → Bool) (i : Nat) (hi : i < 8 * BLOCK_SIZE) :
    aget bm i = (enc_bitmap bm (i / 8)).testBit (i % 8) := by
  have h := dec_bitmap_enc_bitmap (enc_bitmap bm) bm (fun _ _ => rfl)
  have h2 := congrFun h ⟨i, hi⟩
  unfold dec_bitmap at h2
  rw [aget_of_lt bm i hi, ← h2]

/-- C33 (find_free_block): `find_free_block` is a function of the bitmap alone and
returns no state, so it modifies nothing; it returns -1 exactly when all 2560 bits
are set, and otherwise the smallest `r < 2560` whose bit is clear; bit `i` is bit
`i % 8` (mask `1 << (i % 8)`) of byte `i / 8` of the bitmap. -/
theorem c33_find_free_block (s : FS) :
    (find_free_block s = -1 ↔ ∀ j, j < MAX_BLOCKS → aget s.bitmap j = true)
    ∧ (∀ r : Nat, find_free_block s = (r : Int)
        ↔ (r < MAX_BLOCKS ∧ aget s.bitmap r = false ∧ ∀ j, j < r → aget s.bitmap j = true))
    ∧ (find_free_block s = -1 ∨ ∃ r : Nat, r < MAX_BLOCKS ∧ find_free_block s = (r : Int))
    ∧ (∀ s2 : FS, s2.bitmap = s.bitmap → find_free_block s2 = find_free_block s)
    ∧ (∀ i, i < 8 * BLOCK_SIZE →
        aget s.bitmap i = (enc_bitmap s.bitmap (i / 8)).testBit (i % 8)) := by
  refine ⟨?_, ?_, ?_, ?_, fun i hi => bitmap_bit_byte s.bitmap i hi⟩
  · rcases find_free_block_spec s with ⟨e, hall⟩ | ⟨r, e, hr, hc, _⟩
    · exact ⟨fun _ => hall, fun _ => e⟩
    · constructor
      · intro h
        rw [e] at h
        omega
      · intro h
        rw [h r hr] at hc
        exact absurd hc (by decide)
  · intro r
    rcases find_free_block_spec s with ⟨e, hall⟩ | ⟨r0, e, hr, hc, hlow⟩
    · constructor
      · intro h
        rw [e] at h
        omega
      · rintro ⟨h1, h2, _⟩
        rw [hall r h1] at h2
        exact absurd h2 (by decide)
    · constructor
      · intro h
        rw [e] at h
        have : r0 = r := by omega
        subst this
        exact ⟨hr, hc, hlow⟩
      · rintro ⟨h1, h2, h3⟩
        rw [e]
        have : r0 = r := by
          rcases Nat.lt_trichotomy r0 r with hlt | heq | hgt
          · rw [h3 r0 hlt] at hc
            exact absurd hc (by decide)
          · exact heq
          · rw [hlow r hgt] at h2
            exact absurd h2 (by decide)
        rw [this]
  · rcases find_free_block_spec s with ⟨e, _⟩ | ⟨r, e, hr, _, _⟩
    · exact Or.inl e
    · exact Or.inr ⟨r, hr, e⟩
  · intro s2 h
    unfold find_free_block
    rw [h]

theorem aset_aset_same {n : Nat} {α : Type} (a : Fin n → α) (i : Nat) (v w : α) :
    aset (aset a i v) i w = aset a i w := by
  funext j
  unfold aset
  split_ifs <;> rfl

theorem aset_self {n : Nat} {α : Type} [Inhabited α] (a : Fin n → α) (i : Nat) (v : α)
    (h : aget a i = v) (hi : i < n) : aset a i v = a := by
  funext j
  unfold aset
  split_ifs with hj
  · rw [aget_of_lt a i hi] at h
    rw [← h]
    exact congrArg a (Fin.ext hj.symm)
  · rfl

/-- C34 (allocator primitives): for every state and every int `i`,
`mark_block_used(i)` sets bit `i` and lowers `free_blocks` by 1 when
`0 <= i < 2560` and bit `i` is clear, and leaves the state unchanged otherwise;
`mark_block_free(i)` clears bit `i` and raises `free_blocks` by 1 when
`0 <= i < 2560` and bit `i` is set, and leaves the state unchanged otherwise; no
other bit and no other field changes; both are idempotent; and
`mark_block_free(i)` after `mark_block_used(i)` restores a state in which bit `i`
was clear. -/
theorem c34_allocator_primitives (s : FS) (i : Int) :
    ((0 ≤ i ∧ i < MAX_BLOCKS ∧ aget s.bitmap i.toNat = false) →
        aget (mark_block_used s i).bitmap i.toNat = true
        ∧ (mark_block_used s i).sb.free_blocks = s.sb.free_blocks - 1)
    ∧ (¬ (0 ≤ i ∧ i < MAX_BLOCKS ∧ aget s.bitmap i.toNat = false) → mark_block_used s i = s)
    ∧ ((0 ≤ i ∧ i < MAX_BLOCKS ∧ aget s.bitmap i.toNat = true) →
        aget (mark_block_free s i).bitmap i.toNat = false
        ∧ (mark_block_free s i).sb.free_blocks = s.sb.free_blocks + 1)
    ∧ (¬ (0 ≤ i ∧ i < MAX_BLOCKS ∧ aget s.bitmap i.toNat = true) → mark_block_free s i = s)
    ∧ (∀ x : Nat, (x : Int) ≠ i → aget (mark_block_used s i).bitmap x = aget s.bitmap x
        ∧ aget (mark_block_free s i).bitmap x = aget s.bitmap x)
    ∧ ((mark_block_used s i).inode_table = s.inode_table
        ∧ (mark_block_used s i).disk_fd = s.disk_fd ∧ (mark_block_used s i).fd_open = s.fd_open
        ∧ (mark_block_used s i).image = s.image
        ∧ (mark_block_used s i).sb.total_blocks = s.sb.total_blocks
        ∧ (mark_block_used s i).sb.block_size = s.sb.block_size
        ∧ (mark_block_used s i).sb.total_inodes = s.sb.total_inodes
        ∧ (mark_block_used s i).sb.free_inodes = s.sb.free_inodes)
    ∧ ((mark_block_free s i).inode_table = s.inode_table
        ∧ (mark_block_free s i).disk_fd = s.disk_fd ∧ (mark_block_free s i).fd_open = s.fd_open
        ∧ (mark_block_free s i).image = s.image
        ∧ (mark_block_free s i).sb.total_blocks = s.sb.total_blocks
        ∧ (mark_block_free s i).sb.block_size = s.sb.block_size
        ∧ (mark_block_free s i).sb.total_inodes = s.sb.total_inodes
        ∧ (mark_block_free s i).sb.free_inodes = s.sb.free_inodes)
    ∧ mark_block_used (mark_block_used s i) i = mark_block_used s i
    ∧ mark_block_free (mark_block_free s i) i = mark_block_free s i
    ∧ ((i < 0 ∨ (MAX_BLOCKS : Int) ≤ i ∨ aget s.bitmap i.toNat = false) →
        mark_block_free (mark_block_used s i) i = s) := by
  have hbits : ∀ j : Nat, j < MAX_BLOCKS → j < 8 * BLOCK_SIZE := by
    intro j hj
    simp only [MAX_BLOCKS, BLOCK_SIZE] at hj ⊢
    omega
  have hu1 : ¬ (0 ≤ i ∧ i < MAX_BLOCKS ∧ aget s.bitmap i.toNat = false) →
      mark_block_used s i = s := by
    intro h
    unfold mark_block_used
    by_cases hr : 0 ≤ i ∧ i < (MAX_BLOCKS : Int)
    · rw [if_pos hr, if_neg (fun hc => h ⟨hr.1, hr.2, hc⟩)]
    · rw [if_neg hr]
  have hf1 : ¬ (0 ≤ i ∧ i < MAX_BLOCKS ∧ aget s.bitmap i.toNat = true) →
      mark_block_free s i = s := by
    intro h
    unfold mark_block_free
    by_cases hr : 0 ≤ i ∧ i < (MAX_BLOCKS : Int)
    · rw [if_pos hr, if_neg (fun hc => h ⟨hr.1, hr.2, hc⟩)]
    · rw [if_neg hr]
  have hu2 : (0 ≤ i ∧ i < MAX_BLOCKS ∧ aget s.bitmap i.toNat = false) →
      mark_block_used s i =
        { s with bitmap := aset s.bitmap i.toNat true,
                 sb := { s.sb with free_blocks := s.sb.free_blocks - 1 } } := by
    intro h
    unfold mark_block_used
    rw [if_pos ⟨h.1, h.2.1⟩, if_pos h.2.2]
  have hf2 : (0 ≤ i ∧ i < MAX_BLOCKS ∧ aget s.bitmap i.toNat = true) →
      mark_block_free s i =
        { s with bitmap := aset s.bitmap i.toNat false,
                 sb := { s.sb with free_blocks := s.sb.free_blocks + 1 } } := by
    intro h
    unfold mark_block_free
    rw [if_pos ⟨h.1, h.2.1⟩, if_pos h.2.2]
  have hlt : 0 ≤ i → i < (MAX_BLOCKS : Int) → i.toNat < 8 * BLOCK_SIZE := by
    intro h0 h1
    exact hbits _ (by omega)
  refine ⟨?_, hu1, ?_, hf1, ?_, mark_block_used_frame s i, mark_block_free_frame s i, ?_, ?_, ?_⟩
  · intro h
    rw [hu2 h]
    exact ⟨aget_aset_eq _ _ _ (hlt h.1 h.2.1), rfl⟩
  · intro h
    rw [hf2 h]
    exact ⟨aget_aset_eq _ _ _ (hlt h.1 h.2.1), rfl⟩
  · intro x hx
    constructor
    · by_cases h : 0 ≤ i ∧ i < MAX_BLOCKS ∧ aget s.bitmap i.toNat = false
      · rw [hu2 h]
        exact aget_aset_ne _ _ _ _ (by omega)
      · rw [hu1 h]
    · by_cases h : 0 ≤ i ∧ i < MAX_BLOCKS ∧ aget s.bitmap i.toNat = true
      · rw [hf2 h]
        exact aget_aset_ne _ _ _ _ (by omega)
      · rw [hf1 h]
  · by_cases h : 0 ≤ i ∧ i < MAX_BLOCKS ∧ aget s.bitmap i.toNat = false
    · have hset : aget (mark_block_used s i).bitmap i.toNat = true := by
        rw [hu2 h]
        exact aget_aset_eq _ _ _ (hlt h.1 h.2.1)
      generalize mark_block_used s i = t at hset
      unfold mark_block_used
      rw [if_pos ⟨h.1, h.2.1⟩, if_neg (by rw [hset]; decide)]
    · rw [hu1 h, hu1 h]
  · by_cases h : 0 ≤ i ∧ i < MAX_BLOCKS ∧ aget s.bitmap i.toNat = true
    · have hclr : aget (mark_block_free s i).bitmap i.toNat = false := by
        rw [hf2 h]
        exact aget_aset_eq _ _ _ (hlt h.1 h.2.1)
      generalize mark_block_free s i = t at hclr
      unfold mark_block_free
      rw [if_pos ⟨h.1, h.2.1⟩, if_neg (by rw [hclr]; decide)]
    · rw [hf1 h, hf1 h]
  · intro h
    by_cases hr : 0 ≤ i ∧ i < (MAX_BLOCKS : Int)
    · have hc : aget s.bitmap i.toNat = false := by
        rcases h with h | h | h
        · omega
        · omega
        · exact h
      rw [hu2 ⟨hr.1, hr.2, hc⟩]
      unfold mark_block_free
      dsimp only
      rw [if_pos hr, if_pos (aget_aset_eq _ _ _ (hlt hr.1 hr.2)), aset_aset_same,
        aset_self s.bitmap i.toNat false hc (hlt hr.1 hr.2)]
      have : s.sb.free_blocks - 1 + 1 = s.sb.free_blocks := by omega
      rw [this]
    · rw [hu1 (fun hc => hr ⟨hc.1, hc.2.1⟩)]
      exact hf1 (fun hc => hr ⟨hc.1, hc.2.1⟩)

/-! ## Name lookup (claim C36) -/

theorem char_at_lt_strlen : ∀ (l : List Nat) (j : Nat), j < strlen l → char_at l j ≠ 0 := by
  intro l
  induction l with
  | nil =>
    intro j hj
    simp [strlen] at hj
  | cons c cs ih =>
    intro j hj
    unfold strlen at hj
    by_cases hc : c = 0
    · rw [if_pos hc] at hj
      omega
    · rw [if_neg hc] at hj
      cases j with
      | zero => simpa [char_at] using hc
      | succ j =>
        have := ih j (by omega)
        simpa [char_at] using this

/-- The scan of `find_inode` stops at the lowest used slot whose name field is the
name padded with zero bytes. -/
theorem find_inode_lowest (s : FS) (l : List Nat) (hlen : strlen l ≤ MAX_FILENAME) :
    (find_inode s (some l) = -1
      ∧ ∀ i : Fin MAX_FILES, ¬ ((s.inode_table i).used = 1 ∧ (s.inode_table i).name = name_field l))
    ∨ (∃ i : Fin MAX_FILES, find_inode s (some l) = (i.val : Int)
        ∧ (s.inode_table i).used = 1 ∧ (s.inode_table i).name = name_field l
        ∧ ∀ j : Fin MAX_FILES, j.val < i.val →
            ¬ ((s.inode_table j).used = 1 ∧ (s.inode_table j).name = name_field l)) := by
  unfold find_inode
  simp only
  rw [if_neg (by omega)]
  rcases find_inode_loop_spec s.inode_table l (strlen l) MAX_FILES 0 with
    ⟨h1, h2⟩ | ⟨r, h1, _, h3, h4, h5, h6⟩
  · left
    refine ⟨h1, fun i hi => ?_⟩
    apply h2 i.val (Nat.zero_le _) (by have := i.isLt; omega)
    rw [aget_fin, name_match_iff _ _ _ hlen]
    exact hi
  · right
    have hr : r < MAX_FILES := by omega
    refine ⟨⟨r, hr⟩, h1, ?_, ?_, ?_⟩
    · rw [aget_of_lt _ _ hr] at h4
      exact h4
    · rw [aget_of_lt _ _ hr, name_match_iff _ _ _ hlen] at h5
      exact h5
    · intro j hj hc
      apply h6 j.val (Nat.zero_le _) hj
      rw [aget_fin, name_match_iff _ _ _ hlen]
      exact hc

/-- C36 (name lookup): `find_inode` returns -1 for NULL and for every name longer
than 28 bytes; for a name of at most 28 bytes it returns -1 exactly when no used
inode has the name followed by zero bytes as its 28-byte name field, and otherwise
the lowest index of such an inode.  Hence a name that is a proper prefix of a stored
name does not find that inode, and a stored 28-byte name, which has no terminator in
the field, is found by the same 28-byte name. -/
theorem c36_name_lookup (s : FS) :
    find_inode s none = -1
    ∧ (∀ l : List Nat, strlen l > MAX_FILENAME → find_inode s (some l) = -1)
    ∧ (∀ l : List Nat, strlen l ≤ MAX_FILENAME →
        (find_inode s (some l) = -1
          ↔ ∀ i : Fin MAX_FILES,
              ¬ ((s.inode_table i).used = 1 ∧ (s.inode_table i).name = name_field l))
        ∧ (∀ i : Fin MAX_FILES, find_inode s (some l) = (i.val : Int)
          ↔ ((s.inode_table i).used = 1 ∧ (s.inode_table i).name = name_field l
              ∧ ∀ j : Fin MAX_FILES, j.val < i.val →
                  ¬ ((s.inode_table j).used = 1 ∧ (s.inode_table j).name = name_field l)))
        ∧ (find_inode s (some l) = -1
            ∨ ∃ i : Fin MAX_FILES, find_inode s (some l) = (i.val : Int)))
    ∧ (∀ (l l2 : List Nat) (i : Fin MAX_FILES), strlen l < strlen l2 →
        strlen l2 ≤ MAX_FILENAME → (∀ j, j < strlen l → char_at l j = char_at l2 j) →
        (s.inode_table i).used = 1 → (s.inode_table i).name = name_field l2 →
        find_inode s (some l) ≠ (i.val : Int))
    ∧ (∀ (l : List Nat) (i : Fin MAX_FILES), strlen l = MAX_FILENAME →
        (s.inode_table i).used = 1 → (s.inode_table i).name = name_field l →
        (∀ j : Fin MAX_FILENAME, (s.inode_table i).name j ≠ 0)
        ∧ ∃ k : Fin MAX_FILES, k.val ≤ i.val ∧ find_inode s (some l) = (k.val : Int)
            ∧ (s.inode_table k).used = 1 ∧ (s.inode_table k).name = name_field l) := by
  have hmain : ∀ l : List Nat, strlen l ≤ MAX_FILENAME →
      (find_inode s (some l) = -1
        ↔ ∀ i : Fin MAX_FILES,
            ¬ ((s.inode_table i).used = 1 ∧ (s.inode_table i).name = name_field l))
      ∧ (∀ i : Fin MAX_FILES, find_inode s (some l) = (i.val : Int)
        ↔ ((s.inode_table i).used = 1 ∧ (s.inode_table i).name = name_field l
            ∧ ∀ j : Fin MAX_FILES, j.val < i.val →
                ¬ ((s.inode_table j).used = 1 ∧ (s.inode_table j).name = name_field l)))
      ∧ (find_inode s (some l) = -1
          ∨ ∃ i : Fin MAX_FILES, find_inode s (some l) = (i.val : Int)) := by
    intro l hlen
    rcases find_inode_lowest s l hlen with ⟨e, hno⟩ | ⟨i0, e, hu, hn, hlow⟩
    · refine ⟨⟨fun _ => hno, fun _ => e⟩, fun i => ?_, Or.inl e⟩
      constructor
      · intro h
        rw [e] at h
        omega
      · rintro ⟨h1, h2, _⟩
        exact absurd ⟨h1, h2⟩ (hno i)
    · refine ⟨⟨fun h => ?_, fun h => absurd ⟨hu, hn⟩ (h i0)⟩, fun i => ?_, Or.inr ⟨i0, e⟩⟩
      · rw [e] at h
        omega
      · constructor
        · intro h
          rw [e] at h
          have : i0 = i := Fin.ext (by omega)
          subst this
          exact ⟨hu, hn, hlow⟩
        · rintro ⟨h1, h2, h3⟩
          rw [e]
          have : i0.val = i.val := by
            rcases Nat.lt_trichotomy i0.val i.val with hlt | heq | hgt
            · exact absurd ⟨hu, hn⟩ (h3 i0 hlt)
            · exact heq
            · exact absurd ⟨h1, h2⟩ (hlow i hgt)
          rw [this]
  refine ⟨rfl, ?_, hmain, ?_, ?_⟩
  · intro l hl
    unfold find_inode
    simp only
    rw [if_pos hl]
  · intro l l2 i hlt hlen2 _ hu hn hfi
    have hl : strlen l ≤ MAX_FILENAME := by omega
    have h := ((hmain l hl).2.1 i).mp hfi
    have heq : name_field l2 = name_field l := by rw [← hn, h.2.1]
    have hat := congrFun heq ⟨strlen l, by omega⟩
    simp only [name_field, hlt, if_true, lt_irrefl, if_false] at hat
    exact char_at_lt_strlen l2 (strlen l) hlt hat
  · intro l i hl hu hn
    refine ⟨fun j => ?_, ?_⟩
    · rw [hn]
      have hj : j.val < strlen l := by rw [hl]; exact j.isLt
      simp only [name_field, hj, if_true]
      exact char_at_lt_strlen l j.val hj
    · rcases find_inode_lowest s l (by omega) with ⟨_, hno⟩ | ⟨k, e, hu2, hn2, hlow⟩
      · exact absurd ⟨hu, hn⟩ (hno i)
      · refine ⟨k, ?_, e, hu2, hn2⟩
        by_contra hc
        exact absurd ⟨hu, hn⟩ (hlow i (by omega))

/-! ## `calculate_blocks_needed` (claim C37) -/

/-- C37 (calculate_blocks_needed), as the code computes it: the result is 0 for
every `size <= 0` and `ceil(size / 4096)` for `0 < size <= 2147479552`; for every
larger `int`, `size + BLOCK_SIZE - 1` overflows and the result is negative, hence
different from `ceil(size / 4096)`; for `size = 2147483647` it is -524287 where
`ceil(size / 4096) = 524288`. -/
theorem c37_blocks_needed_overflow :
    (∀ size : Int, size ≤ 0 → calculate_blocks_needed size = 0)
    ∧ (∀ size : Int, 0 < size → size ≤ 2147479552 →
        calculate_blocks_needed size = (size + 4095) / 4096)
    ∧ (∀ size : Int, 2147479552 < size → size < 2147483648 →
        calculate_blocks_needed size < 0
        ∧ calculate_blocks_needed size ≠ (size + 4095) / 4096)
    ∧ is_int32 2147483647 ∧ (0 : Int) ≤ 2147483647
    ∧ calculate_blocks_needed 2147483647 = -524287
    ∧ ((2147483647 : Int) + 4095) / 4096 = 524288 := by
  refine ⟨?_, ?_, ?_, by unfold is_int32; omega, by omega, by decide, by decide⟩
  · intro size h
    unfold calculate_blocks_needed
    rw [if_pos h]
  · intro size h0 h1
    rcases calc_blocks_cases size (by unfold is_int32; omega) with ⟨h, _⟩ | ⟨_, _, e⟩ | ⟨h, _⟩
    · omega
    · exact e
    · omega
  · intro size h0 h1
    have hneg : calculate_blocks_needed size < 0 := by
      unfold calculate_blocks_needed wrap32
      rw [if_neg (by omega)]
      simp only [BLOCK_SIZE]
      have hw : (size + (4096 : Nat) - 1 + 2147483648) % 4294967296 - 2147483648
          = size + 4095 - 4294967296 := by
        push_cast
        omega
      rw [hw]
      have hx : size + 4095 - 4294967296 = -(4294967296 - size - 4095) := by ring
      rw [hx, Int.neg_tdiv]
      have hpos : 0 < (4294967296 - size - 4095).tdiv ((4096 : Nat) : Int) := by
        rw [Int.tdiv_eq_ediv (by omega) (by norm_num)]
        push_cast
        omega
      omega
    refine ⟨hneg, ?_⟩
    have : 0 ≤ (size + 4095) / 4096 := by omega
    omega

/-! ## `fs_read` has no side effect (claim C40) -/

theorem dev_count_le_int (o : Bool) (offer : Int) (n : Nat) : dev_count o offer n ≤ (n : Int) := by
  unfold dev_count
  split_ifs
  · omega
  · exact min_le_right _ _

/-- The block loop of `fs_read`: a non-negative result lies between the running
count and the number of bytes asked for, and the buffer is untouched from the
result on. -/
theorem read_blocks_bounds (d : Dev) (s : FS) (blocks : Fin MAX_DIRECT_BLOCKS → Int) (R : Int) :
    ∀ (n i : Nat) (total : Int) (buf : Nat → Nat), 0 ≤ total →
      ((read_blocks d s blocks R n i total buf).1 = -3
        ∨ (total ≤ (read_blocks d s blocks R n i total buf).1
            ∧ (read_blocks d s blocks R n i total buf).1 ≤ max total R))
      ∧ (0 ≤ (read_blocks d s blocks R n i total buf).1 →
          ∀ p : Nat, (read_blocks d s blocks R n i total buf).1 ≤ (p : Int) →
            (read_blocks d s blocks R n i total buf).2 p = buf p) := by
  intro n
  induction n with
  | zero =>
    intro i total buf h0
    unfold read_blocks
    exact ⟨Or.inr ⟨le_refl _, le_max_left _ _⟩, fun _ _ _ => rfl⟩
  | succ n ih =>
    intro i total buf h0
    unfold read_blocks
    by_cases c1 : total < R
    · rw [if_pos c1]
      by_cases c2 : aget blocks i = -1
      · rw [if_pos c2]
        exact ⟨Or.inr ⟨le_refl _, le_max_left _ _⟩, fun _ _ _ => rfl⟩
      rw [if_neg c2]
      dsimp only
      by_cases c3 : aget blocks i < 0 ∨ aget blocks i ≥ (MAX_BLOCKS : Int)
      · rw [if_pos c3]
        exact ⟨Or.inl rfl, fun h => by dsimp only at h; omega⟩
      rw [if_neg c3]
      generalize hbfb : (if R - total > (BLOCK_SIZE : Int) then (BLOCK_SIZE : Int)
        else R - total) = bfb
      have hbfb1 : 0 < bfb ∧ bfb ≤ R - total := by
        rw [← hbfb]
        simp only [BLOCK_SIZE]
        split_ifs <;> omega
      have hle := dev_count_le_int s.fd_open (d.data_rd i) bfb.toNat
      generalize dev_count s.fd_open (d.data_rd i) bfb.toNat = br at hle
      by_cases c4 : br < 0
      · rw [if_pos c4]
        exact ⟨Or.inl rfl, fun h => by dsimp only at h; omega⟩
      rw [if_neg c4]
      by_cases c5 : br < bfb
      · rw [if_pos c5]
        dsimp only
        refine ⟨Or.inr ⟨by omega, ?_⟩, ?_⟩
        · have := le_max_right total R
          omega
        · intro _ p hp
          rw [if_neg (by omega)]
      · rw [if_neg c5]
        obtain ⟨a1, a2⟩ := ih (i + 1) (total + br)
          (fun p => if total.toNat ≤ p ∧ p < total.toNat + br.toNat
            then s.image ((aget blocks i * BLOCK_SIZE).toNat + (p - total.toNat)) else buf p)
          (by omega)
        refine ⟨?_, ?_⟩
        · rcases a1 with a1 | ⟨a1, a1b⟩
          · exact Or.inl a1
          · refine Or.inr ⟨by omega, ?_⟩
            have h1 : max (total + br) R = R := max_eq_right (by omega)
            have h2 : max total R = R := max_eq_right (by omega)
            rw [h1] at a1b
            rw [h2]
            exact a1b
        · intro hr p hp
          rw [a2 hr p hp]
          rcases a1 with a1 | ⟨a1, _⟩
          · omega
          · rw [if_neg (by omega)]
    · rw [if_neg c1]
      exact ⟨Or.inr ⟨le_refl _, le_max_left _ _⟩, fun _ _ _ => rfl⟩

/-- Anatomy of an `fs_read` call that returns a non-negative count. -/
theorem fs_read_nonneg (s : FS) (d : Dev) (fn : Option (List Nat))
    (buffer : Option (Nat → Nat)) (size : Int) (h : 0 ≤ (fs_read s d fn buffer size).1) :
    ∃ (l : List Nat) (buf out : Nat → Nat) (i : Fin MAX_FILES),
      fn = some l ∧ buffer = some buf ∧ strlen l ≤ MAX_FILENAME ∧ 0 ≤ size ∧ s.disk_fd ≠ -1
      ∧ find_inode s fn = (i.val : Int) ∧ (s.inode_table i).used = 1
      ∧ (s.inode_table i).name = name_field l
      ∧ (fs_read s d fn buffer size).2.1 = some out
      ∧ (fs_read s d fn buffer size).1 ≤ max 0 (min size (s.inode_table i).size)
      ∧ ∀ p : Nat, (fs_read s d fn buffer size).1 ≤ (p : Int) → out p = buf p := by
  cases fn with
  | none =>
    exfalso
    revert h
    unfold fs_read
    simp
  | some l =>
    cases buffer with
    | none =>
      exfalso
      revert h
      unfold fs_read
      simp
    | some buf =>
      by_cases c1 : validate_string_manual (some l) ≠ 0 ∨ strlen l > MAX_FILENAME ∨ size < 0
          ∨ s.disk_fd = -1
      · exfalso
        revert h
        unfold fs_read
        simp only
        rw [if_pos c1]
        simp
      by_cases c2 : find_inode s (some l) = -1
      · exfalso
        revert h
        unfold fs_read
        simp only
        rw [if_neg c1, if_pos c2]
        simp
      obtain ⟨l2, i, hl2, hlen, hfi, hu, hn⟩ := find_inode_some s (some l) c2
      have hl : l = l2 := by injection hl2
      subst hl
      have hri : read_inode s (find_inode s (some l)) default = s.inode_table i := by
        unfold read_inode
        rw [hfi]
        have hi := i.isLt
        rw [if_neg (by omega), Int.toNat_ofNat, aget_fin, if_neg (by rw [hu]; decide)]
      have hfr : fs_read s d (some l) (some buf) size
          = ((read_blocks d s (s.inode_table i).blocks
                (if size > (s.inode_table i).size then (s.inode_table i).size else size)
                MAX_DIRECT_BLOCKS 0 0 buf).1,
              some (read_blocks d s (s.inode_table i).blocks
                (if size > (s.inode_table i).size then (s.inode_table i).size else size)
                MAX_DIRECT_BLOCKS 0 0 buf).2, s) := by
        unfold fs_read
        simp only
        rw [if_neg c1, if_neg c2, hri, if_neg (by rw [hu]; decide)]
      rw [hfr] at h ⊢
      dsimp only at h ⊢
      obtain ⟨b1, b2⟩ := read_blocks_bounds d s (s.inode_table i).blocks
        (if size > (s.inode_table i).size then (s.inode_table i).size else size)
        MAX_DIRECT_BLOCKS 0 0 buf (le_refl _)
      have hmin : (if size > (s.inode_table i).size then (s.inode_table i).size else size)
          = min size (s.inode_table i).size := by
        split_ifs with hc
        · exact (min_eq_right (by omega)).symm
        · exact (min_eq_left (by omega)).symm
      simp only [not_or, not_lt] at c1
      refine ⟨l, buf, _, i, rfl, rfl, hlen, c1.2.2.1, c1.2.2.2, hfi, hu, hn, rfl, ?_, b2 h⟩
      rcases b1 with b1 | ⟨_, b1⟩
      · omega
      · rw [← hmin]
        exact b1

/-- C40 (fs_read has no side effect), as the code behaves: `fs_read` leaves the
whole state (superblock, bitmap, inode table, descriptor and image) unchanged for
all arguments; when it returns `r >= 0`, the name is held by the inode `i` that
`find_inode` returns, `r <= max(0, min(size, inode.size))`, which is
`min(size, inode.size)` whenever the inode's size is not negative, and the caller's
buffer is unchanged at every offset `>= r`. -/
theorem c40_read_frame (s : FS) (d : Dev) (fn : Option (List Nat))
    (buffer : Option (Nat → Nat)) (size : Int) :
    (fs_read s d fn buffer size).2.2 = s
    ∧ (0 ≤ (fs_read s d fn buffer size).1 →
        ∃ (l : List Nat) (buf out : Nat → Nat) (i : Fin MAX_FILES),
          fn = some l ∧ buffer = some buf ∧ find_inode s fn = (i.val : Int)
          ∧ (s.inode_table i).used = 1 ∧ (s.inode_table i).name = name_field l
          ∧ (fs_read s d fn buffer size).2.1 = some out
          ∧ (fs_read s d fn buffer size).1 ≤ max 0 (min size (s.inode_table i).size)
          ∧ (0 ≤ (s.inode_table i).size →
              (fs_read s d fn buffer size).1 ≤ min size (s.inode_table i).size)
          ∧ ((s.inode_table i).size < 0 → (fs_read s d fn buffer size).1 = 0)
          ∧ ∀ p : Nat, (fs_read s d fn buffer size).1 ≤ (p : Int) → out p = buf p) := by
  refine ⟨fs_read_state s d fn buffer size, fun h => ?_⟩
  obtain ⟨l, buf, out, i, e1, e2, _, e4, _, e6, e7, e8, e9, e10, e11⟩ :=
    fs_read_nonneg s d fn buffer size h
  refine ⟨l, buf, out, i, e1, e2, e6, e7, e8, e9, e10, ?_, ?_, e11⟩
  · intro hs
    have : max 0 (min size (s.inode_table i).size) = min size (s.inode_table i).size :=
      max_eq_right (le_min e4 hs)
    rw [this] at e10
    exact e10
  · intro hs
    have : max 0 (min size (s.inode_table i).size) = 0 :=
      max_eq_left (le_trans (min_le_right _ _) (by omega))
    rw [this] at e10
    omega

set_option maxRecDepth 100000 in
/-- Counterexample to C40 as stated: on a volume whose file "a" carries the size
-5, `fs_read("a", buf, 10)` returns 0, which is not `<= min(10, -5)`. -/
theorem c40_negative_size_read_returns_zero :
    negative_size_volume.disk_fd = 3 ∧ negative_size_volume.fd_open = true
    ∧ find_inode negative_size_volume (some [97]) = 0
    ∧ (aget negative_size_volume.inode_table 0).used = 1
    ∧ (aget negative_size_volume.inode_table 0).size = -5
    ∧ (fs_read negative_size_volume dev_ok (some [97]) (some (fun _ => 7)) 10).1 = 0
    ∧ ¬ ((fs_read negative_size_volume dev_ok (some [97]) (some (fun _ => 7)) 10).1
          ≤ min 10 (aget negative_size_volume.inode_table 0).size) := by
  decide

/-! ## `fs_list` and the end of the buffer (claim C39) -/

/-- The scan of `fs_list` writes no byte beyond offset `28 * count`, and no byte at
that offset either when every used name has a zero byte in its field. -/
theorem fs_list_loop_upper (t : Fin MAX_FILES → inode) (max_files : Int) :
    ∀ (n i c : Nat) (buf : Nat → Nat),
      c ≤ (fs_list_loop t max_files n i c buf).1
      ∧ (∀ p, (fs_list_loop t max_files n i c buf).1 * MAX_FILENAME < p →
          (fs_list_loop t max_files n i c buf).2 p = buf p)
      ∧ ((∀ j, (aget t j).used = 1 → raw_name_len (aget t j).name MAX_FILENAME 0 < MAX_FILENAME) →
          ∀ p, (fs_list_loop t max_files n i c buf).1 * MAX_FILENAME ≤ p →
            (fs_list_loop t max_files n i c buf).2 p = buf p) := by
  intro n
  induction n with
  | zero =>
    intro i c buf
    unfold fs_list_loop
    exact ⟨le_refl _, fun _ _ => rfl, fun _ _ _ => rfl⟩
  | succ n ih =>
    intro i c buf
    unfold fs_list_loop
    by_cases h1 : (c : Int) < max_files
    · rw [if_pos h1]
      by_cases h2 : (aget t i).used = 1
      · rw [if_pos h2]
        dsimp only
        have hlen := (raw_name_len_spec (aget t i).name MAX_FILENAME 0).1
        obtain ⟨a1, a2, a3⟩ := ih (i + 1) (c + 1)
          (fun p => if p = c * MAX_FILENAME + raw_name_len (aget t i).name MAX_FILENAME 0 then 0
            else if c * MAX_FILENAME ≤ p
                ∧ p < c * MAX_FILENAME + raw_name_len (aget t i).name MAX_FILENAME 0
              then aget (aget t i).name (p - c * MAX_FILENAME) else buf p)
        generalize fs_list_loop t max_files n (i + 1) (c + 1)
          (fun p => if p = c * MAX_FILENAME + raw_name_len (aget t i).name MAX_FILENAME 0 then 0
            else if c * MAX_FILENAME ≤ p
                ∧ p < c * MAX_FILENAME + raw_name_len (aget t i).name MAX_FILENAME 0
              then aget (aget t i).name (p - c * MAX_FILENAME) else buf p) = r at a1 a2 a3
        have hmul : (c + 1) * MAX_FILENAME ≤ r.1 * MAX_FILENAME := Nat.mul_le_mul_right _ a1
        have hrow : (c + 1) * MAX_FILENAME = c * MAX_FILENAME + MAX_FILENAME := by ring
        refine ⟨by omega, ?_, ?_⟩
        · intro p hp
          rw [a2 p hp, if_neg (by omega), if_neg (by omega)]
        · intro hall p hp
          have := hall i h2
          rw [a3 hall p hp, if_neg (by omega), if_neg (by omega)]
      · rw [if_neg h2]
        exact ih (i + 1) c buf
    · rw [if_neg h1]
      exact ⟨le_refl _, fun _ _ => rfl, fun _ _ _ => rfl⟩

/-- Every byte an accepted `fs_list` call changes lies at an offset `<= 28 * max`;
the offset `28 * max` itself, the first byte behind a buffer of `max` rows, is left
alone when every used name has a zero byte in its field. -/
theorem fs_list_writes_below (s : FS) (buf : Nat → Nat) (max_files : Int)
    (hm : s.disk_fd ≠ -1) (h0 : 0 < max_files) (h1 : max_files ≤ MAX_FILES) :
    ∃ (c : Nat) (out : Nat → Nat),
      fs_list s (some buf) max_files = ((c : Int), some out, s) ∧ (c : Int) ≤ max_files
      ∧ (∀ p : Nat, (MAX_FILENAME : Int) * max_files < (p : Int) → out p = buf p)
      ∧ ((∀ j, (aget s.inode_table j).used = 1 →
            raw_name_len (aget s.inode_table j).name MAX_FILENAME 0 < MAX_FILENAME) →
          ∀ p : Nat, (MAX_FILENAME : Int) * max_files ≤ (p : Int) → out p = buf p) := by
  obtain ⟨a1, _, _⟩ := fs_list_loop_spec s.inode_table max_files MAX_FILES 0 0 buf (by omega)
  obtain ⟨_, b2, b3⟩ := fs_list_loop_upper s.inode_table max_files MAX_FILES 0 0 buf
  refine ⟨(fs_list_loop s.inode_table max_files MAX_FILES 0 0 buf).1,
    (fs_list_loop s.inode_table max_files MAX_FILES 0 0 buf).2, ?_, ?_, ?_, ?_⟩
  · unfold fs_list
    rw [if_neg (by omega)]
    dsimp only
    rw [if_neg (by omega)]
  · rw [a1]
    exact min_le_left _ _
  · intro p hp
    apply b2 p
    have hc : ((fs_list_loop s.inode_table max_files MAX_FILES 0 0 buf).1 : Int) ≤ max_files := by
      rw [a1]
      exact min_le_left _ _
    generalize (fs_list_loop s.inode_table max_files MAX_FILES 0 0 buf).1 = c at hc
    simp only [MAX_FILENAME] at hp ⊢
    omega
  · intro hall p hp
    apply b3 hall p
    have hc : ((fs_list_loop s.inode_table max_files MAX_FILES 0 0 buf).1 : Int) ≤ max_files := by
      rw [a1]
      exact min_le_left _ _
    generalize (fs_list_loop s.inode_table max_files MAX_FILES 0 0 buf).1 = c at hc
    simp only [MAX_FILENAME] at hp ⊢
    omega

theorem long_name_volume_reachable : Reachable long_name_volume := by
  unfold long_name_volume
  exact Reachable.create _ _ _ fresh_mounted_reachable

set_option maxRecDepth 100000 in
/-- C39 (fs_list and the end of the buffer), as the code behaves: on the mounted
volume reached by format, mount and `fs_create` of a 28-byte name, `fs_list(buf, 1)` returns 1, copies
the 28 name bytes to offsets 0..27 and writes the terminator at offset 28, the first
byte behind a buffer of one row of 28 bytes. -/
theorem c39_list_writes_past_buffer :
    Reachable long_name_volume
    ∧ strlen long_name = 28
    ∧ (fs_create fresh_mounted dev_ok (some long_name)).1 = 0
    ∧ long_name_volume.disk_fd = 3 ∧ long_name_volume.fd_open = true
    ∧ (fs_list long_name_volume (some (fun _ => 7)) 1).1 = 1
    ∧ (fs_list long_name_volume (some (fun _ => 7)) 1).2.1.map
        (fun b => [b 0, b 27, b (28 * 1), b 29]) = some [97, 97, 0, 7] :=
  ⟨long_name_volume_reachable, by decide⟩

/-! ## A failed `fs_mount` (claim C31) -/

/-- When `open` fails, `fs_mount` leaves `disk_fd = -1` and the records in memory
as they were. -/
theorem fs_mount_open_failure (s : FS) (d : Dev) (l : List Nat) (hfd : s.disk_fd < 0)
    (ho : d.open_fd < 0) :
    fs_mount s d (some l) = (-1, { s with disk_fd := -1, fd_open := false }) := by
  unfold fs_mount
  simp only
  rw [if_neg (by omega)]
  have h : host_open d = -1 := by
    unfold host_open
    rw [if_pos ho]
  rw [h, if_pos (by decide)]

/-- When `open` succeeds and `fs_mount` fails afterwards, the descriptor is closed
but `disk_fd` keeps its value. -/
theorem fs_mount_stale_fd (s : FS) (d : Dev) (p : Option (List Nat)) (hfd : s.disk_fd < 0)
    (hp : p ≠ none) (ho : 0 ≤ d.open_fd) (hr : (fs_mount s d p).1 ≠ 0) :
    (fs_mount s d p).1 = -1 ∧ (fs_mount s d p).2.disk_fd = d.open_fd
    ∧ (fs_mount s d p).2.fd_open = false ∧ (fs_mount s d p).2.image = s.image := by
  cases p with
  | none => exact absurd rfl hp
  | some l =>
    unfold fs_mount at hr ⊢
    simp only at hr ⊢
    have c1 : ¬ s.disk_fd ≥ 0 := by omega
    have hh : host_open d = d.open_fd := host_open_ok d ho
    have c2 : ¬ host_open d < 0 := by rw [hh]; omega
    rw [if_neg c1, if_neg c2] at hr ⊢
    rw [hh] at hr ⊢
    by_cases c3 : dev_count true (d.meta_rd 0) SB_BYTES ≠ SB_BYTES
    · rw [if_pos c3]
      exact ⟨rfl, rfl, rfl, rfl⟩
    rw [if_neg c3] at hr ⊢
    split_ifs at hr ⊢
    all_goals first
      | exact ⟨rfl, rfl, rfl, rfl⟩
      | (exfalso; exact hr rfl)

/-- With a stale descriptor (`disk_fd >= 0`) every `fs_mount` returns -1. -/
theorem fs_mount_busy (s : FS) (d : Dev) (p : Option (List Nat)) (hfd : 0 ≤ s.disk_fd) :
    fs_mount s d p = (-1, s) := by
  unfold fs_mount
  cases p with
  | none => rfl
  | some l =>
    simp only
    rw [if_pos (by omega)]

set_option maxRecDepth 100000 in
/-- C31 (a failed mount), as the code behaves: after `fs_format`, an `fs_mount`
whose `open` succeeds and whose superblock read delivers nothing returns -1 and
closes the descriptor, but `disk_fd` keeps the value 3; a following
`fs_create("a")` returns 0 and a following `fs_mount` of the valid image returns
-1, although the same `fs_mount` returns 0 when issued right after the format.  In
general every `fs_mount` that fails after a successful `open` leaves
`disk_fd >= 0`, so that every later `fs_mount` returns -1; only a failed `open`
leaves `disk_fd = -1`. -/
theorem c31_failed_mount_keeps_descriptor :
    (formatted.disk_fd = -1
      ∧ (fs_mount formatted dev_ok (some [100])).1 = 0
      ∧ (fs_mount formatted dev_empty_image (some [100])).1 = -1
      ∧ (fs_mount formatted dev_empty_image (some [100])).2.disk_fd = 3
      ∧ (fs_mount formatted dev_empty_image (some [100])).2.fd_open = false
      ∧ (fs_create (fs_mount formatted dev_empty_image (some [100])).2 dev_ok (some [97])).1 = 0
      ∧ (fs_mount (fs_mount formatted dev_empty_image (some [100])).2 dev_ok (some [100])).1 = -1)
    ∧ (∀ (s : FS) (d : Dev) (p : Option (List Nat)), s.disk_fd < 0 → p ≠ none →
        0 ≤ d.open_fd → (fs_mount s d p).1 ≠ 0 →
        (fs_mount s d p).1 = -1 ∧ 0 ≤ (fs_mount s d p).2.disk_fd
        ∧ (fs_mount s d p).2.fd_open = false
        ∧ ∀ (d2 : Dev) (p2 : Option (List Nat)), (fs_mount (fs_mount s d p).2 d2 p2).1 = -1)
    ∧ (∀ (s : FS) (d : Dev) (l : List Nat), s.disk_fd < 0 → d.open_fd < 0 →
        (fs_mount s d (some l)).1 = -1 ∧ (fs_mount s d (some l)).2.disk_fd = -1
        ∧ ∀ (d2 : Dev) (fn : Option (List Nat)),
            (fs_create (fs_mount s d (some l)).2 d2 fn).1 = -3) := by
  refine ⟨by decide, ?_, ?_⟩
  · intro s d p hfd hp ho hr
    obtain ⟨a1, a2, a3, _⟩ := fs_mount_stale_fd s d p hfd hp ho hr
    refine ⟨a1, by rw [a2]; exact ho, a3, fun d2 p2 => ?_⟩
    rw [fs_mount_busy _ d2 p2 (by rw [a2]; exact ho)]
  · intro s d l hfd ho
    rw [fs_mount_open_failure s d l hfd ho]
    refine ⟨rfl, rfl, fun d2 fn => ?_⟩
    rcases fs_create_cases { s with disk_fd := -1, fd_open := false } d2 fn with
      ⟨_, e⟩ | ⟨h, _⟩ | ⟨h, _⟩ | ⟨h, _⟩
    · rw [e]
    · exact absurd (Or.inr (Or.inr rfl)) h
    · exact absurd (Or.inr (Or.inr rfl)) h
    · exact absurd (Or.inr (Or.inr rfl)) h

/-! ## `fs_mount` and the bitmap (claim C38) -/

theorem dec_bitmap_read (img src : Nat → Nat) :
    dec_bitmap (dev_read img 0 src BLOCK_SIZE) = dec_bitmap img := by
  funext i
  unfold dec_bitmap dev_read
  have hi := i.isLt
  rw [if_pos (by simp only [BLOCK_SIZE] at hi ⊢; omega), Nat.zero_add]

theorem dec_itab_read (img src : Nat → Nat) :
    dec_itab (dev_read img 0 src ITAB_BYTES) = dec_itab img := by
  funext i
  have hi := i.isLt
  simp only [MAX_FILES] at hi
  unfold dec_itab dec_inode dec32 dev_read
  simp only [ITAB_BYTES, MAX_FILES, INODE_BYTES, Nat.zero_add]
  have e : ∀ q, q < 84 → (if 84 * i.val + q < 256 * 84 then img (84 * i.val + q)
      else src (84 * i.val + q)) = img (84 * i.val + q) := by
    intro q hq
    rw [if_pos (by omega)]
  congr 1
  · rw [show 84 * i.val = 84 * i.val + 0 by omega, show 84 * i.val + 0 + 1 = 84 * i.val + 1 by omega,
      show 84 * i.val + 0 + 2 = 84 * i.val + 2 by omega,
      show 84 * i.val + 0 + 3 = 84 * i.val + 3 by omega,
      e 0 (by omega), e 1 (by omega), e 2 (by omega), e 3 (by omega)]
  · rw [show 84 * i.val + 4 + 1 = 84 * i.val + 5 by omega,
      show 84 * i.val + 4 + 2 = 84 * i.val + 6 by omega,
      show 84 * i.val + 4 + 3 = 84 * i.val + 7 by omega,
      e 4 (by omega), e 5 (by omega), e 6 (by omega), e 7 (by omega)]
  · funext j
    have hj := j.isLt
    simp only [MAX_FILENAME] at hj
    rw [show 84 * i.val + 8 + j.val = 84 * i.val + (8 + j.val) by omega, e _ (by omega)]
  · funext k
    have hk := k.isLt
    simp only [MAX_DIRECT_BLOCKS] at hk
    rw [show 84 * i.val + 36 + 4 * k.val = 84 * i.val + (36 + 4 * k.val) by omega,
      show 84 * i.val + (36 + 4 * k.val) + 1 = 84 * i.val + (37 + 4 * k.val) by omega,
      show 84 * i.val + (36 + 4 * k.val) + 2 = 84 * i.val + (38 + 4 * k.val) by omega,
      show 84 * i.val + (36 + 4 * k.val) + 3 = 84 * i.val + (39 + 4 * k.val) by omega,
      e _ (by omega), e _ (by omega), e _ (by omega), e _ (by omega)]

/-- A mount that gets through: the three records are taken from the image, and
nothing but the range checks on the superblock is tested. -/
theorem fs_mount_loads (s : FS) (d : Dev) (l : List Nat) (hfd : s.disk_fd < 0)
    (ho : 0 ≤ d.open_fd) (hr1 : (SB_BYTES : Int) ≤ d.meta_rd 0)
    (hr2 : (BLOCK_SIZE : Int) ≤ d.meta_rd 1) (hr3 : (ITAB_BYTES : Int) ≤ d.meta_rd 2)
    (hv : ¬ sb_invalid (dec_sb s.image)) :
    (fs_mount s d (some l)).1 = 0
    ∧ (fs_mount s d (some l)).2.sb = dec_sb s.image
    ∧ (fs_mount s d (some l)).2.bitmap = dec_bitmap (fun p => s.image (BLOCK_SIZE + p))
    ∧ (fs_mount s d (some l)).2.inode_table = dec_itab (fun p => s.image (2 * BLOCK_SIZE + p))
    ∧ (fs_mount s d (some l)).2.disk_fd = d.open_fd
    ∧ (fs_mount s d (some l)).2.fd_open = true
    ∧ (fs_mount s d (some l)).2.image = s.image := by
  have c1 : dev_count true (d.meta_rd 0) SB_BYTES = (SB_BYTES : Int) := dev_count_full _ _ hr1
  have c2 : dev_count true (d.meta_rd 1) BLOCK_SIZE = (BLOCK_SIZE : Int) := dev_count_full _ _ hr2
  have c3 : dev_count true (d.meta_rd 2) ITAB_BYTES = (ITAB_BYTES : Int) := dev_count_full _ _ hr3
  have hh : host_open d = d.open_fd := host_open_ok d ho
  have e : fs_mount s d (some l)
      = (0, { s with disk_fd := d.open_fd, fd_open := true, sb := dec_sb s.image,
                     bitmap := dec_bitmap (fun p => s.image (BLOCK_SIZE + p)),
                     inode_table := dec_itab (fun p => s.image (2 * BLOCK_SIZE + p)) }) := by
    unfold fs_mount
    simp only
    rw [if_neg (by omega), hh, if_neg (by omega), c1, c2, c3]
    have h1 : ¬ ((SB_BYTES : Int) ≤ 0) := by simp [SB_BYTES]
    have h2 : ¬ ((BLOCK_SIZE : Int) ≤ 0) := by simp [BLOCK_SIZE]
    have h3 : ¬ ((ITAB_BYTES : Int) ≤ 0) := by simp [ITAB_BYTES, MAX_FILES, INODE_BYTES]
    simp only [h1, h2, h3, if_false, Int.toNat_ofNat, dec_sb_read, dec_bitmap_read,
      dec_itab_read, ne_eq, not_true_eq_false, hv]
  rw [e]
  exact ⟨rfl, rfl, rfl, rfl, rfl, rfl, rfl⟩

theorem formatted_facts :
    formatted.disk_fd = -1 ∧ formatted.bitmap = format_bitmap ∧ on_image formatted := by
  have h0 := fresh_mounted_steps.1
  have hm := fs_format_ok_mem blank dev_ok (some [100]) h0
  have hinv := fs_format_ok blank dev_ok (some [100]) h0
  exact ⟨hm.2.2.1, hm.2.1, hinv.img_ok hm.2.2.1⟩

theorem inconsistent_image_bitmap :
    dec_bitmap (fun p => inconsistent_image.image (BLOCK_SIZE + p)) = format_bitmap := by
  obtain ⟨_, hb, hi⟩ := formatted_facts
  apply dec_bitmap_enc_bitmap
  intro p hp
  have := hi.2.1 p hp
  rw [hb] at this
  rw [← this]
  unfold inconsistent_image dev_write
  dsimp only
  rw [if_neg (by simp only [BLOCK_SIZE, SB_BYTES]; omega)]

set_option maxRecDepth 100000 in
theorem inconsistent_image_sb :
    ¬ sb_invalid (dec_sb inconsistent_image.image)
    ∧ (dec_sb inconsistent_image.image).free_blocks = 100 := by
  decide

/-- C38 (mount and the bitmap), as the code behaves: with a non-null path, no
volume mounted, an image that can be opened and whose three metadata regions are
read in full, `fs_mount` returns 0 whenever every superblock field passes its
range check, also when the number of set bits of the bitmap on the image differs
from `MAX_BLOCKS - free_blocks`; it loads superblock and bitmap as they are on the
image, so invariant I1 is violated in the mounted state. -/
theorem c38_mount_accepts_inconsistent_bitmap (s : FS) (d : Dev) (l : List Nat)
    (hfd : s.disk_fd < 0) (ho : 0 ≤ d.open_fd) (hr1 : (SB_BYTES : Int) ≤ d.meta_rd 0)
    (hr2 : (BLOCK_SIZE : Int) ≤ d.meta_rd 1) (hr3 : (ITAB_BYTES : Int) ≤ d.meta_rd 2)
    (hv : ¬ sb_invalid (dec_sb s.image))
    (hmis : (popcount (dec_bitmap (fun p => s.image (BLOCK_SIZE + p))) : Int)
      ≠ (MAX_BLOCKS : Int) - (dec_sb s.image).free_blocks) :
    (fs_mount s d (some l)).1 = 0
    ∧ (fs_mount s d (some l)).2.sb = dec_sb s.image
    ∧ (fs_mount s d (some l)).2.bitmap = dec_bitmap (fun p => s.image (BLOCK_SIZE + p))
    ∧ ¬ I1 (fs_mount s d (some l)).2 := by
  obtain ⟨a1, a2, a3, _⟩ := fs_mount_loads s d l hfd ho hr1 hr2 hr3 hv
  refine ⟨a1, a2, a3, ?_⟩
  unfold I1
  rw [a2, a3]
  omega

theorem c38_witness :
    (inconsistent_image.disk_fd < 0 ∧ 0 ≤ dev_ok.open_fd
      ∧ (SB_BYTES : Int) ≤ dev_ok.meta_rd 0 ∧ (BLOCK_SIZE : Int) ≤ dev_ok.meta_rd 1
      ∧ (ITAB_BYTES : Int) ≤ dev_ok.meta_rd 2
      ∧ ¬ sb_invalid (dec_sb inconsistent_image.image)
      ∧ (popcount (dec_bitmap (fun p => inconsistent_image.image (BLOCK_SIZE + p))) : Int)
          ≠ (MAX_BLOCKS : Int) - (dec_sb inconsistent_image.image).free_blocks)
    ∧ (fs_mount inconsistent_image dev_ok (some [100])).1 = 0
    ∧ (fs_mount inconsistent_image dev_ok (some [100])).2.sb = dec_sb inconsistent_image.image
    ∧ (fs_mount inconsistent_image dev_ok (some [100])).2.bitmap
        = dec_bitmap (fun p => inconsistent_image.image (BLOCK_SIZE + p))
    ∧ ¬ I1 (fs_mount inconsistent_image dev_ok (some [100])).2 := by
  have hfd : inconsistent_image.disk_fd < 0 := by
    have : inconsistent_image.disk_fd = formatted.disk_fd := rfl
    rw [this, formatted_facts.1]
    decide
  have hmis : (popcount (dec_bitmap (fun p => inconsistent_image.image (BLOCK_SIZE + p))) : Int)
      ≠ (MAX_BLOCKS : Int) - (dec_sb inconsistent_image.image).free_blocks := by
    rw [inconsistent_image_bitmap, popcount_format, inconsistent_image_sb.2]
    decide
  exact ⟨⟨hfd, by decide, by decide, by decide, by decide, inconsistent_image_sb.1, hmis⟩,
    c38_mount_accepts_inconsistent_bitmap inconsistent_image dev_ok [100] hfd (by decide)
      (by decide) (by decide) (by decide) inconsistent_image_sb.1 hmis⟩

/-- Counterexample to C38 as stated: the image of `inconsistent_image` has a
superblock that passes every range check with `free_blocks = 100` and a bitmap with
10 set bits, not `2560 - 100`; `fs_mount` returns 0 and loads both. -/
theorem c38_mount_returns_zero_on_mismatch :
    inconsistent_image.disk_fd = -1
    ∧ ¬ sb_invalid (dec_sb inconsistent_image.image)
    ∧ (dec_sb inconsistent_image.image).free_blocks = 100
    ∧ popcount (dec_bitmap (fun p => inconsistent_image.image (BLOCK_SIZE + p))) = 10
    ∧ (fs_mount inconsistent_image dev_ok (some [100])).1 = 0
    ∧ (fs_mount inconsistent_image dev_ok (some [100])).2.sb.free_blocks = 100
    ∧ popcount (fs_mount inconsistent_image dev_ok (some [100])).2.bitmap = 10 := by
  have hfd : inconsistent_image.disk_fd = -1 := formatted_facts.1
  have hp : popcount (dec_bitmap (fun p => inconsistent_image.image (BLOCK_SIZE + p))) = 10 := by
    rw [inconsistent_image_bitmap, popcount_format]
  obtain ⟨a1, a2, a3, _⟩ := fs_mount_loads inconsistent_image dev_ok [100]
    (by rw [hfd]; decide) (by decide) (by decide) (by decide) (by decide) inconsistent_image_sb.1
  refine ⟨hfd, inconsistent_image_sb.1, inconsistent_image_sb.2, hp, a1, ?_, ?_⟩
  · rw [a2]
    exact inconsistent_image_sb.2
  · rw [a3]
    exact hp

/-! ## Metadata on the image (claim C35) -/

theorem Reachable_of_synced (s : FS) (h : ReachableSynced s) : Reachable s := by
  induction h with
  | init s0 d0 d1 p0 p1 h0 h1 => exact Reachable.init s0 d0 d1 p0 p1 h0 h1
  | create s d fn _ _ ih => exact Reachable.create s d fn ih
  | delete s d fn _ _ ih => exact Reachable.delete s d fn ih
  | write s d fn data size _ hsz _ ih => exact Reachable.write s d fn data size ih hsz
  | read s d fn buf size _ ih => exact Reachable.read s d fn buf size ih
  | list s buf mx _ ih => exact Reachable.list s buf mx ih
  | format s d p _ hd ih => exact Reachable.format s d p ih hd
  | mount s d p _ hd ih => exact Reachable.mount s d p ih hd
  | unmount s d _ hd ih => exact Reachable.unmount s d ih hd

theorem on_image_of_eq (s t : FS)
    (himg : ∀ q, q < 10 * BLOCK_SIZE → t.image q = s.image q) (hsb : t.sb = s.sb)
    (hbm : t.bitmap = s.bitmap) (htab : t.inode_table = s.inode_table) (h : on_image s) :
    on_image t := by
  obtain ⟨h1, h2, h3⟩ := h
  unfold on_image
  rw [hsb, hbm, htab]
  refine ⟨fun p hp => ?_, fun p hp => ?_, fun p hp => ?_⟩
  · rw [himg p (by simp only [SB_BYTES, BLOCK_SIZE] at hp ⊢; omega)]
    exact h1 p hp
  · rw [himg _ (by simp only [BLOCK_SIZE] at hp ⊢; omega)]
    exact h2 p hp
  · rw [himg _ (by simp only [ITAB_BYTES, MAX_FILES, INODE_BYTES, BLOCK_SIZE] at hp ⊢; omega)]
    exact h3 p hp

/-- A metadata sync on an open descriptor whose three writes succeed leaves the
three regions of the image equal to the records in memory. -/
theorem sync_on_image (t : FS) (d : Dev) (hfd : 0 ≤ t.disk_fd) (ho : t.fd_open = true)
    (hd : meta_writes_full d) : on_image (sync_metadata_to_disk t d) := by
  have himg : (flush_metadata t d).image
      = dev_write (dev_write (dev_write t.image 0 (enc_sb t.sb) SB_BYTES) BLOCK_SIZE
          (enc_bitmap t.bitmap) BLOCK_SIZE) (2 * BLOCK_SIZE) (enc_itab t.inode_table)
          ITAB_BYTES := by
    unfold flush_metadata do_write
    simp only [ho]
    rw [dev_count_full _ _ hd.1, dev_count_full _ _ hd.2.1, dev_count_full _ _ hd.2.2]
    simp only [Int.toNat_ofNat]
  obtain ⟨f1, f2, f3, _, _⟩ := flush_metadata_frame t d
  unfold sync_metadata_to_disk
  rw [if_neg (by omega)]
  unfold on_image
  rw [f1, f2, f3, himg]
  exact three_regions t.image (enc_sb t.sb) (enc_bitmap t.bitmap) (enc_itab t.inode_table)

theorem write_inode_fd (s : FS) (n : Int) (v : inode) :
    (write_inode s n v).disk_fd = s.disk_fd ∧ (write_inode s n v).fd_open = s.fd_open := by
  unfold write_inode
  dsimp only
  split_ifs <;> exact ⟨rfl, rfl⟩

theorem fs_create_on_image (s : FS) (d : Dev) (fn : Option (List Nat)) (h : Inv s)
    (hi : on_image s) (hd : meta_writes_full d) : on_image (fs_create s d fn).2 := by
  rcases fs_create_cases s d fn with ⟨_, e⟩ | ⟨_, _, e⟩ | ⟨_, _, _, e⟩
    | ⟨hv, _, _, l, i, _, _, _, e⟩
  · rw [e]; exact hi
  · rw [e]; exact hi
  · rw [e]; exact hi
  · rw [e]
    have hfd : s.disk_fd ≠ -1 := fun hc => hv (Or.inr (Or.inr hc))
    obtain ⟨w1, w2⟩ := write_inode_fd s (i.val : Int)
      { used := 1, size := 0, name := name_field l, blocks := fun _ => -1 }
    rcases h.fd_ok with hf | hf
    · exact absurd hf.1 hfd
    · exact sync_on_image _ d (by rw [w1]; exact hf.1) (by rw [w2]; exact hf.2) hd

theorem fs_delete_on_image (s : FS) (d : Dev) (fn : Option (List Nat)) (h : Inv s)
    (hi : on_image s) (hd : meta_writes_full d) : on_image (fs_delete s d fn).2 := by
  rcases fs_delete_cases s d fn with ⟨_, e⟩ | ⟨l, i, _, _, hfd, _, _, _, e⟩
  · rw [e]; exact hi
  · rw [e]
    obtain ⟨w1, w2⟩ := write_inode_fd (free_blocks_of s (s.inode_table i).blocks) (i.val : Int)
      { used := 0, size := 0, name := fun _ => 0, blocks := fun _ => -1 }
    obtain ⟨_, g2, g3, _⟩ := free_blocks_of_frame s (s.inode_table i).blocks
    rcases h.fd_ok with hf | hf
    · exact absurd hf.1 hfd
    · exact sync_on_image _ d (by rw [w1, g2]; exact hf.1) (by rw [w2, g3]; exact hf.2) hd

theorem fs_write_on_image (s : FS) (d : Dev) (fn : Option (List Nat))
    (data : Option (Nat → Nat)) (size : Int) (h : Inv s) (hi : on_image s)
    (hd : meta_writes_full d) : on_image (fs_write s d fn data size).2 := by
  by_cases hr : (fs_write s d fn data size).1 = 0
  · obtain ⟨l, buf, i, st, _, _, _, _, hfd, _, _, _, _, _, hseg, e⟩ :=
      fs_write_ok s d fn data size hr
    rw [e]
    obtain ⟨_, g2, g3, _⟩ := free_blocks_of_frame (write_inode st (i.val : Int)
      { used := (s.inode_table i).used, size := size, name := (s.inode_table i).name,
        blocks := (alloc_blocks (calculate_blocks_needed size).toNat 0 s
          (fun _ => -1)).new_blocks }) (s.inode_table i).blocks
    obtain ⟨w1, w2⟩ := write_inode_fd st (i.val : Int)
      { used := (s.inode_table i).used, size := size, name := (s.inode_table i).name,
        blocks := (alloc_blocks (calculate_blocks_needed size).toNat 0 s
          (fun _ => -1)).new_blocks }
    rcases h.fd_ok with hf | hf
    · omega
    · exact sync_on_image _ d (by rw [g2, w1, hseg.fd]; exact hf.1)
        (by rw [g3, w2, hseg.op]; exact hf.2) hd
  · obtain ⟨a1, a2, a3, _, _, a6⟩ := fs_write_failure s d fn data size hr
    refine on_image_of_eq s _ (fun q hq => ?_) a2 a3 a1 hi
    apply a6 q
    right
    apply h.resv
    simp only [BLOCK_SIZE] at hq ⊢
    omega

theorem fs_mount_ok_reads (s : FS) (d : Dev) (p : Option (List Nat))
    (h : (fs_mount s d p).1 = 0) :
    ∃ l, p = some l ∧ s.disk_fd < 0 ∧ 0 ≤ d.open_fd ∧ (SB_BYTES : Int) ≤ d.meta_rd 0
      ∧ (BLOCK_SIZE : Int) ≤ d.meta_rd 1 ∧ (ITAB_BYTES : Int) ≤ d.meta_rd 2
      ∧ ¬ sb_invalid (dec_sb s.image) := by
  cases p with
  | none =>
    exfalso
    revert h
    unfold fs_mount
    simp
  | some l =>
    refine ⟨l, rfl, ?_⟩
    unfold fs_mount at h
    simp only at h
    by_cases c1 : s.disk_fd ≥ 0
    · rw [if_pos c1] at h
      simp at h
    rw [if_neg c1] at h
    by_cases c2 : host_open d < 0
    · rw [if_pos c2] at h
      simp at h
    rw [if_neg c2] at h
    have ho : 0 ≤ d.open_fd := by
      unfold host_open at c2
      split_ifs at c2 with hc
      · exact absurd (by decide) c2
      · omega
    by_cases c3 : dev_count true (d.meta_rd 0) SB_BYTES ≠ SB_BYTES
    · rw [if_pos c3] at h
      simp at h
    rw [if_neg c3] at h
    have e1 : dev_count true (d.meta_rd 0) SB_BYTES = (SB_BYTES : Int) := by
      by_contra hc
      exact c3 hc
    rw [e1] at h
    have h1 : ¬ ((SB_BYTES : Int) ≤ 0) := by simp [SB_BYTES]
    simp only [h1, if_false, Int.toNat_ofNat, dec_sb_read] at h
    by_cases c4 : sb_invalid (dec_sb s.image)
    · rw [if_pos c4] at h
      simp at h
    rw [if_neg c4] at h
    by_cases c5 : dev_count true (d.meta_rd 1) BLOCK_SIZE ≠ BLOCK_SIZE
    · rw [if_pos c5] at h
      simp at h
    rw [if_neg c5] at h
    by_cases c6 : dev_count true (d.meta_rd 2) ITAB_BYTES ≠ ITAB_BYTES
    · rw [if_pos c6] at h
      simp at h
    refine ⟨by omega, ho, ?_, ?_, ?_, c4⟩
    · exact (dev_count_eq_iff _ _ (by decide)).mp e1
    · exact (dev_count_eq_iff _ _ (by decide)).mp (by by_contra hc; exact c5 hc)
    · exact (dev_count_eq_iff _ _ (by decide)).mp (by by_contra hc; exact c6 hc)

theorem fs_mount_on_image (s : FS) (d : Dev) (p : Option (List Nat)) (h : Inv s)
    (hi : on_image s) (hd : meta_full d ∨ (fs_mount s d p).1 = 0) :
    on_image (fs_mount s d p).2 := by
  by_cases hr : (fs_mount s d p).1 = 0
  · obtain ⟨l, hl, hfd, ho, r1, r2, r3, hv⟩ := fs_mount_ok_reads s d p hr
    subst hl
    obtain ⟨_, a2, a3, a4, _, _, a7⟩ := fs_mount_loads s d l hfd ho r1 r2 r3 hv
    have e1 := load_sb s h hi
    rw [dec_sb_read] at e1
    have e2 := load_bitmap s hi
    rw [dec_bitmap_read] at e2
    have e3 := load_itab s h hi
    rw [dec_itab_read] at e3
    exact on_image_of_eq s _ (fun q _ => by rw [a7]) (by rw [a2, e1]) (by rw [a3, e2])
      (by rw [a4, e3]) hi
  · have hmf : meta_full d := by
      rcases hd with hd | hd
      · exact hd
      · exact absurd hd hr
    cases p with
    | none => exact hi
    | some l =>
      by_cases c1 : 0 ≤ s.disk_fd
      · rw [fs_mount_busy s d (some l) c1]
        exact hi
      by_cases c2 : d.open_fd < 0
      · rw [fs_mount_open_failure s d l (by omega) c2]
        exact on_image_of_eq s _ (fun _ _ => rfl) rfl rfl rfl hi
      · have hfd : s.disk_fd = -1 := by
          rcases h.fd_ok with hf | hf
          · exact hf.1
          · omega
        rw [fs_mount_full s d l h hfd (by omega) hmf]
        exact on_image_of_eq s _ (fun _ _ => rfl) rfl rfl rfl hi

theorem fs_format_same_or_closed (s : FS) (d : Dev) (p : Option (List Nat))
    (hd : meta_full d) : (fs_format s d p).2 = s ∨ (fs_format s d p).2.disk_fd = -1 := by
  cases p with
  | none => exact Or.inl rfl
  | some l =>
    by_cases c1 : strlen l = 0 ∨ s.disk_fd ≠ -1
    · left
      unfold fs_format
      simp only
      rw [if_pos c1]
    simp only [not_or, not_not] at c1
    by_cases c2 : d.open_fd < 0
    · right
      unfold fs_format
      simp only
      rw [if_neg (by simp [c1.1, c1.2])]
      have hh : host_open d = -1 := by
        unfold host_open
        rw [if_pos c2]
      rw [hh, if_pos (by decide)]
    · right
      have h0 := fs_format_full s d l c1.2 c1.1 (by omega) hd
      exact (fs_format_ok_mem s d (some l) h0).2.2.1

/-- In every state reached with metadata writes that succeed, the three metadata
regions of the image equal the records in memory. -/
theorem ReachableSynced_on_image (s : FS) (h : ReachableSynced s) : on_image s := by
  induction h with
  | init s0 d0 d1 p0 p1 h0 h1 =>
    have hinv := fs_format_ok s0 d0 p0 h0
    have hfd := (fs_format_ok_mem s0 d0 p0 h0).2.2.1
    exact fs_mount_on_image _ d1 p1 hinv (hinv.img_ok hfd) (Or.inr h1)
  | create s d fn hs hd ih =>
    exact fs_create_on_image s d fn (Reachable_Inv s (Reachable_of_synced s hs)) ih hd
  | delete s d fn hs hd ih =>
    exact fs_delete_on_image s d fn (Reachable_Inv s (Reachable_of_synced s hs)) ih hd
  | write s d fn data size hs _ hd ih =>
    exact fs_write_on_image s d fn data size (Reachable_Inv s (Reachable_of_synced s hs)) ih hd
  | read s d fn buf size _ ih => rw [fs_read_state]; exact ih
  | list s buf mx _ ih => rw [fs_list_state]; exact ih
  | format s d p hs hd ih =>
    rcases fs_format_same_or_closed s d p hd with e | e
    · rw [e]; exact ih
    · exact (Reachable_Inv _ (Reachable.format s d p (Reachable_of_synced s hs) hd)).img_ok e
  | mount s d p hs hd ih =>
    exact fs_mount_on_image s d p (Reachable_Inv s (Reachable_of_synced s hs)) ih (Or.inl hd)
  | unmount s d hs hd ih =>
    by_cases c : 0 ≤ s.disk_fd
    · have e : (fs_unmount s d).disk_fd = -1 := fs_unmount_fd s d (by omega)
      exact (Reachable_Inv _ (Reachable.unmount s d (Reachable_of_synced s hs) hd)).img_ok e
    · have e : fs_unmount s d = s := by
        unfold fs_unmount
        rw [if_neg (by omega)]
      rw [e]; exact ih

/-- C35 (metadata is always flushed): in every state reached from a successful
`fs_format` and `fs_mount` through calls whose metadata writes succeed, the
superblock region at offset 0, the bitmap region at offset 4096 and the
inode-table region at offset 8192 of the image equal the superblock, bitmap and
inode table in memory; in particular this holds after every `fs_create`,
`fs_delete` and `fs_write` call on such a device, whether the call succeeds or
fails, without any `fs_unmount`. -/
theorem c35_metadata_flushed (s : FS) (d : Dev) (fn : Option (List Nat))
    (data : Option (Nat → Nat)) (size : Int) (h : ReachableSynced s)
    (hd : meta_writes_full d) (hsz : is_int32 size) :
    on_image s
    ∧ on_image (fs_create s d fn).2
    ∧ on_image (fs_delete s d fn).2
    ∧ on_image (fs_write s d fn data size).2 :=
  ⟨ReachableSynced_on_image s h,
    ReachableSynced_on_image _ (ReachableSynced.create s d fn h hd),
    ReachableSynced_on_image _ (ReachableSynced.delete s d fn h hd),
    ReachableSynced_on_image _ (ReachableSynced.write s d fn data size h hsz hd)⟩

theorem meta_writes_full_dev_ok : meta_writes_full dev_ok := by
  unfold meta_writes_full
  decide

theorem sample_volume_synced : ReachableSynced sample_volume := by
  unfold sample_volume fresh_mounted
  apply ReachableSynced.write
  · apply ReachableSynced.create
    · apply ReachableSynced.create
      · exact ReachableSynced.init blank dev_ok dev_ok (some [100]) (some [100])
          fresh_mounted_steps.1 fresh_mounted_steps.2
      · exact meta_writes_full_dev_ok
    · exact meta_writes_full_dev_ok
  · unfold is_int32
    omega
  · exact meta_writes_full_dev_ok

theorem c35_witness :
    (ReachableSynced sample_volume ∧ meta_writes_full dev_ok ∧ is_int32 100)
    ∧ on_image sample_volume
    ∧ on_image (fs_create sample_volume dev_ok (some [97])).2
    ∧ on_image (fs_delete sample_volume dev_ok (some [97])).2
    ∧ on_image (fs_write sample_volume dev_ok (some [97]) (some (fun _ => 1)) 100).2 :=
  ⟨⟨sample_volume_synced, meta_writes_full_dev_ok, by unfold is_int32; omega⟩,
    c35_metadata_flushed sample_volume dev_ok (some [97]) (some (fun _ => 1)) 100
      sample_volume_synced meta_writes_full_dev_ok (by unfold is_int32; omega)⟩

/-! ## The invariants and lost metadata transfers (claims C7 - C10) -/

theorem Reachable_any (s : FS) (h : Reachable s) : ReachableAny s := by
  induction h with
  | init s0 d0 d1 p0 p1 h0 h1 => exact ReachableAny.init s0 d0 d1 p0 p1 h0 h1
  | create s d fn _ ih => exact ReachableAny.create s d fn ih
  | delete s d fn _ ih => exact ReachableAny.delete s d fn ih
  | write s d fn data size _ hsz ih => exact ReachableAny.write s d fn data size ih hsz
  | read s d fn buf size _ ih => exact ReachableAny.read s d fn buf size ih
  | list s buf mx _ ih => exact ReachableAny.list s buf mx ih
  | format s d p _ _ ih => exact ReachableAny.format s d p ih
  | mount s d p _ _ ih => exact ReachableAny.mount s d p ih
  | unmount s d _ _ ih => exact ReachableAny.unmount s d ih

theorem fresh_mounted_any : ReachableAny fresh_mounted :=
  Reachable_any _ fresh_mounted_reachable

theorem is_int32_one : is_int32 1 := by
  unfold is_int32
  omega

theorem lost_inode_volume_any : ReachableAny lost_inode_volume := by
  unfold lost_inode_volume
  exact ReachableAny.mount _ _ _ (ReachableAny.unmount _ _
    (ReachableAny.create _ _ _ fresh_mounted_any))

set_option maxRecDepth 100000 in
theorem lost_inode_volume_facts :
    (fs_create fresh_mounted dev_sb_only (some [97])).1 = 0
    ∧ (fs_mount (fs_unmount (fs_create fresh_mounted dev_sb_only (some [97])).2 dev_no_meta)
        dev_ok (some [100])).1 = 0
    ∧ lost_inode_volume.disk_fd = 3 ∧ lost_inode_volume.fd_open = true
    ∧ used_count lost_inode_volume.inode_table = 0
    ∧ lost_inode_volume.sb.free_inodes = 255 := by
  decide

/-- Counterexample to C7 as stated: format, mount, `fs_create("a")` with a sync
that writes only the superblock, `fs_unmount` with a flush that writes nothing, and
`fs_mount` all succeed; the mounted volume has no used inode and
`free_inodes = 255`, so I2 fails. -/
theorem c7_lost_flush_breaks_i2 :
    ReachableAny lost_inode_volume
    ∧ (fs_create fresh_mounted dev_sb_only (some [97])).1 = 0
    ∧ (fs_mount (fs_unmount (fs_create fresh_mounted dev_sb_only (some [97])).2 dev_no_meta)
        dev_ok (some [100])).1 = 0
    ∧ lost_inode_volume.disk_fd = 3 ∧ lost_inode_volume.fd_open = true
    ∧ used_count lost_inode_volume.inode_table = 0
    ∧ lost_inode_volume.sb.free_inodes = 255
    ∧ ¬ I2 lost_inode_volume := by
  obtain ⟨a1, a2, a3, a4, a5, a6⟩ := lost_inode_volume_facts
  refine ⟨lost_inode_volume_any, a1, a2, a3, a4, a5, a6, ?_⟩
  unfold I2
  rw [a5, a6]
  decide

theorem unset_block_volume_any : ReachableAny unset_block_volume := by
  unfold unset_block_volume
  exact ReachableAny.mount _ _ _ (ReachableAny.unmount _ _
    (ReachableAny.write _ _ _ _ _ (Reachable_any _ vol_a_reachable) is_int32_one))

set_option maxRecDepth 100000 in
theorem unset_block_volume_facts :
    (fs_write vol_a dev_table_only (some [97]) (some (fun _ => 1)) 1).1 = 0
    ∧ (fs_mount (fs_unmount (fs_write vol_a dev_table_only (some [97]) (some (fun _ => 1)) 1).2
        dev_no_meta) dev_ok (some [100])).1 = 0
    ∧ unset_block_volume.disk_fd = 3 ∧ unset_block_volume.fd_open = true
    ∧ (unset_block_volume.inode_table ⟨0, by decide⟩).used = 1
    ∧ (unset_block_volume.inode_table ⟨0, by decide⟩).blocks ⟨0, by decide⟩ = 10
    ∧ aget unset_block_volume.bitmap 10 = false := by
  decide

/-- Counterexample to C8 as stated: format, mount, `fs_create("a")`, a one-byte
`fs_write("a")` with a sync that writes only the inode table, `fs_unmount` with a
flush that writes nothing, and `fs_mount` all succeed; in the mounted volume the
used inode 0 holds block 10 in slot 0 while bit 10 of the bitmap is clear, so I3
fails. -/
theorem c8_lost_flush_breaks_i3 :
    ReachableAny unset_block_volume
    ∧ (fs_write vol_a dev_table_only (some [97]) (some (fun _ => 1)) 1).1 = 0
    ∧ (fs_mount (fs_unmount (fs_write vol_a dev_table_only (some [97]) (some (fun _ => 1)) 1).2
        dev_no_meta) dev_ok (some [100])).1 = 0
    ∧ unset_block_volume.disk_fd = 3 ∧ unset_block_volume.fd_open = true
    ∧ (unset_block_volume.inode_table ⟨0, by decide⟩).used = 1
    ∧ (unset_block_volume.inode_table ⟨0, by decide⟩).blocks ⟨0, by decide⟩ = 10
    ∧ aget unset_block_volume.bitmap 10 = false
    ∧ ¬ I3 unset_block_volume := by
  obtain ⟨a1, a2, a3, a4, a5, a6, a7⟩ := unset_block_volume_facts
  refine ⟨unset_block_volume_any, a1, a2, a3, a4, a5, a6, a7, ?_⟩
  intro h
  have h1 := (h ⟨0, by decide⟩ ⟨0, by decide⟩ a5 (by rw [a6]; decide)).2.2.1
  rw [a6] at h1
  have h2 : ((10 : Int)).toNat = 10 := rfl
  rw [h2, a7] at h1
  exact absurd h1 (by decide)

theorem leaked_block_volume_any : ReachableAny leaked_block_volume := by
  unfold leaked_block_volume
  exact ReachableAny.mount _ _ _ (ReachableAny.unmount _ _
    (ReachableAny.write _ _ _ _ _ (ReachableAny.create _ _ _ fresh_mounted_any) is_int32_one))

set_option maxRecDepth 100000 in
theorem leaked_block_volume_facts :
    (fs_create fresh_mounted dev_no_meta (some [97])).1 = 0
    ∧ (fs_write (fs_create fresh_mounted dev_no_meta (some [97])).2 dev_bitmap_only (some [97])
        (some (fun _ => 1)) 1).1 = 0
    ∧ (fs_mount (fs_unmount (fs_write (fs_create fresh_mounted dev_no_meta (some [97])).2
        dev_bitmap_only (some [97]) (some (fun _ => 1)) 1).2 dev_no_meta) dev_ok (some [100])).1 = 0
    ∧ leaked_block_volume.disk_fd = 3 ∧ leaked_block_volume.fd_open = true
    ∧ aget leaked_block_volume.bitmap 10 = true
    ∧ ∀ i : Fin MAX_FILES, (leaked_block_volume.inode_table i).used = 0 := by
  decide

/-- Counterexample to C9 as stated: format, mount, `fs_create("a")` with a sync
that writes nothing, a one-byte `fs_write("a")` with a sync that writes only the
bitmap, `fs_unmount` with a flush that writes nothing, and `fs_mount` all succeed;
in the mounted volume bit 10 of the bitmap is set while no inode is used, so block
10 is leaked. -/
theorem c9_lost_flush_leaks_block :
    ReachableAny leaked_block_volume
    ∧ (fs_create fresh_mounted dev_no_meta (some [97])).1 = 0
    ∧ (fs_write (fs_create fresh_mounted dev_no_meta (some [97])).2 dev_bitmap_only (some [97])
        (some (fun _ => 1)) 1).1 = 0
    ∧ (fs_mount (fs_unmount (fs_write (fs_create fresh_mounted dev_no_meta (some [97])).2
        dev_bitmap_only (some [97]) (some (fun _ => 1)) 1).2 dev_no_meta) dev_ok (some [100])).1 = 0
    ∧ leaked_block_volume.disk_fd = 3 ∧ leaked_block_volume.fd_open = true
    ∧ aget leaked_block_volume.bitmap 10 = true
    ∧ (∀ i : Fin MAX_FILES, (leaked_block_volume.inode_table i).used = 0)
    ∧ (¬ ∃ i : Fin MAX_FILES, references leaked_block_volume i 10)
    ∧ ¬ NoLeak leaked_block_volume := by
  obtain ⟨a1, a2, a3, a4, a5, a6, a7⟩ := leaked_block_volume_facts
  have hno : ¬ ∃ i : Fin MAX_FILES, references leaked_block_volume i 10 := by
    rintro ⟨i, hu, _⟩
    rw [a7 i] at hu
    exact absurd hu (by decide)
  refine ⟨leaked_block_volume_any, a1, a2, a3, a4, a5, a6, a7, hno, ?_⟩
  intro h
  obtain ⟨i, hi, _⟩ := (h.1 10 (by decide) (by decide)).mp a6
  exact hno ⟨i, hi⟩

theorem duplicate_name_volume_any : ReachableAny duplicate_name_volume := by
  unfold duplicate_name_volume stale_record_volume
  exact ReachableAny.mount _ _ _ (ReachableAny.unmount _ _
    (ReachableAny.create _ _ _ (ReachableAny.delete _ _ _ (ReachableAny.delete _ _ _
      (ReachableAny.create _ _ _ (ReachableAny.create _ _ _ fresh_mounted_any))))))

set_option maxRecDepth 100000 in
theorem duplicate_name_volume_facts :
    ((fs_create fresh_mounted dev_ok (some [120])).1 = 0
      ∧ (fs_create (fs_create fresh_mounted dev_ok (some [120])).2 dev_ok (some [97])).1 = 0
      ∧ (fs_delete (fs_create (fs_create fresh_mounted dev_ok (some [120])).2 dev_ok
          (some [97])).2 dev_no_meta (some [120])).1 = 0
      ∧ (fs_delete (fs_delete (fs_create (fs_create fresh_mounted dev_ok (some [120])).2 dev_ok
          (some [97])).2 dev_no_meta (some [120])).2 dev_no_meta (some [97])).1 = 0
      ∧ (fs_create (fs_delete (fs_delete (fs_create (fs_create fresh_mounted dev_ok
          (some [120])).2 dev_ok (some [97])).2 dev_no_meta (some [120])).2 dev_no_meta
          (some [97])).2 dev_one_inode (some [97])).1 = 0
      ∧ (fs_mount (fs_unmount stale_record_volume dev_no_meta) dev_ok (some [100])).1 = 0)
    ∧ duplicate_name_volume.disk_fd = 3 ∧ duplicate_name_volume.fd_open = true
    ∧ (duplicate_name_volume.inode_table ⟨0, by decide⟩).used = 1
    ∧ (duplicate_name_volume.inode_table ⟨1, by decide⟩).used = 1
    ∧ ∀ j : Fin MAX_FILENAME, (duplicate_name_volume.inode_table ⟨0, by decide⟩).name j
        = (duplicate_name_volume.inode_table ⟨1, by decide⟩).name j := by
  decide

/-- Counterexample to C10 as stated: with the files "x" and "a" on the image,
`fs_delete("x")` and `fs_delete("a")` with syncs that write nothing, `fs_create("a")`
with a sync that writes only the first inode record, `fs_unmount` with a flush that
writes nothing, and `fs_mount` all succeed; in the mounted volume the used inodes 0
and 1 both carry the name "a", so I4 fails. -/
theorem c10_lost_flush_duplicates_name :
    ReachableAny duplicate_name_volume
    ∧ ((fs_create fresh_mounted dev_ok (some [120])).1 = 0
      ∧ (fs_create (fs_create fresh_mounted dev_ok (some [120])).2 dev_ok (some [97])).1 = 0
      ∧ (fs_delete (fs_create (fs_create fresh_mounted dev_ok (some [120])).2 dev_ok
          (some [97])).2 dev_no_meta (some [120])).1 = 0
      ∧ (fs_delete (fs_delete (fs_create (fs_create fresh_mounted dev_ok (some [120])).2 dev_ok
          (some [97])).2 dev_no_meta (some [120])).2 dev_no_meta (some [97])).1 = 0
      ∧ (fs_create (fs_delete (fs_delete (fs_create (fs_create fresh_mounted dev_ok
          (some [120])).2 dev_ok (some [97])).2 dev_no_meta (some [120])).2 dev_no_meta
          (some [97])).2 dev_one_inode (some [97])).1 = 0
      ∧ (fs_mount (fs_unmount stale_record_volume dev_no_meta) dev_ok (some [100])).1 = 0)
    ∧ duplicate_name_volume.disk_fd = 3 ∧ duplicate_name_volume.fd_open = true
    ∧ (duplicate_name_volume.inode_table ⟨0, by decide⟩).used = 1
    ∧ (duplicate_name_volume.inode_table ⟨1, by decide⟩).used = 1
    ∧ (duplicate_name_volume.inode_table ⟨0, by decide⟩).name
        = (duplicate_name_volume.inode_table ⟨1, by decide⟩).name
    ∧ ¬ I4 duplicate_name_volume := by
  obtain ⟨a1, a2, a3, a4, a5, a6⟩ := duplicate_name_volume_facts
  have hn : (duplicate_name_volume.inode_table ⟨0, by decide⟩).name
      = (duplicate_name_volume.inode_table ⟨1, by decide⟩).name := funext a6
  refine ⟨duplicate_name_volume_any, a1, a2, a3, a4, a5, hn, ?_⟩
  intro h
  exact h ⟨0, by decide⟩ ⟨1, by decide⟩ a4 a5 (by decide) hn

end FileSystemOS
